import Mathlib

/-!
# ovsdb-etcd: the transaction executor of `pkg/ovsdb/transact.go` and the handler

A shallow embedding of the transaction executor (`Transaction.Commit`, its twenty
per-operation callbacks and the helpers they use) and of the monitor and lock tables of the
handler (`pkg/ovsdb/handler.go`: `addMonitor`, `parseCondMonitorParameters`, `Unlock`),
followed by theorems about them.

Conventions of the embedding

* Go maps (`map[string]interface{}`, the named-UUID resolver, the cache) are association lists
  with at most one entry per key; a `range` over a map visits the entries in list order, which
  is one of the orders the Go runtime may choose.
* A Go pointer field that may be `nil` is an `Option`.
* A callback returns the new transaction state, the new result slot and the error (if any);
  a run-time panic (nil dereference, failed type assertion, call of a nil function, index out
  of range, explicit `panic`) is the separate outcome `crash`.
* Code of other packages (`libovsdb`, `common`, the condition and mutation evaluators, the JSON
  encoder, the etcd client, the clock and the UUID generator) is a field of `Env`.
-/

set_option autoImplicit false

namespace Ovsdb

/-! ## Error strings (`transact.go`, lines 23-45) -/

def E_DUP_UUIDNAME : String := "duplicate uuid-name"
def E_CONSTRAINT_VIOLATION : String := "constraint violation"
def E_DOMAIN_ERROR : String := "domain error"
def E_RANGE_ERROR : String := "range error"
def E_TIMEOUT : String := "timed out"
def E_NOT_SUPPORTED : String := "not supported"
def E_ABORTED : String := "aborted"
def E_NOT_OWNER : String := "not owner"
def E_INTEGRITY_VIOLATION : String := "referential integrity violation"
def E_RESOURCES_EXHAUSTED : String := "resources exhausted"
def E_IO_ERROR : String := "I/O error"
def E_DUP_UUID : String := "duplicate uuid"
def E_INTERNAL_ERROR : String := "internal error"
def E_OVSDB_ERROR : String := "ovsdb error"
def E_PERMISSION_ERROR : String := "permission error"
def E_SYNTAX_ERROR : String := "syntax error or unknown column"

/-! ## Operation names (`transact.go`, lines 167-178) -/

def OP_INSERT : String := "insert"
def OP_SELECT : String := "select"
def OP_UPDATE : String := "update"
def OP_MUTATE : String := "mutate"
def OP_DELETE : String := "delete"
def OP_WAIT : String := "wait"
def OP_COMMIT : String := "commit"
def OP_ABORT : String := "abort"
def OP_COMMENT : String := "comment"
def OP_ASSERT : String := "assert"

/-- Modelled from the spec: the condition functions `==`, `!=` and `in` of section 4.5, whose
constants `FN_EQ`, `FN_NE`, `FN_IN` are declared in the condition source file. -/
def FN_EQ : String := "=="

/-- Modelled from the spec: see `FN_EQ`. -/
def FN_NE : String := "!="

/-- Modelled from the spec: see `FN_EQ`. -/
def FN_IN : String := "in"

/-- Modelled from the spec: the implicit column `_uuid` (`libovsdb.COL_UUID`). -/
def COL_UUID : String := "_uuid"

/-- Modelled from the spec: the implicit column `_version` (`libovsdb.COL_VERSION`). -/
def COL_VERSION : String := "_version"

/-! ## Values -/

/-- A Go `interface{}` holding an OVSDB value: the untyped JSON forms (`null`, booleans, numbers,
strings, arrays) and the typed forms `libovsdb.UUID`, `libovsdb.OvsSet`, `libovsdb.OvsMap`.
Numbers are integers: reals are not modelled.

Go tells a nil slice or map from an empty one that is not nil, and so does the type:
* an array `list l` is a slice that is not nil (the JSON decoder builds no nil slice);
* `set (x :: xs)` is an `OvsSet` with the elements `x, xs`, `set []` is the `OvsSet` whose
  `GoSet` is nil (the zero value `OvsSet{}`, to which `append` adds the elements), and
  `emptySet` is the `OvsSet` whose `GoSet` is an empty slice that is not nil;
* `map l` is an `OvsMap` whose `GoMap` is not nil, with the entries `l` (`map []` is an empty
  map made with a map literal), and `nilMap` is the `OvsMap` whose `GoMap` is nil (the zero
  value `OvsMap{}`). -/
inductive Value where
  | null
  | bool (b : Bool)
  | num (i : Int)
  | str (s : String)
  | list (l : List Value)
  | uuid (GoUUID : String)
  | set (GoSet : List Value)
  | emptySet
  | map (GoMap : List (Value × Value))
  | nilMap
  deriving Repr, Inhabited

/-- The type assertion `value.(libovsdb.OvsSet)` followed by `.GoSet`: the elements of the set,
none when the value is not a set. -/
def Value.GoSet? : Value → Option (List Value)
  | .set l => some l
  | .emptySet => some []
  | _ => none

/-- The type assertion `value.(libovsdb.OvsMap)` followed by `.GoMap`: the entries of the map,
none when the value is not a map. -/
def Value.GoMap? : Value → Option (List (Value × Value))
  | .map l => some l
  | .nilMap => some []
  | _ => none

/-- A row, `map[string]interface{}`. -/
abbrev Row := List (String × Value)

/-- Reading `row[column]`: a missing column reads as `nil`. -/
def Row.get (row : Row) (column : String) : Value :=
  match row.lookup column with
  | some v => v
  | none => Value.null

/-- Writing `row[column] = v`: an existing entry is overwritten in place, a new one is added. -/
def Row.set : Row → String → Value → Row
  | [], column, v => [(column, v)]
  | (c, w) :: rest, column, v =>
    if c = column then (c, v) :: rest else (c, w) :: Row.set rest column v

mutual
/-- The function `reflect.DeepEqual` on values. A nil slice and an empty slice that is not nil
are not deeply equal, nor are a nil map and an empty map that is not nil. -/
def deepEqual : Value → Value → Bool
  | .null, .null => true
  | .bool a, .bool b => a == b
  | .num a, .num b => a == b
  | .str a, .str b => a == b
  | .uuid a, .uuid b => a == b
  | .list a, .list b => deepEqualList a b
  | .set a, .set b => deepEqualList a b
  | .emptySet, .emptySet => true
  | .map a, .map b => a.length == b.length && deepSubMap a b
  | .nilMap, .nilMap => true
  | _, _ => false
/-- Slices are deeply equal when they have the same length and equal elements, in order. -/
def deepEqualList : List Value → List Value → Bool
  | [], [] => true
  | x :: xs, y :: ys => deepEqual x y && deepEqualList xs ys
  | _, _ => false
/-- Every entry of the first map has a deeply equal entry under the same key in the second. -/
def deepSubMap : List (Value × Value) → List (Value × Value) → Bool
  | [], _ => true
  | (k, v) :: rest, b => deepLookup k v b && deepSubMap rest b
/-- The map has key `k`, bound to a value deeply equal to `v`. -/
def deepLookup (k v : Value) : List (Value × Value) → Bool
  | [] => false
  | (k2, v2) :: rest => if deepEqual k k2 then deepEqual v v2 else deepLookup k v rest
end

/-! ## Schema (package `libovsdb`) -/

/-- The `Type` of a column schema. -/
inductive ColumnType where
  | integer | real | boolean | string | uuid | enum | set | map
  deriving DecidableEq, Repr, Inhabited

/-- The fields of `libovsdb.ColumnSchema` that the executor reads (`Typ` is the field `Type`). -/
structure ColumnSchema where
  Typ : ColumnType
  Mutable : Option Bool
  deriving DecidableEq, Repr, Inhabited

/-- The fields of `libovsdb.TableSchema` that the executor reads. -/
structure TableSchema where
  Columns : List (String × ColumnSchema)
  deriving DecidableEq, Repr, Inhabited

/-- Modelled from the spec: `LookupColumn(table, name) → ColumnSchema | err`, of package
`libovsdb`; `none` is the error. -/
def TableSchema.LookupColumn (t : TableSchema) (column : String) : Option ColumnSchema :=
  t.Columns.lookup column

/-! ## Requests and results (package `libovsdb`) -/

/-- An operation of a transact request, `libovsdb.Operation`. -/
structure Operation where
  Op : String
  Table : Option String := none
  Row : Option Row := none
  Rows : Option (List Ovsdb.Row) := none
  Columns : Option (List String) := none
  Mutations : Option (List Value) := none
  Timeout : Option Int := none
  Where : Option (List Value) := none
  Until : Option String := none
  Durable : Option Bool := none
  Comment : Option String := none
  Lock : Option String := none
  UUID : Option String := none
  UUIDName : Option String := none
  deriving Repr, Inhabited

/-- The request, `libovsdb.Transact`. -/
structure Transact where
  DBName : String
  Operations : List Operation
  deriving Repr, Inhabited

/-- One slot of the result array, `libovsdb.OperationResult`. -/
structure OperationResult where
  Count : Option Nat := none
  Error : Option String := none
  Details : Option String := none
  UUID : Option String := none
  Rows : Option (List Row) := none
  deriving Repr, Inhabited

/-- Modelled from the spec: `OperationResult.SetError` of package `libovsdb`, "the failing result
slot carries the error string". -/
def OperationResult.SetError (r : OperationResult) (e : String) : OperationResult :=
  { r with Error := some e }

/-- Modelled from the spec: `OperationResult.InitUUID` of package `libovsdb`, "result carries
`{uuid}`". -/
def OperationResult.InitUUID (r : OperationResult) (uuid : String) : OperationResult :=
  { r with UUID := some uuid }

/-- Modelled from the spec: `OperationResult.InitRows` of package `libovsdb`, "result carries
`{rows}`", initially none. -/
def OperationResult.InitRows (r : OperationResult) : OperationResult :=
  { r with Rows := some [] }

/-- Modelled from the spec: `OperationResult.AppendRows` of package `libovsdb`. -/
def OperationResult.AppendRows (r : OperationResult) (row : Row) : OperationResult :=
  { r with Rows := some (r.Rows.getD [] ++ [row]) }

/-- Modelled from the spec: `OperationResult.InitCount` of package `libovsdb`, "result carries
`{count}`", initially zero. -/
def OperationResult.InitCount (r : OperationResult) : OperationResult :=
  { r with Count := some 0 }

/-- Modelled from the spec: `OperationResult.IncrementCount` of package `libovsdb`. -/
def OperationResult.IncrementCount (r : OperationResult) : OperationResult :=
  { r with Count := some (r.Count.getD 0 + 1) }

/-- The response, `libovsdb.TransactResponse`. -/
structure TransactResponse where
  Result : List OperationResult := []
  Error : Option String := none
  deriving Repr, Inhabited

/-! ## Keys, KV operations and the cache (packages `common`, `clientv3`, cache source file) -/

/-- A key of package `common`: database, table and row UUID. -/
structure Key where
  DBName : String
  TableName : String
  UUID : String
  deriving DecidableEq, Repr, Inhabited

/-- Modelled from the spec: `common.NewDataKey`, the data key of a row. -/
def NewDataKey (db table uuid : String) : Key :=
  { DBName := db, TableName := table, UUID := uuid }

/-- Modelled from the spec: `common.NewTableKey`, the key all the data keys of a table start
with. -/
def NewTableKey (db table : String) : Key :=
  { DBName := db, TableName := table, UUID := "" }

/-- Modelled from the spec: `common.NewCommentKey`, shape `<root>/_comments/<db>/<timestamp>`. -/
def NewCommentKey (db timestamp : String) : Key :=
  { DBName := "_comments", TableName := db, UUID := timestamp }

/-- Modelled from the spec: `common.Key.String`, shape `<root>/<db>/<table>/<uuid>` of
section 4.1. -/
def Key.String (root : String) (k : Key) : String :=
  root ++ "/" ++ k.DBName ++ "/" ++ k.TableName ++ "/" ++ k.UUID

/-- An operation of a KV transaction, `clientv3.Op`: `get` is `OpGet(key, WithPrefix())`, `put`
is `OpPut(key, val)` and `delete` is `OpDelete(key)`. -/
inductive KvOp where
  | get (key : String)
  | put (key : String) (val : String)
  | delete (key : String)
  deriving DecidableEq, Repr, Inhabited

/-- The key of an operation, `string(op.KeyBytes())`. -/
def KvOp.KeyBytes : KvOp → String
  | .get k => k
  | .put k _ => k
  | .delete k => k

/-- The operation reads and does not write. -/
def KvOp.isGet : KvOp → Bool
  | .get _ => true
  | _ => false

/-- A compare condition of a KV transaction, `clientv3.Cmp`; the executor never builds one. -/
structure Cmp where
  Key : String
  deriving DecidableEq, Repr, Inhabited

/-- The answer of the KV store to a transaction, `clientv3.TxnResponse`, with the key-value
pairs of its range responses already decoded into `(db, table, uuid)` and row. -/
structure TxnResponse where
  Revision : Int
  Kvs : List (Key × Row)
  deriving Repr, Inhabited

/-- Modelled from the spec: the cache, "a two-level mapping database → table → uuid → Row",
whose type is declared in the cache source file. -/
abbrev Cache := List (Key × Row)

/-- Modelled from the spec: `cache.Row(key)` used as an assignment target, "returns or creates
the slot for `(db,table,uuid)`", followed by the store of `row` into the slot. -/
def Cache.setRow : Cache → Key → Row → Cache
  | [], key, row => [(key, row)]
  | (k, r) :: rest, key, row =>
    if k = key then (k, row) :: rest else (k, r) :: Cache.setRow rest key row

/-- Modelled from the spec: `cache.getTable(db, table)`, the "mapping uuid→Row" of a table. -/
def Cache.getTable (c : Cache) (db table : String) : List (String × Row) :=
  c.filterMap (fun e =>
    if e.1.DBName = db ∧ e.1.TableName = table then some (e.1.UUID, e.2) else none)

/-- Modelled from the spec: `cache.GetFromEtcd(response)`, "ingests a multi-range KV response
and populates rows, keyed by decoded `(db,table,uuid)`". -/
def Cache.GetFromEtcd (c : Cache) (res : TxnResponse) : Cache :=
  res.Kvs.foldl (fun acc e => Cache.setRow acc e.1 e.2) c

/-! ## The transaction state (`transact.go`, lines 234-373) -/

/-- The resolver of named UUIDs, `type namedUUIDResolver map[string]string`. -/
abbrev namedUUIDResolver := List (String × String)

/-- The pending KV transaction, `type etcdTransaction struct` (client and context are in `Env`). -/
structure etcdTransaction where
  If : List Cmp := []
  Then : List KvOp := []
  Else : List KvOp := []
  Res : Option TxnResponse := none
  deriving Repr, Inhabited

/-- The method `etcdTransaction.Clear`. -/
def etcdTransaction.Clear (_etcd : etcdTransaction) : etcdTransaction :=
  { If := [], Then := [], Else := [], Res := none }

/-- The transaction, `type Transaction struct`. The schema is in `Env`; `nUUID` and `nClock`
count the UUIDs generated and the clock readings made so far, which index the generator and
the clock of `Env`. -/
structure Transaction where
  request : Transact
  response : TransactResponse
  cache : Cache
  mapUUID : namedUUIDResolver
  etcdTrx : etcdTransaction
  nUUID : Nat := 0
  nClock : Nat := 0
  deriving Repr, Inhabited

/-- The constructor `NewTransaction`: an empty cache and resolver, one empty result slot per
operation. -/
def NewTransaction (request : Transact) : Transaction :=
  { request := request
    response := { Result := List.replicate request.Operations.length {}, Error := none }
    cache := []
    mapUUID := []
    etcdTrx := {} }

/-- A parsed condition `(column, function, value)`; its type is declared in the condition source
file. -/
structure Condition where
  Column : String
  Function : String
  Value : Value
  deriving Repr, Inhabited

/-- A parsed mutation `(column, mutator, value)`; its type is declared in the mutation source
file. -/
structure Mutation where
  Column : String
  Mutator : String
  Value : Value
  deriving Repr, Inhabited

/-- The code the executor calls and that is not part of `transact.go`: the schema of the
request's database, the condition and mutation evaluators, the JSON encoder, the UUID generator,
the clock and the KV store. `Txn n` answers the `n`-th KV transaction submitted by the
transaction (`none` is a failure of the store); an error is the `String` of an `Except` or the
`some` of an `Option`. -/
structure Env where
  root : String
  LookupTable : String → Option TableSchema
  Default : String → Row → Row
  Unmarshal : TableSchema → Row → Except String Row
  Validate : TableSchema → Row → Option String
  ValidateUUID : String → Option String
  NewCondition : TableSchema → namedUUIDResolver → List Value → Except String Condition
  Compare : Condition → Row → Except String Bool
  NewMutation : TableSchema → namedUUIDResolver → List Value → Except String Mutation
  Mutate : Mutation → Row → Except String Row
  Marshal : Row → Except String String
  GenerateUUID : Nat → String
  Now : Nat → String
  Txn : Nat → List Cmp → List KvOp → List KvOp → Option TxnResponse

/-- Modelled from the spec: `cache.Unmarshal(schema)`, "runs `TableSchema.Unmarshal` over every
cached row"; a row of a table the schema does not have is an error. -/
def Cache.Unmarshal (env : Env) : Cache → Except String Cache
  | [] => .ok []
  | (k, r) :: rest =>
    match env.LookupTable k.TableName with
    | none => .error E_CONSTRAINT_VIOLATION
    | some ts =>
      match env.Unmarshal ts r with
      | .error e => .error e
      | .ok r2 =>
        match Cache.Unmarshal env rest with
        | .error e => .error e
        | .ok rest2 => .ok ((k, r2) :: rest2)

/-- Modelled from the spec: `cache.Validate(db, schema)`, "runs `TableSchema.Validate` over
every cached row; fails with `constraint-violation` on first offending row"; `true` is
success. -/
def Cache.Validate (env : Env) (c : Cache) : Bool :=
  c.all (fun e =>
    match env.LookupTable e.1.TableName with
    | none => false
    | some ts => (env.Validate ts e.2).isNone)

/-! ## The named-UUID resolver (`transact.go`, lines 234-311) -/

/-- The method `namedUUIDResolver.Set`. -/
def namedUUIDResolver.Set : namedUUIDResolver → String → String → namedUUIDResolver
  | [], uuidName, uuid => [(uuidName, uuid)]
  | (n, u) :: rest, uuidName, uuid =>
    if n = uuidName then (n, uuid) :: rest else (n, u) :: namedUUIDResolver.Set rest uuidName uuid

/-- The method `namedUUIDResolver.Get`: the pair `(string, error)` that it returns. -/
def namedUUIDResolver.Get (mapUUID : namedUUIDResolver) (uuidName : String) :
    String × Option String :=
  match mapUUID.lookup uuidName with
  | some uuid => (uuid, none)
  | none => ("", some E_CONSTRAINT_VIOLATION)

/-- The method `namedUUIDResolver.ResolvUUID`. -/
def namedUUIDResolver.ResolvUUID (env : Env) (mapUUID : namedUUIDResolver) (value : Value) :
    Except String Value :=
  match value with
  | .uuid g =>
    if g ≠ "" ∧ (env.ValidateUUID g).isSome then
      match mapUUID.Get g with
      | (_, some e) => .error e
      | (uuid, none) => .ok (.uuid uuid)
    else .ok value
  | _ => .ok value

/-- The loop of `namedUUIDResolver.ResolvSet` over the elements of the set. -/
def namedUUIDResolver.ResolvSetLoop (env : Env) (mapUUID : namedUUIDResolver) :
    List Value → List Value → Except String (List Value)
  | [], newset => .ok newset
  | oldval :: rest, newset =>
    match mapUUID.ResolvUUID env oldval with
    | .error e => .error e
    | .ok newval => namedUUIDResolver.ResolvSetLoop env mapUUID rest (newset ++ [newval])

/-- The method `namedUUIDResolver.ResolvSet`. The new set starts as `OvsSet{}` and the resolved
elements are appended to it: with no element its `GoSet` stays nil. -/
def namedUUIDResolver.ResolvSet (env : Env) (mapUUID : namedUUIDResolver) (value : Value) :
    Except String Value :=
  let oldset : List Value := match value.GoSet? with
    | some l => l
    | none => []
  match namedUUIDResolver.ResolvSetLoop env mapUUID oldset [] with
  | .error e => .error e
  | .ok newset => .ok (.set newset)

/-- Writing `m[key] = v` on the entries of an `OvsMap`. -/
def mapSet : List (Value × Value) → Value → Value → List (Value × Value)
  | [], key, v => [(key, v)]
  | (k, w) :: rest, key, v =>
    if deepEqual k key then (k, v) :: rest else (k, w) :: mapSet rest key v

/-- Reading `m[key]` on the entries of an `OvsMap`: the value and the `ok` of the Go lookup. -/
def mapGet : List (Value × Value) → Value → Option Value
  | [], _ => none
  | (k, w) :: rest, key => if deepEqual k key then some w else mapGet rest key

/-- The loop of `namedUUIDResolver.ResolvMap` over the entries of the map. -/
def namedUUIDResolver.ResolvMapLoop (env : Env) (mapUUID : namedUUIDResolver) :
    List (Value × Value) → List (Value × Value) → Except String (List (Value × Value))
  | [], newmap => .ok newmap
  | (key, oldval) :: rest, newmap =>
    match mapUUID.ResolvUUID env oldval with
    | .error e => .error e
    | .ok newval => namedUUIDResolver.ResolvMapLoop env mapUUID rest (mapSet newmap key newval)

/-- The method `namedUUIDResolver.ResolvMap`. The new map is made with a map literal: it is not
nil. -/
def namedUUIDResolver.ResolvMap (env : Env) (mapUUID : namedUUIDResolver) (value : Value) :
    Except String Value :=
  let oldmap : List (Value × Value) := match value.GoMap? with
    | some l => l
    | none => []
  match namedUUIDResolver.ResolvMapLoop env mapUUID oldmap [] with
  | .error e => .error e
  | .ok newmap => .ok (.map newmap)

/-- The method `namedUUIDResolver.Resolv`. -/
def namedUUIDResolver.Resolv (env : Env) (mapUUID : namedUUIDResolver) (value : Value) :
    Except String Value :=
  match value with
  | .uuid _ => mapUUID.ResolvUUID env value
  | .set _ => mapUUID.ResolvSet env value
  | .emptySet => mapUUID.ResolvSet env value
  | .map _ => mapUUID.ResolvMap env value
  | .nilMap => mapUUID.ResolvMap env value
  | _ => .ok value

/-- The loop of `namedUUIDResolver.ResolvRow`: the columns still to visit and the row, which is
updated in place. -/
def namedUUIDResolver.ResolvRowLoop (env : Env) (mapUUID : namedUUIDResolver) :
    List (String × Value) → Row → Except String Row
  | [], row => .ok row
  | (column, value) :: rest, row =>
    match mapUUID.Resolv env value with
    | .error e => .error e
    | .ok v => namedUUIDResolver.ResolvRowLoop env mapUUID rest (row.set column v)

/-- The method `namedUUIDResolver.ResolvRow`. -/
def namedUUIDResolver.ResolvRow (env : Env) (mapUUID : namedUUIDResolver) (row : Row) :
    Except String Row :=
  namedUUIDResolver.ResolvRowLoop env mapUUID row row

/-! ## Comparison of rows (`transact.go`, lines 47-49 and 107-164) -/

/-- The outcome of a helper that can fail and can panic. -/
inductive Res (α : Type) where
  | ok (a : α)
  | err (e : String)
  | crash
  deriving Repr, Inhabited

/-- The function `isEqualSet`. -/
def isEqualSet (expected actual : Value) : Bool :=
  deepEqual expected actual

/-- The function `isEqualMap`. -/
def isEqualMap (expected actual : Value) : Bool :=
  deepEqual expected actual

/-- The function `isEqualValue`. -/
def isEqualValue (expected actual : Value) : Bool :=
  deepEqual expected actual

/-- The function `isEqualColumn`. -/
def isEqualColumn (columnSchema : ColumnSchema) (expected actual : Value) : Bool :=
  match columnSchema.Typ with
  | .set => isEqualSet expected actual
  | .map => isEqualMap expected actual
  | _ => isEqualValue expected actual

/-- The loop of `isEqualRow` over the columns of the expected row. -/
def isEqualRowLoop (tableSchema : TableSchema) (actualRow : Row) :
    List (String × Value) → Except String Bool
  | [] => .ok true
  | (column, expected) :: rest =>
    match tableSchema.LookupColumn column with
    | none => .error E_CONSTRAINT_VIOLATION
    | some columnSchema =>
      if !isEqualColumn columnSchema expected (actualRow.get column) then .ok false
      else isEqualRowLoop tableSchema actualRow rest

/-- The function `isEqualRow`. -/
def isEqualRow (tableSchema : TableSchema) (expectedRow actualRow : Row) : Except String Bool :=
  isEqualRowLoop tableSchema actualRow expectedRow

/-! ## Inclusion of sets and maps (`transact.go`, lines 51-132) -/

/-- The inner loop of `isIncludesSet` over the actual values: it runs to the end and returns
`foundVal`. -/
def isIncludesSetFound (expectedVal : Value) : List Value → Bool → Bool
  | [], foundVal => foundVal
  | actualVal :: rest, foundVal =>
    isIncludesSetFound expectedVal rest
      (if isEqualValue expectedVal actualVal then true else foundVal)

/-- The outer loop of `isIncludesSet` over the expected values. -/
def isIncludesSetLoop (actualSet : List Value) : List Value → Bool
  | [] => true
  | expectedVal :: rest =>
    if !isIncludesSetFound expectedVal actualSet false then false
    else isIncludesSetLoop actualSet rest

/-- The function `isIncludesSet`; both values are asserted to be sets. -/
def isIncludesSet (expected actual : Value) : Res Bool :=
  match expected.GoSet? with
  | some expectedSet =>
    match actual.GoSet? with
    | some actualSet => .ok (isIncludesSetLoop actualSet expectedSet)
    | none => .crash
  | none => .crash

/-- Go's `strings.ToLower`, on the ASCII letters (the model leaves every other character
unchanged). -/
def toLower (s : String) : String :=
  String.mk (s.toList.map Char.toLower)

/-- Go's `<` on strings, on their characters: the lexicographic order. -/
def ltChars : List Char → List Char → Bool
  | _, [] => false
  | [], _ :: _ => true
  | c :: cs, d :: ds =>
    if c.toNat < d.toNat then true
    else if d.toNat < c.toNat then false
    else ltChars cs ds

/-- Go's `s < t` on strings. -/
def stringLess (s t : String) : Bool :=
  ltChars s.toList t.toList

/-- The method `Alphabetic.Less`, on the two strings `list[i]` and `list[j]`. -/
def Alphabetic.Less (si sj : String) : Bool :=
  let si_lower := toLower si
  let sj_lower := toLower sj
  if si_lower = sj_lower then stringLess si sj
  else stringLess si_lower sj_lower

/-- Go's `strings.Split(s, ",")` on the characters of `s`: the pieces between the commas, in
order; there is always at least one piece. -/
def splitComma : List Char → List (List Char)
  | [] => [[]]
  | c :: cs =>
    if c = ',' then [] :: splitComma cs
    else
      match splitComma cs with
      | [] => [[c]]
      | piece :: pieces => (c :: piece) :: pieces

/-- Go's `sort.Sort(Alphabetic(list))`: the list in ascending order of `Alphabetic.Less`. Two
strings that are not identical are ordered one way or the other by `Less`, so every sorting
algorithm returns this list. -/
def sortAlphabetic (list : List String) : List String :=
  list.insertionSort (fun a b => Alphabetic.Less b a = false)

/-- The function `splitAndSort`: the sorted pieces are written to the buffer one after the
other, with nothing between them. -/
def splitAndSort (s : String) : String :=
  let list := (splitComma s.toList).map String.mk
  (sortAlphabetic list).foldl (fun buffer val => buffer ++ val) ""

/-- The function `splitAndSortStrings`: the two values after the call. -/
def splitAndSortStrings (expectedVal actualVal : Value) : Value × Value :=
  match expectedVal, actualVal with
  | .str expectedValStr, .str actualValStr =>
    (.str (splitAndSort expectedValStr), .str (splitAndSort actualValStr))
  | _, _ => (expectedVal, actualVal)

/-- The loop of `isIncludesMap` over the entries of the expected map. -/
def isIncludesMapLoop (actualMap : List (Value × Value)) : List (Value × Value) → Bool
  | [] => true
  | (key, expectedVal) :: rest =>
    match mapGet actualMap key with
    | none => false
    | some actualVal =>
      let sorted := splitAndSortStrings expectedVal actualVal
      if !isEqualValue sorted.1 sorted.2 then false
      else isIncludesMapLoop actualMap rest

/-- The function `isIncludesMap`; both values are asserted to be maps. -/
def isIncludesMap (expected actual : Value) : Res Bool :=
  match expected.GoMap? with
  | some expectedMap =>
    match actual.GoMap? with
    | some actualMap => .ok (isIncludesMapLoop actualMap expectedMap)
    | none => .crash
  | none => .crash

/-! ## Helpers of the callbacks (`transact.go`, lines 512-790) -/

/-- The outcome of a callback: it returns the transaction, the result slot and its error (if
any), or it panics. -/
inductive CbOut where
  | ret (txn : Transaction) (res : OperationResult) (err : Option String)
  | crash
  deriving Repr, Inhabited

/-- The function `makeValue`: the JSON encoding of the row. -/
def makeValue (env : Env) (row : Row) : Except String String :=
  env.Marshal row

/-- The function `setRowUUID`. -/
def setRowUUID (row : Row) (uuid : String) : Row :=
  row.set COL_UUID (.uuid uuid)

/-- The function `setRowVersion`: the version is the next UUID of the generator. -/
def setRowVersion (env : Env) (txn : Transaction) (row : Row) : Transaction × Row :=
  ({ txn with nUUID := txn.nUUID + 1 }, row.set COL_VERSION (.uuid (env.GenerateUUID txn.nUUID)))

/-- The method `Transaction.getUUIDIfExists`. -/
def getUUIDIfExists (env : Env) (tableSchema : TableSchema) (mapUUID : namedUUIDResolver)
    (cond1 : Value) : Except String String :=
  match cond1 with
  | .list cond2 =>
    match env.NewCondition tableSchema mapUUID cond2 with
    | .error e => .error e
    | .ok condition =>
      if condition.Column ≠ COL_UUID then .ok ""
      else if condition.Function ≠ FN_EQ ∧ condition.Function ≠ FN_IN then .ok ""
      else
        match condition.Value with
        | .uuid g =>
          match env.ValidateUUID g with
          | some e => .error e
          | none => .ok g
        | _ => .error E_INTERNAL_ERROR
  | _ => .error E_INTERNAL_ERROR

/-- The loop of `Transaction.doesWhereContainCondTypeUUID`. -/
def doesWhereContainCondTypeUUIDLoop (env : Env) (tableSchema : TableSchema)
    (mapUUID : namedUUIDResolver) : List Value → Except String String
  | [] => .ok ""
  | c :: rest =>
    match c with
    | .list _ =>
      match getUUIDIfExists env tableSchema mapUUID c with
      | .error e => .error e
      | .ok uuid =>
        if uuid ≠ "" then .ok uuid
        else doesWhereContainCondTypeUUIDLoop env tableSchema mapUUID rest
    | _ => .error E_INTERNAL_ERROR

/-- The method `Transaction.doesWhereContainCondTypeUUID`. -/
def doesWhereContainCondTypeUUID (env : Env) (tableSchema : TableSchema)
    (mapUUID : namedUUIDResolver) (where_ : Option (List Value)) : Except String String :=
  match where_ with
  | none => .ok ""
  | some w => doesWhereContainCondTypeUUIDLoop env tableSchema mapUUID w

/-- The method `Transaction.isRowSelectedByCond`. -/
def isRowSelectedByCond (env : Env) (tableSchema : TableSchema) (mapUUID : namedUUIDResolver)
    (row : Row) (cond : List Value) : Except String Bool :=
  match env.NewCondition tableSchema mapUUID cond with
  | .error e => .error e
  | .ok condition => env.Compare condition row

/-- The loop of `Transaction.isRowSelectedByWhere`. -/
def isRowSelectedByWhereLoop (env : Env) (tableSchema : TableSchema)
    (mapUUID : namedUUIDResolver) (row : Row) : List Value → Except String Bool
  | [] => .ok true
  | c :: rest =>
    match c with
    | .list cond =>
      match isRowSelectedByCond env tableSchema mapUUID row cond with
      | .error e => .error e
      | .ok ok =>
        if !ok then .ok false
        else isRowSelectedByWhereLoop env tableSchema mapUUID row rest
    | _ => .error E_INTERNAL_ERROR

/-- The method `Transaction.isRowSelectedByWhere`. -/
def isRowSelectedByWhere (env : Env) (tableSchema : TableSchema) (mapUUID : namedUUIDResolver)
    (row : Row) (where_ : Option (List Value)) : Except String Bool :=
  match where_ with
  | none => .ok true
  | some w => isRowSelectedByWhereLoop env tableSchema mapUUID row w

/-- The function `reduceRowByColumns` (it never returns an error). -/
def reduceRowByColumns (row : Row) (columns : Option (List String)) : Row :=
  match columns with
  | none => row
  | some cs => cs.foldl (fun (newRow : Row) column => newRow.set column (row.get column)) []

/-- The loop of `Transaction.RowMutate` over the mutations; a mutation that is not a JSON array
fails the type assertion. -/
def RowMutateLoop (env : Env) (tableSchema : TableSchema) (mapUUID : namedUUIDResolver) :
    List Value → Row → Res Row
  | [], newRow => .ok newRow
  | mt :: rest, newRow =>
    match mt with
    | .list m0 =>
      match env.NewMutation tableSchema mapUUID m0 with
      | .error e => .err e
      | .ok m =>
        match env.Mutate m newRow with
        | .error e => .err e
        | .ok r => RowMutateLoop env tableSchema mapUUID rest r
    | _ => .crash

/-- The method `Transaction.RowMutate`. -/
def RowMutate (env : Env) (tableSchema : TableSchema) (mapUUID : namedUUIDResolver)
    (oldRow : Row) (mutations : Option (List Value)) : Res Row :=
  match env.Unmarshal tableSchema oldRow with
  | .error e => .err e
  | .ok newRow =>
    match mutations with
    | none => .crash
    | some ms => RowMutateLoop env tableSchema mapUUID ms newRow

/-- The function `columnUpdateMap`; both values are asserted to be maps. The result starts as
`OvsMap{}` and takes the `GoMap` of the old map, nil when the old one is nil; the entries of the
new map are then written into it, and writing an entry into a nil map is a panic. -/
def columnUpdateMap (oldValue newValue : Value) : Res Value :=
  match oldValue, newValue with
  | .map oldMap, .map newMap =>
    .ok (.map (newMap.foldl (fun retMap e => mapSet retMap e.1 e.2) oldMap))
  | .map oldMap, .nilMap => .ok (.map oldMap)
  | .nilMap, .map [] => .ok .nilMap
  | .nilMap, .nilMap => .ok .nilMap
  | _, _ => .crash

/-- The function `columnUpdateValue`. -/
def columnUpdateValue (_oldValue newValue : Value) : Value :=
  newValue

/-- The function `columnUpdate`. -/
def columnUpdate (columnSchema : ColumnSchema) (oldValue newValue : Value) : Res Value :=
  match columnSchema.Typ with
  | .map => columnUpdateMap oldValue newValue
  | _ => .ok (columnUpdateValue oldValue newValue)

/-- The loop of `Transaction.RowUpdate` over the columns of the update. -/
def RowUpdateLoop (tableSchema : TableSchema) : List (String × Value) → Row → Res Row
  | [], newRow => .ok newRow
  | (column, value) :: rest, newRow =>
    match tableSchema.LookupColumn column with
    | none => .err E_CONSTRAINT_VIOLATION
    | some columnSchema =>
      if column = COL_UUID ∨ column = COL_VERSION then .err E_CONSTRAINT_VIOLATION
      else if columnSchema.Mutable = some false then .err E_CONSTRAINT_VIOLATION
      else
        match columnUpdate columnSchema (newRow.get column) value with
        | .ok v => RowUpdateLoop tableSchema rest (newRow.set column v)
        | .err e => .err e
        | .crash => .crash

/-- The method `Transaction.RowUpdate`. -/
def RowUpdate (env : Env) (tableSchema : TableSchema) (currentRow update : Row) : Res Row :=
  match env.Unmarshal tableSchema currentRow with
  | .error e => .err e
  | .ok newRow => RowUpdateLoop tableSchema update newRow

/-- The function `etcdGetData`. -/
def etcdGetData (env : Env) (txn : Transaction) (key : Key) : Transaction :=
  { txn with etcdTrx := { txn.etcdTrx with Then := txn.etcdTrx.Then ++ [.get (key.String env.root)] } }

/-- The function `etcdGetByWhere`. -/
def etcdGetByWhere (env : Env) (txn : Transaction) (ovsOp : Operation)
    (ovsResult : OperationResult) : CbOut :=
  match ovsOp.Table with
  | none => .crash
  | some table =>
    match env.LookupTable table with
    | none => .ret txn ovsResult (some E_INTERNAL_ERROR)
    | some tableSchema =>
      match doesWhereContainCondTypeUUID env tableSchema txn.mapUUID ovsOp.Where with
      | .error e => .ret txn ovsResult (some e)
      | .ok uuid =>
        .ret (etcdGetData env txn (NewDataKey txn.request.DBName table uuid)) ovsResult none

/-- The function `etcdCreateRow`: the new state and the error of the JSON encoder, if any. -/
def etcdCreateRow (env : Env) (txn : Transaction) (k : Key) (row : Row) :
    Transaction × Option String :=
  match makeValue env row with
  | .error e => (txn, some e)
  | .ok val =>
    ({ txn with etcdTrx := { txn.etcdTrx with Then := txn.etcdTrx.Then ++ [.put (k.String env.root) val] } },
      none)

/-- The function `etcdModifyRow`. -/
def etcdModifyRow (env : Env) (txn : Transaction) (k : Key) (row : Row) :
    Transaction × Option String :=
  match makeValue env row with
  | .error e => (txn, some e)
  | .ok val =>
    ({ txn with etcdTrx := { txn.etcdTrx with Then := txn.etcdTrx.Then ++ [.put (k.String env.root) val] } },
      none)

/-- The function `etcdDeleteRow` (it never returns an error). -/
def etcdDeleteRow (env : Env) (txn : Transaction) (k : Key) : Transaction :=
  { txn with etcdTrx := { txn.etcdTrx with Then := txn.etcdTrx.Then ++ [.delete (k.String env.root)] } }

/-- The method `Transaction.RowPrepare`: the row is unmarshalled, resolved and validated in
place; every error is reported as a constraint violation. -/
def RowPrepare (env : Env) (tableSchema : TableSchema) (mapUUID : namedUUIDResolver)
    (row : Row) : Except String Row :=
  match env.Unmarshal tableSchema row with
  | .error _ => .error E_CONSTRAINT_VIOLATION
  | .ok row1 =>
    match mapUUID.ResolvRow env row1 with
    | .error _ => .error E_CONSTRAINT_VIOLATION
    | .ok row2 =>
      match env.Validate tableSchema row2 with
      | some _ => .error E_CONSTRAINT_VIOLATION
      | none => .ok row2

/-! ## The callbacks (`transact.go`, lines 792-1169) -/

/-- The callback `preInsert`. -/
def preInsert (env : Env) (txn : Transaction) (ovsOp : Operation) (ovsResult : OperationResult) :
    CbOut :=
  let bound : Transaction × Option String :=
    match ovsOp.UUIDName with
    | some uuidName =>
      let gen : Transaction × String :=
        match ovsOp.UUID with
        | some g => (txn, g)
        | none => ({ txn with nUUID := txn.nUUID + 1 }, env.GenerateUUID txn.nUUID)
      if (gen.1.mapUUID.lookup uuidName).isSome then (gen.1, some E_DUP_UUIDNAME)
      else ({ gen.1 with mapUUID := gen.1.mapUUID.Set uuidName gen.2 }, none)
    | none => (txn, none)
  match bound.2 with
  | some e => .ret bound.1 ovsResult (some e)
  | none =>
    match ovsOp.Table with
    | none => .crash
    | some table =>
      .ret (etcdGetData env bound.1 (NewTableKey bound.1.request.DBName table)) ovsResult none

/-- The callback `doInsert`. The local `row` and `ovsOp.Row` are one and the same Go map, so the
defaults, the preparation, `_uuid` and `_version` all land in the row that is encoded and
cached. -/
def doInsert (env : Env) (txn : Transaction) (ovsOp : Operation) (ovsResult : OperationResult) :
    CbOut :=
  match ovsOp.Table with
  | none => .crash
  | some table =>
    match env.LookupTable table with
    | none => .ret txn ovsResult (some E_INTERNAL_ERROR)
    | some tableSchema =>
      let named : Except String String :=
        match ovsOp.UUIDName with
        | some uuidName =>
          match txn.mapUUID.Get uuidName with
          | (_, some e) => .error e
          | (u, none) =>
            match ovsOp.UUID with
            | some g => if g ≠ u then .error E_INTERNAL_ERROR else .ok u
            | none => .ok u
        | none => .ok (ovsOp.UUID.getD "")
      match named with
      | .error e => .ret txn ovsResult (some e)
      | .ok uuid0 =>
        let gen : Transaction × String :=
          if uuid0 = "" then ({ txn with nUUID := txn.nUUID + 1 }, env.GenerateUUID txn.nUUID)
          else (txn, uuid0)
        let txn1 := gen.1
        let uuid := gen.2
        if (txn1.cache.getTable txn1.request.DBName table).any
            (fun e => ovsOp.UUID = some e.1) then
          .ret txn1 ovsResult (some E_DUP_UUID)
        else
          let res1 := ovsResult.InitUUID uuid
          let key := NewDataKey txn1.request.DBName table uuid
          match ovsOp.Row with
          | none => .crash
          | some r =>
            let row := env.Default table r
            match RowPrepare env tableSchema txn1.mapUUID row with
            | .error _ => .ret txn1 res1 (some E_CONSTRAINT_VIOLATION)
            | .ok row1 =>
              let row2 := setRowUUID row1 uuid
              let ver := setRowVersion env txn1 row2
              let put := etcdCreateRow env ver.1 key ver.2
              .ret { put.1 with cache := put.1.cache.setRow key ver.2 } res1 put.2

/-- The callback `preSelect`. -/
def preSelect (env : Env) (txn : Transaction) (ovsOp : Operation) (ovsResult : OperationResult) :
    CbOut :=
  etcdGetByWhere env txn ovsOp ovsResult

/-- The loop of `doSelect` over the rows of the cached table. -/
def doSelectLoop (env : Env) (tableSchema : TableSchema) (txn : Transaction) (ovsOp : Operation) :
    List (String × Row) → OperationResult → CbOut
  | [], res => .ret txn res none
  | (_, row) :: rest, res =>
    match isRowSelectedByWhere env tableSchema txn.mapUUID row ovsOp.Where with
    | .error e => .ret txn res (some e)
    | .ok ok =>
      if !ok then doSelectLoop env tableSchema txn ovsOp rest res
      else
        doSelectLoop env tableSchema txn ovsOp rest
          (res.AppendRows (reduceRowByColumns row ovsOp.Columns))

/-- The callback `doSelect`. -/
def doSelect (env : Env) (txn : Transaction) (ovsOp : Operation) (ovsResult : OperationResult) :
    CbOut :=
  let res1 := ovsResult.InitRows
  match ovsOp.Table with
  | none => .crash
  | some table =>
    match env.LookupTable table with
    | none => .ret txn res1 (some E_INTERNAL_ERROR)
    | some tableSchema =>
      doSelectLoop env tableSchema txn ovsOp (txn.cache.getTable txn.request.DBName table) res1

/-- The callback `preUpdate`. -/
def preUpdate (env : Env) (txn : Transaction) (ovsOp : Operation) (ovsResult : OperationResult) :
    CbOut :=
  etcdGetByWhere env txn ovsOp ovsResult

/-- The loop of `doUpdate` over the rows of the cached table. The row of the operation is
prepared in place once per selected row, so it is part of the loop state; preparing a missing
row dereferences a nil pointer. -/
def doUpdateLoop (env : Env) (tableSchema : TableSchema) (table : String)
    (where_ : Option (List Value)) :
    List (String × Row) → Transaction → Option Row → OperationResult → CbOut
  | [], txn, _, res => .ret txn res none
  | (uuid, row) :: rest, txn, opRow, res =>
    match isRowSelectedByWhere env tableSchema txn.mapUUID row where_ with
    | .error e => .ret txn res (some e)
    | .ok ok =>
      if !ok then doUpdateLoop env tableSchema table where_ rest txn opRow res
      else
        match opRow with
        | none => .crash
        | some r =>
          match RowPrepare env tableSchema txn.mapUUID r with
          | .error e => .ret txn res (some e)
          | .ok r1 =>
            match RowUpdate env tableSchema row r1 with
            | .crash => .crash
            | .err e => .ret txn res (some e)
            | .ok newRow0 =>
              let ver := setRowVersion env txn newRow0
              let key := NewDataKey txn.request.DBName table uuid
              let put := etcdModifyRow env ver.1 key ver.2
              doUpdateLoop env tableSchema table where_ rest
                { put.1 with cache := put.1.cache.setRow key ver.2 } (some r1)
                res.IncrementCount

/-- The callback `doUpdate`. -/
def doUpdate (env : Env) (txn : Transaction) (ovsOp : Operation) (ovsResult : OperationResult) :
    CbOut :=
  let res1 := ovsResult.InitCount
  match ovsOp.Table with
  | none => .crash
  | some table =>
    match env.LookupTable table with
    | none => .ret txn res1 (some E_INTERNAL_ERROR)
    | some tableSchema =>
      doUpdateLoop env tableSchema table ovsOp.Where
        (txn.cache.getTable txn.request.DBName table) txn ovsOp.Row res1

/-- The callback `preMutate`. -/
def preMutate (env : Env) (txn : Transaction) (ovsOp : Operation) (ovsResult : OperationResult) :
    CbOut :=
  etcdGetByWhere env txn ovsOp ovsResult

/-- The loop of `doMutate` over the rows of the cached table. -/
def doMutateLoop (env : Env) (tableSchema : TableSchema) (table : String) (ovsOp : Operation) :
    List (String × Row) → Transaction → OperationResult → CbOut
  | [], txn, res => .ret txn res none
  | (uuid, row) :: rest, txn, res =>
    match isRowSelectedByWhere env tableSchema txn.mapUUID row ovsOp.Where with
    | .error e => .ret txn res (some e)
    | .ok ok =>
      if !ok then doMutateLoop env tableSchema table ovsOp rest txn res
      else
        match RowMutate env tableSchema txn.mapUUID row ovsOp.Mutations with
        | .crash => .crash
        | .err e => .ret txn res (some e)
        | .ok newRow0 =>
          let ver := setRowVersion env txn newRow0
          let key := NewDataKey txn.request.DBName table uuid
          let put := etcdModifyRow env ver.1 key ver.2
          doMutateLoop env tableSchema table ovsOp rest
            { put.1 with cache := put.1.cache.setRow key ver.2 } res.IncrementCount

/-- The callback `doMutate`. -/
def doMutate (env : Env) (txn : Transaction) (ovsOp : Operation) (ovsResult : OperationResult) :
    CbOut :=
  let res1 := ovsResult.InitCount
  match ovsOp.Table with
  | none => .crash
  | some table =>
    match env.LookupTable table with
    | none => .ret txn res1 (some E_INTERNAL_ERROR)
    | some tableSchema =>
      doMutateLoop env tableSchema table ovsOp (txn.cache.getTable txn.request.DBName table)
        txn res1

/-- The callback `preDelete`. -/
def preDelete (env : Env) (txn : Transaction) (ovsOp : Operation) (ovsResult : OperationResult) :
    CbOut :=
  etcdGetByWhere env txn ovsOp ovsResult

/-- The loop of `doDelete` over the rows of the cached table. -/
def doDeleteLoop (env : Env) (tableSchema : TableSchema) (table : String) (ovsOp : Operation) :
    List (String × Row) → Transaction → OperationResult → CbOut
  | [], txn, res => .ret txn res none
  | (uuid, row) :: rest, txn, res =>
    match isRowSelectedByWhere env tableSchema txn.mapUUID row ovsOp.Where with
    | .error e => .ret txn res (some e)
    | .ok ok =>
      if !ok then doDeleteLoop env tableSchema table ovsOp rest txn res
      else
        doDeleteLoop env tableSchema table ovsOp rest
          (etcdDeleteRow env txn (NewDataKey txn.request.DBName table uuid)) res.IncrementCount

/-- The callback `doDelete`. -/
def doDelete (env : Env) (txn : Transaction) (ovsOp : Operation) (ovsResult : OperationResult) :
    CbOut :=
  let res1 := ovsResult.InitCount
  match ovsOp.Table with
  | none => .crash
  | some table =>
    match env.LookupTable table with
    | none => .ret txn res1 (some E_INTERNAL_ERROR)
    | some tableSchema =>
      doDeleteLoop env tableSchema table ovsOp (txn.cache.getTable txn.request.DBName table)
        txn res1

/-- The callback `preWait`. -/
def preWait (env : Env) (txn : Transaction) (ovsOp : Operation) (ovsResult : OperationResult) :
    CbOut :=
  match ovsOp.Timeout with
  | none => .ret txn ovsResult (some E_CONSTRAINT_VIOLATION)
  | some _ => etcdGetByWhere env txn ovsOp ovsResult

/-- The verdict of the row comparison of `doWait`: keep looking, or return with an error or
with success. -/
inductive WaitStep where
  | next (rows : List Row)
  | stop (err : Option String)
  deriving Repr, Inhabited

/-- The inner loop of `doWait` over the expected rows, for one actual row. Every expected row
is prepared in place before it is compared: `done` holds the rows already visited, in their
prepared form. -/
def doWaitRows (env : Env) (tableSchema : TableSchema) (mapUUID : namedUUIDResolver)
    (equal : Bool) (actual : Row) : List Row → List Row → WaitStep
  | [], done => .next done
  | expected :: rest, done =>
    match RowPrepare env tableSchema mapUUID expected with
    | .error e => .stop (some e)
    | .ok expected1 =>
      match isEqualRow tableSchema expected1 actual with
      | .error e => .stop (some e)
      | .ok cond =>
        if cond then
          if equal then .stop none else .stop (some E_TIMEOUT)
        else doWaitRows env tableSchema mapUUID equal actual rest (done ++ [expected1])

/-- The outer loop of `doWait` over the rows of the cached table. -/
def doWaitLoop (env : Env) (tableSchema : TableSchema) (mapUUID : namedUUIDResolver)
    (ovsOp : Operation) (equal : Bool) : List (String × Row) → List Row → Option String
  | [], _ => if !equal then none else some E_TIMEOUT
  | (_, actual0) :: rest, rows =>
    match isRowSelectedByWhere env tableSchema mapUUID actual0 ovsOp.Where with
    | .error e => some e
    | .ok ok =>
      if !ok then doWaitLoop env tableSchema mapUUID ovsOp equal rest rows
      else
        let actual := match ovsOp.Columns with
          | some _ => reduceRowByColumns actual0 ovsOp.Columns
          | none => actual0
        match doWaitRows env tableSchema mapUUID equal actual rows [] with
        | .stop err => err
        | .next rows1 => doWaitLoop env tableSchema mapUUID ovsOp equal rest rows1

/-- The callback `doWait`. -/
def doWait (env : Env) (txn : Transaction) (ovsOp : Operation) (ovsResult : OperationResult) :
    CbOut :=
  match ovsOp.Table with
  | none => .ret txn ovsResult (some E_CONSTRAINT_VIOLATION)
  | some table =>
    match ovsOp.Rows with
    | none => .ret txn ovsResult (some E_CONSTRAINT_VIOLATION)
    | some rows =>
      if rows.length = 0 then .ret txn ovsResult none
      else
        match ovsOp.Until with
        | none => .ret txn ovsResult (some E_CONSTRAINT_VIOLATION)
        | some until_ =>
          match env.LookupTable table with
          | none => .ret txn ovsResult (some E_INTERNAL_ERROR)
          | some tableSchema =>
            if until_ = FN_EQ then
              .ret txn ovsResult
                (doWaitLoop env tableSchema txn.mapUUID ovsOp true
                  (txn.cache.getTable txn.request.DBName table) rows)
            else if until_ = FN_NE then
              .ret txn ovsResult
                (doWaitLoop env tableSchema txn.mapUUID ovsOp false
                  (txn.cache.getTable txn.request.DBName table) rows)
            else .ret txn ovsResult (some E_CONSTRAINT_VIOLATION)

/-- The callback `preCommit`. -/
def preCommit (_env : Env) (txn : Transaction) (ovsOp : Operation) (ovsResult : OperationResult) :
    CbOut :=
  match ovsOp.Durable with
  | none => .ret txn ovsResult (some E_CONSTRAINT_VIOLATION)
  | some durable =>
    if durable then .ret txn ovsResult (some E_NOT_SUPPORTED)
    else .ret txn ovsResult none

/-- The callback `doCommit`. -/
def doCommit (_env : Env) (txn : Transaction) (_ovsOp : Operation) (ovsResult : OperationResult) :
    CbOut :=
  .ret txn ovsResult none

/-- The callback `preAbort`. -/
def preAbort (_env : Env) (txn : Transaction) (_ovsOp : Operation) (ovsResult : OperationResult) :
    CbOut :=
  .ret txn ovsResult (some E_ABORTED)

/-- The callback `doAbort`. -/
def doAbort (_env : Env) (txn : Transaction) (_ovsOp : Operation) (ovsResult : OperationResult) :
    CbOut :=
  .ret txn ovsResult none

/-- The callback `preComment`. -/
def preComment (_env : Env) (txn : Transaction) (_ovsOp : Operation)
    (ovsResult : OperationResult) : CbOut :=
  .ret txn ovsResult none

/-- The callback `doComment`: the key carries the current time, read from the clock. -/
def doComment (env : Env) (txn : Transaction) (ovsOp : Operation) (ovsResult : OperationResult) :
    CbOut :=
  let timestamp := env.Now txn.nClock
  let key := NewCommentKey txn.request.DBName timestamp
  match ovsOp.Comment with
  | none => .crash
  | some comment =>
    .ret { txn with
            nClock := txn.nClock + 1
            etcdTrx := { txn.etcdTrx with Then := txn.etcdTrx.Then ++ [.put (key.String env.root) comment] } }
      ovsResult none

/-- The callback `preAssert`. -/
def preAssert (_env : Env) (txn : Transaction) (_ovsOp : Operation)
    (ovsResult : OperationResult) : CbOut :=
  .ret txn ovsResult none

/-- The callback `doAssert`. -/
def doAssert (_env : Env) (txn : Transaction) (_ovsOp : Operation) (ovsResult : OperationResult) :
    CbOut :=
  .ret txn ovsResult none

/-! ## Removal of duplicate keys and the KV transaction (`transact.go`, lines 180-232) -/

/-- The first loop of `etcdRemoveDupThen`: `curr` is the index of the next operation,
`prevKeyIndex` maps a key to the index of its latest operation so far (the first entry of a key
is the current one), `duplicatedKeys` holds the indices to remove. -/
def etcdRemoveDupThenMark :
    List KvOp → Nat → List (String × Nat) → List Nat → List Nat
  | [], _, _, duplicatedKeys => duplicatedKeys
  | op :: rest, curr, prevKeyIndex, duplicatedKeys =>
    let key := op.KeyBytes
    let duplicatedKeys1 :=
      match prevKeyIndex.lookup key with
      | some prev => prev :: duplicatedKeys
      | none => duplicatedKeys
    etcdRemoveDupThenMark rest (curr + 1) ((key, curr) :: prevKeyIndex) duplicatedKeys1

/-- The second loop of `etcdRemoveDupThen`: the operations whose index is not marked. -/
def etcdRemoveDupThenKeep : List KvOp → Nat → List Nat → List KvOp
  | [], _, _ => []
  | op :: rest, inx, duplicatedKeys =>
    if inx ∈ duplicatedKeys then etcdRemoveDupThenKeep rest (inx + 1) duplicatedKeys
    else op :: etcdRemoveDupThenKeep rest (inx + 1) duplicatedKeys

/-- The method `Transaction.etcdRemoveDupThen`, on the list `txn.etcdTrx.Then`. -/
def etcdRemoveDupThen (then_ : List KvOp) : List KvOp :=
  etcdRemoveDupThenKeep then_ 0 (etcdRemoveDupThenMark then_ 0 [] [])

/-- The method `Transaction.etcdRemoveDup`. -/
def etcdRemoveDup (txn : Transaction) : Transaction :=
  { txn with etcdTrx := { txn.etcdTrx with Then := etcdRemoveDupThen txn.etcdTrx.Then } }

/-- A KV transaction as it is handed to the store by `etcdTransaction.Commit`. -/
structure KvTxn where
  If : List Cmp
  Then : List KvOp
  Else : List KvOp
  deriving DecidableEq, Repr, Inhabited

/-- What an execution of `Commit` did, in order: the callbacks it called, as pairs of the phase
(`0` for pre, `1` for do) and the index of the operation; the callbacks that returned an error,
with that error; and the KV transactions it handed to the store. Only `Commit` and
`etcdTransaction` write it. -/
structure Trace where
  calls : List (Nat × Nat) := []
  failures : List (Nat × Nat × String) := []
  submitted : List KvTxn := []
  deriving DecidableEq, Repr, Inhabited

/-- The method `Transaction.etcdTransaction`, with `etcdTransaction.Commit` inlined: the pending
transaction goes to the store, the answer is stored and read into the cache, the cache is
unmarshalled and validated. -/
def etcdTransactionRun (env : Env) (txn : Transaction) (tr : Trace) :
    Transaction × Trace × Except String TxnResponse :=
  let tr1 : Trace :=
    { tr with submitted := tr.submitted ++
        [{ If := txn.etcdTrx.If, Then := txn.etcdTrx.Then, Else := txn.etcdTrx.Else }] }
  match env.Txn tr.submitted.length txn.etcdTrx.If txn.etcdTrx.Then txn.etcdTrx.Else with
  | none => (txn, tr1, .error E_IO_ERROR)
  | some res =>
    let txn1 : Transaction :=
      { txn with etcdTrx := { txn.etcdTrx with Res := some res }
                 cache := txn.cache.GetFromEtcd res }
    match txn1.cache.Unmarshal env with
    | .error e => (txn1, tr1, .error e)
    | .ok c =>
      let txn2 : Transaction := { txn1 with cache := c }
      if Cache.Validate env txn2.cache then (txn2, tr1, .ok res)
      else (txn2, tr1, .error E_CONSTRAINT_VIOLATION)

/-! ## Commit (`transact.go`, lines 375-471) -/

/-- The type `ovsOpCallback`. -/
abbrev ovsOpCallback := Env → Transaction → Operation → OperationResult → CbOut

/-- The table `ovsOpCallbackMap`; an unknown name has no callbacks (in Go, two nil functions). -/
def ovsOpCallbackMap (op : String) : Option (ovsOpCallback × ovsOpCallback) :=
  if op = OP_INSERT then some (preInsert, doInsert)
  else if op = OP_SELECT then some (preSelect, doSelect)
  else if op = OP_UPDATE then some (preUpdate, doUpdate)
  else if op = OP_MUTATE then some (preMutate, doMutate)
  else if op = OP_DELETE then some (preDelete, doDelete)
  else if op = OP_WAIT then some (preWait, doWait)
  else if op = OP_COMMIT then some (preCommit, doCommit)
  else if op = OP_ABORT then some (preAbort, doAbort)
  else if op = OP_COMMENT then some (preComment, doComment)
  else if op = OP_ASSERT then some (preAssert, doAssert)
  else none

/-- The loop of `Commit` that verifies that `select` is not mixed with write operations: the
final values of `hasSelect` and `hasWrite`. -/
def compatLoop : List Operation → Bool → Bool → Bool × Bool
  | [], hasSelect, hasWrite => (hasSelect, hasWrite)
  | ovsOp :: rest, hasSelect, hasWrite =>
    if ovsOp.Op = OP_SELECT then
      if hasWrite then (true, hasWrite) else compatLoop rest true hasWrite
    else if ovsOp.Op = OP_DELETE ∨ ovsOp.Op = OP_MUTATE ∨ ovsOp.Op = OP_UPDATE
        ∨ ovsOp.Op = OP_INSERT then
      if hasSelect then (hasSelect, true) else compatLoop rest hasSelect true
    else compatLoop rest hasSelect hasWrite

/-- The outcome of one of the two callback loops of `Commit`. -/
inductive PhaseOut where
  | done (txn : Transaction) (tr : Trace)
  | failed (txn : Transaction) (tr : Trace) (err : String)
  | crash (tr : Trace)
  deriving Repr, Inhabited

/-- The two callback loops of `Commit` (`phase` is `0` for the loop of the pre callbacks and `1`
for the loop of the do callbacks): the operations still to run, the index `i` of the first of
them. A missing callback, a missing result slot and a cache that fails validation after a
callback are panics. -/
def runCallbacks (env : Env) (phase : Nat) :
    List Operation → Nat → Transaction → Trace → PhaseOut
  | [], _, txn, tr => .done txn tr
  | ovsOp :: rest, i, txn, tr =>
    match ovsOpCallbackMap ovsOp.Op with
    | none => .crash tr
    | some cbs =>
      match txn.response.Result[i]? with
      | none => .crash tr
      | some slot =>
        let tr1 : Trace := { tr with calls := tr.calls ++ [(phase, i)] }
        match (if phase = 0 then cbs.1 else cbs.2) env txn ovsOp slot with
        | .crash => .crash tr1
        | .ret txn1 slot1 err =>
          match err with
          | some errStr =>
            .failed
              { txn1 with
                response :=
                  { Result := txn1.response.Result.set i (slot1.SetError errStr)
                    Error := some errStr } }
              { tr1 with failures := tr1.failures ++ [(phase, i, errStr)] } errStr
          | none =>
            let txn2 : Transaction :=
              { txn1 with
                response := { txn1.response with Result := txn1.response.Result.set i slot1 } }
            if Cache.Validate env txn2.cache then runCallbacks env phase rest (i + 1) txn2 tr1
            else .crash tr1

/-- The outcome of `Commit`: it returns a revision (`-1` with an error), or it panics; in both
cases with the trace of what it did. -/
inductive CommitOut where
  | ret (txn : Transaction) (tr : Trace) (rev : Int) (err : Option String)
  | crash (tr : Trace)
  deriving Repr, Inhabited

/-- The two phases of `Commit`, after the compatibility check. -/
def commitPhases (env : Env) (txn : Transaction) : CommitOut :=
  let txn1 : Transaction := { txn with etcdTrx := txn.etcdTrx.Clear }
  match runCallbacks env 0 txn1.request.Operations 0 txn1 {} with
  | .crash tr => .crash tr
  | .failed t tr e => .ret t tr (-1) (some e)
  | .done txn2 tr2 =>
    match etcdTransactionRun env txn2 tr2 with
    | (txn3, tr3, .error e) =>
      .ret { txn3 with response := { txn3.response with Error := some e } } tr3 (-1) (some e)
    | (txn3, tr3, .ok _) =>
      let txn4 : Transaction := { txn3 with etcdTrx := txn3.etcdTrx.Clear }
      match runCallbacks env 1 txn4.request.Operations 0 txn4 tr3 with
      | .crash tr => .crash tr
      | .failed t tr e => .ret t tr (-1) (some e)
      | .done txn5 tr5 =>
        match etcdTransactionRun env (etcdRemoveDup txn5) tr5 with
        | (txn6, tr6, .error e) =>
          .ret { txn6 with response := { txn6.response with Error := some e } } tr6 (-1) (some e)
        | (txn6, tr6, .ok trResponse) => .ret txn6 tr6 trResponse.Revision none

/-- The method `Transaction.Commit`. -/
def Commit (env : Env) (txn : Transaction) : CommitOut :=
  let flags := compatLoop txn.request.Operations false false
  if flags.1 && flags.2 then
    .ret { txn with response := { txn.response with Error := some E_CONSTRAINT_VIOLATION } } {}
      (-1) (some E_CONSTRAINT_VIOLATION)
  else commitPhases env txn

/-! ## JSON values as the handler receives them -/

/-- A decoded JSON value, the Go `interface{}` that `encoding/json` produces: `nil`, `bool`,
`float64`, `string`, `[]interface{}` and `map[string]interface{}`. The numbers are the `float64`
values that hold an integer exactly (every integer up to `2^53` in absolute value is one); the
shortest decimal digits that denote such a value are the digits of the integer, without the
zeros at its end. The members of an object are listed in the increasing order of their keys,
the order in which `fmt` prints a map. -/
inductive Json where
  | null
  | bool (b : Bool)
  | num (i : Int)
  | str (s : String)
  | arr (l : List Json)
  | obj (l : List (String × Json))
  deriving Repr, Inhabited

/-- The digits without the zeros at their end. -/
def stripZeros (digits : List Char) : List Char :=
  (digits.reverse.dropWhile (fun c => c == '0')).reverse

/-- The verb `%v` of `fmt` on a `float64` that holds the integer `i`: the format `%g` of
`strconv` with the shortest digits. The decimal exponent is the number of digits of `i` minus
one; below 6 the integer is printed in plain digits, and from 6 on in the exponent form
`d.ddde+XX`, with the digits of `i` without the zeros at their end, no point when one digit is
left, and an exponent of two digits at least (`1000000` prints as `1e+06`). -/
def sprintFloat (i : Int) : String :=
  let digits := (toString i.natAbs).toList
  let sign := if i < 0 then "-" else ""
  let exp := digits.length - 1
  if exp < 6 then sign ++ String.mk digits
  else
    let fraction := stripZeros digits.tail
    sign ++ String.mk (digits.take 1) ++
      (if fraction.isEmpty then "" else "." ++ String.mk fraction) ++
      "e+" ++ (if exp < 10 then "0" else "") ++ toString exp

/-- The verb `%T` of `fmt` on a decoded JSON value: the name of its Go type. -/
def typeName : Json → String
  | .null => "<nil>"
  | .bool _ => "bool"
  | .num _ => "float64"
  | .str _ => "string"
  | .arr _ => "[]interface {}"
  | .obj _ => "map[string]interface {}"

mutual
/-- The verb `%v` of `fmt` on a decoded JSON value: `nil` prints as `<nil>`, a boolean as
`true` or `false`, a `float64` as `sprintFloat` says, a string as its characters with no quotes,
a slice as `[a b]` and a map as `map[k:v l:w]`. -/
def sprintV : Json → String
  | .null => "<nil>"
  | .bool b => if b then "true" else "false"
  | .num i => sprintFloat i
  | .str s => s
  | .arr l => "[" ++ sprintVList l ++ "]"
  | .obj l => "map[" ++ sprintVMembers l ++ "]"
/-- The elements of a slice, printed with one space between them. -/
def sprintVList : List Json → String
  | [] => ""
  | x :: rest => sprintV x ++ (if rest.isEmpty then "" else " ") ++ sprintVList rest
/-- The members of a map, printed as `key:value` with one space between them. -/
def sprintVMembers : List (String × Json) → String
  | [] => ""
  | (k, v) :: rest =>
    k ++ ":" ++ sprintV v ++ (if rest.isEmpty then "" else " ") ++ sprintVMembers rest
end

/-! ## The handler (`handler.go`) -/

/-- Modelled from the spec: a monitor-cond-request, "columns projection, `where` condition,
`select` flags", each of them optional and kept as decoded. -/
structure MonitorCondRequest where
  Columns : Option Json := none
  Where : Option Json := none
  Select : Option Json := none
  deriving Repr, Inhabited

/-- Modelled from the spec: the "notification dialect (`update` | `update2` | `update3`)". -/
inductive UpdateNotificationType where
  | Update
  | Update2
  | Update3
  deriving DecidableEq, Repr, Inhabited

/-- Modelled from the spec: the parsed parameters `(db, json-value, requests, [last-txn-id])`
of a monitor request, `ovsjson.CondMonitorParameters`. -/
structure CondMonitorParameters where
  DatabaseName : String := ""
  JsonValue : Json := .null
  MonitorCondRequests : List (String × List MonitorCondRequest) := []
  LastTxnID : Option String := none
  deriving Repr, Inhabited

/-- Modelled from the spec: an updater, built by `mcrToUpdater` from a monitor-cond-request, the
`json-value` string of its monitor and the dialect flag. -/
structure updater where
  mcr : MonitorCondRequest
  jasonValueStr : String
  isV1 : Bool
  deriving Repr, Inhabited

/-- Modelled from the spec: `mcrToUpdater`, "build an updater capturing: columns projection,
`where` condition, `select` flags". -/
def mcrToUpdater (mcr : MonitorCondRequest) (jsonValue : String) (isV1 : Bool) : updater :=
  { mcr := mcr, jasonValueStr := jsonValue, isV1 := isV1 }

/-- The type `Key2Updaters`: the updaters under the key of their table. -/
abbrev Key2Updaters := List (Key × List updater)

/-- Modelled from the spec: the watcher of one database with the updaters registered at it,
`dbMonitor`. -/
structure dbMonitor where
  dataBaseName : String
  started : Bool := false
  key2Updaters : Key2Updaters := []
  deriving Repr, Inhabited

/-- The type `handlerMonitorData`. -/
structure handlerMonitorData where
  dataBaseName : String
  notificationType : UpdateNotificationType
  updatersKeys : List Key
  jsonValue : Json
  deriving Repr, Inhabited

/-- A value of the interface `Locker` (`database.go`), known by its identity. -/
structure Locker where
  id : Nat
  deriving DecidableEq, Repr, Inhabited

/-- The type `ovsjson.EmptyStruct`. -/
structure EmptyStruct where
  deriving DecidableEq, Repr, Inhabited

/-- The tables of the type `Handler`: the monitors by database name, the monitor data by
`json-value` string, and the locks by lock id. -/
structure Handler where
  closed : Bool := false
  monitors : List (String × dbMonitor) := []
  handlerMonitorData : List (String × handlerMonitorData) := []
  databaseLocks : List (String × Locker) := []
  deriving Repr, Inhabited

/-- The code that the handler calls and that is declared elsewhere: `common.ParamsToString`,
`json.Marshal`, `json.Unmarshal` into `map[string][]ovsjson.MonitorCondRequest` and into
`map[string]ovsjson.MonitorCondRequest`, `Databaser.CreateMonitor`, `dbMonitor.start` and
`dbMonitor.addUpdaters`. -/
structure HandlerEnv where
  ParamsToString : Json → Except String String
  Marshal : Json → Except String String
  UnmarshalLists : String → Except String (List (String × List MonitorCondRequest))
  UnmarshalSingles : String → Except String (List (String × MonitorCondRequest))
  CreateMonitor : String → dbMonitor
  start : dbMonitor → dbMonitor
  addUpdaters : dbMonitor → Key2Updaters → dbMonitor

/-- Writing `m[key] = v` on a Go map with string keys: an existing entry is overwritten in
place, a new one is added. -/
def tableSet {α : Type} : List (String × α) → String → α → List (String × α)
  | [], key, v => [(key, v)]
  | (k, w) :: rest, key, v =>
    if k = key then (k, v) :: rest else (k, w) :: tableSet rest key v

/-- The builtin `delete(m, key)` on a Go map with string keys. -/
def tableDelete {α : Type} (m : List (String × α)) (key : String) : List (String × α) :=
  m.filter (fun e => !(e.1 == key))

/-- The method `Handler.Unlock`: the handler after the call, the result, the error (if any),
and the Lockers whose `cancel` has been called, in the order of the calls. -/
def Unlock (env : HandlerEnv) (ch : Handler) (param : Json) :
    Handler × EmptyStruct × Option String × List Locker :=
  match env.ParamsToString param with
  | .error err => (ch, {}, some err, [])
  | .ok id =>
    let myLock := ch.databaseLocks.lookup id
    let ch1 : Handler := { ch with databaseLocks := tableDelete ch.databaseLocks id }
    match myLock with
    | none => (ch1, {}, none, [])
    | some l => (ch1, {}, none, [l])

/-- The function `parseCondMonitorParameters`; reading a list at an index that it does not have
is a panic. -/
def parseCondMonitorParameters (env : HandlerEnv) (params : List Json) :
    Res CondMonitorParameters :=
  let l := params.length
  if l < 2 ∨ l > 4 then
    .err ("wrong length of condition dbMonitor parameters: " ++ toString l)
  else
    match (params[0]? : Option Json) with
    | none => .crash
    | some (.str databaseName) =>
      match (params[1]? : Option Json) with
      | none => .crash
      | some jsonValue =>
        match (params[2]? : Option Json) with
        | none => .crash
        | some requests =>
          match env.Marshal requests with
          | .error err => .err err
          | .ok buf =>
            let parsed : Except String (List (String × List MonitorCondRequest)) :=
              match env.UnmarshalLists buf with
              | .ok m => .ok m
              | .error _ =>
                match env.UnmarshalSingles buf with
                | .error err =>
                  .error ("unmarshal dbMonitor condition requests returned: " ++ err)
                | .ok obj => .ok (obj.map (fun kv => (kv.1, [kv.2])))
            match parsed with
            | .error err => .err err
            | .ok monitorCondRequests =>
              if l = 4 then
                match (params[3]? : Option Json) with
                | none => .crash
                | some (.str str) =>
                  .ok { DatabaseName := databaseName, JsonValue := jsonValue,
                        MonitorCondRequests := monitorCondRequests, LastTxnID := some str }
                | some p =>
                  .err ("parseCondMonitorParameters, cannot assert last txn ID interface (type "
                    ++ typeName p ++ ", value " ++ sprintV p ++ ") to string")
              else
                .ok { DatabaseName := databaseName, JsonValue := jsonValue,
                      MonitorCondRequests := monitorCondRequests, LastTxnID := none }
    | some p =>
      .err ("parseCondMonitorParameters, cannot assert dbname interface (type "
        ++ typeName p ++ ", value " ++ sprintV p ++ ") to string")

/-- The function `jsonValueToString`. -/
def jsonValueToString (jsonValue : Json) : String :=
  sprintV jsonValue

/-- The loop of `addMonitor` over the requested tables: the updaters by table key, and the
table keys. -/
def addMonitorLoop (databaseName jsonValueString : String)
    (notificationType : UpdateNotificationType) :
    List (String × List MonitorCondRequest) → Key2Updaters → List Key →
      Key2Updaters × List Key
  | [], updatersMap, updatersKeys => (updatersMap, updatersKeys)
  | (tableName, mcrs) :: rest, updatersMap, updatersKeys =>
    let updaters := mcrs.map (fun mcr =>
      mcrToUpdater mcr jsonValueString (decide (notificationType = .Update)))
    let key := NewTableKey databaseName tableName
    addMonitorLoop databaseName jsonValueString notificationType rest
      (if (updatersMap.lookup key).isSome then
        updatersMap.map (fun e => if e.1 = key then (e.1, updaters) else e)
       else updatersMap ++ [(key, updaters)])
      (updatersKeys ++ [key])

/-- The method `Handler.addMonitor`: the handler after the call and what the call returns. The
table `monitors` holds its monitors by pointer, so the monitor of the database in the table is
the monitor after `addUpdaters`, whether it was found there or created. -/
def addMonitor (env : HandlerEnv) (ch : Handler) (params : List Json)
    (notificationType : UpdateNotificationType) : Handler × Res Key2Updaters :=
  match parseCondMonitorParameters env params with
  | .crash => (ch, .crash)
  | .err err => (ch, .err err)
  | .ok cmpr =>
    if cmpr.DatabaseName.length = 0 then (ch, .err "monitored dataBase name is empty")
    else
      let jsonValueString := jsonValueToString cmpr.JsonValue
      if (ch.handlerMonitorData.lookup jsonValueString).isSome then
        (ch, .err "duplicate monitor ID")
      else
        let built := addMonitorLoop cmpr.DatabaseName jsonValueString notificationType
          cmpr.MonitorCondRequests [] []
        let monitor : dbMonitor :=
          match ch.monitors.lookup cmpr.DatabaseName with
          | some monitor => monitor
          | none => env.start (env.CreateMonitor cmpr.DatabaseName)
        ({ ch with
            monitors := tableSet ch.monitors cmpr.DatabaseName (env.addUpdaters monitor built.1)
            handlerMonitorData := tableSet ch.handlerMonitorData jsonValueString
              { dataBaseName := cmpr.DatabaseName
                notificationType := notificationType
                updatersKeys := built.2
                jsonValue := cmpr.JsonValue } },
          .ok built.1)

/-! ## Notions used by the statements -/

/-- The operations of a list whose key does not occur again later in the list. -/
def keepLast : List KvOp → List KvOp
  | [] => []
  | op :: rest =>
    if op.KeyBytes ∈ rest.map KvOp.KeyBytes then keepLast rest else op :: keepLast rest

/-- What a pre callback may change: it appends reads to the pending KV operations, and (for
`insert`) binds a name and draws from the UUID generator. -/
def PreFrame (txn txn1 : Transaction) (res res1 : OperationResult) : Prop :=
  res1 = res ∧ txn1.response = txn.response ∧ txn1.request = txn.request ∧
    txn1.cache = txn.cache ∧ txn1.etcdTrx.If = txn.etcdTrx.If ∧
    txn1.etcdTrx.Else = txn.etcdTrx.Else ∧
    ∃ gets, txn1.etcdTrx.Then = txn.etcdTrx.Then ++ gets ∧ ∀ o ∈ gets, o.isGet = true

/-- What every callback leaves unchanged: the error of its result slot (set by `Commit` only),
the response and the request. -/
def DoFrame (txn txn1 : Transaction) (res res1 : OperationResult) : Prop :=
  res1.Error = res.Error ∧ txn1.response = txn.response ∧ txn1.request = txn.request

/-- The calls of one callback loop, for `n` operations from index `i` on, in order. -/
def callsOf (phase i n : Nat) : List (Nat × Nat) :=
  (List.range n).map (fun j => (phase, i + j))

/-- The error carried by the result slot `j`, if the slot exists and carries one. -/
def slotError (txn : Transaction) (j : Nat) : Option String :=
  (txn.response.Result[j]?).bind (fun r => r.Error)

/-- What a callback loop over `n` operations from index `i` on, started in state `txn` with
trace `tr`, guarantees about its outcome. -/
def PhaseSpec (phase i n : Nat) (txn : Transaction) (tr : Trace) : PhaseOut → Prop
  | .done t tr1 =>
    tr1.calls = tr.calls ++ callsOf phase i n ∧ tr1.failures = tr.failures ∧
      tr1.submitted = tr.submitted ∧ t.request = txn.request ∧
      t.response.Error = txn.response.Error ∧
      t.response.Result.length = txn.response.Result.length ∧
      (∀ j, slotError t j = slotError txn j) ∧
      (∀ j, (j < i ∨ i + n ≤ j) → t.response.Result[j]? = txn.response.Result[j]?)
  | .failed t tr1 e =>
    ∃ k, k < n ∧ tr1.calls = tr.calls ++ callsOf phase i (k + 1) ∧
      tr1.failures = tr.failures ++ [(phase, i + k, e)] ∧
      tr1.submitted = tr.submitted ∧ t.request = txn.request ∧
      t.response.Error = some e ∧
      t.response.Result.length = txn.response.Result.length ∧
      slotError t (i + k) = some e ∧
      (∀ j, j ≠ i + k → slotError t j = slotError txn j) ∧
      (∀ j, (j < i ∨ i + k < j) → t.response.Result[j]? = txn.response.Result[j]?)
  | .crash tr1 =>
    ∃ k, k ≤ n ∧ tr1.calls = tr.calls ++ callsOf phase i k ∧ tr1.failures = tr.failures ∧
      tr1.submitted = tr.submitted

/-- Every operation of the KV transaction is a read, and it has no condition and no
else-branch. -/
def KvTxn.readOnly (k : KvTxn) : Prop :=
  k.If = [] ∧ k.Else = [] ∧ ∀ o ∈ k.Then, o.isGet = true

/-- The ways in which the two phases of `Commit`, started in state `txn` on `n` operations, can
end: a pre callback fails, the KV transaction of the pre phase fails, a do callback fails, the
final KV transaction fails, or `Commit` succeeds; or a panic, before the final KV
transaction. -/
def CommitSpec (txn : Transaction) (n : Nat) : CommitOut → Prop
  | .ret t tr rev err =>
    t.response.Result.length = txn.response.Result.length ∧
    ((∃ k e, k < n ∧ tr.calls = callsOf 0 0 (k + 1) ∧ tr.failures = [(0, k, e)] ∧
        tr.submitted = [] ∧ rev = -1 ∧ err = some e ∧ t.response.Error = some e ∧
        slotError t k = some e ∧ (∀ j, j ≠ k → slotError t j = slotError txn j) ∧
        (∀ j, k < j → t.response.Result[j]? = txn.response.Result[j]?)) ∨
      (∃ e pre, tr.calls = callsOf 0 0 n ∧ tr.failures = [] ∧ tr.submitted = [pre] ∧
        pre.readOnly ∧ rev = -1 ∧ err = some e ∧ t.response.Error = some e ∧
        (∀ j, slotError t j = slotError txn j)) ∨
      (∃ k e pre, k < n ∧ tr.calls = callsOf 0 0 n ++ callsOf 1 0 (k + 1) ∧
        tr.failures = [(1, k, e)] ∧ tr.submitted = [pre] ∧ pre.readOnly ∧ rev = -1 ∧
        err = some e ∧ t.response.Error = some e ∧ slotError t k = some e ∧
        (∀ j, j ≠ k → slotError t j = slotError txn j) ∧
        (∀ j, k < j → t.response.Result[j]? = txn.response.Result[j]?)) ∨
      (∃ e pre final, tr.calls = callsOf 0 0 n ++ callsOf 1 0 n ∧ tr.failures = [] ∧
        tr.submitted = [pre, final] ∧ pre.readOnly ∧ rev = -1 ∧ err = some e ∧
        t.response.Error = some e ∧ (∀ j, slotError t j = slotError txn j)) ∨
      (∃ pre final, tr.calls = callsOf 0 0 n ++ callsOf 1 0 n ∧ tr.failures = [] ∧
        tr.submitted = [pre, final] ∧ pre.readOnly ∧ err = none ∧
        t.response.Error = txn.response.Error ∧ (∀ j, slotError t j = slotError txn j)))
  | .crash tr =>
    tr.failures = [] ∧
      ((∃ k, k ≤ n ∧ tr.calls = callsOf 0 0 k ∧ tr.submitted = []) ∨
        (∃ k pre, k ≤ n ∧ tr.calls = callsOf 0 0 n ++ callsOf 1 0 k ∧ tr.submitted = [pre] ∧
          pre.readOnly))

/-- The operation list holds a `select` and holds a write (`insert`, `update`, `mutate` or
`delete`), at any positions. -/
def mixesSelectWithWrite (ops : List Operation) : Bool :=
  ops.any (fun o => o.Op == OP_SELECT) &&
    ops.any (fun o => o.Op == OP_INSERT || o.Op == OP_UPDATE || o.Op == OP_MUTATE
      || o.Op == OP_DELETE)

/-- The outcome of a `Commit` that is rejected by the compatibility check: revision `-1`, the
error and the response error are "constraint violation", nothing else of the transaction has
changed, no callback has been called and no KV transaction has been handed to the store. -/
def rejectedByCheck (txn : Transaction) : CommitOut → Prop
  | .ret t tr rev err =>
    rev = -1 ∧ err = some E_CONSTRAINT_VIOLATION ∧
      t = { txn with response := { txn.response with Error := some E_CONSTRAINT_VIOLATION } } ∧
      tr.calls = [] ∧ tr.submitted = []
  | .crash _ => False

/-! ## Inputs of the examples -/

/-- The schema of the examples: one table `T` with one string column `name`. -/
def exampleTable : TableSchema :=
  { Columns := [("name", { Typ := .string, Mutable := none })] }

/-- The environment of the examples: the schema `exampleTable`, rows that need no conversion
and are all valid, no condition and no mutation (every one is a syntax error), and a KV store
that is empty and accepts every transaction. -/
def exampleEnv : Env :=
  { root := "ovsdb"
    LookupTable := fun t => if t = "T" then some exampleTable else none
    Default := fun _ r => r
    Unmarshal := fun _ r => .ok r
    Validate := fun _ _ => none
    ValidateUUID := fun _ => none
    NewCondition := fun _ _ _ => .error E_SYNTAX_ERROR
    Compare := fun _ _ => .ok true
    NewMutation := fun _ _ _ => .error E_SYNTAX_ERROR
    Mutate := fun _ r => .ok r
    Marshal := fun _ => .ok "row"
    GenerateUUID := fun n => "uuid-" ++ toString n
    Now := fun _ => "2021-06-01T00:00:00Z"
    Txn := fun _ _ _ _ => some { Revision := 7, Kvs := [] } }

/-- The environment `exampleEnv` with a KV store that answers the first transaction (the reads
of the pre phase) and fails on every later one. -/
def exampleEnvFinalFails : Env :=
  { exampleEnv with
    Txn := fun n _ _ _ => if n = 0 then some { Revision := 7, Kvs := [] } else none }

/-- An `insert` of a row into table `T`. -/
def exampleInsert : Operation :=
  { Op := OP_INSERT, Table := some "T", Row := some [("name", .str "a")] }

/-- An `insert` that names no table. -/
def exampleInsertNoTable : Operation :=
  { Op := OP_INSERT, Row := some [("name", .str "a")] }

/-- A `select` of all the rows of table `T`. -/
def exampleSelect : Operation :=
  { Op := OP_SELECT, Table := some "T" }

/-- A `wait` on table `T` with a timeout and no `rows`. -/
def exampleWaitNoRows : Operation :=
  { Op := OP_WAIT, Table := some "T", Timeout := some 0 }

/-- A `wait` on table `T` with a timeout, an empty `rows` and no `until`. -/
def exampleWaitEmptyRows : Operation :=
  { Op := OP_WAIT, Table := some "T", Timeout := some 0, Rows := some [] }

/-- A `wait` on table `T` with no timeout. -/
def exampleWaitNoTimeout : Operation :=
  { Op := OP_WAIT, Table := some "T", Rows := some [[("name", .str "a")]], Until := some "==" }

/-- A `wait` on table `T` with one expected row and no `until`. -/
def exampleWaitNoUntil : Operation :=
  { Op := OP_WAIT, Table := some "T", Timeout := some 0, Rows := some [[("name", .str "a")]] }

/-- A `wait` on table `T` with one expected row and an `until` that is not a comparison. -/
def exampleWaitBadUntil : Operation :=
  { Op := OP_WAIT, Table := some "T", Timeout := some 0, Rows := some [[("name", .str "a")]],
    Until := some "<" }

/-- An `abort`. -/
def exampleAbort : Operation :=
  { Op := OP_ABORT }

/-- A `comment`. -/
def exampleComment : Operation :=
  { Op := OP_COMMENT, Comment := some "hello" }

/-- A `commit` with `durable` set. -/
def exampleCommitDurable : Operation :=
  { Op := OP_COMMIT, Durable := some true }

/-- A `commit` without the `durable` parameter. -/
def exampleCommitNoDurable : Operation :=
  { Op := OP_COMMIT }

/-- An `insert` of a row into table `T` under the uuid-name `a`. -/
def exampleInsertNamed : Operation :=
  { Op := OP_INSERT, Table := some "T", Row := some [("name", .str "a")], UUIDName := some "a" }

/-- A `select` on table `T` of the row whose `_uuid` is the one named `a`. -/
def exampleSelectNamed : Operation :=
  { Op := OP_SELECT, Table := some "T"
    Where := some [.list [.str "_uuid", .str "==", .list [.str "named-uuid", .str "a"]]] }

/-! ## Notions used by the statements on values -/

/-- The comparison of an expected and an actual map value that `isIncludesMap` makes: two
strings are compared after `splitAndSort`, all other values for deep equality. -/
def includesValue (expectedVal actualVal : Value) : Prop :=
  match expectedVal, actualVal with
  | .str s, .str t => splitAndSort s = splitAndSort t
  | _, _ => isEqualValue expectedVal actualVal = true

/-- The value is a uuid-name placeholder: a UUID whose text is not empty and is not a valid
UUID. -/
def isPlaceholder (env : Env) (value : Value) : Bool :=
  match value with
  | .uuid g => decide (g ≠ "") && (env.ValidateUUID g).isSome
  | _ => false

/-- The value with a bound placeholder replaced by the UUID bound to it; every other value is
left as it is. -/
def substitute (env : Env) (mapUUID : namedUUIDResolver) (value : Value) : Value :=
  match value with
  | .uuid g =>
    if isPlaceholder env value then
      match mapUUID.lookup g with
      | some uuid => .uuid uuid
      | none => value
    else value
  | _ => value

/-- The placeholder is not bound in the resolver. -/
def isUnbound (env : Env) (mapUUID : namedUUIDResolver) (value : Value) : Bool :=
  match value with
  | .uuid g => isPlaceholder env value && (mapUUID.lookup g).isNone
  | _ => false

/-! ## Inputs of the examples on values -/

/-- The environment `exampleEnv` with a UUID validation that accepts the strings of 36
characters. -/
def exampleEnvNames : Env :=
  { exampleEnv with
    ValidateUUID := fun s => if s.length = 36 then none else some "invalid uuid" }

/-- A resolver that binds the name `a`. -/
def exampleResolver : namedUUIDResolver :=
  [("a", "00000000-0000-0000-0000-000000000001")]

/-- A set-typed column. -/
def exampleSetColumn : ColumnSchema :=
  { Typ := .set, Mutable := none }

/-- An `insert` into table `T` that supplies the empty string as `uuid`. -/
def exampleInsertEmptyUUID : Operation :=
  { Op := OP_INSERT, Table := some "T", Row := some [("name", .str "a")], UUID := some "" }

/-! ## Inputs of the examples on the callbacks -/

/-- A state whose resolver binds the name `a` to a UUID under which the cache already holds a
row of table `T`. -/
def exampleTxnBoundRow : Transaction :=
  { NewTransaction { DBName := "db", Operations := [] } with
    mapUUID := exampleResolver
    cache := [(NewDataKey "db" "T" "00000000-0000-0000-0000-000000000001",
      [("name", .str "old")])] }

/-! ## Notions used by the statements on updates -/

/-- The column may not be written by an update: the table schema does not have it, or it is
`_uuid` or `_version`, or its schema says `mutable=false`. -/
def isBadColumn (tableSchema : TableSchema) (column : String) : Bool :=
  match tableSchema.LookupColumn column with
  | none => true
  | some columnSchema =>
    decide (column = COL_UUID ∨ column = COL_VERSION) || decide (columnSchema.Mutable = some false)

/-- The table schema has the column, with a map type. -/
def isMapColumn (tableSchema : TableSchema) (column : String) : Bool :=
  match tableSchema.LookupColumn column with
  | none => false
  | some columnSchema => decide (columnSchema.Typ = .map)

/-- The value is an atom: it is not a list, a set or a map. The keys of a map are atoms. -/
def Value.isAtom : Value → Bool
  | .list _ => false
  | .set _ => false
  | .emptySet => false
  | .map _ => false
  | .nilMap => false
  | _ => true

/-- Every column of the update that the schema types as a map holds a map that is not nil, in
the update and in the row that is updated. -/
def mapsWellTyped (tableSchema : TableSchema) (row update : Row) : Prop :=
  ∀ e ∈ update, isMapColumn tableSchema e.1 = true →
    ∃ oldMap newMap, row.get e.1 = .map oldMap ∧ e.2 = .map newMap

/-- A table schema with a string column `name`, a map column `opts` and an immutable string
column `fixed`. -/
def exampleTableMap : TableSchema :=
  { Columns := [("name", { Typ := .string, Mutable := none }),
      ("opts", { Typ := .map, Mutable := none }),
      ("fixed", { Typ := .string, Mutable := some false })] }

/-- A row of `exampleTableMap`. -/
def exampleRowMap : Row :=
  [("name", .str "a"), ("opts", .map [(.str "k", .str "v"), (.str "l", .str "w")]),
    ("fixed", .str "f")]

/-- An update of `exampleRowMap`: a new `name` and one entry of `opts`. -/
def exampleUpdateMap : Row :=
  [("name", .str "b"), ("opts", .map [(.str "k", .str "z")])]

/-- The row `exampleRowMap` after the update `exampleUpdateMap`. -/
def exampleRowMapUpdated : Row :=
  [("name", .str "b"), ("opts", .map [(.str "k", .str "z"), (.str "l", .str "w")]),
    ("fixed", .str "f")]

/-- An `insert` into table `T` that supplies a `uuid`. -/
def exampleInsertUUID : Operation :=
  { Op := OP_INSERT, Table := some "T", Row := some [("name", .str "a")],
    UUID := some "00000000-0000-0000-0000-000000000001" }

/-! ## Notions used by the statements on the loops over the cached table -/

/-- The where-clause is evaluated on the row without error, and selects it. -/
def rowSelected (env : Env) (tableSchema : TableSchema) (mapUUID : namedUUIDResolver)
    (where_ : Option (List Value)) (row : Row) : Bool :=
  match isRowSelectedByWhere env tableSchema mapUUID row where_ with
  | .ok true => true
  | _ => false

/-- The rows of the table that the where-clause selects, in the order of the table. -/
def selectedRows (env : Env) (tableSchema : TableSchema) (mapUUID : namedUUIDResolver)
    (where_ : Option (List Value)) (table : List (String × Row)) : List (String × Row) :=
  table.filter (fun e => rowSelected env tableSchema mapUUID where_ e.2)

/-- The rows `ws` are written for the rows `sel`, one for each, in order and under the same
UUID; `P n row new` relates a row to the row written for it, `n` being the number of UUIDs
generated before the write. -/
def Writes (P : Nat → Row → Row → Prop) :
    Nat → List (String × Row) → List (String × Row) → Prop
  | _, [], [] => True
  | n, (uuid, row) :: sel, (uuid2, new) :: ws =>
    uuid2 = uuid ∧ P n row new ∧ Writes P (n + 1) sel ws
  | _, _, _ => False

/-- The `Put` operations of the written rows: one for each row that the JSON encoder accepts. -/
def putsOf (env : Env) (db table : String) (ws : List (String × Row)) : List KvOp :=
  ws.filterMap (fun w =>
    match env.Marshal w.2 with
    | .ok val => some (.put ((NewDataKey db table w.1).String env.root) val)
    | .error _ => none)

/-- The `Delete` operations of the rows. -/
def deletesOf (env : Env) (db table : String) (sel : List (String × Row)) : List KvOp :=
  sel.map (fun e => .delete ((NewDataKey db table e.1).String env.root))

/-- The cache after the written rows have been stored, in order. -/
def cacheAfter (c : Cache) (db table : String) (ws : List (String × Row)) : Cache :=
  ws.foldl (fun c w => c.setRow (NewDataKey db table w.1) w.2) c

/-- What a loop over the cached table changes in the transaction, apart from the cache: it
appends `ops` to the pending KV operations and draws `n` UUIDs from the generator. -/
def LoopFrame (txn txn1 : Transaction) (ops : List KvOp) (n : Nat) : Prop :=
  txn1.etcdTrx.Then = txn.etcdTrx.Then ++ ops ∧ txn1.etcdTrx.If = txn.etcdTrx.If ∧
    txn1.etcdTrx.Else = txn.etcdTrx.Else ∧ txn1.mapUUID = txn.mapUUID ∧
    txn1.request = txn.request ∧ txn1.response = txn.response ∧
    txn1.nUUID = txn.nUUID + n ∧ txn1.nClock = txn.nClock

/-- The row `new` is written by `doUpdate` for the cached row `row`: it is the result of the
column updates on the unmarshalled cached row, with the `n`-th UUID of the generator as
`_version`. -/
def UpdateWrite (env : Env) (tableSchema : TableSchema) (n : Nat) (row new : Row) : Prop :=
  ∃ cur update newRow0, env.Unmarshal tableSchema row = .ok cur ∧
    RowUpdateLoop tableSchema update cur = .ok newRow0 ∧
    new = newRow0.set COL_VERSION (.uuid (env.GenerateUUID n))

/-- The row `new` is written by `doMutate` for the cached row `row`: it is the mutated row,
with the `n`-th UUID of the generator as `_version`. -/
def MutateWrite (env : Env) (tableSchema : TableSchema) (mapUUID : namedUUIDResolver)
    (mutations : Option (List Value)) (n : Nat) (row new : Row) : Prop :=
  ∃ newRow0, RowMutate env tableSchema mapUUID row mutations = .ok newRow0 ∧
    new = newRow0.set COL_VERSION (.uuid (env.GenerateUUID n))

/-- A state whose cache holds one row of table `T`, under the UUID `u1`. -/
def exampleTxnOneRow : Transaction :=
  { NewTransaction { DBName := "db", Operations := [] } with
    cache := [(NewDataKey "db" "T" "u1",
      [("name", .str "old"), ("_uuid", .uuid "u1"), ("_version", .uuid "v0")])] }

/-- An `update` of all the rows of table `T`. -/
def exampleUpdate : Operation :=
  { Op := OP_UPDATE, Table := some "T", Row := some [("name", .str "b")] }

/-- A `mutate` of all the rows of table `T`, with no mutation. -/
def exampleMutate : Operation :=
  { Op := OP_MUTATE, Table := some "T", Mutations := some [] }

/-- A `delete` of all the rows of table `T`. -/
def exampleDelete : Operation :=
  { Op := OP_DELETE, Table := some "T" }

/-- The environment `exampleEnv` with a JSON encoder that fails on every row. -/
def exampleEnvNoJSON : Env :=
  { exampleEnv with Marshal := fun _ => .error "json: unsupported value" }

/-- The environment `exampleEnv` with a KV store that holds one row of table `T`, under the
UUID `u1`, and accepts every transaction. -/
def exampleEnvOneRow : Env :=
  { exampleEnv with
    Txn := fun _ _ _ _ =>
      some { Revision := 7
             Kvs := [(NewDataKey "db" "T" "u1",
               [("name", .str "old"), ("_uuid", .uuid "u1"), ("_version", .uuid "v0")])] } }

/-- The environment `exampleEnv` with conditions `[column, function, value]` on the columns of
the schema (a condition on any other column is an error), compared for equality of strings. -/
def exampleEnvCond : Env :=
  { exampleEnv with
    NewCondition := fun tableSchema _ cond =>
      match cond with
      | [.str column, .str function, value] =>
        if (tableSchema.LookupColumn column).isSome then
          .ok { Column := column, Function := function, Value := value }
        else .error E_SYNTAX_ERROR
      | _ => .error E_SYNTAX_ERROR
    Compare := fun condition row =>
      match row.get condition.Column, condition.Value with
      | .str a, .str b => .ok (a == b)
      | _, _ => .error E_SYNTAX_ERROR }

/-- A where-clause of two conditions: the first does not hold on a row whose `name` is not `b`,
the second names an unknown column and cannot be built. -/
def exampleWhere : List Value :=
  [.list [.str "name", .str "==", .str "b"], .list [.str "nocolumn", .str "==", .str "x"]]

/-- The where-clause `exampleWhere` with its two conditions swapped. -/
def exampleWhereSwapped : List Value :=
  [.list [.str "nocolumn", .str "==", .str "x"], .list [.str "name", .str "==", .str "b"]]

/-- The environment `exampleEnv` with a schema validation that rejects the rows named `bad`
and a KV store that answers the second transaction with such a row. -/
def exampleEnvInvalid : Env :=
  { exampleEnv with
    Validate := fun _ row =>
      match row.get "name" with
      | .str "bad" => some "invalid row"
      | _ => none
    Txn := fun n _ _ _ =>
      if n = 0 then some { Revision := 7, Kvs := [] }
      else some { Revision := 8, Kvs := [(NewDataKey "db" "T" "u1", [("name", .str "bad")])] } }

/-! ## Notions used by the statements on `wait` -/

/-- The actual row has, under every column of the expected row, a value equal to the expected
one for the comparison of the type of the column. -/
def equalOnColumns (tableSchema : TableSchema) (expected actual : Row) : Prop :=
  ∀ cv ∈ expected, ∃ columnSchema, tableSchema.LookupColumn cv.1 = some columnSchema ∧
    isEqualColumn columnSchema cv.2 (actual.get cv.1) = true

/-- Some row of the table that the where-clause selects, reduced to the columns of the
operation when it has columns, is equal to some expected row, in its prepared form, on every
column of that row. -/
def waitPair (env : Env) (tableSchema : TableSchema) (mapUUID : namedUUIDResolver)
    (ovsOp : Operation) (table : List (String × Row)) (rows : List Row) : Prop :=
  ∃ e ∈ selectedRows env tableSchema mapUUID ovsOp.Where table, ∃ r ∈ rows, ∃ r1,
    RowPrepare env tableSchema mapUUID r = .ok r1 ∧
      equalOnColumns tableSchema r1 (reduceRowByColumns e.2 ovsOp.Columns)

/-- The prepared form of an expected row; a row that cannot be prepared is left as it is. -/
def preparedRow (env : Env) (tableSchema : TableSchema) (mapUUID : namedUUIDResolver)
    (row : Row) : Row :=
  match RowPrepare env tableSchema mapUUID row with
  | .ok row1 => row1
  | .error _ => row

/-- The rows are compared without error, and are equal. -/
def rowsEqual (tableSchema : TableSchema) (expected actual : Row) : Bool :=
  match isEqualRow tableSchema expected actual with
  | .ok true => true
  | _ => false

/-- A `wait` until some row of table `T` is named `old`. -/
def exampleWaitOld : Operation :=
  { Op := OP_WAIT, Table := some "T", Timeout := some 0, Rows := some [[("name", .str "old")]],
    Until := some FN_EQ }

/-! ## Inputs of the examples on the handler -/

/-- The environment of the examples on the handler: a lock id is a string or a list of one
string, every value is encoded, every encoding is decoded to an empty set of requests, a new
monitor has no updaters, `start` marks it as started and `addUpdaters` adds the updaters after
those it has. -/
def exampleHandlerEnv : HandlerEnv :=
  { ParamsToString := fun param =>
      match param with
      | .str s => .ok s
      | .arr [.str s] => .ok s
      | _ => .error "param is not a string"
    Marshal := fun _ => .ok "\x7b\x7d"
    UnmarshalLists := fun _ => .ok []
    UnmarshalSingles := fun _ => .ok []
    CreateMonitor := fun dbName => { dataBaseName := dbName }
    start := fun m => { m with started := true }
    addUpdaters := fun m updatersMap =>
      { m with key2Updaters := m.key2Updaters ++ updatersMap } }

/-- A handler that holds the locks `a` and `b`. -/
def exampleHandlerLocks : Handler :=
  { databaseLocks := [("a", { id := 1 }), ("b", { id := 2 })] }

/-! ## Notions used by the statements on the where-clause -/

/-- The condition holds on the row: it is a JSON array, a condition is built from it, and the
comparison of that condition with the row answers true. -/
def conditionHolds (env : Env) (tableSchema : TableSchema) (mapUUID : namedUUIDResolver)
    (row : Row) (c : Value) : Bool :=
  match c with
  | .list cond =>
    match env.NewCondition tableSchema mapUUID cond with
    | .ok condition =>
      match env.Compare condition row with
      | .ok true => true
      | _ => false
    | .error _ => false
  | _ => false

/-- Every condition of the where-clause holds on the row; with no where-clause every row
qualifies. -/
def whereHolds (env : Env) (tableSchema : TableSchema) (mapUUID : namedUUIDResolver)
    (where_ : Option (List Value)) (row : Row) : Bool :=
  match where_ with
  | none => true
  | some w => w.all (conditionHolds env tableSchema mapUUID row)

/-- A state whose cache holds two rows of table `T`: `u1`, named `old`, and `u2`, named `new`. -/
def exampleTxnTwoRows : Transaction :=
  { NewTransaction { DBName := "db", Operations := [] } with
    cache := [(NewDataKey "db" "T" "u1",
        [("name", .str "old"), ("_uuid", .uuid "u1"), ("_version", .uuid "v0")]),
      (NewDataKey "db" "T" "u2",
        [("name", .str "new"), ("_uuid", .uuid "u2"), ("_version", .uuid "v0")])] }

/-- A `select` of the column `name` of the rows of table `T` that are named `old`. -/
def exampleSelectOld : Operation :=
  { Op := OP_SELECT, Table := some "T", Columns := some ["name"],
    Where := some [.list [.str "name", .str "==", .str "old"]] }

/-- An `update` of the rows of table `T` that are named `old`. -/
def exampleUpdateOld : Operation :=
  { Op := OP_UPDATE, Table := some "T", Row := some [("name", .str "b")],
    Where := some [.list [.str "name", .str "==", .str "old"]] }

/-! ## Inputs of the examples on sets and maps -/

/-- A table schema with one set column `tags`. -/
def exampleTableSet : TableSchema :=
  { Columns := [("tags", exampleSetColumn)] }

/-- The environment `exampleEnv` with the schema `exampleTableSet` for table `T`. -/
def exampleEnvSet : Env :=
  { exampleEnv with LookupTable := fun t => if t = "T" then some exampleTableSet else none }

/-- A state whose cache holds one row of table `T`, whose set `tags` has no element (an empty
slice, as decoded). -/
def exampleTxnEmptySet : Transaction :=
  { NewTransaction { DBName := "db", Operations := [] } with
    cache := [(NewDataKey "db" "T" "u1",
      [("tags", .emptySet), ("_uuid", .uuid "u1"), ("_version", .uuid "v0")])] }

/-- A `wait` until some row of table `T`, reduced to the column `tags`, has a set `tags` with no
element. -/
def exampleWaitEmptySet : Operation :=
  { Op := OP_WAIT, Table := some "T", Timeout := some 0, Columns := some ["tags"],
    Rows := some [[("tags", .emptySet)]], Until := some FN_EQ }

/-- A row of `exampleTableMap` whose map `opts` is the zero value `OvsMap{}`. -/
def exampleRowNilMap : Row :=
  [("name", .str "a"), ("opts", .nilMap)]

end Ovsdb

namespace Ovsdb

/-! ## Removal of duplicate keys -/

theorem mem_etcdRemoveDupThenMark (rest : List KvOp) :
    ∀ (curr : Nat) (prev : List (String × Nat)) (dups : List Nat) (i : Nat),
      i ∈ etcdRemoveDupThenMark rest curr prev dups ↔
        (i ∈ dups ∨ (∃ k ∈ rest.map KvOp.KeyBytes, prev.lookup k = some i) ∨
          ∃ n op, i = curr + n ∧ rest[n]? = some op ∧
            op.KeyBytes ∈ (rest.drop (n + 1)).map KvOp.KeyBytes) := by
  induction rest with
  | nil => intro curr prev dups i; simp [etcdRemoveDupThenMark]
  | cons op rest ih =>
    intro curr prev dups i
    simp only [etcdRemoveDupThenMark]
    rw [ih]
    constructor
    · rintro (h | ⟨k, hk, hl⟩ | ⟨n, o, hi, hn, ho⟩)
      · cases hp : prev.lookup op.KeyBytes with
        | none => rw [hp] at h; exact Or.inl h
        | some p =>
          rw [hp] at h
          rcases List.mem_cons.1 h with h | h
          · subst h
            exact Or.inr (Or.inl ⟨op.KeyBytes, by simp, hp⟩)
          · exact Or.inl h
      · by_cases hkk : k = op.KeyBytes
        · subst hkk
          simp [List.lookup] at hl
          subst hl
          exact Or.inr (Or.inr ⟨0, op, by simp, by simp, by simpa using hk⟩)
        · have : (k == op.KeyBytes) = false := by simpa using hkk
          simp [List.lookup, this] at hl
          exact Or.inr (Or.inl ⟨k, by simp at hk ⊢; exact Or.inr hk, hl⟩)
      · exact Or.inr (Or.inr ⟨n + 1, o, by omega, by simpa using hn, by simpa using ho⟩)
    · rintro (h | ⟨k, hk, hl⟩ | ⟨n, o, hi, hn, ho⟩)
      · left
        cases hp : prev.lookup op.KeyBytes with
        | none => exact h
        | some p => exact List.mem_cons_of_mem _ h
      · by_cases hkk : k = op.KeyBytes
        · subst hkk
          left
          rw [hl]
          exact List.mem_cons_self _ _
        · have hb : (k == op.KeyBytes) = false := by simpa using hkk
          right; left
          refine ⟨k, ?_, ?_⟩
          · simp at hk ⊢
            rcases hk with hk | hk
            · exact absurd hk.symm (by simpa using fun h => hkk h.symm)
            · exact hk
          · simp [List.lookup, hb, hl]
      · cases n with
        | zero =>
          simp at hn
          subst hn
          right; left
          refine ⟨op.KeyBytes, by simpa using ho, ?_⟩
          simp [List.lookup, hi]
        | succ m =>
          right; right
          exact ⟨m, o, by omega, by simpa using hn, by simpa using ho⟩

theorem etcdRemoveDupThenKeep_eq (rest : List KvOp) :
    ∀ (inx : Nat) (dups : List Nat),
      (∀ n op, rest[n]? = some op →
        (inx + n ∈ dups ↔ op.KeyBytes ∈ (rest.drop (n + 1)).map KvOp.KeyBytes)) →
      etcdRemoveDupThenKeep rest inx dups = keepLast rest := by
  induction rest with
  | nil => intro inx dups _; rfl
  | cons op rest ih =>
    intro inx dups h
    have h0 := h 0 op (by simp)
    have hrest : etcdRemoveDupThenKeep rest (inx + 1) dups = keepLast rest := by
      apply ih
      intro n o hn
      have := h (n + 1) o (by simpa using hn)
      simpa [Nat.add_assoc, Nat.add_comm 1 n] using this
    simp only [etcdRemoveDupThenKeep, keepLast, hrest]
    simp only [Nat.add_zero, List.drop_succ_cons, List.drop_zero] at h0
    by_cases hm : inx ∈ dups
    · rw [if_pos hm, if_pos (h0.1 hm)]
    · rw [if_neg hm, if_neg (fun hk => hm (h0.2 hk))]

theorem etcdRemoveDupThen_eq_keepLast (l : List KvOp) : etcdRemoveDupThen l = keepLast l := by
  unfold etcdRemoveDupThen
  apply etcdRemoveDupThenKeep_eq
  intro n op hn
  rw [mem_etcdRemoveDupThenMark]
  constructor
  · rintro (h | ⟨k, _, hl⟩ | ⟨m, o, hi, hm, ho⟩)
    · simp at h
    · simp at hl
    · have : m = n := by omega
      subst this
      rw [hn] at hm
      cases hm
      exact ho
  · intro h
    exact Or.inr (Or.inr ⟨n, op, by omega, hn, h⟩)

theorem keepLast_sublist (l : List KvOp) : (keepLast l).Sublist l := by
  induction l with
  | nil => exact List.Sublist.slnil
  | cons op rest ih =>
    simp only [keepLast]
    split
    · exact List.Sublist.cons _ ih
    · exact List.Sublist.cons₂ _ ih

theorem keepLast_keys_nodup (l : List KvOp) : ((keepLast l).map KvOp.KeyBytes).Nodup := by
  induction l with
  | nil => simp [keepLast]
  | cons op rest ih =>
    simp only [keepLast]
    split
    · exact ih
    · rename_i h
      rw [List.map_cons, List.nodup_cons]
      exact ⟨fun hk => h (((keepLast_sublist rest).map KvOp.KeyBytes).subset hk), ih⟩

theorem keepLast_filter_key (l : List KvOp) (k : String) :
    (keepLast l).filter (fun o => o.KeyBytes == k) =
      ((l.filter (fun o => o.KeyBytes == k)).getLast?).toList := by
  induction l with
  | nil => simp [keepLast]
  | cons op rest ih =>
    by_cases hk : op.KeyBytes = k
    · by_cases hm : op.KeyBytes ∈ rest.map KvOp.KeyBytes
      · simp only [keepLast, if_pos hm, ih]
        have hne : rest.filter (fun o => o.KeyBytes == k) ≠ [] := by
          rw [hk] at hm
          obtain ⟨o, ho, hok⟩ := List.mem_map.1 hm
          intro hnil
          have : o ∈ rest.filter (fun o => o.KeyBytes == k) :=
            List.mem_filter.2 ⟨ho, by simpa using hok⟩
          rw [hnil] at this
          exact absurd this (List.not_mem_nil _)
        obtain ⟨a, t, hat⟩ := List.exists_cons_of_ne_nil hne
        simp [List.filter_cons, hk, hat, List.getLast?_cons_cons]
      · simp only [keepLast, if_neg hm]
        have hnil : rest.filter (fun o => o.KeyBytes == k) = [] := by
          rw [List.filter_eq_nil_iff]
          intro o ho hok
          apply hm
          rw [hk]
          exact List.mem_map.2 ⟨o, ho, by simpa using hok⟩
        have hnil2 : (keepLast rest).filter (fun o => o.KeyBytes == k) = [] := by
          rw [ih, hnil]; rfl
        simp [List.filter_cons, hk, hnil, hnil2]
    · have hb : (op.KeyBytes == k) = false := by simpa using hk
      by_cases hm : op.KeyBytes ∈ rest.map KvOp.KeyBytes
      · simp only [keepLast, if_pos hm, ih, List.filter_cons, hb]
        simp
      · simp only [keepLast, if_neg hm, List.filter_cons, hb, ih]
        simp

theorem keepLast_eq_filter_enum (pre rest : List KvOp) :
    ((rest.enumFrom pre.length).filter (fun p =>
        !(((pre ++ rest).drop (p.1 + 1)).any (fun o => o.KeyBytes == p.2.KeyBytes)))).map Prod.snd
      = keepLast rest := by
  induction rest generalizing pre with
  | nil => simp [keepLast]
  | cons op rest ih =>
    have hrec := ih (pre ++ [op])
    simp only [List.length_append, List.length_singleton, List.append_assoc,
      List.singleton_append] at hrec
    simp only [List.enumFrom_cons, List.filter_cons, keepLast]
    have hdrop : (pre ++ op :: rest).drop (pre.length + 1) = rest := by
      rw [show pre ++ op :: rest = (pre ++ [op]) ++ rest by simp]
      rw [List.drop_append_of_le_length (by simp)]
      simp
    rw [hdrop]
    by_cases hm : op.KeyBytes ∈ rest.map KvOp.KeyBytes
    · have hany : rest.any (fun o => o.KeyBytes == op.KeyBytes) = true := by
        obtain ⟨o, ho, hok⟩ := List.mem_map.1 hm
        exact List.any_eq_true.2 ⟨o, ho, by simpa using hok⟩
      simp only [hany, Bool.not_true, if_pos hm]
      simpa using hrec
    · have hany : rest.any (fun o => o.KeyBytes == op.KeyBytes) = false := by
        rw [List.any_eq_false]
        intro o ho hok
        exact hm (List.mem_map.2 ⟨o, ho, by simpa using hok⟩)
      simp only [hany, Bool.not_false, if_neg hm]
      simpa using hrec

/-- Claim C3. `etcdRemoveDupThen` keeps exactly the operations at the positions `i` of the list
such that no operation at a later position (an element of `l.drop (i + 1)`) has the same key, in
their order in the list; hence the result is a sublist of `l`, the survivors with a given key
are exactly the last operation of `l` with that key, and no two survivors have the same key. -/
theorem etcdRemoveDupThen_keeps_last (l : List KvOp) :
    etcdRemoveDupThen l =
        ((l.enum.filter (fun p =>
          !((l.drop (p.1 + 1)).any (fun o => o.KeyBytes == p.2.KeyBytes)))).map Prod.snd) ∧
      (etcdRemoveDupThen l).Sublist l ∧
      (∀ k : String, (etcdRemoveDupThen l).filter (fun o => o.KeyBytes == k) =
        ((l.filter (fun o => o.KeyBytes == k)).getLast?).toList) ∧
      ((etcdRemoveDupThen l).map KvOp.KeyBytes).Nodup := by
  rw [etcdRemoveDupThen_eq_keepLast]
  refine ⟨?_, keepLast_sublist l, keepLast_filter_key l, keepLast_keys_nodup l⟩
  have := keepLast_eq_filter_enum [] l
  simpa [List.enum] using this.symm

/-! ## What the callbacks leave unchanged -/

theorem PreFrame.refl (txn : Transaction) (res : OperationResult) : PreFrame txn txn res res :=
  ⟨rfl, rfl, rfl, rfl, rfl, rfl, [], (List.append_nil _).symm,
    fun _ h => absurd h (List.not_mem_nil _)⟩

theorem etcdGetData_frame (env : Env) (txn : Transaction) (key : Key) (res : OperationResult) :
    PreFrame txn (etcdGetData env txn key) res res :=
  ⟨rfl, rfl, rfl, rfl, rfl, rfl, [.get (key.String env.root)], rfl, by simp [KvOp.isGet]⟩

theorem etcdGetByWhere_frame {env : Env} {txn txn1 : Transaction} {op : Operation}
    {res res1 : OperationResult} {err : Option String}
    (h : etcdGetByWhere env txn op res = .ret txn1 res1 err) : PreFrame txn txn1 res res1 := by
  unfold etcdGetByWhere at h
  split at h
  · cases h
  · split at h
    · cases h; exact PreFrame.refl _ _
    · split at h
      · cases h; exact PreFrame.refl _ _
      · cases h; exact etcdGetData_frame _ _ _ _

theorem preInsert_frame {env : Env} {txn txn1 : Transaction} {op : Operation}
    {res res1 : OperationResult} {err : Option String}
    (h : preInsert env txn op res = .ret txn1 res1 err) : PreFrame txn txn1 res res1 := by
  cases hn : op.UUIDName <;> cases hu : op.UUID <;> cases ht : op.Table <;>
    simp only [preInsert, hn, hu, ht] at h <;> (try split at h) <;> (try split at h) <;>
    (try cases h) <;>
    first
      | exact ⟨rfl, rfl, rfl, rfl, rfl, rfl, [], (List.append_nil _).symm,
          fun _ h => absurd h (List.not_mem_nil _)⟩
      | exact ⟨rfl, rfl, rfl, rfl, rfl, rfl, [KvOp.get _], rfl,
          fun _ h => by rw [List.mem_singleton.1 h]; rfl⟩

theorem ovsOpCallbackMap_cases {name : String} {cbs : ovsOpCallback × ovsOpCallback}
    (hc : ovsOpCallbackMap name = some cbs) :
    (name = OP_INSERT ∧ cbs = (preInsert, doInsert)) ∨
    (name = OP_SELECT ∧ cbs = (preSelect, doSelect)) ∨
    (name = OP_UPDATE ∧ cbs = (preUpdate, doUpdate)) ∨
    (name = OP_MUTATE ∧ cbs = (preMutate, doMutate)) ∨
    (name = OP_DELETE ∧ cbs = (preDelete, doDelete)) ∨
    (name = OP_WAIT ∧ cbs = (preWait, doWait)) ∨
    (name = OP_COMMIT ∧ cbs = (preCommit, doCommit)) ∨
    (name = OP_ABORT ∧ cbs = (preAbort, doAbort)) ∨
    (name = OP_COMMENT ∧ cbs = (preComment, doComment)) ∨
    (name = OP_ASSERT ∧ cbs = (preAssert, doAssert)) := by
  unfold ovsOpCallbackMap at hc
  by_cases h1 : name = OP_INSERT
  · rw [if_pos h1] at hc
    have hcbs := Option.some.inj hc
    subst hcbs
    exact Or.inl ⟨h1, rfl⟩
  rw [if_neg h1] at hc
  by_cases h2 : name = OP_SELECT
  · rw [if_pos h2] at hc
    have hcbs := Option.some.inj hc
    subst hcbs
    exact Or.inr (Or.inl ⟨h2, rfl⟩)
  rw [if_neg h2] at hc
  by_cases h3 : name = OP_UPDATE
  · rw [if_pos h3] at hc
    have hcbs := Option.some.inj hc
    subst hcbs
    exact Or.inr (Or.inr (Or.inl ⟨h3, rfl⟩))
  rw [if_neg h3] at hc
  by_cases h4 : name = OP_MUTATE
  · rw [if_pos h4] at hc
    have hcbs := Option.some.inj hc
    subst hcbs
    exact Or.inr (Or.inr (Or.inr (Or.inl ⟨h4, rfl⟩)))
  rw [if_neg h4] at hc
  by_cases h5 : name = OP_DELETE
  · rw [if_pos h5] at hc
    have hcbs := Option.some.inj hc
    subst hcbs
    exact Or.inr (Or.inr (Or.inr (Or.inr (Or.inl ⟨h5, rfl⟩))))
  rw [if_neg h5] at hc
  by_cases h6 : name = OP_WAIT
  · rw [if_pos h6] at hc
    have hcbs := Option.some.inj hc
    subst hcbs
    exact Or.inr (Or.inr (Or.inr (Or.inr (Or.inr (Or.inl ⟨h6, rfl⟩)))))
  rw [if_neg h6] at hc
  by_cases h7 : name = OP_COMMIT
  · rw [if_pos h7] at hc
    have hcbs := Option.some.inj hc
    subst hcbs
    exact Or.inr (Or.inr (Or.inr (Or.inr (Or.inr (Or.inr (Or.inl ⟨h7, rfl⟩))))))
  rw [if_neg h7] at hc
  by_cases h8 : name = OP_ABORT
  · rw [if_pos h8] at hc
    have hcbs := Option.some.inj hc
    subst hcbs
    exact Or.inr (Or.inr (Or.inr (Or.inr (Or.inr (Or.inr (Or.inr (Or.inl ⟨h8, rfl⟩)))))))
  rw [if_neg h8] at hc
  by_cases h9 : name = OP_COMMENT
  · rw [if_pos h9] at hc
    have hcbs := Option.some.inj hc
    subst hcbs
    exact Or.inr (Or.inr (Or.inr (Or.inr (Or.inr (Or.inr (Or.inr (Or.inr (Or.inl ⟨h9, rfl⟩))))))))
  rw [if_neg h9] at hc
  by_cases h10 : name = OP_ASSERT
  · rw [if_pos h10] at hc
    have hcbs := Option.some.inj hc
    subst hcbs
    exact Or.inr (Or.inr (Or.inr (Or.inr (Or.inr (Or.inr (Or.inr (Or.inr (Or.inr (⟨h10, rfl⟩)))))))))
  rw [if_neg h10] at hc
  cases hc

theorem pre_callbacks_frame {env : Env} {txn txn1 : Transaction} {op : Operation}
    {res res1 : OperationResult} {err : Option String} {cbs : ovsOpCallback × ovsOpCallback}
    (hc : ovsOpCallbackMap op.Op = some cbs)
    (h : cbs.1 env txn op res = .ret txn1 res1 err) : PreFrame txn txn1 res res1 := by
  rcases ovsOpCallbackMap_cases hc with
    ⟨-, rfl⟩ | ⟨-, rfl⟩ | ⟨-, rfl⟩ | ⟨-, rfl⟩ | ⟨-, rfl⟩ | ⟨-, rfl⟩ | ⟨-, rfl⟩ | ⟨-, rfl⟩ |
    ⟨-, rfl⟩ | ⟨-, rfl⟩
  · exact preInsert_frame h
  · exact etcdGetByWhere_frame h
  · exact etcdGetByWhere_frame h
  · exact etcdGetByWhere_frame h
  · exact etcdGetByWhere_frame h
  · simp only [preWait] at h
    split at h
    · cases h; exact PreFrame.refl _ _
    · exact etcdGetByWhere_frame h
  · simp only [preCommit] at h
    split at h
    · cases h; exact PreFrame.refl _ _
    · split at h <;> cases h <;> exact PreFrame.refl _ _
  · simp only [preAbort] at h; cases h; exact PreFrame.refl _ _
  · simp only [preComment] at h; cases h; exact PreFrame.refl _ _
  · simp only [preAssert] at h; cases h; exact PreFrame.refl _ _

theorem PreFrame.toDoFrame {txn txn1 : Transaction} {res res1 : OperationResult}
    (h : PreFrame txn txn1 res res1) : DoFrame txn txn1 res res1 :=
  ⟨by rw [h.1], h.2.1, h.2.2.1⟩

theorem DoFrame.trans {a b c : Transaction} {r s t : OperationResult}
    (h1 : DoFrame a b r s) (h2 : DoFrame b c s t) : DoFrame a c r t :=
  ⟨h2.1.trans h1.1, h2.2.1.trans h1.2.1, h2.2.2.trans h1.2.2⟩

@[simp] theorem etcdCreateRow_request (env : Env) (txn : Transaction) (k : Key) (row : Row) :
    (etcdCreateRow env txn k row).1.request = txn.request := by
  unfold etcdCreateRow; split <;> rfl

@[simp] theorem etcdCreateRow_response (env : Env) (txn : Transaction) (k : Key) (row : Row) :
    (etcdCreateRow env txn k row).1.response = txn.response := by
  unfold etcdCreateRow; split <;> rfl

@[simp] theorem etcdModifyRow_request (env : Env) (txn : Transaction) (k : Key) (row : Row) :
    (etcdModifyRow env txn k row).1.request = txn.request := by
  unfold etcdModifyRow; split <;> rfl

@[simp] theorem etcdModifyRow_response (env : Env) (txn : Transaction) (k : Key) (row : Row) :
    (etcdModifyRow env txn k row).1.response = txn.response := by
  unfold etcdModifyRow; split <;> rfl

theorem doInsert_frame {env : Env} {txn txn1 : Transaction} {op : Operation}
    {res res1 : OperationResult} {err : Option String}
    (h : doInsert env txn op res = .ret txn1 res1 err) : DoFrame txn txn1 res res1 := by
  unfold doInsert at h
  simp only at h
  repeat' split at h
  all_goals cases h
  all_goals first
    | exact ⟨rfl, rfl, rfl⟩
    | exact ⟨rfl, by simp [setRowVersion], by simp [setRowVersion]⟩

theorem doSelectLoop_frame {env : Env} {ts : TableSchema} {txn : Transaction} {op : Operation}
    (rows : List (String × Row)) :
    ∀ {res res1 : OperationResult} {txn1 : Transaction} {err : Option String},
      doSelectLoop env ts txn op rows res = .ret txn1 res1 err → DoFrame txn txn1 res res1 := by
  induction rows with
  | nil => intro res res1 txn1 err h; cases h; exact ⟨rfl, rfl, rfl⟩
  | cons r rest ih =>
    intro res res1 txn1 err h
    obtain ⟨u, row⟩ := r
    simp only [doSelectLoop] at h
    split at h
    · cases h; exact ⟨rfl, rfl, rfl⟩
    · split at h
      · exact ih h
      · exact ⟨(ih h).1, (ih h).2.1, (ih h).2.2⟩

theorem doUpdateLoop_frame {env : Env} {ts : TableSchema} {table : String}
    {w : Option (List Value)} (rows : List (String × Row)) :
    ∀ {txn txn1 : Transaction} {opRow : Option Row} {res res1 : OperationResult}
      {err : Option String},
      doUpdateLoop env ts table w rows txn opRow res = .ret txn1 res1 err →
        DoFrame txn txn1 res res1 := by
  induction rows with
  | nil => intro txn txn1 opRow res res1 err h; cases h; exact ⟨rfl, rfl, rfl⟩
  | cons r rest ih =>
    intro txn txn1 opRow res res1 err h
    obtain ⟨u, row⟩ := r
    simp only [doUpdateLoop] at h
    repeat' split at h
    all_goals first
      | cases h; done
      | (cases h; exact ⟨rfl, rfl, rfl⟩)
      | exact ih h
      | exact ⟨(ih h).1, (ih h).2.1.trans (by simp [setRowVersion]),
          (ih h).2.2.trans (by simp [setRowVersion])⟩

theorem doMutateLoop_frame {env : Env} {ts : TableSchema} {table : String} {op : Operation}
    (rows : List (String × Row)) :
    ∀ {txn txn1 : Transaction} {res res1 : OperationResult} {err : Option String},
      doMutateLoop env ts table op rows txn res = .ret txn1 res1 err →
        DoFrame txn txn1 res res1 := by
  induction rows with
  | nil => intro txn txn1 res res1 err h; cases h; exact ⟨rfl, rfl, rfl⟩
  | cons r rest ih =>
    intro txn txn1 res res1 err h
    obtain ⟨u, row⟩ := r
    simp only [doMutateLoop] at h
    repeat' split at h
    all_goals first
      | cases h; done
      | (cases h; exact ⟨rfl, rfl, rfl⟩)
      | exact ih h
      | exact ⟨(ih h).1, (ih h).2.1.trans (by simp [setRowVersion]),
          (ih h).2.2.trans (by simp [setRowVersion])⟩

theorem doDeleteLoop_frame {env : Env} {ts : TableSchema} {table : String} {op : Operation}
    (rows : List (String × Row)) :
    ∀ {txn txn1 : Transaction} {res res1 : OperationResult} {err : Option String},
      doDeleteLoop env ts table op rows txn res = .ret txn1 res1 err →
        DoFrame txn txn1 res res1 := by
  induction rows with
  | nil => intro txn txn1 res res1 err h; cases h; exact ⟨rfl, rfl, rfl⟩
  | cons r rest ih =>
    intro txn txn1 res res1 err h
    obtain ⟨u, row⟩ := r
    simp only [doDeleteLoop] at h
    repeat' split at h
    all_goals first
      | cases h; done
      | (cases h; exact ⟨rfl, rfl, rfl⟩)
      | exact ih h
      | exact ⟨(ih h).1, (ih h).2.1, (ih h).2.2⟩

theorem do_callbacks_frame {env : Env} {txn txn1 : Transaction} {op : Operation}
    {res res1 : OperationResult} {err : Option String} {cbs : ovsOpCallback × ovsOpCallback}
    (hc : ovsOpCallbackMap op.Op = some cbs)
    (h : cbs.2 env txn op res = .ret txn1 res1 err) : DoFrame txn txn1 res res1 := by
  rcases ovsOpCallbackMap_cases hc with
    ⟨-, rfl⟩ | ⟨-, rfl⟩ | ⟨-, rfl⟩ | ⟨-, rfl⟩ | ⟨-, rfl⟩ | ⟨-, rfl⟩ | ⟨-, rfl⟩ | ⟨-, rfl⟩ |
    ⟨-, rfl⟩ | ⟨-, rfl⟩
  · exact doInsert_frame h
  · simp only [doSelect] at h
    repeat' split at h
    · cases h
    · cases h; exact ⟨rfl, rfl, rfl⟩
    · exact ⟨(doSelectLoop_frame _ h).1, (doSelectLoop_frame _ h).2.1, (doSelectLoop_frame _ h).2.2⟩
  · simp only [doUpdate] at h
    repeat' split at h
    · cases h
    · cases h; exact ⟨rfl, rfl, rfl⟩
    · exact ⟨(doUpdateLoop_frame _ h).1, (doUpdateLoop_frame _ h).2.1, (doUpdateLoop_frame _ h).2.2⟩
  · simp only [doMutate] at h
    repeat' split at h
    · cases h
    · cases h; exact ⟨rfl, rfl, rfl⟩
    · exact ⟨(doMutateLoop_frame _ h).1, (doMutateLoop_frame _ h).2.1, (doMutateLoop_frame _ h).2.2⟩
  · simp only [doDelete] at h
    repeat' split at h
    · cases h
    · cases h; exact ⟨rfl, rfl, rfl⟩
    · exact ⟨(doDeleteLoop_frame _ h).1, (doDeleteLoop_frame _ h).2.1, (doDeleteLoop_frame _ h).2.2⟩
  · simp only [doWait] at h
    repeat' split at h
    all_goals (cases h; exact ⟨rfl, rfl, rfl⟩)
  · simp only [doCommit] at h; cases h; exact ⟨rfl, rfl, rfl⟩
  · simp only [doAbort] at h; cases h; exact ⟨rfl, rfl, rfl⟩
  · simp only [doComment] at h
    split at h
    · cases h
    · cases h; exact ⟨rfl, rfl, rfl⟩
  · simp only [doAssert] at h; cases h; exact ⟨rfl, rfl, rfl⟩

/-! ## The callback loops -/

theorem callsOf_succ (phase i n : Nat) :
    callsOf phase i (n + 1) = (phase, i) :: callsOf phase (i + 1) n := by
  simp only [callsOf, List.range_succ_eq_map, List.map_cons, List.map_map, Nat.add_zero]
  congr 1
  apply List.map_congr_left
  intro a _
  simp only [Function.comp, Nat.succ_eq_add_one]
  congr 1
  omega

theorem callsOf_zero (phase i : Nat) : callsOf phase i 0 = [] := rfl

theorem runCallbacks_spec (env : Env) (phase : Nat) (ops : List Operation) :
    ∀ (i : Nat) (txn : Transaction) (tr : Trace),
      PhaseSpec phase i ops.length txn tr (runCallbacks env phase ops i txn tr) := by
  induction ops with
  | nil =>
    intro i txn tr
    simp [runCallbacks, PhaseSpec, callsOf_zero]
  | cons op rest ih =>
    intro i txn tr
    simp only [runCallbacks]
    cases hc : ovsOpCallbackMap op.Op with
    | none => exact ⟨0, Nat.zero_le _, by simp [callsOf_zero], rfl, rfl⟩
    | some cbs =>
      cases hs : txn.response.Result[i]? with
      | none => exact ⟨0, Nat.zero_le _, by simp [callsOf_zero], rfl, rfl⟩
      | some slot =>
        simp only
        have hi : i < txn.response.Result.length := by
          rcases List.getElem?_eq_some_iff.1 hs with ⟨h, _⟩
          exact h
        cases hcb : (if phase = 0 then cbs.1 else cbs.2) env txn op slot with
        | crash =>
          exact ⟨1, by simp, by simp [callsOf_succ, callsOf_zero], rfl, rfl⟩
        | ret txn1 slot1 err =>
          have hf : DoFrame txn txn1 slot slot1 := by
            by_cases hp : phase = 0
            · rw [if_pos hp] at hcb
              exact (pre_callbacks_frame hc hcb).toDoFrame
            · rw [if_neg hp] at hcb
              exact do_callbacks_frame hc hcb
          obtain ⟨hErr, hResp, hReq⟩ := hf
          cases err with
          | some e =>
            refine ⟨0, by simp, by simp [callsOf_succ, callsOf_zero], rfl, rfl, hReq, rfl, ?_,
              ?_, ?_, ?_⟩
            · simp [hResp]
            · simp [slotError, hResp, hi, OperationResult.SetError]
            · intro j hj
              simp only [slotError, hResp]
              rw [List.getElem?_set_ne (by omega)]
            · intro j hj
              simp only [hResp]
              rw [List.getElem?_set_ne (by omega)]
          | none =>
            simp only
            split
            · have hrec := ih (i + 1)
                { txn1 with
                  response := { txn1.response with Result := txn1.response.Result.set i slot1 } }
                { tr with calls := tr.calls ++ [(phase, i)] }
              have hslot : ∀ j,
                  slotError { txn1 with
                    response :=
                      { txn1.response with Result := txn1.response.Result.set i slot1 } } j
                    = slotError txn j := by
                intro j
                simp only [slotError, hResp]
                by_cases hj : j = i
                · subst hj
                  simp [hi, hs, hErr]
                · rw [List.getElem?_set_ne (by omega)]
              revert hrec
              cases runCallbacks env phase rest (i + 1)
                { txn1 with
                  response := { txn1.response with Result := txn1.response.Result.set i slot1 } }
                { tr with calls := tr.calls ++ [(phase, i)] } with
              | done t tr1 =>
                rintro ⟨h1, h2, h3, h4, h5, h6, h7, h8⟩
                refine ⟨?_, h2, h3, h4.trans hReq, ?_, ?_, ?_, ?_⟩
                · rw [h1]; simp [List.length_cons, callsOf_succ]
                · rw [h5]; simp [hResp]
                · rw [h6]; simp [hResp]
                · intro j; rw [h7, hslot]
                · intro j hj
                  rw [h8 j (by simp only [List.length_cons] at hj; omega)]
                  simp only [hResp]
                  rw [List.getElem?_set_ne (by simp only [List.length_cons] at hj; omega)]
              | failed t tr1 e =>
                rintro ⟨k, h0, h1, h2, h3, h4, h5, h6, h7, h8, h9⟩
                refine ⟨k + 1, by simp only [List.length_cons]; omega, ?_, ?_, h3,
                  h4.trans hReq, h5, ?_, ?_, ?_, ?_⟩
                · rw [h1, callsOf_succ (i := i)]; simp
                · rw [h2]; simp [Nat.add_assoc, Nat.add_comm 1 k]
                · rw [h6]; simp [hResp]
                · rw [← h7]; congr 1; omega
                · intro j hj
                  rw [h8 j (by omega), hslot]
                · intro j hj
                  rw [h9 j (by omega)]
                  simp only [hResp]
                  rw [List.getElem?_set_ne (by omega)]
              | crash tr1 =>
                rintro ⟨k, h0, h1, h2, h3⟩
                refine ⟨k + 1, by simp only [List.length_cons]; omega, ?_, h2, h3⟩
                rw [h1, callsOf_succ (i := i)]; simp
            · exact ⟨1, by simp, by simp [callsOf_succ, callsOf_zero], rfl, rfl⟩

theorem set_of_getElem? {α : Type} (l : List α) :
    ∀ (i : Nat) (a : α), l[i]? = some a → l.set i a = l := by
  induction l with
  | nil => intro i a h; simp at h
  | cons x xs ih =>
    intro i a h
    cases i with
    | zero => simp at h; simp [h]
    | succ m => simp at h; simp [ih m a h]

theorem runCallbacks_pre_done (env : Env) (ops : List Operation) :
    ∀ (i : Nat) (txn : Transaction) (tr : Trace) (t : Transaction) (tr1 : Trace),
      runCallbacks env 0 ops i txn tr = .done t tr1 →
        t.response = txn.response ∧ t.cache = txn.cache ∧ t.etcdTrx.If = txn.etcdTrx.If ∧
          t.etcdTrx.Else = txn.etcdTrx.Else ∧
          ∃ gets, t.etcdTrx.Then = txn.etcdTrx.Then ++ gets ∧ ∀ o ∈ gets, o.isGet = true := by
  induction ops with
  | nil =>
    intro i txn tr t tr1 h
    simp only [runCallbacks] at h
    cases h
    exact ⟨rfl, rfl, rfl, rfl, [], (List.append_nil _).symm,
      fun _ h => absurd h (List.not_mem_nil _)⟩
  | cons op rest ih =>
    intro i txn tr t tr1 h
    simp only [runCallbacks] at h
    cases hc : ovsOpCallbackMap op.Op with
    | none => rw [hc] at h; cases h
    | some cbs =>
      rw [hc] at h
      cases hs : txn.response.Result[i]? with
      | none => rw [hs] at h; cases h
      | some slot =>
        rw [hs] at h
        simp only [if_true] at h
        cases hcb : cbs.1 env txn op slot with
        | crash => rw [hcb] at h; cases h
        | ret txn1 slot1 err =>
          rw [hcb] at h
          obtain ⟨hslot, hResp, -, hCache, hIf, hElse, gets, hThen, hGets⟩ :=
            pre_callbacks_frame hc hcb
          cases err with
          | some e => cases h
          | none =>
            simp only at h
            split at h
            · obtain ⟨h1, h2, h3, h4, gets2, h5, h6⟩ := ih _ _ _ _ _ h
              have hset : txn1.response.Result.set i slot1 = txn.response.Result := by
                rw [hResp, hslot]
                exact set_of_getElem? _ _ _ hs
              refine ⟨?_, h2.trans hCache, h3.trans hIf, h4.trans hElse, gets ++ gets2, ?_, ?_⟩
              · rw [h1]
                simp only [hset]
                rw [← hResp]
              · rw [h5]; simp only; rw [hThen, List.append_assoc]
              · intro o ho
                rcases List.mem_append.1 ho with ho | ho
                · exact hGets o ho
                · exact h6 o ho
            · cases h

theorem etcdTransactionRun_spec (env : Env) (txn : Transaction) (tr : Trace) :
    (etcdTransactionRun env txn tr).2.1.calls = tr.calls ∧
      (etcdTransactionRun env txn tr).2.1.failures = tr.failures ∧
      (etcdTransactionRun env txn tr).2.1.submitted = tr.submitted ++
        [{ If := txn.etcdTrx.If, Then := txn.etcdTrx.Then, Else := txn.etcdTrx.Else }] ∧
      (etcdTransactionRun env txn tr).1.request = txn.request ∧
      (etcdTransactionRun env txn tr).1.response = txn.response := by
  unfold etcdTransactionRun
  simp only
  repeat' split
  all_goals exact ⟨rfl, rfl, rfl, rfl, rfl⟩

/-! ## The two phases of Commit -/

theorem commitPhases_spec (env : Env) (txn : Transaction) :
    CommitSpec txn txn.request.Operations.length (commitPhases env txn) := by
  unfold commitPhases
  simp only
  have spec1 := runCallbacks_spec env 0 txn.request.Operations 0
    { txn with etcdTrx := txn.etcdTrx.Clear } {}
  have pre1 := runCallbacks_pre_done env txn.request.Operations 0
    { txn with etcdTrx := txn.etcdTrx.Clear } {}
  cases h1 : runCallbacks env 0 txn.request.Operations 0
      { txn with etcdTrx := txn.etcdTrx.Clear } {} with
  | crash tr =>
    rw [h1] at spec1
    obtain ⟨k, hk, hc, hf, hs⟩ := spec1
    exact ⟨hf, Or.inl ⟨k, hk, by simpa using hc, hs⟩⟩
  | failed t tr e =>
    rw [h1] at spec1
    obtain ⟨k, hk, hc, hf, hs, -, hE, hL, hse, hso, hsl⟩ := spec1
    refine ⟨hL, Or.inl ⟨k, e, hk, by simpa using hc, by simpa using hf, hs, rfl, rfl, hE,
      by simpa using hse, ?_, ?_⟩⟩
    · intro j hj
      exact hso j (by omega)
    · intro j hj
      exact hsl j (Or.inr (by omega))
  | done txn2 tr2 =>
    rw [h1] at spec1
    obtain ⟨hc2, hf2, hs2, hreq2, -, hL2, hse2, -⟩ := spec1
    obtain ⟨hresp2, -, hIf2, hElse2, gets, hThen2, hGets⟩ := pre1 _ _ h1
    have hcalls2 : tr2.calls = callsOf 0 0 txn.request.Operations.length := by simpa using hc2
    have hpre : KvTxn.readOnly
        { If := txn2.etcdTrx.If, Then := txn2.etcdTrx.Then, Else := txn2.etcdTrx.Else } := by
      refine ⟨hIf2, hElse2, ?_⟩
      intro o ho
      simp only [hThen2, etcdTransaction.Clear, List.nil_append] at ho
      exact hGets o ho
    have spec2 := etcdTransactionRun_spec env txn2 tr2
    simp only
    rcases h2 : etcdTransactionRun env txn2 tr2 with ⟨txn3, tr3, r⟩
    rw [h2] at spec2
    obtain ⟨hc3, hf3, hs3, hreq3, hresp3⟩ := spec2
    simp only at hc3 hf3 hs3 hreq3 hresp3
    have hsub3 : tr3.submitted =
        [{ If := txn2.etcdTrx.If, Then := txn2.etcdTrx.Then, Else := txn2.etcdTrx.Else }] := by
      rw [hs3, hs2]; rfl
    cases r with
    | error e =>
      simp only
      refine ⟨by simp [hresp3, hresp2], Or.inr (Or.inl ⟨e, _, ?_, ?_, hsub3, hpre, rfl, rfl, rfl,
        ?_⟩)⟩
      · rw [hc3, hcalls2]
      · rw [hf3, hf2]
      · intro j
        simp only [slotError, hresp3, hresp2]
    | ok res =>
      simp only
      have hops : txn3.request.Operations = txn.request.Operations := by
        rw [hreq3, hreq2]
      rw [hops]
      have spec3 := runCallbacks_spec env 1 txn.request.Operations 0
        { txn3 with etcdTrx := txn3.etcdTrx.Clear } tr3
      have hslot3 : ∀ j, slotError { txn3 with etcdTrx := txn3.etcdTrx.Clear } j
          = slotError txn j := by
        intro j
        simp only [slotError, hresp3, hresp2]
      have hres3 : ∀ j : Nat, ({ txn3 with etcdTrx := txn3.etcdTrx.Clear } :
          Transaction).response.Result[j]? = txn.response.Result[j]? := by
        intro j
        simp only [hresp3, hresp2]
      cases h3 : runCallbacks env 1 txn.request.Operations 0
          { txn3 with etcdTrx := txn3.etcdTrx.Clear } tr3 with
      | crash tr =>
        rw [h3] at spec3
        obtain ⟨k, hk, hc, hf, hs⟩ := spec3
        refine ⟨by rw [hf, hf3, hf2], Or.inr ⟨k, _, hk, ?_, ?_, hpre⟩⟩
        · rw [hc, hc3, hcalls2]
        · rw [hs, hsub3]
      | failed t tr e =>
        rw [h3] at spec3
        obtain ⟨k, hk, hc, hf, hs, -, hE, hL, hse, hso, hsl⟩ := spec3
        refine ⟨by rw [hL]; simp [hresp3, hresp2],
          Or.inr (Or.inr (Or.inl ⟨k, e, _, hk, ?_, ?_, ?_, hpre, rfl, rfl, hE,
            by simpa using hse, ?_, ?_⟩))⟩
        · rw [hc, hc3, hcalls2]
        · rw [hf, hf3, hf2]; simp
        · rw [hs, hsub3]
        · intro j hj
          rw [hso j (by omega), hslot3]
        · intro j hj
          rw [hsl j (Or.inr (by omega)), hres3]
      | done txn5 tr5 =>
        rw [h3] at spec3
        obtain ⟨hc5, hf5, hs5, hreq5, hE5, hL5, hse5, -⟩ := spec3
        have spec4 := etcdTransactionRun_spec env (etcdRemoveDup txn5) tr5
        simp only
        rcases h4 : etcdTransactionRun env (etcdRemoveDup txn5) tr5 with ⟨txn6, tr6, r⟩
        rw [h4] at spec4
        obtain ⟨hc6, hf6, hs6, hreq6, hresp6⟩ := spec4
        simp only at hc6 hf6 hs6 hreq6 hresp6
        have hresp6b : txn6.response = txn5.response := by rw [hresp6]; rfl
        have hcalls6 : tr6.calls = callsOf 0 0 txn.request.Operations.length ++
            callsOf 1 0 txn.request.Operations.length := by
          rw [hc6, hc5, hc3, hcalls2]
        have hfail6 : tr6.failures = [] := by rw [hf6, hf5, hf3, hf2]
        have hsub6 : tr6.submitted =
            [{ If := txn2.etcdTrx.If, Then := txn2.etcdTrx.Then, Else := txn2.etcdTrx.Else },
              { If := (etcdRemoveDup txn5).etcdTrx.If, Then := (etcdRemoveDup txn5).etcdTrx.Then,
                Else := (etcdRemoveDup txn5).etcdTrx.Else }] := by
          rw [hs6, hs5, hsub3]; rfl
        have hslot6 : ∀ j, slotError txn6 j = slotError txn j := by
          intro j
          have : slotError txn6 j = slotError txn5 j := by simp only [slotError, hresp6b]
          rw [this, hse5, hslot3]
        have hlen6 : txn6.response.Result.length = txn.response.Result.length := by
          rw [hresp6b, hL5]; simp [hresp3, hresp2]
        cases r with
        | error e =>
          exact ⟨hlen6, Or.inr (Or.inr (Or.inr (Or.inl
            ⟨e, _, _, hcalls6, hfail6, hsub6, hpre, rfl, rfl, rfl, hslot6⟩)))⟩
        | ok res2 =>
          refine ⟨hlen6, Or.inr (Or.inr (Or.inr (Or.inr
            ⟨_, _, hcalls6, hfail6, hsub6, hpre, rfl, ?_, hslot6⟩)))⟩
          rw [hresp6b, hE5]
          simp [hresp3, hresp2]

/-! ## The compatibility check -/

theorem compatLoop_spec (ops : List Operation) :
    ∀ (s w : Bool),
      ((compatLoop ops s w).1 && (compatLoop ops s w).2) =
        ((s || ops.any (fun o => o.Op == OP_SELECT)) &&
          (w || ops.any (fun o => o.Op == OP_INSERT || o.Op == OP_UPDATE || o.Op == OP_MUTATE
            || o.Op == OP_DELETE))) := by
  induction ops with
  | nil => intro s w; simp [compatLoop]
  | cons op rest ih =>
    intro s w
    simp only [compatLoop, List.any_cons]
    by_cases hs : op.Op = OP_SELECT
    · have hw : (op.Op == OP_INSERT || op.Op == OP_UPDATE || op.Op == OP_MUTATE
          || op.Op == OP_DELETE) = false := by
        rw [hs]; decide
      rw [if_pos hs, hw]
      cases w with
      | true => simp [hs]
      | false => simp [hs, ih]
    · rw [if_neg hs]
      have hsb : (op.Op == OP_SELECT) = false := by simpa using hs
      by_cases hw : op.Op = OP_DELETE ∨ op.Op = OP_MUTATE ∨ op.Op = OP_UPDATE
          ∨ op.Op = OP_INSERT
      · have hwb : (op.Op == OP_INSERT || op.Op == OP_UPDATE || op.Op == OP_MUTATE
            || op.Op == OP_DELETE) = true := by
          rcases hw with h | h | h | h <;> simp [h]
        rw [if_pos hw, hsb, hwb]
        cases s with
        | true => simp
        | false => simp [ih]
      · have hwb : (op.Op == OP_INSERT || op.Op == OP_UPDATE || op.Op == OP_MUTATE
            || op.Op == OP_DELETE) = false := by
          simp only [not_or] at hw
          simp [hw.1, hw.2.1, hw.2.2.1, hw.2.2.2]
        rw [if_neg hw, hsb, hwb, ih]
        simp

theorem Commit_eq (env : Env) (txn : Transaction) :
    Commit env txn =
      if mixesSelectWithWrite txn.request.Operations then
        .ret { txn with response := { txn.response with Error := some E_CONSTRAINT_VIOLATION } }
          {} (-1) (some E_CONSTRAINT_VIOLATION)
      else commitPhases env txn := by
  unfold Commit mixesSelectWithWrite
  simp only
  rw [compatLoop_spec]
  simp

theorem callsOf_ne_nil (phase i n : Nat) : callsOf phase i (n + 1) ≠ [] := by
  rw [callsOf_succ]; simp

theorem mem_callsOf (phase i n q j : Nat) :
    (q, j) ∈ callsOf phase i n ↔ q = phase ∧ i ≤ j ∧ j < i + n := by
  simp only [callsOf, List.mem_map, List.mem_range, Prod.mk.injEq]
  constructor
  · rintro ⟨a, ha, rfl, rfl⟩
    exact ⟨rfl, by omega, by omega⟩
  · rintro ⟨rfl, h1, h2⟩
    exact ⟨j - i, by omega, rfl, by omega⟩

/-- Claim C1. The compatibility check of `Commit`: `Commit` is the rejection (revision `-1`,
error and response error "constraint violation", no callback called, nothing handed to the KV
store) when the operation list holds a `select` and a write (`insert`, `update`, `mutate`,
`delete`) at any positions, and is the two-phase execution otherwise; and its outcome is that
rejection if and only if the list holds a `select` and a write. -/
theorem commit_compatibility_check (env : Env) (txn : Transaction) :
    (Commit env txn =
      if mixesSelectWithWrite txn.request.Operations then
        .ret { txn with response := { txn.response with Error := some E_CONSTRAINT_VIOLATION } }
          {} (-1) (some E_CONSTRAINT_VIOLATION)
      else commitPhases env txn) ∧
    (rejectedByCheck txn (Commit env txn) ↔
      mixesSelectWithWrite txn.request.Operations = true) := by
  refine ⟨Commit_eq env txn, ?_⟩
  rw [Commit_eq]
  by_cases hm : mixesSelectWithWrite txn.request.Operations = true
  · rw [if_pos hm]
    simp [rejectedByCheck, hm]
  · rw [if_neg hm]
    have spec := commitPhases_spec env txn
    constructor
    swap
    · intro h; exact absurd h hm
    cases hc : commitPhases env txn with
    | crash tr => simp [rejectedByCheck]
    | ret t tr rev err =>
      rw [hc] at spec
      rintro ⟨-, -, -, hcalls, hsub⟩
      exfalso
      obtain ⟨-, h | h | h | h | h⟩ := spec
      · obtain ⟨k, e, -, hc1, -⟩ := h
        rw [hcalls] at hc1
        exact callsOf_ne_nil 0 0 k hc1.symm
      · obtain ⟨e, pre, -, -, hs, -⟩ := h
        rw [hsub] at hs; cases hs
      · obtain ⟨k, e, pre, -, -, -, hs, -⟩ := h
        rw [hsub] at hs; cases hs
      · obtain ⟨e, pre, final, -, -, hs, -⟩ := h
        rw [hsub] at hs; cases hs
      · obtain ⟨pre, final, -, -, hs, -⟩ := h
        rw [hsub] at hs; cases hs

/-! ## Failures of Commit -/

theorem slotError_NewTransaction (req : Transact) (j : Nat) :
    slotError (NewTransaction req) j = none := by
  simp only [slotError, NewTransaction]
  by_cases hj : j < req.Operations.length
  · rw [List.getElem?_eq_getElem (by simpa using hj)]
    simp
  · rw [List.getElem?_eq_none (by simpa using hj)]
    rfl

theorem result_NewTransaction (req : Transact) (j : Nat) (hj : j < req.Operations.length) :
    (NewTransaction req).response.Result[j]? = some {} := by
  simp only [NewTransaction]
  rw [List.getElem?_eq_getElem (by simpa using hj)]
  simp

theorem commit_failure_cases {env : Env} {txn t : Transaction} {tr : Trace} {rev : Int}
    {err : Option String} {p i : Nat} {e : String}
    (h : Commit env txn = .ret t tr rev err) (hf : (p, i, e) ∈ tr.failures) :
    i < txn.request.Operations.length ∧ tr.failures = [(p, i, e)] ∧ rev = -1 ∧ err = some e ∧
      t.response.Error = some e ∧ slotError t i = some e ∧
      (∀ j, j ≠ i → slotError t j = slotError txn j) ∧
      (∀ j, i < j → t.response.Result[j]? = txn.response.Result[j]?) ∧
      ((p = 0 ∧ tr.calls = callsOf 0 0 (i + 1) ∧ tr.submitted = []) ∨
        (p = 1 ∧ tr.calls = callsOf 0 0 txn.request.Operations.length ++ callsOf 1 0 (i + 1) ∧
          ∃ pre, tr.submitted = [pre] ∧ pre.readOnly)) := by
  rw [Commit_eq] at h
  split at h
  · cases h
    simp at hf
  · have spec := commitPhases_spec env txn
    rw [h] at spec
    obtain ⟨-, hA | hB | hC | hD | hE⟩ := spec
    · obtain ⟨k, e1, hk, hc, hfl, hs, hrev, herr, hE1, hse, hso, hsl⟩ := hA
      rw [hfl] at hf
      simp only [List.mem_singleton, Prod.mk.injEq] at hf
      obtain ⟨rfl, rfl, rfl⟩ := hf
      exact ⟨hk, hfl, hrev, herr, hE1, hse, hso, hsl, Or.inl ⟨rfl, hc, hs⟩⟩
    · obtain ⟨e1, pre, -, hfl, -⟩ := hB
      rw [hfl] at hf; simp at hf
    · obtain ⟨k, e1, pre, hk, hc, hfl, hs, hpre, hrev, herr, hE1, hse, hso, hsl⟩ := hC
      rw [hfl] at hf
      simp only [List.mem_singleton, Prod.mk.injEq] at hf
      obtain ⟨rfl, rfl, rfl⟩ := hf
      exact ⟨hk, hfl, hrev, herr, hE1, hse, hso, hsl, Or.inr ⟨rfl, hc, pre, hs, hpre⟩⟩
    · obtain ⟨e1, pre, final, -, hfl, -⟩ := hD
      rw [hfl] at hf; simp at hf
    · obtain ⟨pre, final, -, hfl, -⟩ := hE
      rw [hfl] at hf; simp at hf

/-! ## Claim C2 -/

/-- Claim C2, refuted as stated: with a KV store that fails on the final transaction, `Commit`
of a single `insert` returns an error, and a `Put` has been handed to the store. -/
theorem commit_error_after_put_submitted :
    ∃ t tr e, Commit exampleEnvFinalFails
        (NewTransaction { DBName := "db", Operations := [exampleInsert] })
          = .ret t tr (-1) (some e) ∧
      ∃ k ∈ tr.submitted, ∃ o ∈ k.Then, o.isGet = false := by
  refine ⟨_, _, _, rfl, ?_⟩
  decide

/-- Claim C2 (amended). Whenever `Commit` returns an error, either nothing has been handed to
the KV store, or only the transaction of the pre phase, which is read-only, or that one and the
final transaction; the final transaction has been handed over only if every callback of both
phases has been called and none has failed, so that the error is that of the final KV
transaction itself. -/
theorem commit_error_submitted (env : Env) (txn t : Transaction) (tr : Trace) (rev : Int)
    (e : String) (h : Commit env txn = .ret t tr rev (some e)) :
    tr.submitted = [] ∨ (∃ pre, tr.submitted = [pre] ∧ pre.readOnly) ∨
      (∃ pre final, tr.submitted = [pre, final] ∧ pre.readOnly ∧ tr.failures = [] ∧
        tr.calls = callsOf 0 0 txn.request.Operations.length ++
          callsOf 1 0 txn.request.Operations.length) := by
  rw [Commit_eq] at h
  split at h
  · cases h
    exact Or.inl rfl
  · have spec := commitPhases_spec env txn
    rw [h] at spec
    obtain ⟨-, hA | hB | hC | hD | hE⟩ := spec
    · obtain ⟨k, e1, -, -, -, hs, -⟩ := hA
      exact Or.inl hs
    · obtain ⟨e1, pre, -, -, hs, hpre, -⟩ := hB
      exact Or.inr (Or.inl ⟨pre, hs, hpre⟩)
    · obtain ⟨k, e1, pre, -, -, -, hs, hpre, -⟩ := hC
      exact Or.inr (Or.inl ⟨pre, hs, hpre⟩)
    · obtain ⟨e1, pre, final, hc, hfl, hs, hpre, -⟩ := hD
      exact Or.inr (Or.inr ⟨pre, final, hs, hpre, hfl, hc⟩)
    · obtain ⟨pre, final, -, -, -, -, herr, -⟩ := hE
      cases herr

/-- Witness of `commit_error_submitted`: a `wait` without `rows` fails in its do callback, after
the read-only transaction of the pre phase. -/
theorem commit_error_submitted_witness :
    ∃ t tr rev e,
      Commit exampleEnv (NewTransaction { DBName := "db", Operations := [exampleWaitNoRows] })
        = .ret t tr rev (some e) ∧
      (tr.submitted = [] ∨ (∃ pre, tr.submitted = [pre] ∧ pre.readOnly) ∨
        (∃ pre final, tr.submitted = [pre, final] ∧ pre.readOnly ∧ tr.failures = [] ∧
          tr.calls = callsOf 0 0 1 ++ callsOf 1 0 1)) := by
  refine ⟨_, _, _, _, rfl, ?_⟩
  exact commit_error_submitted exampleEnv
    (NewTransaction { DBName := "db", Operations := [exampleWaitNoRows] }) _ _ _ _ rfl

/-! ## Claim C4 -/

/-- Claim C4, refuted as stated: the do callback of operation `0` (a `wait` without `rows`)
fails, and the pre callback of operation `1` has been called. -/
theorem commit_do_failure_after_later_pre :
    ∃ t tr, Commit exampleEnv
        (NewTransaction { DBName := "db", Operations := [exampleWaitNoRows, exampleComment] })
          = .ret t tr (-1) (some E_CONSTRAINT_VIOLATION) ∧
      (1, 0, E_CONSTRAINT_VIOLATION) ∈ tr.failures ∧ (0, 1) ∈ tr.calls := by
  refine ⟨_, _, rfl, ?_, ?_⟩ <;> decide

/-- Claim C4 (amended). Whenever a callback of operation `i` fails with error `e`, the result
slot `i` and the response carry `e`, `Commit` returns revision `-1` and `e`, no do callback of
an operation `j > i` has been called, every result slot `j > i` is still empty, and when the
failure is that of a pre callback no callback at all of an operation `j > i` and no do callback
has been called. -/
theorem commit_stops_at_failure (env : Env) (req : Transact) (t : Transaction) (tr : Trace)
    (rev : Int) (err : Option String) (p i : Nat) (e : String)
    (h : Commit env (NewTransaction req) = .ret t tr rev err) (hf : (p, i, e) ∈ tr.failures) :
    slotError t i = some e ∧ t.response.Error = some e ∧ rev = -1 ∧ err = some e ∧
      (∀ j, i < j → (1, j) ∉ tr.calls) ∧
      (p = 0 → ∀ q j, (q, j) ∈ tr.calls → q = 0 ∧ j ≤ i) ∧
      (∀ j, i < j → j < req.Operations.length → t.response.Result[j]? = some ({} : OperationResult)) := by
  obtain ⟨-, -, hrev, herr, hE, hse, -, hsl, hcalls⟩ := commit_failure_cases h hf
  refine ⟨hse, hE, hrev, herr, ?_, ?_, ?_⟩
  · intro j hj hmem
    rcases hcalls with ⟨-, hc, -⟩ | ⟨-, hc, -⟩
    · rw [hc, mem_callsOf] at hmem
      omega
    · rw [hc, List.mem_append, mem_callsOf, mem_callsOf] at hmem
      omega
  · intro hp q j hmem
    rcases hcalls with ⟨-, hc, -⟩ | ⟨hp1, -, -⟩
    · rw [hc, mem_callsOf] at hmem
      omega
    · omega
  · intro j hj hjn
    rw [hsl j hj]
    exact result_NewTransaction req j hjn

/-- Witness of `commit_stops_at_failure`: the pre callback of an `abort` fails before the
`comment` that follows it. -/
theorem commit_stops_at_failure_witness :
    ∃ t tr rev err,
      Commit exampleEnv
        (NewTransaction { DBName := "db", Operations := [exampleAbort, exampleComment] })
          = .ret t tr rev err ∧
      (0, 0, E_ABORTED) ∈ tr.failures ∧
      (slotError t 0 = some E_ABORTED ∧ t.response.Error = some E_ABORTED ∧ rev = -1 ∧
        err = some E_ABORTED ∧ (∀ j, 0 < j → (1, j) ∉ tr.calls) ∧
        ((0 : Nat) = 0 → ∀ q j, (q, j) ∈ tr.calls → q = 0 ∧ j ≤ 0) ∧
        (∀ j, 0 < j → j < 2 → t.response.Result[j]? = some ({} : OperationResult))) := by
  refine ⟨_, _, _, _, rfl, by decide, ?_⟩
  exact commit_stops_at_failure exampleEnv
    { DBName := "db", Operations := [exampleAbort, exampleComment] } _ _ _ _ 0 0 E_ABORTED rfl
    (by decide)

/-! ## Claim C5 -/

/-- Claim C5, refuted as stated: in the list `[wait without rows, abort]` the do callback of
operation `0` fails in every state and the pre callback of operation `1` fails in every state;
the error that `Commit` reports, and the only result slot with an error, are those of
operation `1`. -/
theorem commit_reports_later_operation :
    (∀ (env : Env) (txn : Transaction) (res : OperationResult),
        doWait env txn exampleWaitNoRows res = .ret txn res (some E_CONSTRAINT_VIOLATION)) ∧
      (∀ (env : Env) (txn : Transaction) (res : OperationResult),
        preAbort env txn exampleAbort res = .ret txn res (some E_ABORTED)) ∧
      ∃ t tr, Commit exampleEnv
          (NewTransaction { DBName := "db", Operations := [exampleWaitNoRows, exampleAbort] })
            = .ret t tr (-1) (some E_ABORTED) ∧
        t.response.Error = some E_ABORTED ∧ slotError t 1 = some E_ABORTED ∧
        slotError t 0 = none :=
  ⟨fun _ _ _ => rfl, fun _ _ _ => rfl, _, _, rfl, rfl, rfl, rfl⟩

/-- Claim C5 (amended). The error that `Commit` reports is that of the first callback that fails
in the order of execution, which is all the pre callbacks in list order and then all the do
callbacks in list order: if the callback of phase `p` of operation `i` fails with `e`, then it
is the only failure, the callbacks called are exactly those up to it in that order, the response
error and the returned error are `e`, and slot `i` is the only result slot with an error. -/
theorem commit_reports_first_failure (env : Env) (req : Transact) (t : Transaction) (tr : Trace)
    (rev : Int) (err : Option String) (p i : Nat) (e : String)
    (h : Commit env (NewTransaction req) = .ret t tr rev err) (hf : (p, i, e) ∈ tr.failures) :
    tr.failures = [(p, i, e)] ∧ err = some e ∧ t.response.Error = some e ∧
      slotError t i = some e ∧ (∀ j, j ≠ i → slotError t j = none) ∧
      tr.calls =
        (if p = 0 then callsOf 0 0 (i + 1)
          else callsOf 0 0 req.Operations.length ++ callsOf 1 0 (i + 1)) := by
  obtain ⟨-, hfl, -, herr, hE, hse, hso, -, hcalls⟩ := commit_failure_cases h hf
  refine ⟨hfl, herr, hE, hse, ?_, ?_⟩
  · intro j hj
    rw [hso j hj]
    exact slotError_NewTransaction req j
  · rcases hcalls with ⟨hp, hc, -⟩ | ⟨hp, hc, -⟩
    · rw [if_pos hp]; exact hc
    · rw [if_neg (by omega)]; exact hc

/-- Witness of `commit_reports_first_failure`: the pre callback of the `abort` is the first
callback that fails. -/
theorem commit_reports_first_failure_witness :
    ∃ t tr rev err,
      Commit exampleEnv
        (NewTransaction { DBName := "db", Operations := [exampleWaitNoRows, exampleAbort] })
          = .ret t tr rev err ∧
      (0, 1, E_ABORTED) ∈ tr.failures ∧
      (tr.failures = [(0, 1, E_ABORTED)] ∧ err = some E_ABORTED ∧
        t.response.Error = some E_ABORTED ∧ slotError t 1 = some E_ABORTED ∧
        (∀ j, j ≠ 1 → slotError t j = none) ∧
        tr.calls = (if (0 : Nat) = 0 then callsOf 0 0 (1 + 1)
          else callsOf 0 0 2 ++ callsOf 1 0 (1 + 1))) := by
  refine ⟨_, _, _, _, rfl, by decide, ?_⟩
  exact commit_reports_first_failure exampleEnv
    { DBName := "db", Operations := [exampleWaitNoRows, exampleAbort] } _ _ _ _ 0 1 E_ABORTED rfl
    (by decide)

/-! ## Lists with an abort -/

theorem ovsOpCallbackMap_abort : ovsOpCallbackMap OP_ABORT = some (preAbort, doAbort) := rfl

theorem runCallbacks_pre_abort (env : Env) (ops : List Operation) :
    ∀ (i : Nat) (txn : Transaction) (tr : Trace), (∃ op ∈ ops, op.Op = OP_ABORT) →
      ∀ t tr1, runCallbacks env 0 ops i txn tr ≠ .done t tr1 := by
  induction ops with
  | nil => intro i txn tr h; simp at h
  | cons op rest ih =>
    intro i txn tr h t tr1 hrun
    simp only [runCallbacks] at hrun
    by_cases ho : op.Op = OP_ABORT
    · rw [ho, ovsOpCallbackMap_abort] at hrun
      simp only [if_true, preAbort] at hrun
      split at hrun <;> cases hrun
    · have hrest : ∃ o ∈ rest, o.Op = OP_ABORT := by
        obtain ⟨o, hmem, hop⟩ := h
        rcases List.mem_cons.1 hmem with rfl | hmem
        · exact absurd hop ho
        · exact ⟨o, hmem, hop⟩
      repeat' split at hrun
      all_goals first
        | cases hrun
        | exact ih _ _ _ hrest _ _ hrun

/-- A list with an `abort`, at any position, never reaches the do phase and never succeeds:
`Commit` returns an error or panics, and in both cases no do callback has been called. -/
theorem commit_with_abort (env : Env) (txn : Transaction)
    (h : ∃ op ∈ txn.request.Operations, op.Op = OP_ABORT) :
    match Commit env txn with
    | .ret _ tr _ err => err ≠ none ∧ ∀ j, (1, j) ∉ tr.calls
    | .crash tr => ∀ j, (1, j) ∉ tr.calls := by
  rw [Commit_eq]
  by_cases hm : mixesSelectWithWrite txn.request.Operations = true
  · rw [if_pos hm]
    simp
  · rw [if_neg hm]
    have spec1 := runCallbacks_spec env 0 txn.request.Operations 0
      { txn with etcdTrx := txn.etcdTrx.Clear } {}
    have hnd := runCallbacks_pre_abort env txn.request.Operations 0
      { txn with etcdTrx := txn.etcdTrx.Clear } {} h
    unfold commitPhases
    simp only
    cases h1 : runCallbacks env 0 txn.request.Operations 0
        { txn with etcdTrx := txn.etcdTrx.Clear } {} with
    | done t tr => exact absurd h1 (hnd t tr)
    | crash tr =>
      rw [h1] at spec1
      obtain ⟨k, -, hc, -⟩ := spec1
      intro j hmem
      rw [hc] at hmem
      simp only [List.nil_append, mem_callsOf] at hmem
      omega
    | failed t tr e =>
      rw [h1] at spec1
      obtain ⟨k, -, hc, -⟩ := spec1
      refine ⟨by simp, ?_⟩
      intro j hmem
      rw [hc] at hmem
      simp only [List.nil_append, mem_callsOf] at hmem
      omega

theorem runCallbacks_pre_failed_abort (env : Env) (ops : List Operation) :
    ∀ (i0 : Nat) (txn : Transaction) (tr : Trace) (t : Transaction) (tr1 : Trace) (e : String),
      runCallbacks env 0 ops i0 txn tr = .failed t tr1 e →
        ∃ k op, tr1.failures = tr.failures ++ [(0, i0 + k, e)] ∧ ops[k]? = some op ∧
          (∀ m o, m < k → ops[m]? = some o → o.Op ≠ OP_ABORT) ∧
          (op.Op = OP_ABORT → e = E_ABORTED) := by
  induction ops with
  | nil => intro i0 txn tr t tr1 e h; simp [runCallbacks] at h
  | cons op rest ih =>
    intro i0 txn tr t tr1 e h
    simp only [runCallbacks] at h
    cases hc : ovsOpCallbackMap op.Op with
    | none => rw [hc] at h; cases h
    | some cbs =>
      rw [hc] at h
      cases hs : txn.response.Result[i0]? with
      | none => rw [hs] at h; cases h
      | some slot =>
        rw [hs] at h
        simp only [if_true] at h
        cases hcb : cbs.1 env txn op slot with
        | crash => rw [hcb] at h; cases h
        | ret txn1 slot1 err =>
          rw [hcb] at h
          cases err with
          | some e1 =>
            simp only at h
            cases h
            refine ⟨0, op, rfl, by simp, ?_, ?_⟩
            · intro m o hm; omega
            · intro ho
              rw [ho, ovsOpCallbackMap_abort] at hc
              cases hc
              simp only [preAbort] at hcb
              cases hcb
              rfl
          | none =>
            simp only at h
            split at h
            · obtain ⟨k, o, hf, hk, hbefore, hab⟩ := ih _ _ _ _ _ _ h
              refine ⟨k + 1, o, ?_, by simpa using hk, ?_, hab⟩
              · rw [hf]; simp [Nat.add_assoc, Nat.add_comm 1 k]
              · intro m o2 hm hmo
                cases m with
                | zero =>
                  simp only [List.getElem?_cons_zero, Option.some.injEq] at hmo
                  subst hmo
                  intro ho
                  rw [ho, ovsOpCallbackMap_abort] at hc
                  cases hc
                  simp only [preAbort] at hcb
                  cases hcb
                | succ m1 =>
                  exact hbefore m1 o2 (by omega) (by simpa using hmo)
            · cases h

/-- When the list does not mix `select` with writes and `Commit` returns with no failure of a
pre callback before the `abort` at index `i`, the error is "aborted", recorded in the result
slot of the `abort` and in the response. -/
theorem commit_abort_reported (env : Env) (txn t : Transaction) (tr : Trace) (rev : Int)
    (err : Option String) (i : Nat) (op : Operation)
    (hop : txn.request.Operations[i]? = some op) (habort : op.Op = OP_ABORT)
    (hmix : mixesSelectWithWrite txn.request.Operations = false)
    (h : Commit env txn = .ret t tr rev err)
    (hearlier : ∀ j e, j < i → (0, j, e) ∉ tr.failures) :
    rev = -1 ∧ err = some E_ABORTED ∧ t.response.Error = some E_ABORTED ∧
      slotError t i = some E_ABORTED ∧ tr.failures = [(0, i, E_ABORTED)] := by
  have hex : ∃ o ∈ txn.request.Operations, o.Op = OP_ABORT :=
    ⟨op, List.getElem?_mem hop, habort⟩
  have hnd := runCallbacks_pre_abort env txn.request.Operations 0
    { txn with etcdTrx := txn.etcdTrx.Clear } {} hex
  have h0 := h
  rw [Commit_eq, hmix] at h0
  simp only [Bool.false_eq_true, if_false, commitPhases] at h0
  cases h1 : runCallbacks env 0 txn.request.Operations 0
      { txn with etcdTrx := txn.etcdTrx.Clear } {} with
  | done t2 tr2 => exact absurd h1 (hnd t2 tr2)
  | crash tr2 => rw [h1] at h0; cases h0
  | failed t2 tr2 e =>
    rw [h1] at h0
    simp only at h0
    cases h0
    obtain ⟨k, o, hf, hk, hbefore, hab⟩ := runCallbacks_pre_failed_abort env _ _ _ _ _ _ _ h1
    simp only [List.nil_append, Nat.zero_add] at hf
    have hki : k = i := by
      rcases Nat.lt_trichotomy k i with hlt | heq | hgt
      · exact absurd (by rw [hf]; simp) (hearlier k e hlt)
      · exact heq
      · exact absurd habort (hbefore i op hgt hop)
    subst hki
    rw [hk] at hop
    cases hop
    have he := hab habort
    subst he
    have hmem : (0, k, E_ABORTED) ∈ (tr.failures) := by rw [hf]; simp
    obtain ⟨-, hfl, hrev, herr, hE, hse, -⟩ := commit_failure_cases h hmem
    exact ⟨hrev, herr, hE, hse, hfl⟩

/-! ## Claim C6 -/

/-- Claim C6, refuted as stated: `Commit` of an `insert` under the uuid-name `a` followed by a
`select` of the row whose `_uuid` is the one named `a` does not succeed; it returns the error
"constraint violation". -/
theorem commit_insert_then_select_fails :
    ∃ t tr, Commit exampleEnv
        (NewTransaction { DBName := "db", Operations := [exampleInsertNamed, exampleSelectNamed] })
          = .ret t tr (-1) (some E_CONSTRAINT_VIOLATION) :=
  ⟨_, _, rfl⟩

/-- Claim C6 (amended). For every request whose operation list is an `insert` followed by a
`select`, whatever their parameters, `Commit` fails the compatibility check: it returns revision
`-1` and "constraint violation" without calling a callback or handing anything to the KV store,
the response error is "constraint violation", both result slots stay empty, and the cache and
the pending KV operations stay empty. -/
theorem commit_insert_then_select_rejected (env : Env) (db : String) (ins sel : Operation)
    (hi : ins.Op = OP_INSERT) (hs : sel.Op = OP_SELECT) :
    ∃ t, Commit env (NewTransaction { DBName := db, Operations := [ins, sel] })
          = .ret t {} (-1) (some E_CONSTRAINT_VIOLATION) ∧
      t.response.Error = some E_CONSTRAINT_VIOLATION ∧
      t.response.Result = [({} : OperationResult), ({} : OperationResult)] ∧
      t.cache = [] ∧ t.etcdTrx.Then = [] := by
  have hm : mixesSelectWithWrite
      (NewTransaction { DBName := db, Operations := [ins, sel] }).request.Operations
        = true := by
    simp [mixesSelectWithWrite, NewTransaction, hi, hs]
  refine ⟨{ NewTransaction { DBName := db, Operations := [ins, sel] } with
      response :=
        { (NewTransaction { DBName := db, Operations := [ins, sel] }).response with
          Error := some E_CONSTRAINT_VIOLATION } }, ?_, rfl, rfl, rfl, rfl⟩
  rw [Commit_eq, if_pos hm]

/-- Witness of `commit_insert_then_select_rejected`. -/
theorem commit_insert_then_select_rejected_witness :
    exampleInsertNamed.Op = OP_INSERT ∧ exampleSelectNamed.Op = OP_SELECT ∧
      ∃ t, Commit exampleEnv
          (NewTransaction { DBName := "db", Operations := [exampleInsertNamed, exampleSelectNamed] })
            = .ret t {} (-1) (some E_CONSTRAINT_VIOLATION) ∧
        t.response.Error = some E_CONSTRAINT_VIOLATION ∧
        t.response.Result = [({} : OperationResult), ({} : OperationResult)] ∧
        t.cache = [] ∧ t.etcdTrx.Then = [] :=
  ⟨rfl, rfl,
    commit_insert_then_select_rejected exampleEnv "db" exampleInsertNamed exampleSelectNamed
      rfl rfl⟩

/-! ## Claim C7 -/

/-- Claim C7, the code at the failing input: on the list `[insert without table, abort]` the
pre callback of the `insert` dereferences the missing table, and `Commit` panics instead of
returning an error. -/
theorem commit_abort_after_insert_without_table :
    Commit exampleEnv
        (NewTransaction { DBName := "db", Operations := [exampleInsertNoTable, exampleAbort] })
      = .crash { calls := [(0, 0)] } :=
  rfl

/-! ## Claim C8 -/

/-- Claim C8. For the request whose operation list is the single operation `commit` with
`durable` set, `Commit` returns revision `-1` and "not supported", the result slot `0` and the
response carry "not supported", and no KV transaction has been handed to the store (the only
callback called is the pre callback of the operation). -/
theorem commit_durable_not_supported (env : Env) (db : String) (op : Operation)
    (ho : op.Op = OP_COMMIT) (hd : op.Durable = some true) :
    ∃ t, Commit env (NewTransaction { DBName := db, Operations := [op] })
          = .ret t { calls := [(0, 0)], failures := [(0, 0, E_NOT_SUPPORTED)], submitted := [] }
              (-1) (some E_NOT_SUPPORTED) ∧
      t.response.Error = some E_NOT_SUPPORTED ∧
      t.response.Result = [{ Error := some E_NOT_SUPPORTED }] := by
  have hmap : ovsOpCallbackMap op.Op = some (preCommit, doCommit) := by
    rw [ho]; rfl
  have hm : mixesSelectWithWrite
      (NewTransaction { DBName := db, Operations := [op] }).request.Operations = false := by
    simp only [mixesSelectWithWrite, NewTransaction, List.any_cons, List.any_nil, ho]
    decide
  refine ⟨{ request := { DBName := db, Operations := [op] }
            response :=
              { Result := [{ Error := some E_NOT_SUPPORTED }], Error := some E_NOT_SUPPORTED }
            cache := []
            mapUUID := []
            etcdTrx := {} }, ?_, rfl, rfl⟩
  rw [Commit_eq, hm]
  simp only [Bool.false_eq_true, if_false, commitPhases, NewTransaction, runCallbacks, hmap,
    List.length_singleton, List.replicate, List.getElem?_cons_zero, preCommit, hd, if_true]
  rfl

/-- Witness of `commit_durable_not_supported`. -/
theorem commit_durable_not_supported_witness :
    exampleCommitDurable.Op = OP_COMMIT ∧ exampleCommitDurable.Durable = some true ∧
      ∃ t, Commit exampleEnv (NewTransaction { DBName := "db", Operations := [exampleCommitDurable] })
            = .ret t { calls := [(0, 0)], failures := [(0, 0, E_NOT_SUPPORTED)], submitted := [] }
                (-1) (some E_NOT_SUPPORTED) ∧
        t.response.Error = some E_NOT_SUPPORTED ∧
        t.response.Result = [{ Error := some E_NOT_SUPPORTED }] :=
  ⟨rfl, rfl, commit_durable_not_supported exampleEnv "db" exampleCommitDurable rfl rfl⟩

/-! ## Claim C9 -/

/-- Claim C9, refuted as stated: a `commit` without the `durable` parameter is a commit
operation other than one with `durable` set, and its pre callback fails with "constraint
violation". -/
theorem preCommit_without_durable_fails :
    exampleCommitNoDurable.Op = OP_COMMIT ∧ exampleCommitNoDurable.Durable ≠ some true ∧
      preCommit exampleEnv (NewTransaction { DBName := "db", Operations := [exampleCommitNoDurable] })
          exampleCommitNoDurable {}
        = .ret (NewTransaction { DBName := "db", Operations := [exampleCommitNoDurable] }) {}
            (some E_CONSTRAINT_VIOLATION) :=
  ⟨rfl, by decide, rfl⟩

/-- Claim C9 (amended). A `commit` operation with `durable` set to false is a no-op: its pre and
do callbacks succeed and leave the transaction (cache, named-UUID map, pending KV operations
and all the rest) and the result slot unchanged. The do callback does so for every operation;
the pre callback fails with "not supported" when `durable` is set and with "constraint
violation" when `durable` is missing, in both cases without changing the state. -/
theorem commit_callbacks (env : Env) (txn : Transaction) (op : Operation)
    (res : OperationResult) :
    preCommit env txn op res =
        .ret txn res
          (match op.Durable with
            | some false => none
            | some true => some E_NOT_SUPPORTED
            | none => some E_CONSTRAINT_VIOLATION) ∧
      doCommit env txn op res = .ret txn res none := by
  refine ⟨?_, rfl⟩
  unfold preCommit
  cases op.Durable with
  | none => rfl
  | some b => cases b <;> rfl

/-! ## Claim C10 -/

/-- Claim C10, refuted as stated: a `wait` with an empty `rows` and no `until` does not fail;
`Commit` of that single operation succeeds. -/
theorem commit_wait_without_until_succeeds :
    exampleWaitEmptyRows.Until = none ∧
      ∃ t tr, Commit exampleEnv
          (NewTransaction { DBName := "db", Operations := [exampleWaitEmptyRows] })
            = .ret t tr 7 none ∧ tr.failures = [] :=
  ⟨rfl, _, _, rfl, rfl⟩

/-- Claim C10 (amended). Whatever the transaction state and the other parameters: a `wait`
without `timeout` fails in `preWait` with "constraint violation"; a `wait` without `rows`, and a
`wait` with a non-empty `rows` and without `until`, fail in `doWait` with "constraint
violation"; a `wait` with a non-empty `rows` whose `until` is neither "==" nor "!=" fails in
`doWait` with "constraint violation" when its table is missing or is in the schema; and a `wait`
with a table and an empty `rows` succeeds in `doWait`, whatever its `until`. No one of these
changes the state. -/
theorem wait_required_parameters (env : Env) (txn : Transaction) (op : Operation)
    (res : OperationResult) :
    (op.Timeout = none → preWait env txn op res = .ret txn res (some E_CONSTRAINT_VIOLATION)) ∧
    (op.Rows = none → doWait env txn op res = .ret txn res (some E_CONSTRAINT_VIOLATION)) ∧
    (∀ rows, op.Rows = some rows → rows ≠ [] → op.Until = none →
      doWait env txn op res = .ret txn res (some E_CONSTRAINT_VIOLATION)) ∧
    (∀ rows u, op.Rows = some rows → rows ≠ [] → op.Until = some u → u ≠ FN_EQ → u ≠ FN_NE →
      (∀ table, op.Table = some table → (env.LookupTable table).isSome = true) →
      doWait env txn op res = .ret txn res (some E_CONSTRAINT_VIOLATION)) ∧
    (∀ table, op.Table = some table → op.Rows = some [] →
      doWait env txn op res = .ret txn res none) := by
  refine ⟨?_, ?_, ?_, ?_, ?_⟩
  · intro h
    simp [preWait, h]
  · intro h
    unfold doWait
    cases op.Table <;> simp [h]
  · intro rows hr hne hu
    have hlen : rows.length ≠ 0 := by
      intro h0; exact hne (List.length_eq_zero.1 h0)
    unfold doWait
    cases op.Table <;> simp [hr, hu, hlen]
  · intro rows u hr hne hu h1 h2 ht
    have hlen : rows.length ≠ 0 := by
      intro h0; exact hne (List.length_eq_zero.1 h0)
    unfold doWait
    cases htab : op.Table with
    | none => rfl
    | some table =>
      have := ht table htab
      cases hl : env.LookupTable table with
      | none => rw [hl] at this; cases this
      | some ts => simp [hr, hu, hlen, h1, h2, hl]
  · intro table ht hr
    simp [doWait, ht, hr]

/-- Witness of `wait_required_parameters`, one operation for each of its five cases. -/
theorem wait_required_parameters_witness :
    preWait exampleEnv (NewTransaction { DBName := "db", Operations := [] })
        exampleWaitNoTimeout {}
      = .ret (NewTransaction { DBName := "db", Operations := [] }) {}
          (some E_CONSTRAINT_VIOLATION) ∧
    doWait exampleEnv (NewTransaction { DBName := "db", Operations := [] })
        exampleWaitNoRows {}
      = .ret (NewTransaction { DBName := "db", Operations := [] }) {}
          (some E_CONSTRAINT_VIOLATION) ∧
    doWait exampleEnv (NewTransaction { DBName := "db", Operations := [] })
        exampleWaitNoUntil {}
      = .ret (NewTransaction { DBName := "db", Operations := [] }) {}
          (some E_CONSTRAINT_VIOLATION) ∧
    doWait exampleEnv (NewTransaction { DBName := "db", Operations := [] })
        exampleWaitBadUntil {}
      = .ret (NewTransaction { DBName := "db", Operations := [] }) {}
          (some E_CONSTRAINT_VIOLATION) ∧
    doWait exampleEnv (NewTransaction { DBName := "db", Operations := [] })
        exampleWaitEmptyRows {}
      = .ret (NewTransaction { DBName := "db", Operations := [] }) {} none :=
  ⟨(wait_required_parameters exampleEnv _ exampleWaitNoTimeout _).1 rfl,
    (wait_required_parameters exampleEnv _ exampleWaitNoRows _).2.1 rfl,
    (wait_required_parameters exampleEnv _ exampleWaitNoUntil _).2.2.1 _ rfl
      (List.cons_ne_nil _ _) rfl,
    (wait_required_parameters exampleEnv _ exampleWaitBadUntil _).2.2.2.1 _ "<" rfl
      (List.cons_ne_nil _ _) rfl (by decide) (by decide)
      (by intro table h; cases h; rfl),
    (wait_required_parameters exampleEnv _ exampleWaitEmptyRows _).2.2.2.2 "T" rfl rfl⟩

/-! ## Claim C11 -/

theorem doWaitLoop_congr (env : Env) (ts : TableSchema) (m : namedUUIDResolver)
    (op1 op2 : Operation) (equal : Bool) (hw : op1.Where = op2.Where)
    (hc : op1.Columns = op2.Columns) (table : List (String × Row)) :
    ∀ rows : List Row,
      doWaitLoop env ts m op1 equal table rows = doWaitLoop env ts m op2 equal table rows := by
  induction table with
  | nil => intro rows; rfl
  | cons r rest ih =>
    intro rows
    obtain ⟨u, actual0⟩ := r
    simp only [doWaitLoop, hw, hc, ih]

/-- Claim C11. Two `wait` operations that differ only in the value of a present `timeout`, run
on the same transaction state and result slot, give the same outcome in `preWait` and in
`doWait`: the same error or success, the same transaction state (pending KV operations and
cache included) and the same result slot. -/
theorem wait_ignores_timeout (env : Env) (txn : Transaction) (op : Operation)
    (res : OperationResult) (t1 t2 : Int) :
    preWait env txn { op with Timeout := some t1 } res
        = preWait env txn { op with Timeout := some t2 } res ∧
      doWait env txn { op with Timeout := some t1 } res
        = doWait env txn { op with Timeout := some t2 } res := by
  refine ⟨rfl, ?_⟩
  have key : ∀ ts equal table rows,
      doWaitLoop env ts txn.mapUUID { op with Timeout := some t1 } equal table rows
        = doWaitLoop env ts txn.mapUUID { op with Timeout := some t2 } equal table rows :=
    fun ts equal table rows =>
      doWaitLoop_congr env ts txn.mapUUID { op with Timeout := some t1 }
        { op with Timeout := some t2 } equal rfl rfl table rows
  unfold doWait
  simp only [key]

/-! ## Claim C12 -/

theorem deepEqualList_iff (a : List Value) :
    ∀ b : List Value,
      deepEqualList a b = true ↔ List.Forall₂ (fun x y => deepEqual x y = true) a b := by
  induction a with
  | nil =>
    intro b
    cases b with
    | nil => simp [deepEqualList]
    | cons y ys => simp [deepEqualList]
  | cons x xs ih =>
    intro b
    cases b with
    | nil => simp [deepEqualList]
    | cons y ys => simp [deepEqualList, ih]

/-- Claim C12, the code at the failing input: on a set-typed column, the sets `[1, 2]` and
`[2, 1]` hold the same elements in a different order, and `isEqualColumn` and `isEqualRow` find
them different, while `isIncludesSet` finds that each of the two includes the other. -/
theorem isEqualColumn_set_order :
    (∀ x : Value, x ∈ [Value.num 1, Value.num 2] ↔ x ∈ [Value.num 2, Value.num 1]) ∧
      isEqualColumn exampleSetColumn (.set [.num 1, .num 2]) (.set [.num 2, .num 1]) = false ∧
      isEqualRow { Columns := [("ports", exampleSetColumn)] }
          [("ports", .set [.num 1, .num 2])] [("ports", .set [.num 2, .num 1])]
        = .ok false ∧
      isIncludesSet (.set [.num 1, .num 2]) (.set [.num 2, .num 1]) = .ok true ∧
      isIncludesSet (.set [.num 2, .num 1]) (.set [.num 1, .num 2]) = .ok true := by
  refine ⟨?_, ?_, ?_, ?_, ?_⟩
  · intro x
    simp only [List.mem_cons, List.mem_singleton, List.not_mem_nil, or_false]
    exact Or.comm
  · simp [isEqualColumn, exampleSetColumn, isEqualSet, deepEqual, deepEqualList]
  · simp [isEqualRow, isEqualRowLoop, TableSchema.LookupColumn, List.lookup, Row.get,
      isEqualColumn, exampleSetColumn, isEqualSet, deepEqual, deepEqualList]
  · simp [isIncludesSet, Value.GoSet?, isIncludesSetLoop, isIncludesSetFound, isEqualValue,
      deepEqual]
  · simp [isIncludesSet, Value.GoSet?, isIncludesSetLoop, isIncludesSetFound, isEqualValue,
      deepEqual]

/-- On a set-typed column `isEqualColumn` is `reflect.DeepEqual` of the two sets, which takes
the order of the elements into account: two sets built by appending their elements are equal
exactly when they have the same length and their elements are deeply equal position by
position. -/
theorem isEqualColumn_set (mutable_ : Option Bool) (a b : List Value) :
    isEqualColumn { Typ := .set, Mutable := mutable_ } (.set a) (.set b) = true ↔
      List.Forall₂ (fun x y => isEqualValue x y = true) a b := by
  simp only [isEqualColumn, isEqualSet, isEqualValue]
  rw [deepEqual, deepEqualList_iff]

/-! ## Claim C13 -/

theorem isIncludesSetFound_eq (expectedVal : Value) (actualSet : List Value) :
    ∀ foundVal : Bool,
      isIncludesSetFound expectedVal actualSet foundVal
        = (foundVal || actualSet.any (fun y => isEqualValue expectedVal y)) := by
  induction actualSet with
  | nil => intro foundVal; simp [isIncludesSetFound]
  | cons y ys ih =>
    intro foundVal
    simp only [isIncludesSetFound, ih, List.any_cons]
    cases isEqualValue expectedVal y <;> cases foundVal <;> simp

theorem isIncludesSetLoop_iff (actualSet expectedSet : List Value) :
    isIncludesSetLoop actualSet expectedSet = true ↔
      ∀ x ∈ expectedSet, ∃ y ∈ actualSet, isEqualValue x y = true := by
  induction expectedSet with
  | nil => simp [isIncludesSetLoop]
  | cons x xs ih =>
    simp only [isIncludesSetLoop, isIncludesSetFound_eq, Bool.false_or, List.mem_cons,
      forall_eq_or_imp]
    by_cases hx : actualSet.any (fun y => isEqualValue x y) = true
    · have hex : ∃ y ∈ actualSet, isEqualValue x y = true := List.any_eq_true.1 hx
      simp [hx, ih, hex]
    · have hex : ¬ ∃ y ∈ actualSet, isEqualValue x y = true := fun h =>
        hx (List.any_eq_true.2 h)
      simp [hx, hex]

/-- Claim C13. On two sets `isIncludesSet` returns a boolean, which is true if and only if every
element of `expected` is equal (`isEqualValue`) to some element of `actual`; it is true for
every `actual` when `expected` is empty; and it depends only on which values occur in each of
the two sets, not on their order or multiplicity. -/
theorem isIncludesSet_superset (expected actual : List Value) :
    (∃ b, isIncludesSet (.set expected) (.set actual) = .ok b ∧
      (b = true ↔ ∀ x ∈ expected, ∃ y ∈ actual, isEqualValue x y = true)) ∧
    isIncludesSet (.set []) (.set actual) = .ok true ∧
    (∀ expected2 actual2 : List Value,
      (∀ x, x ∈ expected ↔ x ∈ expected2) → (∀ y, y ∈ actual ↔ y ∈ actual2) →
      isIncludesSet (.set expected) (.set actual)
        = isIncludesSet (.set expected2) (.set actual2)) := by
  refine ⟨⟨_, rfl, isIncludesSetLoop_iff actual expected⟩, rfl, ?_⟩
  intro expected2 actual2 he ha
  simp only [isIncludesSet, Value.GoSet?]
  congr 1
  rw [Bool.eq_iff_iff, isIncludesSetLoop_iff, isIncludesSetLoop_iff]
  constructor
  · intro h x hx
    obtain ⟨y, hy, hxy⟩ := h x ((he x).2 hx)
    exact ⟨y, (ha y).1 hy, hxy⟩
  · intro h x hx
    obtain ⟨y, hy, hxy⟩ := h x ((he x).1 hx)
    exact ⟨y, (ha y).2 hy, hxy⟩

/-- Witness of `isIncludesSet_superset`: a set with a repeated element, and the same elements
in another order. -/
theorem isIncludesSet_superset_witness :
    isIncludesSet (.set [.num 1, .num 1]) (.set [.num 1, .num 2])
      = isIncludesSet (.set [.num 1]) (.set [.num 2, .num 1]) :=
  (isIncludesSet_superset [.num 1, .num 1] [.num 1, .num 2]).2.2 [.num 1] [.num 2, .num 1]
    (by intro x; simp) (by intro y; simp [or_comm])

/-! ## Claim C14 -/

theorem isEqualValue_str (s t : String) : isEqualValue (.str s) (.str t) = true ↔ s = t := by
  simp [isEqualValue, deepEqual]

theorem splitAndSortStrings_includes (expectedVal actualVal : Value) :
    isEqualValue (splitAndSortStrings expectedVal actualVal).1
        (splitAndSortStrings expectedVal actualVal).2 = true ↔
      includesValue expectedVal actualVal := by
  cases expectedVal <;> cases actualVal <;>
    simp only [splitAndSortStrings, includesValue, isEqualValue_str]

theorem isIncludesMapLoop_iff (actualMap expectedMap : List (Value × Value)) :
    isIncludesMapLoop actualMap expectedMap = true ↔
      ∀ kv ∈ expectedMap, ∃ actualVal, mapGet actualMap kv.1 = some actualVal ∧
        includesValue kv.2 actualVal := by
  induction expectedMap with
  | nil => simp [isIncludesMapLoop]
  | cons kv rest ih =>
    obtain ⟨key, expectedVal⟩ := kv
    simp only [isIncludesMapLoop, List.mem_cons, forall_eq_or_imp]
    cases hg : mapGet actualMap key with
    | none => simp
    | some actualVal =>
      simp only [Option.some.injEq, exists_eq_left']
      by_cases hv : includesValue expectedVal actualVal
      · have := (splitAndSortStrings_includes expectedVal actualVal).2 hv
        simp [this, hv, ih]
      · have : isEqualValue (splitAndSortStrings expectedVal actualVal).1
            (splitAndSortStrings expectedVal actualVal).2 = false := by
          cases hb : isEqualValue (splitAndSortStrings expectedVal actualVal).1
              (splitAndSortStrings expectedVal actualVal).2 with
          | false => rfl
          | true => exact absurd ((splitAndSortStrings_includes _ _).1 hb) hv
        simp [this, hv]

/-- Claim C14. On two maps `isIncludesMap` returns a boolean, which is true if and only if for
every key `k` of `expected` the map `actual` has the key `k` and `actual[k]` matches
`expected[k]`: two strings match when they are equal after `splitAndSort`, all other values when
they are deeply equal. The keys of `actual` that `expected` does not have are ignored: two
actual maps that agree on the keys of `expected` give the same result. -/
theorem isIncludesMap_keywise (expected actual : List (Value × Value)) :
    (∃ b, isIncludesMap (.map expected) (.map actual) = .ok b ∧
      (b = true ↔ ∀ kv ∈ expected, ∃ actualVal, mapGet actual kv.1 = some actualVal ∧
        includesValue kv.2 actualVal)) ∧
    (∀ actual2 : List (Value × Value),
      (∀ kv ∈ expected, mapGet actual kv.1 = mapGet actual2 kv.1) →
      isIncludesMap (.map expected) (.map actual)
        = isIncludesMap (.map expected) (.map actual2)) := by
  refine ⟨⟨_, rfl, isIncludesMapLoop_iff actual expected⟩, ?_⟩
  intro actual2 h
  simp only [isIncludesMap, Value.GoMap?]
  congr 1
  rw [Bool.eq_iff_iff, isIncludesMapLoop_iff, isIncludesMapLoop_iff]
  constructor
  · intro hall kv hkv
    rw [← h kv hkv]
    exact hall kv hkv
  · intro hall kv hkv
    rw [h kv hkv]
    exact hall kv hkv

/-- Witness of `isIncludesMap_keywise`: an actual map with one more key. -/
theorem isIncludesMap_keywise_witness :
    isIncludesMap (.map [(.str "k", .str "b,a")]) (.map [(.str "k", .str "a,b")])
      = isIncludesMap (.map [(.str "k", .str "b,a")])
          (.map [(.str "k", .str "a,b"), (.str "l", .num 1)]) :=
  (isIncludesMap_keywise [(.str "k", .str "b,a")] [(.str "k", .str "a,b")]).2
    [(.str "k", .str "a,b"), (.str "l", .num 1)]
    (by intro kv hkv
        simp only [List.mem_singleton] at hkv
        subst hkv
        simp [mapGet, deepEqual])

/-! ## Claim C15 -/

/-- Claim C15, the code at the failing input: the tokens of "ab,c" and of "a,bc", sorted, are
different sequences, yet `splitAndSort` returns "abc" for both strings, because it writes the
sorted tokens one after the other with nothing between them; so `isIncludesMap` finds that a map
with the value "ab,c" includes the value "a,bc". -/
theorem splitAndSort_collision :
    sortAlphabetic ((splitComma "ab,c".toList).map String.mk) = ["ab", "c"] ∧
      sortAlphabetic ((splitComma "a,bc".toList).map String.mk) = ["a", "bc"] ∧
      splitAndSort "ab,c" = "abc" ∧ splitAndSort "a,bc" = "abc" ∧
      isIncludesMap (.map [(.str "k", .str "a,bc")]) (.map [(.str "k", .str "ab,c")])
        = .ok true := by
  have h1 : splitAndSort "ab,c" = "abc" := by decide
  have h2 : splitAndSort "a,bc" = "abc" := by decide
  refine ⟨by decide, by decide, h1, h2, ?_⟩
  simp [isIncludesMap, Value.GoMap?, isIncludesMapLoop, mapGet, deepEqual,
    splitAndSortStrings, isEqualValue, h1, h2]

/-- Strings with the same sorted tokens are equal for `splitAndSort`. -/
theorem splitAndSort_of_tokens (s t : String)
    (h : sortAlphabetic ((splitComma s.toList).map String.mk)
      = sortAlphabetic ((splitComma t.toList).map String.mk)) :
    splitAndSort s = splitAndSort t := by
  unfold splitAndSort
  simp only [h]

/-! ## Claim C16 -/

theorem lookup_Set_self (m : namedUUIDResolver) (n u : String) :
    (m.Set n u).lookup n = some u := by
  induction m with
  | nil => simp [namedUUIDResolver.Set, List.lookup]
  | cons e rest ih =>
    obtain ⟨k, v⟩ := e
    simp only [namedUUIDResolver.Set]
    by_cases hk : k = n
    · subst hk; simp [List.lookup]
    · have hb : (n == k) = false := by simpa using fun h => hk h.symm
      simp [hk, List.lookup, hb, ih]

theorem lookup_Set_other (m : namedUUIDResolver) (n n2 u : String) (h : n2 ≠ n) :
    (m.Set n u).lookup n2 = m.lookup n2 := by
  induction m with
  | nil =>
    have hb : (n2 == n) = false := by simpa using h
    simp [namedUUIDResolver.Set, List.lookup, hb]
  | cons e rest ih =>
    obtain ⟨k, v⟩ := e
    simp only [namedUUIDResolver.Set]
    by_cases hk : k = n
    · subst hk
      have hb : (n2 == k) = false := by simpa using h
      simp [List.lookup, hb]
    · simp only [hk, if_false, List.lookup]
      cases n2 == k <;> simp [ih]

/-- Claim C16. After `Set(n, u)`, `Get(n)` returns `u` with no error and `Get` of any other name
returns what it returned before; `Get(n)` on a resolver with no binding for `n` returns the
empty string and the error "constraint violation". -/
theorem resolver_Set_Get (m : namedUUIDResolver) (n n2 u : String) :
    (m.Set n u).Get n = (u, none) ∧
      (n2 ≠ n → (m.Set n u).Get n2 = m.Get n2) ∧
      (m.lookup n = none → m.Get n = ("", some E_CONSTRAINT_VIOLATION)) := by
  refine ⟨?_, ?_, ?_⟩
  · simp [namedUUIDResolver.Get, lookup_Set_self]
  · intro h
    simp [namedUUIDResolver.Get, lookup_Set_other m n n2 u h]
  · intro h
    simp [namedUUIDResolver.Get, h]

/-- Witness of `resolver_Set_Get`. -/
theorem resolver_Set_Get_witness :
    (exampleResolver.Set "b" "u").Get "a" = exampleResolver.Get "a" ∧
      exampleResolver.Get "b" = ("", some E_CONSTRAINT_VIOLATION) :=
  ⟨(resolver_Set_Get exampleResolver "b" "a" "u").2.1 (by decide),
    (resolver_Set_Get exampleResolver "b" "a" "u").2.2 (by decide)⟩

/-! ## Claims C17 and C18 -/

theorem ResolvUUID_eq (env : Env) (m : namedUUIDResolver) (x : Value) :
    m.ResolvUUID env x =
      if isUnbound env m x then .error E_CONSTRAINT_VIOLATION
      else .ok (substitute env m x) := by
  cases x with
  | uuid g =>
    simp only [namedUUIDResolver.ResolvUUID, namedUUIDResolver.Get, isUnbound, substitute,
      isPlaceholder]
    by_cases hg : g ≠ "" ∧ (env.ValidateUUID g).isSome = true
    · have hp : (decide (g ≠ "") && (env.ValidateUUID g).isSome) = true := by
        simp [hg.1, hg.2]
      simp only [if_pos hg, hp, Bool.true_and, if_true]
      cases m.lookup g <;> simp
    · have hp : (decide (g ≠ "") && (env.ValidateUUID g).isSome) = false := by
        cases h1 : decide (g ≠ "") <;> cases h2 : (env.ValidateUUID g).isSome <;> simp_all
      simp only [if_neg hg, hp, Bool.false_and, Bool.false_eq_true, if_false]
  | _ => simp [namedUUIDResolver.ResolvUUID, isUnbound, substitute]

theorem ResolvSetLoop_eq (env : Env) (m : namedUUIDResolver) (l : List Value) :
    ∀ newset : List Value,
      namedUUIDResolver.ResolvSetLoop env m l newset =
        if l.any (isUnbound env m) then .error E_CONSTRAINT_VIOLATION
        else .ok (newset ++ l.map (substitute env m)) := by
  induction l with
  | nil => intro newset; simp [namedUUIDResolver.ResolvSetLoop]
  | cons x xs ih =>
    intro newset
    simp only [namedUUIDResolver.ResolvSetLoop, ResolvUUID_eq, List.any_cons, List.map_cons]
    cases hx : isUnbound env m x with
    | true => simp
    | false => simp [ih]

/-- Claim C17. `Resolv` maps a UUID whose text is not empty and not a valid UUID to the UUID
bound to that text, and fails with "constraint violation" when the text is unbound; it returns
every other UUID and every scalar unchanged. On a set it fails, with "constraint violation",
if and only if some element is an unbound placeholder, and otherwise returns the set of the same
length whose i-th element is the resolution of the i-th element (`substitute`: a bound
placeholder is replaced, any other element is unchanged). -/
theorem Resolv_uuid_and_set (env : Env) (m : namedUUIDResolver) :
    (∀ g : String,
      m.Resolv env (.uuid g) =
        if g ≠ "" ∧ (env.ValidateUUID g).isSome then
          match m.lookup g with
          | some uuid => .ok (.uuid uuid)
          | none => .error E_CONSTRAINT_VIOLATION
        else .ok (.uuid g)) ∧
    m.Resolv env .null = .ok .null ∧
    (∀ b, m.Resolv env (.bool b) = .ok (.bool b)) ∧
    (∀ i, m.Resolv env (.num i) = .ok (.num i)) ∧
    (∀ s, m.Resolv env (.str s) = .ok (.str s)) ∧
    (∀ l : List Value,
      m.Resolv env (.set l) =
        if l.any (isUnbound env m) then .error E_CONSTRAINT_VIOLATION
        else .ok (.set (l.map (substitute env m)))) ∧
    (∀ l : List Value, (l.map (substitute env m)).length = l.length ∧
      ∀ (i : Nat) (x : Value), l[i]? = some x → (l.map (substitute env m))[i]? = some (substitute env m x)) ∧
    (∀ g : String,
      (isUnbound env m (.uuid g) = true ↔
        g ≠ "" ∧ (env.ValidateUUID g).isSome ∧ m.lookup g = none) ∧
      substitute env m (.uuid g) =
        if g ≠ "" ∧ (env.ValidateUUID g).isSome then
          match m.lookup g with
          | some uuid => .uuid uuid
          | none => .uuid g
        else .uuid g) := by
  refine ⟨?_, rfl, fun _ => rfl, fun _ => rfl, fun _ => rfl, ?_, ?_, ?_⟩
  · intro g
    simp only [namedUUIDResolver.Resolv, namedUUIDResolver.ResolvUUID, namedUUIDResolver.Get]
    split
    · cases m.lookup g <;> rfl
    · rfl
  · intro l
    simp only [namedUUIDResolver.Resolv, namedUUIDResolver.ResolvSet, Value.GoSet?,
      ResolvSetLoop_eq]
    cases l.any (isUnbound env m) <;> simp
  · intro l
    refine ⟨List.length_map _ _, ?_⟩
    intro i x h
    simp [List.getElem?_map, h]
  · intro g
    refine ⟨?_, ?_⟩
    · simp only [isUnbound, isPlaceholder]
      cases m.lookup g <;> simp
    · simp only [substitute, isPlaceholder]
      by_cases hg : g ≠ "" ∧ (env.ValidateUUID g).isSome = true
      · have hp : (decide (g ≠ "") && (env.ValidateUUID g).isSome) = true := by
          simp [hg.1, hg.2]
        simp only [if_pos hg, hp, if_true]
      · have hp : (decide (g ≠ "") && (env.ValidateUUID g).isSome) = false := by
          cases h1 : decide (g ≠ "") <;> cases h2 : (env.ValidateUUID g).isSome <;> simp_all
        simp only [if_neg hg, hp, Bool.false_eq_true, if_false]

theorem mapSet_fresh (newmap : List (Value × Value)) (key v : Value)
    (h : ∀ e ∈ newmap, deepEqual e.1 key = false) : mapSet newmap key v = newmap ++ [(key, v)] := by
  induction newmap with
  | nil => rfl
  | cons e rest ih =>
    obtain ⟨k, w⟩ := e
    have hk : deepEqual k key = false := h (k, w) (List.mem_cons_self _ _)
    simp only [mapSet, hk, Bool.false_eq_true, if_false, List.cons_append]
    rw [ih (fun e he => h e (List.mem_cons_of_mem _ he))]

theorem ResolvMapLoop_eq (env : Env) (m : namedUUIDResolver) (v : List (Value × Value)) :
    ∀ newmap : List (Value × Value),
      (newmap ++ v).Pairwise (fun p q => deepEqual p.1 q.1 = false) →
      namedUUIDResolver.ResolvMapLoop env m v newmap =
        if v.any (fun kv => isUnbound env m kv.2) then .error E_CONSTRAINT_VIOLATION
        else .ok (newmap ++ v.map (fun kv => (kv.1, substitute env m kv.2))) := by
  induction v with
  | nil => intro newmap _; simp [namedUUIDResolver.ResolvMapLoop]
  | cons kv rest ih =>
    intro newmap hp
    obtain ⟨key, oldval⟩ := kv
    simp only [namedUUIDResolver.ResolvMapLoop, ResolvUUID_eq, List.any_cons, List.map_cons]
    cases hx : isUnbound env m oldval with
    | true => simp
    | false =>
      have hfresh : ∀ e ∈ newmap, deepEqual e.1 key = false := by
        intro e he
        rw [List.pairwise_append] at hp
        exact hp.2.2 e he (key, oldval) (List.mem_cons_self _ _)
      simp only [Bool.false_eq_true, if_false, Bool.false_or]
      rw [mapSet_fresh newmap key _ hfresh, ih]
      · simp
      · have hkeys :
            ((newmap ++ [(key, substitute env m oldval)] ++ rest).map Prod.fst)
              = ((newmap ++ (key, oldval) :: rest).map Prod.fst) := by simp
        have hp2 := (List.pairwise_map (f := Prod.fst)
          (R := fun a b => deepEqual a b = false)).2 hp
        rw [← hkeys] at hp2
        exact (List.pairwise_map (f := Prod.fst)
          (R := fun a b => deepEqual a b = false)).1 hp2

/-- Claim C18, refuted as stated: the name `a` is bound, the key and the value of the map are
both the placeholder `a`; `Resolv` succeeds and replaces the value, and leaves the key as it
is. -/
theorem Resolv_map_key_not_replaced :
    isPlaceholder exampleEnvNames (.uuid "a") = true ∧
      exampleResolver.lookup "a" = some "00000000-0000-0000-0000-000000000001" ∧
      exampleResolver.Resolv exampleEnvNames (.map [(.uuid "a", .uuid "a")])
        = .ok (.map [(.uuid "a", .uuid "00000000-0000-0000-0000-000000000001")]) := by
  have hlen : ¬ ("a" : String).length = 36 := by decide
  refine ⟨by decide, by decide, ?_⟩
  simp [namedUUIDResolver.Resolv, namedUUIDResolver.ResolvMap,
    namedUUIDResolver.ResolvMapLoop, namedUUIDResolver.ResolvUUID, namedUUIDResolver.Get,
    exampleEnvNames, exampleResolver, List.lookup, mapSet, hlen]

/-- Claim C18 (amended). For every map with distinct keys in which every placeholder that occurs
as a value is bound, `Resolv` succeeds and returns the map with the same keys in which every
value that was a placeholder is replaced by the UUID bound to it and every other value is
unchanged. The keys are left as they are, placeholders included. -/
theorem Resolv_map_values (env : Env) (m : namedUUIDResolver) (v : List (Value × Value))
    (hkeys : v.Pairwise (fun p q => deepEqual p.1 q.1 = false))
    (hbound : ∀ kv ∈ v, isUnbound env m kv.2 = false) :
    m.Resolv env (.map v) = .ok (.map (v.map (fun kv => (kv.1, substitute env m kv.2)))) := by
  have hany : v.any (fun kv => isUnbound env m kv.2) = false := by
    rw [List.any_eq_false]
    intro kv hkv
    simp [hbound kv hkv]
  simp only [namedUUIDResolver.Resolv, namedUUIDResolver.ResolvMap, Value.GoMap?]
  rw [ResolvMapLoop_eq env m v [] (by simpa using hkeys), hany]
  simp

/-- Witness of `Resolv_map_values`: a map with a bound placeholder as value. -/
theorem Resolv_map_values_witness :
    exampleResolver.Resolv exampleEnvNames (.map [(.str "k", .uuid "a")])
      = .ok (.map ([(Value.str "k", Value.uuid "a")].map
          (fun kv => (kv.1, substitute exampleEnvNames exampleResolver kv.2)))) :=
  Resolv_map_values exampleEnvNames exampleResolver [(.str "k", .uuid "a")]
    (List.pairwise_singleton _ _)
    (by intro kv hkv
        simp only [List.mem_singleton] at hkv
        subst hkv
        decide)

/-! ## Claim C19 -/

theorem preInsert_bound {env : Env} {txn : Transaction} {op : Operation}
    {res : OperationResult} {n : String} (hn : op.UUIDName = some n)
    (hb : (txn.mapUUID.lookup n).isSome = true) :
    ∃ txn1, preInsert env txn op res = .ret txn1 res (some E_DUP_UUIDNAME) ∧
      txn1.mapUUID = txn.mapUUID ∧ txn1.etcdTrx = txn.etcdTrx ∧ txn1.cache = txn.cache := by
  cases hu : op.UUID with
  | none =>
    refine ⟨{ txn with nUUID := txn.nUUID + 1 }, ?_, rfl, rfl, rfl⟩
    simp [preInsert, hn, hu, hb]
  | some g =>
    refine ⟨txn, ?_, rfl, rfl, rfl⟩
    simp [preInsert, hn, hu, hb]

theorem preInsert_unbound {env : Env} {txn : Transaction} {op : Operation}
    {res : OperationResult} {n table : String} (hn : op.UUIDName = some n)
    (hb : txn.mapUUID.lookup n = none) (ht : op.Table = some table) :
    ∃ txn1, preInsert env txn op res = .ret txn1 res none ∧
      txn1.mapUUID = txn.mapUUID.Set n
        (match op.UUID with
          | some g => g
          | none => env.GenerateUUID txn.nUUID) ∧
      txn1.etcdTrx.Then = txn.etcdTrx.Then ++
        [.get ((NewTableKey txn.request.DBName table).String env.root)] ∧
      txn1.cache = txn.cache := by
  cases hu : op.UUID with
  | none =>
    refine ⟨etcdGetData env
      { txn with
        nUUID := txn.nUUID + 1
        mapUUID := txn.mapUUID.Set n (env.GenerateUUID txn.nUUID) }
      (NewTableKey txn.request.DBName table), ?_, rfl, rfl, rfl⟩
    simp only [preInsert, hn, hu, hb, ht, Option.isSome_none, Bool.false_eq_true, if_false]
  | some g =>
    refine ⟨etcdGetData env { txn with mapUUID := txn.mapUUID.Set n g }
      (NewTableKey txn.request.DBName table), ?_, rfl, rfl, rfl⟩
    simp only [preInsert, hn, hu, hb, ht, Option.isSome_none, Bool.false_eq_true, if_false]

theorem preInsert_mapUUID {env : Env} {txn txn1 : Transaction} {op : Operation}
    {res res1 : OperationResult} {err : Option String}
    (h : preInsert env txn op res = .ret txn1 res1 err) :
    txn1.mapUUID = txn.mapUUID ∨
      ∃ name uuid, op.UUIDName = some name ∧ txn.mapUUID.lookup name = none ∧
        txn1.mapUUID = txn.mapUUID.Set name uuid := by
  cases hn : op.UUIDName with
  | none =>
    left
    cases ht : op.Table <;> simp only [preInsert, hn, ht] at h <;> cases h
    rfl
  | some n =>
    cases hb : txn.mapUUID.lookup n with
    | some u =>
      obtain ⟨t, ht, hm, -⟩ := @preInsert_bound env _ _ res _ hn
        (show (txn.mapUUID.lookup n).isSome = true by rw [hb]; rfl)
      rw [ht] at h
      cases h
      exact Or.inl hm
    | none =>
      cases ht : op.Table with
      | none =>
        cases hu : op.UUID <;>
          simp [preInsert, hn, hu, hb, ht] at h
      | some table =>
        obtain ⟨t, hret, hm, -⟩ := @preInsert_unbound env _ _ res _ _ hn hb ht
        rw [hret] at h
        cases h
        exact Or.inr ⟨n, _, rfl, hb, hm⟩

theorem etcdGetByWhere_mapUUID {env : Env} {txn txn1 : Transaction} {op : Operation}
    {res res1 : OperationResult} {err : Option String}
    (h : etcdGetByWhere env txn op res = .ret txn1 res1 err) : txn1.mapUUID = txn.mapUUID := by
  unfold etcdGetByWhere at h
  repeat' split at h
  all_goals cases h
  all_goals rfl

theorem pre_callbacks_mapUUID {env : Env} {txn txn1 : Transaction} {op : Operation}
    {res res1 : OperationResult} {err : Option String} {cbs : ovsOpCallback × ovsOpCallback}
    (hc : ovsOpCallbackMap op.Op = some cbs)
    (h : cbs.1 env txn op res = .ret txn1 res1 err) :
    txn1.mapUUID = txn.mapUUID ∨
      ∃ name uuid, txn.mapUUID.lookup name = none ∧
        txn1.mapUUID = txn.mapUUID.Set name uuid := by
  rcases ovsOpCallbackMap_cases hc with
    ⟨-, rfl⟩ | ⟨-, rfl⟩ | ⟨-, rfl⟩ | ⟨-, rfl⟩ | ⟨-, rfl⟩ | ⟨-, rfl⟩ | ⟨-, rfl⟩ | ⟨-, rfl⟩ |
    ⟨-, rfl⟩ | ⟨-, rfl⟩
  · rcases preInsert_mapUUID h with h1 | ⟨name, uuid, -, h2, h3⟩
    · exact Or.inl h1
    · exact Or.inr ⟨name, uuid, h2, h3⟩
  · exact Or.inl (etcdGetByWhere_mapUUID h)
  · exact Or.inl (etcdGetByWhere_mapUUID h)
  · exact Or.inl (etcdGetByWhere_mapUUID h)
  · exact Or.inl (etcdGetByWhere_mapUUID h)
  · simp only [preWait] at h
    split at h
    · cases h; exact Or.inl rfl
    · exact Or.inl (etcdGetByWhere_mapUUID h)
  · simp only [preCommit] at h
    repeat' split at h
    all_goals (cases h; exact Or.inl rfl)
  · simp only [preAbort] at h; cases h; exact Or.inl rfl
  · simp only [preComment] at h; cases h; exact Or.inl rfl
  · simp only [preAssert] at h; cases h; exact Or.inl rfl

theorem pre_callbacks_keep_bound {env : Env} {txn txn1 : Transaction} {op : Operation}
    {res res1 : OperationResult} {err : Option String} {cbs : ovsOpCallback × ovsOpCallback}
    {n : String} (hc : ovsOpCallbackMap op.Op = some cbs)
    (h : cbs.1 env txn op res = .ret txn1 res1 err)
    (hb : (txn.mapUUID.lookup n).isSome = true) : (txn1.mapUUID.lookup n).isSome = true := by
  rcases pre_callbacks_mapUUID hc h with h1 | ⟨name, uuid, h2, h3⟩
  · rw [h1]; exact hb
  · rw [h3]
    by_cases hname : n = name
    · subst hname
      rw [h2] at hb
      cases hb
    · rw [lookup_Set_other _ _ _ _ hname]
      exact hb

theorem ovsOpCallbackMap_insert : ovsOpCallbackMap OP_INSERT = some (preInsert, doInsert) := rfl

theorem runCallbacks_pre_dup (env : Env) (n : String) (ops : List Operation) :
    ∀ (i0 : Nat) (txn : Transaction) (tr : Trace) (j : Nat) (op : Operation),
      ops[j]? = some op → op.Op = OP_INSERT → op.UUIDName = some n →
      ((txn.mapUUID.lookup n).isSome = true ∨
        ∃ i o, i < j ∧ ops[i]? = some o ∧ o.Op = OP_INSERT ∧ o.UUIDName = some n) →
      match runCallbacks env 0 ops i0 txn tr with
      | .done _ _ => False
      | .failed _ tr1 e =>
        ∃ k, k ≤ j ∧ tr1.failures = tr.failures ++ [(0, i0 + k, e)] ∧
          (k = j → e = E_DUP_UUIDNAME)
      | .crash _ => True := by
  induction ops with
  | nil => intro i0 txn tr j op hj; simp at hj
  | cons op0 rest ih =>
    intro i0 txn tr j op hj hop hname hprev
    simp only [runCallbacks]
    cases hc : ovsOpCallbackMap op0.Op with
    | none => trivial
    | some cbs =>
      cases hs : txn.response.Result[i0]? with
      | none => trivial
      | some slot =>
        simp only [if_true]
        cases hcb : cbs.1 env txn op0 slot with
        | crash => trivial
        | ret txn1 slot1 err =>
          have hdup : j = 0 → (txn.mapUUID.lookup n).isSome = true →
              err = some E_DUP_UUIDNAME := by
            intro hj0 hb
            subst hj0
            simp only [List.getElem?_cons_zero, Option.some.injEq] at hj
            subst hj
            rw [hop, ovsOpCallbackMap_insert] at hc
            cases hc
            have hcb1 : preInsert env txn op0 slot = .ret txn1 slot1 err := hcb
            obtain ⟨t, ht, -⟩ := @preInsert_bound env _ _ slot _ hname hb
            rw [ht] at hcb1
            cases hcb1
            rfl
          have hbound0 : j = 0 → (txn.mapUUID.lookup n).isSome = true := by
            intro hj0
            rcases hprev with hb | ⟨i, o, hi, -⟩
            · exact hb
            · omega
          cases err with
          | some e =>
            refine ⟨0, Nat.zero_le _, rfl, ?_⟩
            intro hj0
            have := hdup hj0.symm (hbound0 hj0.symm)
            cases this
            rfl
          | none =>
            simp only
            by_cases hv : Cache.Validate env txn1.cache = true
            swap
            · rw [if_neg hv]; trivial
            · rw [if_pos hv]
              cases j with
              | zero =>
                have := hdup rfl (hbound0 rfl)
                cases this
              | succ j1 =>
                have hprev1 :
                    (txn1.mapUUID.lookup n).isSome = true ∨
                      ∃ i o, i < j1 ∧ rest[i]? = some o ∧ o.Op = OP_INSERT ∧
                        o.UUIDName = some n := by
                  rcases hprev with hb | ⟨i, o, hi, hio, hoo, hon⟩
                  · exact Or.inl (pre_callbacks_keep_bound hc hcb hb)
                  · cases i with
                    | zero =>
                      left
                      simp only [List.getElem?_cons_zero, Option.some.injEq] at hio
                      subst hio
                      rw [hoo, ovsOpCallbackMap_insert] at hc
                      cases hc
                      replace hcb : preInsert env txn op0 slot = .ret txn1 slot1 none := hcb
                      cases hb : txn.mapUUID.lookup n with
                      | some u =>
                        obtain ⟨t, ht, -⟩ := @preInsert_bound env _ _ slot _ hon
                          (show (txn.mapUUID.lookup n).isSome = true by rw [hb]; rfl)
                        rw [ht] at hcb
                        cases hcb
                      | none =>
                        rcases preInsert_mapUUID hcb with h1 | ⟨name, uuid, h2, -, h4⟩
                        · cases htab : op0.Table with
                          | none =>
                            cases hu : op0.UUID <;>
                              simp [preInsert, hon, hu, hb, htab] at hcb
                          | some table =>
                            obtain ⟨t, hret, hm, -⟩ :=
                              @preInsert_unbound env _ _ slot _ _ hon hb htab
                            rw [hret] at hcb
                            cases hcb
                            rw [hm, lookup_Set_self]
                            rfl
                        · rw [hon] at h2
                          cases h2
                          rw [h4, lookup_Set_self]
                          rfl
                    | succ i1 =>
                      exact Or.inr ⟨i1, o, by omega, by simpa using hio, hoo, hon⟩
                have hrec := ih (i0 + 1)
                  { txn1 with
                    response :=
                      { txn1.response with Result := txn1.response.Result.set i0 slot1 } }
                  { tr with calls := tr.calls ++ [(0, i0)] } j1 op
                  (by simpa using hj) hop hname hprev1
                revert hrec
                cases runCallbacks env 0 rest (i0 + 1)
                  { txn1 with
                    response :=
                      { txn1.response with Result := txn1.response.Result.set i0 slot1 } }
                  { tr with calls := tr.calls ++ [(0, i0)] } with
                | done t tr1 => exact id
                | crash tr1 => exact id
                | failed t tr1 e =>
                  rintro ⟨k, hk, hf, he⟩
                  refine ⟨k + 1, by omega, ?_, ?_⟩
                  · rw [hf]; simp [Nat.add_assoc, Nat.add_comm 1 k]
                  · intro hkj
                    exact he (by omega)

/-- Claim C19, refuted as stated: the list `[insert a, abort, insert a]` has two inserts with
the same uuid-name, and its pre phase fails at the `abort` (index 1), not at the second insert
(index 2). -/
theorem commit_duplicate_name_after_abort :
    ∃ t tr, Commit exampleEnv
        (NewTransaction
          { DBName := "db", Operations := [exampleInsertNamed, exampleAbort, exampleInsertNamed] })
          = .ret t tr (-1) (some E_ABORTED) ∧
      tr.failures = [(0, 1, E_ABORTED)] ∧ slotError t 2 = none := by
  refine ⟨_, _, rfl, ?_, ?_⟩ <;> decide

/-- Claim C19 (amended). `preInsert` on an insert whose uuid-name is already bound fails with
"duplicate uuid-name" and leaves the resolver, the pending KV operations and the cache
unchanged; on an unbound uuid-name, when the operation names a table, it succeeds, binds the
name to the operation's `uuid` when one is supplied and else to a generated UUID, and appends
one read of the table. Hence for every operation list with two inserts carrying the same
uuid-name, at indices `i < j`, `Commit` does not succeed and calls no do callback; and when the
list does not mix `select` with writes, `Commit` returns and no pre callback of an operation
before `j` has failed, the pre phase fails at `j` with "duplicate uuid-name". -/
theorem preInsert_duplicate_uuid_name (env : Env) :
    (∀ (txn : Transaction) (op : Operation) (res : OperationResult) (n : String),
      op.UUIDName = some n → (txn.mapUUID.lookup n).isSome = true →
      ∃ txn1, preInsert env txn op res = .ret txn1 res (some E_DUP_UUIDNAME) ∧
        txn1.mapUUID = txn.mapUUID ∧ txn1.etcdTrx = txn.etcdTrx ∧ txn1.cache = txn.cache) ∧
    (∀ (txn : Transaction) (op : Operation) (res : OperationResult) (n table : String),
      op.UUIDName = some n → txn.mapUUID.lookup n = none → op.Table = some table →
      ∃ txn1, preInsert env txn op res = .ret txn1 res none ∧
        txn1.mapUUID = txn.mapUUID.Set n
          (match op.UUID with
            | some g => g
            | none => env.GenerateUUID txn.nUUID) ∧
        txn1.etcdTrx.Then = txn.etcdTrx.Then ++
          [.get ((NewTableKey txn.request.DBName table).String env.root)] ∧
        txn1.cache = txn.cache) ∧
    (∀ (txn : Transaction) (i j : Nat) (op1 op2 : Operation) (n : String), i < j →
      txn.request.Operations[i]? = some op1 → op1.Op = OP_INSERT → op1.UUIDName = some n →
      txn.request.Operations[j]? = some op2 → op2.Op = OP_INSERT → op2.UUIDName = some n →
      match Commit env txn with
      | .ret t tr rev err =>
        err ≠ none ∧ (∀ q, (1, q) ∉ tr.calls) ∧
          (mixesSelectWithWrite txn.request.Operations = false →
            (∀ m e, m < j → (0, m, e) ∉ tr.failures) →
            tr.failures = [(0, j, E_DUP_UUIDNAME)] ∧ rev = -1 ∧
              err = some E_DUP_UUIDNAME ∧ slotError t j = some E_DUP_UUIDNAME ∧
              t.response.Error = some E_DUP_UUIDNAME)
      | .crash tr => ∀ q, (1, q) ∉ tr.calls) := by
  refine ⟨fun txn op res n hn hb => preInsert_bound hn hb,
    fun txn op res n table hn hb ht => preInsert_unbound hn hb ht, ?_⟩
  intro txn i j op1 op2 n hij h1 ho1 hn1 h2 ho2 hn2
  have hdup := runCallbacks_pre_dup env n txn.request.Operations 0
    { txn with etcdTrx := txn.etcdTrx.Clear } {} j op2 h2 ho2 hn2
    (Or.inr ⟨i, op1, hij, h1, ho1, hn1⟩)
  have spec1 := runCallbacks_spec env 0 txn.request.Operations 0
    { txn with etcdTrx := txn.etcdTrx.Clear } {}
  cases hC : Commit env txn with
  | crash tr =>
    simp only
    rw [Commit_eq] at hC
    by_cases hm : mixesSelectWithWrite txn.request.Operations = true
    · rw [if_pos hm] at hC; cases hC
    · rw [if_neg hm] at hC
      simp only [commitPhases] at hC
      cases hr : runCallbacks env 0 txn.request.Operations 0
          { txn with etcdTrx := txn.etcdTrx.Clear } {} with
      | done t2 tr2 => rw [hr] at hdup; exact absurd hdup id
      | failed t2 tr2 e => rw [hr] at hC; cases hC
      | crash tr2 =>
        rw [hr] at hC spec1
        cases hC
        obtain ⟨k, -, hc, -⟩ := spec1
        intro q hmem
        rw [hc] at hmem
        simp only [List.nil_append, mem_callsOf] at hmem
        omega
  | ret t tr rev err =>
    simp only
    have hC0 := hC
    rw [Commit_eq] at hC
    by_cases hm : mixesSelectWithWrite txn.request.Operations = true
    · rw [if_pos hm] at hC
      cases hC
      refine ⟨by simp, by simp, ?_⟩
      intro hmf
      rw [hm] at hmf
      cases hmf
    · rw [if_neg hm] at hC
      simp only [commitPhases] at hC
      cases hr : runCallbacks env 0 txn.request.Operations 0
          { txn with etcdTrx := txn.etcdTrx.Clear } {} with
      | done t2 tr2 => rw [hr] at hdup; exact absurd hdup id
      | crash tr2 => rw [hr] at hC; cases hC
      | failed t2 tr2 e =>
        rw [hr] at hC spec1 hdup
        cases hC
        obtain ⟨k, -, hc, -⟩ := spec1
        obtain ⟨k2, hk2, hf2, he2⟩ := hdup
        simp only [List.nil_append, Nat.zero_add] at hf2
        refine ⟨by simp, ?_, ?_⟩
        · intro q hmem
          rw [hc] at hmem
          simp only [List.nil_append, mem_callsOf] at hmem
          omega
        · intro _ hearlier
          have hkj : k2 = j := by
            rcases Nat.lt_or_ge k2 j with hlt | hge
            · exact absurd (by rw [hf2]; simp) (hearlier k2 e hlt)
            · omega
          subst hkj
          have he := he2 rfl
          subst he
          have hmem : (0, k2, E_DUP_UUIDNAME) ∈ tr.failures := by rw [hf2]; simp
          obtain ⟨-, hfl, hrev, herr, hE, hse, -⟩ := commit_failure_cases hC0 hmem
          exact ⟨hfl, hrev, herr, hse, hE⟩

/-- Witness of `preInsert_duplicate_uuid_name`: a bound name, an unbound name, and the list of
two inserts with the same uuid-name. -/
theorem preInsert_duplicate_uuid_name_witness :
    (∃ txn1, preInsert exampleEnv
        { NewTransaction { DBName := "db", Operations := [] } with mapUUID := exampleResolver }
        exampleInsertNamed {} = .ret txn1 {} (some E_DUP_UUIDNAME)) ∧
    (∃ txn1, preInsert exampleEnv (NewTransaction { DBName := "db", Operations := [] })
        exampleInsertNamed {} = .ret txn1 {} none ∧
      txn1.mapUUID = [("a", "uuid-0")]) ∧
    (∃ t tr rev err, Commit exampleEnv
        (NewTransaction
          { DBName := "db", Operations := [exampleInsertNamed, exampleInsertNamed] })
          = .ret t tr rev err ∧
      mixesSelectWithWrite [exampleInsertNamed, exampleInsertNamed] = false ∧
      (∀ m e, m < 1 → (0, m, e) ∉ tr.failures) ∧
      err ≠ none ∧ (∀ q, (1, q) ∉ tr.calls) ∧
      tr.failures = [(0, 1, E_DUP_UUIDNAME)] ∧ rev = -1 ∧
      err = some E_DUP_UUIDNAME ∧ slotError t 1 = some E_DUP_UUIDNAME ∧
      t.response.Error = some E_DUP_UUIDNAME) := by
  refine ⟨?_, ?_, ?_⟩
  · obtain ⟨t, ht, -⟩ := (preInsert_duplicate_uuid_name exampleEnv).1
      { NewTransaction { DBName := "db", Operations := [] } with mapUUID := exampleResolver }
      exampleInsertNamed {} "a" rfl (by decide)
    exact ⟨t, ht⟩
  · obtain ⟨t, ht, hm, -⟩ := (preInsert_duplicate_uuid_name exampleEnv).2.1
      (NewTransaction { DBName := "db", Operations := [] }) exampleInsertNamed {} "a" "T"
      rfl (by decide) rfl
    exact ⟨t, ht, by rw [hm]; decide⟩
  · have h := (preInsert_duplicate_uuid_name exampleEnv).2.2
      (NewTransaction { DBName := "db", Operations := [exampleInsertNamed, exampleInsertNamed] })
      0 1 exampleInsertNamed exampleInsertNamed "a" (by decide) rfl rfl rfl rfl rfl rfl
    refine ⟨_, _, _, _, rfl, by decide, ?_⟩
    have hearlier : ∀ (m : Nat) (e : String), m < 1 →
        (0, m, e) ∉ [((0 : Nat), (1 : Nat), E_DUP_UUIDNAME)] := by
      intro m e hm hmem
      simp only [List.mem_singleton, Prod.mk.injEq] at hmem
      omega
    exact ⟨hearlier, h.1, h.2.1, h.2.2 (by decide) hearlier⟩

/-! ## Claim C20 -/

theorem Row.get_set_self (row : Row) (c : String) (v : Value) : (row.set c v).get c = v := by
  induction row with
  | nil => simp [Row.set, Row.get, List.lookup]
  | cons e rest ih =>
    obtain ⟨k, w⟩ := e
    simp only [Row.set]
    by_cases hk : k = c
    · subst hk; simp [Row.get, List.lookup]
    · have hb : (c == k) = false := by simpa using fun h => hk h.symm
      simp only [hk, if_false, Row.get, List.lookup, hb]
      exact ih

theorem Row.get_set_other (row : Row) (c c2 : String) (v : Value) (h : c2 ≠ c) :
    (row.set c v).get c2 = row.get c2 := by
  induction row with
  | nil =>
    have hb : (c2 == c) = false := by simpa using h
    simp [Row.set, Row.get, List.lookup, hb]
  | cons e rest ih =>
    obtain ⟨k, w⟩ := e
    simp only [Row.set]
    by_cases hk : k = c
    · subst hk
      have hb : (c2 == k) = false := by simpa using h
      simp [Row.get, List.lookup, hb]
    · simp only [hk, if_false, Row.get, List.lookup]
      cases hck : c2 == k
      · exact ih
      · rfl

theorem getTable_setRow (c : Cache) (db table uuid : String) (row : Row) :
    ((c.setRow (NewDataKey db table uuid) row).getTable db table).lookup uuid = some row := by
  induction c with
  | nil => simp [Cache.setRow, Cache.getTable, NewDataKey, List.lookup]
  | cons e rest ih =>
    obtain ⟨k, r⟩ := e
    simp only [Cache.setRow]
    by_cases hk : k = NewDataKey db table uuid
    · subst hk
      simp [Cache.getTable, NewDataKey, List.lookup]
    · simp only [hk, if_false]
      simp only [Cache.getTable, List.filterMap_cons]
      by_cases hdt : k.DBName = db ∧ k.TableName = table
      · simp only [hdt, and_self, if_true, List.lookup]
        have hu : (uuid == k.UUID) = false := by
          simp only [beq_eq_false_iff_ne, ne_eq]
          intro h
          apply hk
          cases k
          simp only [NewDataKey, Key.mk.injEq]
          simp only at hdt h
          exact ⟨hdt.1, hdt.2, h.symm⟩
        simp only [hu]
        exact ih
      · simp only [hdt, if_false]
        exact ih

/-- Claim C20, refuted as stated: an `insert` that supplies the empty string as `uuid` (and no
uuid-name) succeeds, and the UUID in its result is a generated one, not the supplied one. -/
theorem doInsert_empty_uuid :
    exampleInsertEmptyUUID.UUID = some "" ∧
      ∃ txn1 res1, doInsert exampleEnv (NewTransaction { DBName := "db", Operations := [] })
          exampleInsertEmptyUUID {} = .ret txn1 res1 none ∧
        res1.UUID = some "uuid-0" := by
  refine ⟨rfl, _, _, rfl, ?_⟩
  decide

/-- Claim C20 (amended). Whenever `doInsert` succeeds, the UUID in its result is obtained as
follows: take the UUID bound to the operation's uuid-name when it has one (it is then equal to
the operation's `uuid`, if that is supplied too), else the operation's `uuid` if supplied; if
this gives nothing or the empty string, take a generated UUID instead. The cache then holds,
under that UUID in the operation's table, the row that was encoded, whose `_uuid` column is
that UUID, and exactly one operation has been appended to the pending KV operations, a `Put` of
that row under its data key. -/
theorem doInsert_success (env : Env) (txn txn1 : Transaction) (op : Operation)
    (res res1 : OperationResult) (h : doInsert env txn op res = .ret txn1 res1 none) :
    ∃ (table u0 uuid : String) (row : Row) (val : String),
      op.Table = some table ∧
      (match op.UUIDName with
        | some n => txn.mapUUID.lookup n = some u0 ∧ ∀ g, op.UUID = some g → g = u0
        | none => u0 = op.UUID.getD "") ∧
      uuid = (if u0 = "" then env.GenerateUUID txn.nUUID else u0) ∧
      res1.UUID = some uuid ∧
      (txn1.cache.getTable txn.request.DBName table).lookup uuid = some row ∧
      row.get COL_UUID = .uuid uuid ∧
      env.Marshal row = .ok val ∧
      txn1.etcdTrx.Then = txn.etcdTrx.Then ++
        [.put ((NewDataKey txn.request.DBName table uuid).String env.root) val] := by
  unfold doInsert at h
  cases ht : op.Table with
  | none => rw [ht] at h; cases h
  | some table =>
    rw [ht] at h
    simp only at h
    cases hl : env.LookupTable table with
    | none => rw [hl] at h; cases h
    | some ts =>
      rw [hl] at h
      simp only at h
      split at h
      · cases h
      · rename_i uuid0 hnamed
        have hu0 : match op.UUIDName with
            | some n => txn.mapUUID.lookup n = some uuid0 ∧ ∀ g, op.UUID = some g → g = uuid0
            | none => uuid0 = op.UUID.getD "" := by
          cases hn : op.UUIDName with
          | none =>
            rw [hn] at hnamed
            simp only [Except.ok.injEq] at hnamed
            exact hnamed.symm
          | some n =>
            rw [hn] at hnamed
            simp only [namedUUIDResolver.Get] at hnamed
            cases hlk : txn.mapUUID.lookup n with
            | none => rw [hlk] at hnamed; cases hnamed
            | some u =>
              rw [hlk] at hnamed
              simp only at hnamed
              cases hu : op.UUID with
              | none =>
                rw [hu] at hnamed
                simp only [Except.ok.injEq] at hnamed
                subst hnamed
                exact ⟨hlk, fun g hg => by cases hg⟩
              | some g =>
                rw [hu] at hnamed
                simp only at hnamed
                split at hnamed
                · cases hnamed
                · rename_i hgu
                  simp only [Except.ok.injEq] at hnamed
                  subst hnamed
                  refine ⟨hlk, fun g2 hg2 => ?_⟩
                  cases hg2
                  exact not_not.1 hgu
        by_cases hempty : uuid0 = ""
        · simp only [hempty, if_true] at h
          split at h
          · cases h
          · cases hrow : op.Row with
            | none => rw [hrow] at h; cases h
            | some r =>
              rw [hrow] at h
              simp only at h
              split at h
              · cases h
              · rename_i row1 hprep
                simp only [CbOut.ret.injEq] at h
                obtain ⟨htxn, hres, hput⟩ := h
                simp only [etcdCreateRow, makeValue] at htxn hput
                cases hmar : env.Marshal
                    (setRowVersion env { txn with nUUID := txn.nUUID + 1 }
                      (setRowUUID row1 (env.GenerateUUID txn.nUUID))).2 with
                | error e => rw [hmar] at hput; cases hput
                | ok val =>
                  rw [hmar] at htxn
                  refine ⟨table, "", env.GenerateUUID txn.nUUID, _, val, rfl, ?_, rfl, ?_, ?_, ?_,
                    hmar, ?_⟩
                  · rw [hempty] at hu0; exact hu0
                  · rw [← hres]; rfl
                  · rw [← htxn]
                    exact getTable_setRow _ _ _ _ _
                  · simp only [setRowVersion, setRowUUID]
                    rw [Row.get_set_other _ _ _ _ (by decide), Row.get_set_self]
                  · rw [← htxn]
                    rfl
        · simp only [if_neg hempty] at h
          split at h
          · cases h
          · cases hrow : op.Row with
            | none => rw [hrow] at h; cases h
            | some r =>
              rw [hrow] at h
              simp only at h
              split at h
              · cases h
              · rename_i row1 hprep
                simp only [CbOut.ret.injEq] at h
                obtain ⟨htxn, hres, hput⟩ := h
                simp only [etcdCreateRow, makeValue] at htxn hput
                cases hmar : env.Marshal
                    (setRowVersion env txn (setRowUUID row1 uuid0)).2 with
                | error e => rw [hmar] at hput; cases hput
                | ok val =>
                  rw [hmar] at htxn
                  refine ⟨table, uuid0, uuid0, _, val, rfl, hu0, (if_neg hempty).symm, ?_, ?_, ?_,
                    hmar, ?_⟩
                  · rw [← hres]; rfl
                  · rw [← htxn]
                    exact getTable_setRow _ _ _ _ _
                  · simp only [setRowVersion, setRowUUID]
                    rw [Row.get_set_other _ _ _ _ (by decide), Row.get_set_self]
                  · rw [← htxn]
                    rfl

/-- Witness of `doInsert_success`: an insert under a bound uuid-name. -/
theorem doInsert_success_witness :
    ∃ (txn1 : Transaction) (res1 : OperationResult),
      doInsert exampleEnv
          { NewTransaction { DBName := "db", Operations := [] } with mapUUID := exampleResolver }
          exampleInsertNamed {} = .ret txn1 res1 none ∧
      ∃ (table u0 uuid : String) (row : Row) (val : String),
        exampleInsertNamed.Table = some table ∧
        (match exampleInsertNamed.UUIDName with
          | some n => exampleResolver.lookup n = some u0 ∧
              ∀ g, exampleInsertNamed.UUID = some g → g = u0
          | none => u0 = exampleInsertNamed.UUID.getD "") ∧
        uuid = (if u0 = "" then exampleEnv.GenerateUUID 0 else u0) ∧
        res1.UUID = some uuid ∧
        (txn1.cache.getTable "db" table).lookup uuid = some row ∧
        row.get COL_UUID = .uuid uuid ∧
        exampleEnv.Marshal row = .ok val ∧
        txn1.etcdTrx.Then = [] ++ [.put ((NewDataKey "db" table uuid).String exampleEnv.root) val] := by
  refine ⟨_, _, rfl, ?_⟩
  exact doInsert_success exampleEnv
    { NewTransaction { DBName := "db", Operations := [] } with mapUUID := exampleResolver }
    _ exampleInsertNamed {} _ rfl

/-! ## Claim C21 -/

/-- Claim C21, refuted as stated: the UUID bound to the uuid-name `a` is already a key of the
cached table `T`; the insert under the name `a`, which supplies no `uuid`, takes that UUID,
succeeds, replaces the cached row and appends a `Put`. -/
theorem doInsert_duplicate_from_name :
    exampleTxnBoundRow.mapUUID.Get "a" = ("00000000-0000-0000-0000-000000000001", none) ∧
      (exampleTxnBoundRow.cache.getTable "db" "T").lookup "00000000-0000-0000-0000-000000000001"
        = some [("name", .str "old")] ∧
      ∃ txn1 res1, doInsert exampleEnv exampleTxnBoundRow exampleInsertNamed {}
          = .ret txn1 res1 none ∧
        res1.UUID = some "00000000-0000-0000-0000-000000000001" ∧
        (txn1.cache.getTable "db" "T").lookup "00000000-0000-0000-0000-000000000001"
          = some [("name", .str "a"),
              ("_uuid", .uuid "00000000-0000-0000-0000-000000000001"),
              ("_version", .uuid "uuid-0")] ∧
        txn1.etcdTrx.Then
          = [.put "ovsdb/db/T/00000000-0000-0000-0000-000000000001" "row"] := by
  exact ⟨rfl, rfl, _, _, rfl, rfl, rfl, rfl⟩

/-- Claim C21 (amended). Whenever the operation supplies a `uuid` that is already a key of the
cached table (the table is in the schema, and the uuid-name of the operation, if any, is bound
to that same `uuid`), `doInsert` fails with "duplicate uuid" and leaves the cache and the pending
KV operations unchanged. The check looks at the supplied `uuid` only: an insert that supplies no
`uuid` is not rejected by it, and succeeds whenever its uuid-name (if any) is bound, its row can
be prepared and rows can be encoded, also when the UUID it takes from the binding or from the
generator is already a key of the cached table. -/
theorem doInsert_duplicate_uuid (env : Env) (txn : Transaction) (op : Operation)
    (res : OperationResult) (table : String) (ts : TableSchema)
    (ht : op.Table = some table) (hl : env.LookupTable table = some ts) :
    (∀ g, op.UUID = some g →
      (∀ n, op.UUIDName = some n → txn.mapUUID.lookup n = some g) →
      g ∈ (txn.cache.getTable txn.request.DBName table).map Prod.fst →
      ∃ txn1, doInsert env txn op res = .ret txn1 res (some E_DUP_UUID) ∧
        txn1.cache = txn.cache ∧ txn1.etcdTrx = txn.etcdTrx) ∧
    (op.UUID = none →
      (∀ n, op.UUIDName = some n → (txn.mapUUID.lookup n).isSome = true) →
      (∀ r, op.Row = some r →
        (RowPrepare env ts txn.mapUUID (env.Default table r)).toBool = true) →
      op.Row ≠ none → (∀ row, (env.Marshal row).toBool = true) →
      ∃ txn1 res1, doInsert env txn op res = .ret txn1 res1 none) := by
  refine ⟨?_, ?_⟩
  · intro g hg hname hdup
    have hany : ∀ c : Cache, g ∈ (c.getTable txn.request.DBName table).map Prod.fst →
        (c.getTable txn.request.DBName table).any (fun e => op.UUID = some e.1) = true := by
      intro c hc
      rw [List.any_eq_true]
      obtain ⟨e, he, rfl⟩ := List.mem_map.1 hc
      exact ⟨e, he, by simp [hg]⟩
    have hnamed : (match op.UUIDName with
        | some uuidName =>
          match txn.mapUUID.Get uuidName with
          | (_, some e) => (Except.error e : Except String String)
          | (u, none) =>
            match op.UUID with
            | some g => if g ≠ u then .error E_INTERNAL_ERROR else .ok u
            | none => .ok u
        | none => .ok (op.UUID.getD "")) = .ok g := by
      cases hn : op.UUIDName with
      | none => simp [hg]
      | some n =>
        simp only [namedUUIDResolver.Get, hname n hn, hg]
        simp
    unfold doInsert
    simp only [ht, hl, hnamed]
    by_cases hempty : g = ""
    · simp only [hempty, if_true]
      rw [if_pos (hany _ hdup)]
      exact ⟨_, rfl, rfl, rfl⟩
    · simp only [if_neg hempty]
      rw [if_pos (hany _ hdup)]
      exact ⟨_, rfl, rfl, rfl⟩
  · intro hu hname hprep hrow hmar
    have hany : ∀ c : Cache,
        (c.getTable txn.request.DBName table).any (fun e => op.UUID = some e.1) = false := by
      intro c
      rw [List.any_eq_false]
      intro e _
      simp [hu]
    obtain ⟨r, hr⟩ := Option.ne_none_iff_exists'.1 hrow
    have hp := hprep r hr
    cases hrp : RowPrepare env ts txn.mapUUID (env.Default table r) with
    | error e => rw [hrp] at hp; cases hp
    | ok row1 =>
      have hnamed : ∃ u, (match op.UUIDName with
          | some uuidName =>
            match txn.mapUUID.Get uuidName with
            | (_, some e) => (Except.error e : Except String String)
            | (u, none) =>
              match op.UUID with
              | some g => if g ≠ u then .error E_INTERNAL_ERROR else .ok u
              | none => .ok u
          | none => .ok (op.UUID.getD "")) = .ok u := by
        cases hn : op.UUIDName with
        | none => exact ⟨_, rfl⟩
        | some n =>
          obtain ⟨u, hlk⟩ := Option.isSome_iff_exists.1 (hname n hn)
          refine ⟨u, ?_⟩
          simp only [namedUUIDResolver.Get, hlk, hu]
      obtain ⟨u, hnamed⟩ := hnamed
      unfold doInsert
      simp only [ht, hl, hnamed]
      by_cases hempty : u = ""
      · simp only [hempty, if_true]
        rw [if_neg (by rw [hany]; simp)]
        simp only [hr, hrp, etcdCreateRow, makeValue]
        cases hm : env.Marshal
            (setRowVersion env { txn with nUUID := txn.nUUID + 1 }
              (setRowUUID row1 (env.GenerateUUID txn.nUUID))).2 with
        | error e =>
          have hok := hmar (setRowVersion env { txn with nUUID := txn.nUUID + 1 }
            (setRowUUID row1 (env.GenerateUUID txn.nUUID))).2
          rw [hm] at hok
          cases hok
        | ok val => exact ⟨_, _, rfl⟩
      · simp only [if_neg hempty]
        rw [if_neg (by rw [hany]; simp)]
        simp only [hr, hrp, etcdCreateRow, makeValue]
        cases hm : env.Marshal (setRowVersion env txn (setRowUUID row1 u)).2 with
        | error e =>
          have hok := hmar (setRowVersion env txn (setRowUUID row1 u)).2
          rw [hm] at hok
          cases hok
        | ok val => exact ⟨_, _, rfl⟩

/-- Witness of `doInsert_duplicate_uuid`: on a state whose cache holds a row under the UUID
that the name `a` is bound to, an insert that supplies this UUID, and an insert under the name
`a` that supplies none. -/
theorem doInsert_duplicate_uuid_witness :
    (∃ txn1, doInsert exampleEnv exampleTxnBoundRow exampleInsertUUID {}
        = .ret txn1 {} (some E_DUP_UUID) ∧
      txn1.cache = exampleTxnBoundRow.cache ∧ txn1.etcdTrx = exampleTxnBoundRow.etcdTrx) ∧
    (∃ txn1 res1, doInsert exampleEnv exampleTxnBoundRow exampleInsertNamed {}
        = .ret txn1 res1 none) :=
  ⟨(doInsert_duplicate_uuid exampleEnv exampleTxnBoundRow exampleInsertUUID {} "T"
      exampleTable rfl rfl).1 "00000000-0000-0000-0000-000000000001" rfl
      (by intro n hn; cases hn) (by decide),
    (doInsert_duplicate_uuid exampleEnv exampleTxnBoundRow exampleInsertNamed {} "T"
      exampleTable rfl rfl).2 rfl (by intro n hn; cases hn; rfl)
      (by intro r hr; cases hr; rfl) (by intro h; cases h) (fun _ => rfl)⟩

/-! ## Claims C22 and C23 -/

theorem Row.lookup_set_self (row : Row) (c : String) (v : Value) :
    (row.set c v).lookup c = some v := by
  induction row with
  | nil => simp [Row.set, List.lookup]
  | cons e rest ih =>
    obtain ⟨k, w⟩ := e
    simp only [Row.set]
    by_cases hk : k = c
    · subst hk; simp [List.lookup]
    · have hb : (c == k) = false := by simpa using fun h => hk h.symm
      simp only [hk, if_false, List.lookup, hb]
      exact ih

theorem Row.lookup_set_other (row : Row) (c c2 : String) (v : Value) (h : c2 ≠ c) :
    (row.set c v).lookup c2 = row.lookup c2 := by
  induction row with
  | nil =>
    have hb : (c2 == c) = false := by simpa using h
    simp [Row.set, List.lookup, hb]
  | cons e rest ih =>
    obtain ⟨k, w⟩ := e
    simp only [Row.set]
    by_cases hk : k = c
    · subst hk
      have hb : (c2 == k) = false := by simpa using h
      simp [List.lookup, hb]
    · simp only [hk, if_false, List.lookup]
      cases hck : c2 == k
      · exact ih
      · rfl

theorem columnUpdate_ne_err (cs : ColumnSchema) (o n : Value) (e : String) :
    columnUpdate cs o n ≠ .err e := by
  unfold columnUpdate columnUpdateMap
  intro h
  split at h
  · split at h <;> cases h
  · cases h

/-- One step of the loop of `RowUpdate`. -/
theorem RowUpdateLoop_cons (ts : TableSchema) (c : String) (v : Value) (rest row : Row) :
    RowUpdateLoop ts ((c, v) :: rest) row =
      if isBadColumn ts c = true then .err E_CONSTRAINT_VIOLATION
      else
        match ts.LookupColumn c with
        | none => .err E_CONSTRAINT_VIOLATION
        | some cs =>
          match columnUpdate cs (row.get c) v with
          | .ok x => RowUpdateLoop ts rest (row.set c x)
          | .err e => .err e
          | .crash => .crash := by
  simp only [RowUpdateLoop, isBadColumn]
  obtain ⟨o, hl⟩ : ∃ o, ts.LookupColumn c = o := ⟨_, rfl⟩
  simp only [hl]
  cases o with
  | none => simp
  | some cs =>
    simp only
    by_cases h1 : c = COL_UUID ∨ c = COL_VERSION
    · simp [h1]
    · by_cases h2 : cs.Mutable = some false
      · simp [h1, h2]
      · simp [h1, h2]

theorem RowUpdateLoop_ok_step {ts : TableSchema} {c : String} {v : Value} {rest row newRow : Row}
    (h : RowUpdateLoop ts ((c, v) :: rest) row = .ok newRow) :
    isBadColumn ts c = false ∧
      ∃ cs x, ts.LookupColumn c = some cs ∧ columnUpdate cs (row.get c) v = .ok x ∧
        RowUpdateLoop ts rest (row.set c x) = .ok newRow := by
  rw [RowUpdateLoop_cons] at h
  by_cases hb : isBadColumn ts c = true
  · rw [if_pos hb] at h; cases h
  · rw [if_neg hb] at h
    refine ⟨by simpa using hb, ?_⟩
    cases hl : ts.LookupColumn c with
    | none => rw [hl] at h; cases h
    | some cs =>
      rw [hl] at h
      simp only at h
      cases hu : columnUpdate cs (row.get c) v with
      | ok x => rw [hu] at h; exact ⟨cs, x, rfl, hu, h⟩
      | err e => rw [hu] at h; cases h
      | crash => rw [hu] at h; cases h

theorem RowUpdateLoop_ok_absent (ts : TableSchema) :
    ∀ (update row newRow : Row), RowUpdateLoop ts update row = .ok newRow →
      ∀ c, c ∉ update.map Prod.fst → newRow.lookup c = row.lookup c := by
  intro update
  induction update with
  | nil =>
    intro row newRow h c _
    simp only [RowUpdateLoop, Res.ok.injEq] at h
    rw [h]
  | cons e rest ih =>
    intro row newRow h c hc
    obtain ⟨c0, v0⟩ := e
    obtain ⟨-, cs, x, -, -, hrest⟩ := RowUpdateLoop_ok_step h
    simp only [List.map_cons, List.mem_cons, not_or] at hc
    rw [ih _ _ hrest c hc.2, Row.lookup_set_other _ _ _ _ hc.1]

theorem RowUpdateLoop_ok_good (ts : TableSchema) :
    ∀ (update row newRow : Row), RowUpdateLoop ts update row = .ok newRow →
      ∀ c ∈ update.map Prod.fst, isBadColumn ts c = false := by
  intro update
  induction update with
  | nil => intro row newRow _ c hc; cases hc
  | cons e rest ih =>
    intro row newRow h c hc
    obtain ⟨c0, v0⟩ := e
    obtain ⟨hgood, cs, x, -, -, hrest⟩ := RowUpdateLoop_ok_step h
    simp only [List.map_cons, List.mem_cons] at hc
    rcases hc with rfl | hc
    · exact hgood
    · exact ih _ _ hrest c hc

theorem RowUpdateLoop_ok_present (ts : TableSchema) :
    ∀ (update row newRow : Row), (update.map Prod.fst).Nodup →
      RowUpdateLoop ts update row = .ok newRow →
      ∀ e ∈ update, ∃ cs x, ts.LookupColumn e.1 = some cs ∧
        columnUpdate cs (row.get e.1) e.2 = .ok x ∧ newRow.lookup e.1 = some x := by
  intro update
  induction update with
  | nil => intro row newRow _ _ e he; cases he
  | cons e0 rest ih =>
    intro row newRow hnd h e he
    obtain ⟨c0, v0⟩ := e0
    obtain ⟨-, cs, x, hl, hu, hrest⟩ := RowUpdateLoop_ok_step h
    simp only [List.map_cons, List.nodup_cons] at hnd
    simp only [List.mem_cons] at he
    rcases he with rfl | he
    · refine ⟨cs, x, hl, hu, ?_⟩
      rw [RowUpdateLoop_ok_absent ts _ _ _ hrest c0 hnd.1, Row.lookup_set_self]
    · obtain ⟨cs2, x2, hl2, hu2, hlk2⟩ := ih _ _ hnd.2 hrest e he
      have hne : e.1 ≠ c0 := by
        intro heq
        exact hnd.1 (heq ▸ List.mem_map_of_mem Prod.fst he)
      rw [Row.get_set_other _ _ _ _ hne] at hu2
      exact ⟨cs2, x2, hl2, hu2, hlk2⟩

theorem RowUpdateLoop_err (ts : TableSchema) :
    ∀ (update row : Row) (e : String), RowUpdateLoop ts update row = .err e →
      e = E_CONSTRAINT_VIOLATION ∧ ∃ c ∈ update.map Prod.fst, isBadColumn ts c = true := by
  intro update
  induction update with
  | nil => intro row e h; simp only [RowUpdateLoop] at h; cases h
  | cons e0 rest ih =>
    intro row e h
    obtain ⟨c0, v0⟩ := e0
    rw [RowUpdateLoop_cons] at h
    by_cases hb : isBadColumn ts c0 = true
    · rw [if_pos hb] at h
      cases h
      exact ⟨rfl, c0, by simp, hb⟩
    · rw [if_neg hb] at h
      cases hl : ts.LookupColumn c0 with
      | none => simp [isBadColumn, hl] at hb
      | some cs =>
        rw [hl] at h
        simp only at h
        cases hu : columnUpdate cs (row.get c0) v0 with
        | ok x =>
          rw [hu] at h
          obtain ⟨he, c, hc, hbad⟩ := ih _ _ h
          exact ⟨he, c, by simp only [List.map_cons, List.mem_cons]; exact Or.inr hc, hbad⟩
        | err e2 => exact absurd hu (columnUpdate_ne_err _ _ _ _)
        | crash => rw [hu] at h; cases h

theorem RowUpdateLoop_total (ts : TableSchema) :
    ∀ (update row : Row), (update.map Prod.fst).Nodup → mapsWellTyped ts row update →
      ((∃ c ∈ update.map Prod.fst, isBadColumn ts c = true) →
        RowUpdateLoop ts update row = .err E_CONSTRAINT_VIOLATION) ∧
      ((∀ c ∈ update.map Prod.fst, isBadColumn ts c = false) →
        ∃ newRow, RowUpdateLoop ts update row = .ok newRow) := by
  intro update
  induction update with
  | nil =>
    intro row _ _
    refine ⟨?_, fun _ => ⟨row, rfl⟩⟩
    rintro ⟨c, hc, -⟩
    cases hc
  | cons e0 rest ih =>
    intro row hnd hwt
    obtain ⟨c0, v0⟩ := e0
    simp only [List.map_cons, List.nodup_cons] at hnd
    rw [RowUpdateLoop_cons]
    by_cases hb : isBadColumn ts c0 = true
    · rw [if_pos hb]
      refine ⟨fun _ => rfl, fun hall => ?_⟩
      have := hall c0 (by simp)
      rw [hb] at this
      cases this
    · rw [if_neg hb]
      cases hl : ts.LookupColumn c0 with
      | none => simp [isBadColumn, hl] at hb
      | some cs =>
        simp only
        have hok : ∃ x, columnUpdate cs (row.get c0) v0 = .ok x := by
          unfold columnUpdate
          cases hty : cs.Typ with
          | map =>
            simp only
            obtain ⟨o, n, ho, hn⟩ := hwt (c0, v0) (by simp)
              (by simp [isMapColumn, hl, hty])
            simp only at ho hn
            rw [ho, hn]
            exact ⟨_, rfl⟩
          | integer => exact ⟨_, rfl⟩
          | real => exact ⟨_, rfl⟩
          | boolean => exact ⟨_, rfl⟩
          | string => exact ⟨_, rfl⟩
          | uuid => exact ⟨_, rfl⟩
          | enum => exact ⟨_, rfl⟩
          | set => exact ⟨_, rfl⟩
        obtain ⟨x, hx⟩ := hok
        rw [hx]
        have hwt2 : mapsWellTyped ts (row.set c0 x) rest := by
          intro e he hm
          have hne : e.1 ≠ c0 := by
            intro heq
            exact hnd.1 (heq ▸ List.mem_map_of_mem Prod.fst he)
          rw [Row.get_set_other _ _ _ _ hne]
          exact hwt e (List.mem_cons_of_mem _ he) hm
        obtain ⟨ih1, ih2⟩ := ih (row.set c0 x) hnd.2 hwt2
        refine ⟨?_, ?_⟩
        · rintro ⟨c, hc, hbad⟩
          simp only [List.map_cons, List.mem_cons] at hc
          rcases hc with rfl | hc
          · exact absurd hbad hb
          · exact ih1 ⟨c, hc, hbad⟩
        · intro hall
          exact ih2 (fun c hc => hall c (List.mem_cons_of_mem _ hc))

theorem deepEqual_atom_left (a b : Value) (ha : a.isAtom = true) :
    deepEqual a b = true ↔ a = b := by
  cases a <;> cases b <;> simp_all [deepEqual, Value.isAtom]

theorem deepEqual_atom_right (a b : Value) (hb : b.isAtom = true) :
    deepEqual a b = true ↔ a = b := by
  cases a <;> cases b <;> simp_all [deepEqual, Value.isAtom]

theorem mapGet_eq_none (m : List (Value × Value)) (k : Value)
    (h : ∀ e ∈ m, deepEqual e.1 k = false) : mapGet m k = none := by
  induction m with
  | nil => rfl
  | cons e rest ih =>
    obtain ⟨k0, w⟩ := e
    have h0 : deepEqual k0 k = false := h (k0, w) (List.mem_cons_self _ _)
    simp only [mapGet, h0, Bool.false_eq_true, if_false]
    exact ih (fun e he => h e (List.mem_cons_of_mem _ he))

theorem mapSet_keys (m : List (Value × Value)) (key v : Value) :
    ∀ e ∈ mapSet m key v, e.1 = key ∨ ∃ e2 ∈ m, e.1 = e2.1 := by
  induction m with
  | nil =>
    intro e he
    simp only [mapSet, List.mem_singleton] at he
    exact Or.inl (by rw [he])
  | cons e0 rest ih =>
    obtain ⟨k0, w⟩ := e0
    intro e he
    simp only [mapSet] at he
    split at he
    · simp only [List.mem_cons] at he
      rcases he with rfl | he
      · exact Or.inr ⟨(k0, w), List.mem_cons_self _ _, rfl⟩
      · exact Or.inr ⟨e, List.mem_cons_of_mem _ he, rfl⟩
    · simp only [List.mem_cons] at he
      rcases he with rfl | he
      · exact Or.inr ⟨(k0, w), List.mem_cons_self _ _, rfl⟩
      · rcases ih e he with h | ⟨e2, he2, h⟩
        · exact Or.inl h
        · exact Or.inr ⟨e2, List.mem_cons_of_mem _ he2, h⟩

/-- Reading a map after a write: the written key reads as the written value, every other key
as before. -/
theorem mapGet_mapSet (m : List (Value × Value)) (key v k : Value)
    (hm : ∀ e ∈ m, e.1.isAtom = true) :
    mapGet (mapSet m key v) k = if deepEqual key k = true then some v else mapGet m k := by
  induction m with
  | nil => simp [mapSet, mapGet]
  | cons e0 rest ih =>
    obtain ⟨k0, w⟩ := e0
    have hk0 : k0.isAtom = true := hm (k0, w) (List.mem_cons_self _ _)
    have ih2 := ih (fun e he => hm e (List.mem_cons_of_mem _ he))
    simp only [mapSet]
    by_cases h0 : deepEqual k0 key = true
    · have hkey : k0 = key := (deepEqual_atom_left _ _ hk0).1 h0
      subst hkey
      simp only [h0, if_true, mapGet]
      by_cases h1 : deepEqual k0 k = true
      · simp [h1]
      · simp [h1]
    · simp only [h0, if_false, mapGet, ih2]
      by_cases h1 : deepEqual k0 k = true
      · have hk : k0 = k := (deepEqual_atom_left _ _ hk0).1 h1
        subst hk
        have h2 : ¬ deepEqual key k0 = true := by
          intro h2
          have := (deepEqual_atom_right _ _ hk0).1 h2
          subst this
          exact h0 h2
        simp [h1, h2]
      · simp [h1]

/-- The merge of `columnUpdateMap`: a key reads as in the new map when the new map has it, and
as in the old map otherwise. -/
theorem mapGet_foldl_mapSet (newMap : List (Value × Value)) :
    ∀ oldMap : List (Value × Value), (∀ e ∈ oldMap, e.1.isAtom = true) →
      (∀ e ∈ newMap, e.1.isAtom = true) →
      newMap.Pairwise (fun p q => deepEqual p.1 q.1 = false) →
      ∀ k, mapGet (newMap.foldl (fun retMap e => mapSet retMap e.1 e.2) oldMap) k =
        match mapGet newMap k with
        | some x => some x
        | none => mapGet oldMap k := by
  induction newMap with
  | nil => intro oldMap _ _ _ k; rfl
  | cons e0 rest ih =>
    obtain ⟨k0, v0⟩ := e0
    intro oldMap hold hnew hpw k
    have hk0 : k0.isAtom = true := hnew (k0, v0) (List.mem_cons_self _ _)
    rw [List.pairwise_cons] at hpw
    have hold2 : ∀ e ∈ mapSet oldMap k0 v0, e.1.isAtom = true := by
      intro e he
      rcases mapSet_keys oldMap k0 v0 e he with h | ⟨e2, he2, h⟩
      · rw [h]; exact hk0
      · rw [h]; exact hold e2 he2
    simp only [List.foldl_cons]
    rw [ih _ hold2 (fun e he => hnew e (List.mem_cons_of_mem _ he)) hpw.2 k,
      mapGet_mapSet _ _ _ _ hold]
    simp only [mapGet]
    by_cases h1 : deepEqual k0 k = true
    · have hk : k0 = k := (deepEqual_atom_left _ _ hk0).1 h1
      subst hk
      have hnone : mapGet rest k0 = none := by
        apply mapGet_eq_none
        intro e he
        have hp : deepEqual k0 e.1 = false := hpw.1 e he
        cases hd : deepEqual e.1 k0 with
        | false => rfl
        | true =>
          have heq : e.1 = k0 := (deepEqual_atom_right _ _ hk0).1 hd
          rw [heq, h1] at hp
          cases hp
      simp [h1, hnone]
    · simp [h1]

theorem isMapColumn_eq_true {ts : TableSchema} {c : String} {cs : ColumnSchema}
    (hl : ts.LookupColumn c = some cs) : isMapColumn ts c = true ↔ cs.Typ = .map := by
  simp [isMapColumn, hl]

/-- When `columnUpdateMap` returns, both values are maps, nil or not, and the result is a map
with the entries of the old map into which the entries of the new map have been written. -/
theorem columnUpdateMap_ok {oldValue newValue x : Value}
    (h : columnUpdateMap oldValue newValue = .ok x) :
    ∃ oldMap newMap, oldValue.GoMap? = some oldMap ∧ newValue.GoMap? = some newMap ∧
      x.GoMap? = some (newMap.foldl (fun retMap e => mapSet retMap e.1 e.2) oldMap) := by
  unfold columnUpdateMap at h
  split at h
  · simp only [Res.ok.injEq] at h
    subst h
    exact ⟨_, _, rfl, rfl, rfl⟩
  · simp only [Res.ok.injEq] at h
    subst h
    exact ⟨_, [], rfl, rfl, rfl⟩
  · simp only [Res.ok.injEq] at h
    subst h
    exact ⟨[], [], rfl, rfl, rfl⟩
  · simp only [Res.ok.injEq] at h
    subst h
    exact ⟨[], [], rfl, rfl, rfl⟩
  · cases h

/-- Claim C22. Whenever `RowUpdate(current, update)` succeeds (the columns of `update` are
distinct, as the keys of a Go map are), the new row agrees with the unmarshalled current row on
every column absent from `update`; for every column of `update` that is not map-typed the new
value is the value of `update`; and for every map-typed column of `update` both values are maps
(nil or not) and the new value is a map in which (the keys of both maps being distinct atoms) a
key reads as in the map of `update` when that map has it, and as in the current map
otherwise. -/
theorem RowUpdate_merge (env : Env) (ts : TableSchema) (current update cur newRow : Row)
    (hkeys : (update.map Prod.fst).Nodup) (hcur : env.Unmarshal ts current = .ok cur)
    (h : RowUpdate env ts current update = .ok newRow) :
    (∀ c, c ∉ update.map Prod.fst → newRow.lookup c = cur.lookup c) ∧
    (∀ c v, (c, v) ∈ update → isMapColumn ts c = false → newRow.lookup c = some v) ∧
    (∀ c v, (c, v) ∈ update → isMapColumn ts c = true →
      ∃ oldMap newMap merged new, (cur.get c).GoMap? = some oldMap ∧ v.GoMap? = some newMap ∧
        newRow.lookup c = some new ∧ new.GoMap? = some merged ∧
        ((∀ e ∈ oldMap, e.1.isAtom = true) → (∀ e ∈ newMap, e.1.isAtom = true) →
          newMap.Pairwise (fun p q => deepEqual p.1 q.1 = false) →
          ∀ k, mapGet merged k =
            match mapGet newMap k with
            | some x => some x
            | none => mapGet oldMap k)) := by
  simp only [RowUpdate, hcur] at h
  refine ⟨RowUpdateLoop_ok_absent ts _ _ _ h, ?_, ?_⟩
  · intro c v hcv hm
    obtain ⟨cs, x, hl, hu, hlk⟩ := RowUpdateLoop_ok_present ts _ _ _ hkeys h (c, v) hcv
    simp only at hl hu hlk
    have hty : cs.Typ ≠ .map := by
      intro hty
      rw [(isMapColumn_eq_true hl).2 hty] at hm
      cases hm
    rw [hlk]
    unfold columnUpdate at hu
    cases hc : cs.Typ with
    | map => exact absurd hc hty
    | integer => rw [hc] at hu; simp only [columnUpdateValue, Res.ok.injEq] at hu; rw [hu]
    | real => rw [hc] at hu; simp only [columnUpdateValue, Res.ok.injEq] at hu; rw [hu]
    | boolean => rw [hc] at hu; simp only [columnUpdateValue, Res.ok.injEq] at hu; rw [hu]
    | string => rw [hc] at hu; simp only [columnUpdateValue, Res.ok.injEq] at hu; rw [hu]
    | uuid => rw [hc] at hu; simp only [columnUpdateValue, Res.ok.injEq] at hu; rw [hu]
    | enum => rw [hc] at hu; simp only [columnUpdateValue, Res.ok.injEq] at hu; rw [hu]
    | set => rw [hc] at hu; simp only [columnUpdateValue, Res.ok.injEq] at hu; rw [hu]
  · intro c v hcv hm
    obtain ⟨cs, x, hl, hu, hlk⟩ := RowUpdateLoop_ok_present ts _ _ _ hkeys h (c, v) hcv
    simp only at hl hu hlk
    have hty : cs.Typ = .map := (isMapColumn_eq_true hl).1 hm
    unfold columnUpdate at hu
    rw [hty] at hu
    obtain ⟨oldMap, newMap, ho, hn, hx⟩ := columnUpdateMap_ok hu
    refine ⟨oldMap, newMap, _, x, ho, hn, hlk, hx, ?_⟩
    intro hold hnew hpw k
    exact mapGet_foldl_mapSet newMap oldMap hold hnew hpw k

/-- Witness of `RowUpdate_merge`: an update of a string column and of a map column. -/
theorem RowUpdate_merge_witness :
    RowUpdate exampleEnv exampleTableMap exampleRowMap exampleUpdateMap
        = .ok exampleRowMapUpdated ∧
      exampleRowMapUpdated.lookup "fixed" = exampleRowMap.lookup "fixed" ∧
      exampleRowMapUpdated.lookup "name" = some (.str "b") ∧
      ∃ oldMap newMap merged new, (exampleRowMap.get "opts").GoMap? = some oldMap ∧
        (Value.map [(.str "k", .str "z")]).GoMap? = some newMap ∧
        exampleRowMapUpdated.lookup "opts" = some new ∧ new.GoMap? = some merged ∧
        ((∀ e ∈ oldMap, e.1.isAtom = true) → (∀ e ∈ newMap, e.1.isAtom = true) →
          newMap.Pairwise (fun p q => deepEqual p.1 q.1 = false) →
          ∀ k, mapGet merged k =
            match mapGet newMap k with
            | some x => some x
            | none => mapGet oldMap k) := by
  have h : RowUpdate exampleEnv exampleTableMap exampleRowMap exampleUpdateMap
      = .ok exampleRowMapUpdated := by
    simp [RowUpdate, exampleEnv, exampleRowMap, exampleUpdateMap, exampleRowMapUpdated,
      exampleTableMap, RowUpdateLoop, TableSchema.LookupColumn, List.lookup, COL_UUID,
      COL_VERSION, columnUpdate, columnUpdateMap, columnUpdateValue, Row.get, Row.set, mapSet,
      deepEqual]
  have key := RowUpdate_merge exampleEnv exampleTableMap exampleRowMap exampleUpdateMap
    exampleRowMap exampleRowMapUpdated (by decide) rfl h
  exact ⟨h, key.1 "fixed" (by decide),
    key.2.1 "name" (.str "b") (List.mem_cons_self _ _) (by decide),
    key.2.2 "opts" (.map [(.str "k", .str "z")])
      (List.mem_cons_of_mem _ (List.mem_cons_self _ _)) (by decide)⟩

/-- An update that names the unknown column `zzz` and the map column `opts`, which the current
row does not have. When `opts` is visited first `RowUpdate` panics in
`columnUpdateMap`; when `zzz` is visited first it fails with "constraint violation". -/
theorem RowUpdate_outcome_depends_on_order :
    isBadColumn exampleTableMap "zzz" = true ∧
      exampleEnv.Unmarshal exampleTableMap [("name", .str "a")] = .ok [("name", .str "a")] ∧
      RowUpdate exampleEnv exampleTableMap [("name", .str "a")]
          [("opts", .map []), ("zzz", .num 1)] = .crash ∧
      RowUpdate exampleEnv exampleTableMap [("name", .str "a")]
          [("zzz", .num 1), ("opts", .map [])] = .err E_CONSTRAINT_VIOLATION :=
  ⟨by decide, rfl, rfl, rfl⟩

/-- For every current row that unmarshals and every update row (with distinct columns): an
error of `RowUpdate` is always "constraint violation" and is returned only when the update names
a column that is not in the table schema, or is `_uuid` or `_version`, or whose schema has
`mutable=false`; when the update names such a column `RowUpdate` never succeeds. When moreover
every map-typed column of the update holds a map that is not nil in the update and in the
current row (otherwise `columnUpdateMap` may panic when the column is visited), `RowUpdate`
fails with "constraint violation" if and only if the update names such a column, succeeds
otherwise, and the outcome does not depend on the order in which the columns are visited: for
every reordering of the update the failure is the same and the new rows agree on every
column. -/
theorem RowUpdate_mutability (env : Env) (ts : TableSchema) (current update cur : Row)
    (hkeys : (update.map Prod.fst).Nodup) (hcur : env.Unmarshal ts current = .ok cur) :
    (∀ e, RowUpdate env ts current update = .err e →
      e = E_CONSTRAINT_VIOLATION ∧ ∃ c ∈ update.map Prod.fst, isBadColumn ts c = true) ∧
    ((∃ c ∈ update.map Prod.fst, isBadColumn ts c = true) →
      ∀ newRow, RowUpdate env ts current update ≠ .ok newRow) ∧
    (mapsWellTyped ts cur update →
      (RowUpdate env ts current update = .err E_CONSTRAINT_VIOLATION ↔
        ∃ c ∈ update.map Prod.fst, isBadColumn ts c = true) ∧
      ((∀ c ∈ update.map Prod.fst, isBadColumn ts c = false) →
        ∃ newRow, RowUpdate env ts current update = .ok newRow) ∧
      ∀ update2 : Row, update2.Perm update →
        (RowUpdate env ts current update2 = .err E_CONSTRAINT_VIOLATION ↔
          RowUpdate env ts current update = .err E_CONSTRAINT_VIOLATION) ∧
        ∀ newRow newRow2, RowUpdate env ts current update = .ok newRow →
          RowUpdate env ts current update2 = .ok newRow2 →
          ∀ c, newRow2.lookup c = newRow.lookup c) := by
  simp only [RowUpdate, hcur]
  refine ⟨fun e he => RowUpdateLoop_err ts _ _ e he, ?_, ?_⟩
  · rintro ⟨c, hc, hbad⟩ newRow hok
    have := RowUpdateLoop_ok_good ts _ _ _ hok c hc
    rw [hbad] at this
    cases this
  · intro hwt
    obtain ⟨t1, t2⟩ := RowUpdateLoop_total ts update cur hkeys hwt
    refine ⟨⟨fun he => (RowUpdateLoop_err ts _ _ _ he).2, t1⟩, t2, ?_⟩
    intro update2 hperm
    have hkeys2 : (update2.map Prod.fst).Nodup :=
      (List.Perm.nodup_iff (hperm.map Prod.fst)).2 hkeys
    have hwt2 : mapsWellTyped ts cur update2 := fun e he hm => hwt e (hperm.mem_iff.1 he) hm
    obtain ⟨u1, -⟩ := RowUpdateLoop_total ts update2 cur hkeys2 hwt2
    have hbad : (∃ c ∈ update2.map Prod.fst, isBadColumn ts c = true) ↔
        ∃ c ∈ update.map Prod.fst, isBadColumn ts c = true := by
      constructor
      · rintro ⟨c, hc, hb⟩
        exact ⟨c, ((hperm.map Prod.fst).mem_iff).1 hc, hb⟩
      · rintro ⟨c, hc, hb⟩
        exact ⟨c, ((hperm.map Prod.fst).mem_iff).2 hc, hb⟩
    refine ⟨⟨fun he => t1 (hbad.1 (RowUpdateLoop_err ts _ _ _ he).2),
      fun he => u1 (hbad.2 (RowUpdateLoop_err ts _ _ _ he).2)⟩, ?_⟩
    intro newRow newRow2 hok hok2 c
    by_cases hc : c ∈ update.map Prod.fst
    · obtain ⟨e, he, rfl⟩ := List.mem_map.1 hc
      obtain ⟨cs, x, hl, hu, hlk⟩ := RowUpdateLoop_ok_present ts _ _ _ hkeys hok e he
      obtain ⟨cs2, x2, hl2, hu2, hlk2⟩ :=
        RowUpdateLoop_ok_present ts _ _ _ hkeys2 hok2 e (hperm.mem_iff.2 he)
      rw [hl] at hl2
      cases hl2
      rw [hu] at hu2
      cases hu2
      rw [hlk, hlk2]
    · have hc2 : c ∉ update2.map Prod.fst := fun h => hc (((hperm.map Prod.fst).mem_iff).1 h)
      rw [RowUpdateLoop_ok_absent ts _ _ _ hok c hc, RowUpdateLoop_ok_absent ts _ _ _ hok2 c hc2]

/-- Witness of `RowUpdate_mutability`: an update of the immutable column `fixed` and of `name`,
in the two orders. -/
theorem RowUpdate_mutability_witness :
    RowUpdate exampleEnv exampleTableMap exampleRowMap
        [("fixed", .str "g"), ("name", .str "b")] = .err E_CONSTRAINT_VIOLATION ∧
      RowUpdate exampleEnv exampleTableMap exampleRowMap
        [("name", .str "b"), ("fixed", .str "g")] = .err E_CONSTRAINT_VIOLATION := by
  have hwt : mapsWellTyped exampleTableMap exampleRowMap
      [("fixed", .str "g"), ("name", .str "b")] := by
    intro e he hm
    simp only [List.mem_cons, List.mem_singleton, List.not_mem_nil, or_false] at he
    rcases he with rfl | rfl
    · exact absurd hm (by decide)
    · exact absurd hm (by decide)
  have key := (RowUpdate_mutability exampleEnv exampleTableMap exampleRowMap
    [("fixed", .str "g"), ("name", .str "b")] exampleRowMap (by decide) rfl).2.2 hwt
  have h1 := key.1.2 ⟨"fixed", by decide, by decide⟩
  exact ⟨h1, (key.2.2 [("name", .str "b"), ("fixed", .str "g")]
    (List.Perm.swap _ _ _)).1.2 h1⟩

/-! ## The loops over the cached table (claims C24, C25 and C26) -/

theorem loopFrame_refl (txn : Transaction) : LoopFrame txn txn [] 0 := by
  simp [LoopFrame]

theorem selectedRows_cons_true {env : Env} {ts : TableSchema} {m : namedUUIDResolver}
    {w : Option (List Value)} {uuid : String} {row : Row} {rest : List (String × Row)}
    (h : isRowSelectedByWhere env ts m row w = .ok true) :
    selectedRows env ts m w ((uuid, row) :: rest) = (uuid, row) :: selectedRows env ts m w rest := by
  simp [selectedRows, rowSelected, h]

theorem selectedRows_cons_false {env : Env} {ts : TableSchema} {m : namedUUIDResolver}
    {w : Option (List Value)} {uuid : String} {row : Row} {rest : List (String × Row)}
    (h : isRowSelectedByWhere env ts m row w = .ok false) :
    selectedRows env ts m w ((uuid, row) :: rest) = selectedRows env ts m w rest := by
  simp [selectedRows, rowSelected, h]

theorem iterate_IncrementCount_InitCount (res : OperationResult) (n : Nat) :
    Nat.iterate OperationResult.IncrementCount n res.InitCount = { res with Count := some n } := by
  induction n with
  | zero => rfl
  | succ k ih =>
    rw [Function.iterate_succ_apply', ih]
    simp [OperationResult.IncrementCount]

/-- The loop of `doDelete`, when it succeeds: the where-clause is evaluated without error on
every row, one `Delete` is appended for each selected row, the count is incremented once for
each, and the cache is left as it is. -/
theorem doDeleteLoop_spec (env : Env) (ts : TableSchema) (table : String) (op : Operation) :
    ∀ (rows : List (String × Row)) (txn : Transaction) (res : OperationResult)
      (txn1 : Transaction) (res1 : OperationResult),
      doDeleteLoop env ts table op rows txn res = .ret txn1 res1 none →
      (∀ e ∈ rows, ∃ b, isRowSelectedByWhere env ts txn.mapUUID e.2 op.Where = .ok b) ∧
      LoopFrame txn txn1
        (deletesOf env txn.request.DBName table (selectedRows env ts txn.mapUUID op.Where rows))
        0 ∧
      txn1.cache = txn.cache ∧
      res1 = Nat.iterate OperationResult.IncrementCount
        (selectedRows env ts txn.mapUUID op.Where rows).length res := by
  intro rows
  induction rows with
  | nil =>
    intro txn res txn1 res1 h
    simp only [doDeleteLoop, CbOut.ret.injEq, and_true] at h
    obtain ⟨rfl, rfl⟩ := h
    refine ⟨?_, loopFrame_refl _, rfl, rfl⟩
    intro e he
    cases he
  | cons e0 rest ih =>
    intro txn res txn1 res1 h
    obtain ⟨uuid, row⟩ := e0
    simp only [doDeleteLoop] at h
    cases hsel : isRowSelectedByWhere env ts txn.mapUUID row op.Where with
    | error e => rw [hsel] at h; cases h
    | ok b =>
      rw [hsel] at h
      cases b with
      | false =>
        simp only [Bool.not_false, if_true] at h
        obtain ⟨h1, h2, h3, h4⟩ := ih _ _ _ _ h
        rw [selectedRows_cons_false hsel]
        refine ⟨?_, h2, h3, h4⟩
        intro e he
        simp only [List.mem_cons] at he
        rcases he with rfl | he
        · exact ⟨_, hsel⟩
        · exact h1 e he
      | true =>
        simp only [Bool.not_true, Bool.false_eq_true, if_false] at h
        obtain ⟨h1, h2, h3, h4⟩ := ih _ _ _ _ h
        rw [selectedRows_cons_true hsel]
        refine ⟨?_, ?_, h3, ?_⟩
        · intro e he
          simp only [List.mem_cons] at he
          rcases he with rfl | he
          · exact ⟨_, hsel⟩
          · exact h1 e he
        · obtain ⟨f1, f2, f3, f4, f5, f6, f7, f8⟩ := h2
          refine ⟨?_, f2, f3, f4, f5, f6, f7, f8⟩
          rw [f1]
          simp [etcdDeleteRow, deletesOf]
        · rw [h4]
          rfl

theorem etcdModifyRow_fst (env : Env) (t : Transaction) (db table uuid : String) (row : Row) :
    (etcdModifyRow env t (NewDataKey db table uuid) row).1 =
      { t with etcdTrx :=
          { t.etcdTrx with Then := t.etcdTrx.Then ++ putsOf env db table [(uuid, row)] } } := by
  unfold etcdModifyRow makeValue putsOf
  cases hm : env.Marshal row with
  | error e =>
    cases t with
    | mk request response cache mapUUID etcdTrx nUUID nClock =>
      cases etcdTrx
      simp [hm]
  | ok val => simp [hm]

theorem Writes_length {P : Nat → Row → Row → Prop} :
    ∀ (sel ws : List (String × Row)) (n : Nat), Writes P n sel ws → ws.length = sel.length := by
  intro sel
  induction sel with
  | nil =>
    intro ws n h
    cases ws with
    | nil => rfl
    | cons w ws => simp [Writes] at h
  | cons e rest ih =>
    intro ws n h
    obtain ⟨uuid, row⟩ := e
    cases ws with
    | nil => simp [Writes] at h
    | cons w ws =>
      obtain ⟨uuid2, new⟩ := w
      simp only [Writes] at h
      simp only [List.length_cons, ih ws (n + 1) h.2.2]

theorem putsOf_cons (env : Env) (db table : String) (w : String × Row)
    (ws : List (String × Row)) :
    putsOf env db table (w :: ws) = putsOf env db table [w] ++ putsOf env db table ws := by
  unfold putsOf
  simp only [List.filterMap_cons, List.filterMap_nil]
  cases env.Marshal w.2 <;> rfl

/-- The loop of `doUpdate`, when it succeeds: the where-clause is evaluated without error on
every row; for each selected row, in order, one row is written to the cache under the same UUID,
with a newly generated `_version`, and a `Put` of it is appended if the JSON encoder accepts it;
the count is incremented once for each. -/
theorem doUpdateLoop_spec (env : Env) (ts : TableSchema) (table : String)
    (w : Option (List Value)) :
    ∀ (rows : List (String × Row)) (txn : Transaction) (opRow : Option Row)
      (res : OperationResult) (txn1 : Transaction) (res1 : OperationResult),
      doUpdateLoop env ts table w rows txn opRow res = .ret txn1 res1 none →
      (∀ e ∈ rows, ∃ b, isRowSelectedByWhere env ts txn.mapUUID e.2 w = .ok b) ∧
      ∃ ws, Writes (UpdateWrite env ts) txn.nUUID (selectedRows env ts txn.mapUUID w rows) ws ∧
        LoopFrame txn txn1 (putsOf env txn.request.DBName table ws) ws.length ∧
        txn1.cache = cacheAfter txn.cache txn.request.DBName table ws ∧
        res1 = Nat.iterate OperationResult.IncrementCount ws.length res := by
  intro rows
  induction rows with
  | nil =>
    intro txn opRow res txn1 res1 h
    simp only [doUpdateLoop, CbOut.ret.injEq, and_true] at h
    obtain ⟨rfl, rfl⟩ := h
    refine ⟨?_, [], ?_, loopFrame_refl _, rfl, rfl⟩
    · intro e he
      cases he
    · simp [selectedRows, Writes]
  | cons e0 rest ih =>
    intro txn opRow res txn1 res1 h
    obtain ⟨uuid, row⟩ := e0
    simp only [doUpdateLoop] at h
    cases hsel : isRowSelectedByWhere env ts txn.mapUUID row w with
    | error e => rw [hsel] at h; cases h
    | ok b =>
      rw [hsel] at h
      have hall : ∀ rest1 : List (String × Row),
          (∀ e ∈ rest1, ∃ b, isRowSelectedByWhere env ts txn.mapUUID e.2 w = .ok b) →
          ∀ e ∈ (uuid, row) :: rest1,
            ∃ b, isRowSelectedByWhere env ts txn.mapUUID e.2 w = .ok b := by
        intro rest1 h1 e he
        simp only [List.mem_cons] at he
        rcases he with rfl | he
        · exact ⟨_, hsel⟩
        · exact h1 e he
      cases b with
      | false =>
        simp only [Bool.not_false, if_true] at h
        obtain ⟨h1, ws, h2, h3, h4, h5⟩ := ih _ _ _ _ _ h
        rw [selectedRows_cons_false hsel]
        exact ⟨hall rest h1, ws, h2, h3, h4, h5⟩
      | true =>
        simp only [Bool.not_true, Bool.false_eq_true, if_false] at h
        cases opRow with
        | none => cases h
        | some r =>
          simp only at h
          cases hprep : RowPrepare env ts txn.mapUUID r with
          | error e => rw [hprep] at h; cases h
          | ok r1 =>
            rw [hprep] at h
            simp only at h
            cases hupd : RowUpdate env ts row r1 with
            | crash => rw [hupd] at h; cases h
            | err e => rw [hupd] at h; cases h
            | ok newRow0 =>
              rw [hupd] at h
              simp only [setRowVersion, etcdModifyRow_fst] at h
              obtain ⟨h1, ws, h2, h3, h4, h5⟩ := ih _ _ _ _ _ h
              have hw : UpdateWrite env ts txn.nUUID row
                  (newRow0.set COL_VERSION (.uuid (env.GenerateUUID txn.nUUID))) := by
                unfold RowUpdate at hupd
                cases hcur : env.Unmarshal ts row with
                | error e => rw [hcur] at hupd; cases hupd
                | ok cur =>
                  rw [hcur] at hupd
                  exact ⟨cur, r1, newRow0, hcur, hupd, rfl⟩
              rw [selectedRows_cons_true hsel]
              refine ⟨hall rest h1,
                (uuid, newRow0.set COL_VERSION (.uuid (env.GenerateUUID txn.nUUID))) :: ws,
                ⟨rfl, hw, h2⟩, ?_, h4, ?_⟩
              · obtain ⟨f1, f2, f3, f4, f5, f6, f7, f8⟩ := h3
                refine ⟨?_, f2, f3, f4, f5, f6, ?_, f8⟩
                · rw [f1, putsOf_cons env _ _ _ ws]
                  simp only [List.append_assoc]
                · rw [f7]
                  simp only [List.length_cons]
                  omega
              · rw [h5]
                rfl

/-- The loop of `doMutate`, when it succeeds: as the loop of `doUpdate`, the written row being
the mutated row. -/
theorem doMutateLoop_spec (env : Env) (ts : TableSchema) (table : String) (op : Operation) :
    ∀ (rows : List (String × Row)) (txn : Transaction) (res : OperationResult)
      (txn1 : Transaction) (res1 : OperationResult),
      doMutateLoop env ts table op rows txn res = .ret txn1 res1 none →
      (∀ e ∈ rows, ∃ b, isRowSelectedByWhere env ts txn.mapUUID e.2 op.Where = .ok b) ∧
      ∃ ws, Writes (MutateWrite env ts txn.mapUUID op.Mutations) txn.nUUID
          (selectedRows env ts txn.mapUUID op.Where rows) ws ∧
        LoopFrame txn txn1 (putsOf env txn.request.DBName table ws) ws.length ∧
        txn1.cache = cacheAfter txn.cache txn.request.DBName table ws ∧
        res1 = Nat.iterate OperationResult.IncrementCount ws.length res := by
  intro rows
  induction rows with
  | nil =>
    intro txn res txn1 res1 h
    simp only [doMutateLoop, CbOut.ret.injEq, and_true] at h
    obtain ⟨rfl, rfl⟩ := h
    refine ⟨?_, [], ?_, loopFrame_refl _, rfl, rfl⟩
    · intro e he
      cases he
    · simp [selectedRows, Writes]
  | cons e0 rest ih =>
    intro txn res txn1 res1 h
    obtain ⟨uuid, row⟩ := e0
    simp only [doMutateLoop] at h
    cases hsel : isRowSelectedByWhere env ts txn.mapUUID row op.Where with
    | error e => rw [hsel] at h; cases h
    | ok b =>
      rw [hsel] at h
      have hall : ∀ rest1 : List (String × Row),
          (∀ e ∈ rest1, ∃ b, isRowSelectedByWhere env ts txn.mapUUID e.2 op.Where = .ok b) →
          ∀ e ∈ (uuid, row) :: rest1,
            ∃ b, isRowSelectedByWhere env ts txn.mapUUID e.2 op.Where = .ok b := by
        intro rest1 h1 e he
        simp only [List.mem_cons] at he
        rcases he with rfl | he
        · exact ⟨_, hsel⟩
        · exact h1 e he
      cases b with
      | false =>
        simp only [Bool.not_false, if_true] at h
        obtain ⟨h1, ws, h2, h3, h4, h5⟩ := ih _ _ _ _ h
        rw [selectedRows_cons_false hsel]
        exact ⟨hall rest h1, ws, h2, h3, h4, h5⟩
      | true =>
        simp only [Bool.not_true, Bool.false_eq_true, if_false] at h
        cases hmut : RowMutate env ts txn.mapUUID row op.Mutations with
        | crash => rw [hmut] at h; cases h
        | err e => rw [hmut] at h; cases h
        | ok newRow0 =>
          rw [hmut] at h
          simp only [setRowVersion, etcdModifyRow_fst] at h
          obtain ⟨h1, ws, h2, h3, h4, h5⟩ := ih _ _ _ _ h
          rw [selectedRows_cons_true hsel]
          refine ⟨hall rest h1,
            (uuid, newRow0.set COL_VERSION (.uuid (env.GenerateUUID txn.nUUID))) :: ws,
            ⟨rfl, ⟨newRow0, hmut, rfl⟩, h2⟩, ?_, h4, ?_⟩
          · obtain ⟨f1, f2, f3, f4, f5, f6, f7, f8⟩ := h3
            refine ⟨?_, f2, f3, f4, f5, f6, ?_, f8⟩
            · rw [f1, putsOf_cons env _ _ _ ws]
              simp only [List.append_assoc]
            · rw [f7]
              simp only [List.length_cons]
              omega
          · rw [h5]
            rfl

/-! ## Claim C24 -/

theorem Writes_getElem {P : Nat → Row → Row → Prop} :
    ∀ (sel ws : List (String × Row)) (n : Nat), Writes P n sel ws →
      ∀ (i : Nat) (uuid : String) (row : Row), sel[i]? = some (uuid, row) →
        ∃ new, ws[i]? = some (uuid, new) ∧ P (n + i) row new := by
  intro sel
  induction sel with
  | nil => intro ws n _ i uuid row hi; simp at hi
  | cons e rest ih =>
    intro ws n h i uuid row hi
    obtain ⟨uuid0, row0⟩ := e
    cases ws with
    | nil => simp [Writes] at h
    | cons w ws =>
      obtain ⟨uuid2, new⟩ := w
      simp only [Writes] at h
      obtain ⟨rfl, hp, hrest⟩ := h
      cases i with
      | zero =>
        simp only [List.getElem?_cons_zero, Option.some.injEq, Prod.mk.injEq] at hi
        obtain ⟨rfl, rfl⟩ := hi
        exact ⟨new, by simp, hp⟩
      | succ j =>
        simp only [List.getElem?_cons_succ] at hi
        obtain ⟨new2, h1, h2⟩ := ih ws (n + 1) hrest j uuid row hi
        refine ⟨new2, by simpa using h1, ?_⟩
        have : n + (j + 1) = n + 1 + j := by omega
        rw [this]
        exact h2

theorem isBadColumn_COL_UUID (ts : TableSchema) : isBadColumn ts COL_UUID = true := by
  unfold isBadColumn
  cases ts.LookupColumn COL_UUID <;> simp

/-- A row written by `doUpdate`: its `_uuid` is that of the unmarshalled cached row and its
`_version` is the generated UUID. -/
theorem UpdateWrite_columns {env : Env} {ts : TableSchema} {n : Nat} {row new : Row}
    (h : UpdateWrite env ts n row new) :
    ∃ cur, env.Unmarshal ts row = .ok cur ∧ new.get COL_UUID = cur.get COL_UUID ∧
      new.get COL_VERSION = .uuid (env.GenerateUUID n) := by
  obtain ⟨cur, update, newRow0, hcur, hloop, rfl⟩ := h
  refine ⟨cur, hcur, ?_, Row.get_set_self _ _ _⟩
  rw [Row.get_set_other _ _ _ _ (by decide)]
  have habs : COL_UUID ∉ update.map Prod.fst := by
    intro hmem
    have := RowUpdateLoop_ok_good ts _ _ _ hloop COL_UUID hmem
    rw [isBadColumn_COL_UUID] at this
    cases this
  unfold Row.get
  rw [RowUpdateLoop_ok_absent ts _ _ _ hloop COL_UUID habs]

/-- The row written by a successful `doInsert`. -/
theorem doInsert_written {env : Env} {txn txn1 : Transaction} {op : Operation}
    {res res1 : OperationResult} (h : doInsert env txn op res = .ret txn1 res1 none) :
    ∃ (table uuid : String) (row : Row) (n : Nat), op.Table = some table ∧
      res1.UUID = some uuid ∧
      (txn1.cache.getTable txn.request.DBName table).lookup uuid = some row ∧
      row.get COL_UUID = .uuid uuid ∧ row.get COL_VERSION = .uuid (env.GenerateUUID n) ∧
      txn.nUUID ≤ n ∧ txn1.nUUID = n + 1 := by
  unfold doInsert at h
  cases ht : op.Table with
  | none => rw [ht] at h; cases h
  | some table =>
    rw [ht] at h
    simp only at h
    cases hl : env.LookupTable table with
    | none => rw [hl] at h; cases h
    | some ts =>
      rw [hl] at h
      simp only at h
      split at h
      · cases h
      · rename_i uuid0 hnamed
        by_cases hempty : uuid0 = ""
        · simp only [hempty, if_true] at h
          split at h
          · cases h
          · cases hrow : op.Row with
            | none => rw [hrow] at h; cases h
            | some r =>
              rw [hrow] at h
              simp only at h
              split at h
              · cases h
              · rename_i row1 hprep
                simp only [CbOut.ret.injEq] at h
                obtain ⟨htxn, hres, hput⟩ := h
                simp only [etcdCreateRow, makeValue] at htxn hput
                cases hmar : env.Marshal
                    (setRowVersion env { txn with nUUID := txn.nUUID + 1 }
                      (setRowUUID row1 (env.GenerateUUID txn.nUUID))).2 with
                | error e => rw [hmar] at hput; cases hput
                | ok val =>
                  rw [hmar] at htxn
                  refine ⟨table, env.GenerateUUID txn.nUUID,
                    (setRowVersion env { txn with nUUID := txn.nUUID + 1 }
                      (setRowUUID row1 (env.GenerateUUID txn.nUUID))).2,
                    txn.nUUID + 1, rfl, ?_, ?_, ?_, ?_, by omega, ?_⟩
                  · rw [← hres]; rfl
                  · rw [← htxn]
                    exact getTable_setRow _ _ _ _ _
                  · simp only [setRowVersion, setRowUUID]
                    rw [Row.get_set_other _ _ _ _ (by decide), Row.get_set_self]
                  · simp only [setRowVersion]
                    rw [Row.get_set_self]
                  · rw [← htxn]
                    rfl
        · simp only [if_neg hempty] at h
          split at h
          · cases h
          · cases hrow : op.Row with
            | none => rw [hrow] at h; cases h
            | some r =>
              rw [hrow] at h
              simp only at h
              split at h
              · cases h
              · rename_i row1 hprep
                simp only [CbOut.ret.injEq] at h
                obtain ⟨htxn, hres, hput⟩ := h
                simp only [etcdCreateRow, makeValue] at htxn hput
                cases hmar : env.Marshal
                    (setRowVersion env txn (setRowUUID row1 uuid0)).2 with
                | error e => rw [hmar] at hput; cases hput
                | ok val =>
                  rw [hmar] at htxn
                  refine ⟨table, uuid0, (setRowVersion env txn (setRowUUID row1 uuid0)).2,
                    txn.nUUID, rfl, ?_, ?_, ?_, ?_, Nat.le_refl _, ?_⟩
                  · rw [← hres]; rfl
                  · rw [← htxn]
                    exact getTable_setRow _ _ _ _ _
                  · simp only [setRowVersion, setRowUUID]
                    rw [Row.get_set_other _ _ _ _ (by decide), Row.get_set_self]
                  · simp only [setRowVersion]
                    rw [Row.get_set_self]
                  · rw [← htxn]
                    rfl

/-- The outcome of a successful `doUpdate`, in terms of the rows it writes. -/
theorem doUpdate_spec {env : Env} {txn txn1 : Transaction} {op : Operation}
    {res res1 : OperationResult} (h : doUpdate env txn op res = .ret txn1 res1 none) :
    ∃ table ts ws, op.Table = some table ∧ env.LookupTable table = some ts ∧
      (∀ e ∈ txn.cache.getTable txn.request.DBName table,
        ∃ b, isRowSelectedByWhere env ts txn.mapUUID e.2 op.Where = .ok b) ∧
      Writes (UpdateWrite env ts) txn.nUUID
        (selectedRows env ts txn.mapUUID op.Where (txn.cache.getTable txn.request.DBName table))
        ws ∧
      LoopFrame txn txn1 (putsOf env txn.request.DBName table ws) ws.length ∧
      txn1.cache = cacheAfter txn.cache txn.request.DBName table ws ∧
      res1 = { res with Count := some ws.length } := by
  unfold doUpdate at h
  cases ht : op.Table with
  | none => rw [ht] at h; cases h
  | some table =>
    rw [ht] at h
    simp only at h
    cases hl : env.LookupTable table with
    | none => rw [hl] at h; cases h
    | some ts =>
      rw [hl] at h
      obtain ⟨h1, ws, h2, h3, h4, h5⟩ := doUpdateLoop_spec env ts table op.Where _ _ _ _ _ _ h
      exact ⟨table, ts, ws, rfl, hl, h1, h2, h3, h4,
        by rw [h5, iterate_IncrementCount_InitCount]⟩

/-- The outcome of a successful `doMutate`, in terms of the rows it writes. -/
theorem doMutate_spec {env : Env} {txn txn1 : Transaction} {op : Operation}
    {res res1 : OperationResult} (h : doMutate env txn op res = .ret txn1 res1 none) :
    ∃ table ts ws, op.Table = some table ∧ env.LookupTable table = some ts ∧
      (∀ e ∈ txn.cache.getTable txn.request.DBName table,
        ∃ b, isRowSelectedByWhere env ts txn.mapUUID e.2 op.Where = .ok b) ∧
      Writes (MutateWrite env ts txn.mapUUID op.Mutations) txn.nUUID
        (selectedRows env ts txn.mapUUID op.Where (txn.cache.getTable txn.request.DBName table))
        ws ∧
      LoopFrame txn txn1 (putsOf env txn.request.DBName table ws) ws.length ∧
      txn1.cache = cacheAfter txn.cache txn.request.DBName table ws ∧
      res1 = { res with Count := some ws.length } := by
  unfold doMutate at h
  cases ht : op.Table with
  | none => rw [ht] at h; cases h
  | some table =>
    rw [ht] at h
    simp only at h
    cases hl : env.LookupTable table with
    | none => rw [hl] at h; cases h
    | some ts =>
      rw [hl] at h
      obtain ⟨h1, ws, h2, h3, h4, h5⟩ := doMutateLoop_spec env ts table op _ _ _ _ _ h
      exact ⟨table, ts, ws, rfl, hl, h1, h2, h3, h4,
        by rw [h5, iterate_IncrementCount_InitCount]⟩

/-- The outcome of a successful `doDelete`. -/
theorem doDelete_spec {env : Env} {txn txn1 : Transaction} {op : Operation}
    {res res1 : OperationResult} (h : doDelete env txn op res = .ret txn1 res1 none) :
    ∃ table ts, op.Table = some table ∧ env.LookupTable table = some ts ∧
      (∀ e ∈ txn.cache.getTable txn.request.DBName table,
        ∃ b, isRowSelectedByWhere env ts txn.mapUUID e.2 op.Where = .ok b) ∧
      LoopFrame txn txn1
        (deletesOf env txn.request.DBName table
          (selectedRows env ts txn.mapUUID op.Where
            (txn.cache.getTable txn.request.DBName table))) 0 ∧
      txn1.cache = txn.cache ∧
      res1 = { res with Count := some (selectedRows env ts txn.mapUUID op.Where
        (txn.cache.getTable txn.request.DBName table)).length } := by
  unfold doDelete at h
  cases ht : op.Table with
  | none => rw [ht] at h; cases h
  | some table =>
    rw [ht] at h
    simp only at h
    cases hl : env.LookupTable table with
    | none => rw [hl] at h; cases h
    | some ts =>
      rw [hl] at h
      obtain ⟨h1, h2, h3, h4⟩ := doDeleteLoop_spec env ts table op _ _ _ _ _ h
      exact ⟨table, ts, rfl, hl, h1, h2, h3, by rw [h4, iterate_IncrementCount_InitCount]⟩

/-- Claim C24. For every row that a successful `doUpdate` writes (one for each selected row of
the cached table, in order, stored in the cache under the UUID of that row), the `_uuid` of the
new row is the `_uuid` of the cached row it replaces, as unmarshalled, and its `_version` is the
UUID that the generator produces for this write: the writes draw consecutive UUIDs of the
generator, none of them drawn before, and the update row cannot supply `_uuid` or `_version`.
Likewise the row that a successful `doInsert` stores in the cache carries the UUID of the result
as `_uuid` and a UUID newly drawn from the generator as `_version`. -/
theorem writes_keep_uuid_and_renew_version (env : Env) (txn txn1 : Transaction) (op : Operation)
    (res res1 : OperationResult) :
    (doUpdate env txn op res = .ret txn1 res1 none →
      ∃ table ts ws, op.Table = some table ∧ env.LookupTable table = some ts ∧
        txn1.cache = cacheAfter txn.cache txn.request.DBName table ws ∧
        txn1.nUUID = txn.nUUID + ws.length ∧
        ws.length = (selectedRows env ts txn.mapUUID op.Where
          (txn.cache.getTable txn.request.DBName table)).length ∧
        ∀ (i : Nat) (uuid : String) (row : Row),
          (selectedRows env ts txn.mapUUID op.Where
            (txn.cache.getTable txn.request.DBName table))[i]? = some (uuid, row) →
          ∃ new cur, ws[i]? = some (uuid, new) ∧ env.Unmarshal ts row = .ok cur ∧
            new.get COL_UUID = cur.get COL_UUID ∧
            new.get COL_VERSION = .uuid (env.GenerateUUID (txn.nUUID + i))) ∧
    (doInsert env txn op res = .ret txn1 res1 none →
      ∃ (table uuid : String) (row : Row) (n : Nat), op.Table = some table ∧
        res1.UUID = some uuid ∧
        (txn1.cache.getTable txn.request.DBName table).lookup uuid = some row ∧
        row.get COL_UUID = .uuid uuid ∧ row.get COL_VERSION = .uuid (env.GenerateUUID n) ∧
        txn.nUUID ≤ n ∧ txn1.nUUID = n + 1) := by
  refine ⟨?_, fun h => doInsert_written h⟩
  intro h
  obtain ⟨table, ts, ws, ht, hl, -, hw, hf, hc, -⟩ := doUpdate_spec h
  refine ⟨table, ts, ws, ht, hl, hc, hf.2.2.2.2.2.2.1, Writes_length _ _ _ hw, ?_⟩
  intro i uuid row hi
  obtain ⟨new, hnew, hp⟩ := Writes_getElem _ _ _ hw i uuid row hi
  obtain ⟨cur, hcur, hu, hv⟩ := UpdateWrite_columns hp
  exact ⟨new, cur, hnew, hcur, hu, hv⟩

/-- Witness of `writes_keep_uuid_and_renew_version`: an update of the one cached row, and an
insert. -/
theorem writes_keep_uuid_and_renew_version_witness :
    (∃ txn1 res1, doUpdate exampleEnv exampleTxnOneRow exampleUpdate {} = .ret txn1 res1 none ∧
      ∃ ws : List (String × Row),
        txn1.cache = cacheAfter exampleTxnOneRow.cache "db" "T" ws ∧
        ∃ new, ws[0]? = some ("u1", new) ∧ new.get COL_UUID = .uuid "u1" ∧
          new.get COL_VERSION = .uuid "uuid-0") ∧
    (∃ txn1 res1, doInsert exampleEnv (NewTransaction { DBName := "db", Operations := [] })
        exampleInsert {} = .ret txn1 res1 none ∧
      ∃ (uuid : String) (row : Row) (n : Nat), res1.UUID = some uuid ∧
        (txn1.cache.getTable "db" "T").lookup uuid = some row ∧
        row.get COL_UUID = .uuid uuid ∧ row.get COL_VERSION = .uuid (exampleEnv.GenerateUUID n))
    := by
  refine ⟨⟨_, _, rfl, ?_⟩, ⟨_, _, rfl, ?_⟩⟩
  · obtain ⟨table, ts, ws, ht, hl, hc, -, -, hrows⟩ :=
      (writes_keep_uuid_and_renew_version exampleEnv exampleTxnOneRow _ exampleUpdate {} _).1 rfl
    cases ht
    cases hl
    obtain ⟨new, cur, h1, h2, h3, h4⟩ := hrows 0 "u1"
      [("name", .str "old"), ("_uuid", .uuid "u1"), ("_version", .uuid "v0")] rfl
    cases h2
    exact ⟨ws, hc, new, h1, h3, h4⟩
  · obtain ⟨table, uuid, row, n, ht, h1, h2, h3, h4, -, -⟩ :=
      (writes_keep_uuid_and_renew_version exampleEnv
        (NewTransaction { DBName := "db", Operations := [] }) _ exampleInsert {} _).2 rfl
    cases ht
    exact ⟨uuid, row, n, h1, h2, h3, h4⟩

/-! ## Claim C25 -/

theorem Writes_uuids {P : Nat → Row → Row → Prop} :
    ∀ (sel ws : List (String × Row)) (n : Nat), Writes P n sel ws →
      ws.map Prod.fst = sel.map Prod.fst := by
  intro sel
  induction sel with
  | nil =>
    intro ws n h
    cases ws with
    | nil => rfl
    | cons w ws => simp [Writes] at h
  | cons e rest ih =>
    intro ws n h
    obtain ⟨uuid, row⟩ := e
    cases ws with
    | nil => simp [Writes] at h
    | cons w ws =>
      obtain ⟨uuid2, new⟩ := w
      simp only [Writes] at h
      simp only [List.map_cons, h.1, ih ws (n + 1) h.2.2]

theorem putsOf_keys (env : Env) (db table : String) (ws : List (String × Row))
    (hm : ∀ row, (env.Marshal row).toBool = true) :
    (putsOf env db table ws).map KvOp.KeyBytes
      = ws.map (fun w => (NewDataKey db table w.1).String env.root) := by
  induction ws with
  | nil => rfl
  | cons w rest ih =>
    rw [putsOf_cons, List.map_append, ih]
    simp only [putsOf, List.filterMap_cons, List.filterMap_nil, List.map_cons]
    have := hm w.2
    cases hw : env.Marshal w.2 with
    | error e => rw [hw] at this; cases this
    | ok val => simp [KvOp.KeyBytes]

theorem putsOf_isPut (env : Env) (db table : String) (ws : List (String × Row)) :
    ∀ o ∈ putsOf env db table ws, ∃ key val, o = .put key val := by
  intro o ho
  simp only [putsOf, List.mem_filterMap] at ho
  obtain ⟨w, -, hw⟩ := ho
  cases hmw : env.Marshal w.2 with
  | error e => rw [hmw] at hw; cases hw
  | ok val =>
    rw [hmw] at hw
    simp only [Option.some.injEq] at hw
    exact ⟨_, _, hw.symm⟩

/-- The counts of `update`, `mutate` and `delete`: whenever the callback succeeds, the count of
its result is the number of rows of the cached table that the where-clause selects; `doDelete`
appends exactly one `Delete` for the data key of each selected row; `doUpdate` and `doMutate`
append only `Put` operations, at most one for each selected row, and exactly one for the data
key of each selected row when the JSON encoder accepts every row. -/
theorem write_counts (env : Env) (txn txn1 : Transaction) (op : Operation)
    (res res1 : OperationResult) :
    (doDelete env txn op res = .ret txn1 res1 none →
      ∃ table ts, op.Table = some table ∧ env.LookupTable table = some ts ∧
        res1.Count = some (selectedRows env ts txn.mapUUID op.Where
          (txn.cache.getTable txn.request.DBName table)).length ∧
        txn1.etcdTrx.Then = txn.etcdTrx.Then ++
          (selectedRows env ts txn.mapUUID op.Where
            (txn.cache.getTable txn.request.DBName table)).map
            (fun e => .delete ((NewDataKey txn.request.DBName table e.1).String env.root))) ∧
    ((doUpdate env txn op res = .ret txn1 res1 none ∨
        doMutate env txn op res = .ret txn1 res1 none) →
      ∃ table ts ops, op.Table = some table ∧ env.LookupTable table = some ts ∧
        res1.Count = some (selectedRows env ts txn.mapUUID op.Where
          (txn.cache.getTable txn.request.DBName table)).length ∧
        txn1.etcdTrx.Then = txn.etcdTrx.Then ++ ops ∧
        (∀ o ∈ ops, ∃ key val, o = .put key val) ∧
        ops.length ≤ (selectedRows env ts txn.mapUUID op.Where
          (txn.cache.getTable txn.request.DBName table)).length ∧
        ((∀ row, (env.Marshal row).toBool = true) →
          ops.map KvOp.KeyBytes =
            (selectedRows env ts txn.mapUUID op.Where
              (txn.cache.getTable txn.request.DBName table)).map
              (fun e => (NewDataKey txn.request.DBName table e.1).String env.root))) := by
  refine ⟨?_, ?_⟩
  · intro h
    obtain ⟨table, ts, ht, hl, -, hf, -, hr⟩ := doDelete_spec h
    exact ⟨table, ts, ht, hl, by rw [hr], hf.1⟩
  · have key : ∀ (table : String) (ts : TableSchema) (ws : List (String × Row)),
        ws.map Prod.fst = (selectedRows env ts txn.mapUUID op.Where
          (txn.cache.getTable txn.request.DBName table)).map Prod.fst →
        (putsOf env txn.request.DBName table ws).length ≤
          (selectedRows env ts txn.mapUUID op.Where
            (txn.cache.getTable txn.request.DBName table)).length ∧
        ((∀ row, (env.Marshal row).toBool = true) →
          (putsOf env txn.request.DBName table ws).map KvOp.KeyBytes =
            (selectedRows env ts txn.mapUUID op.Where
              (txn.cache.getTable txn.request.DBName table)).map
              (fun e => (NewDataKey txn.request.DBName table e.1).String env.root)) := by
      intro table ts ws hu
      have hlen : ws.length = (selectedRows env ts txn.mapUUID op.Where
          (txn.cache.getTable txn.request.DBName table)).length := by
        have := congrArg List.length hu
        simpa using this
      refine ⟨?_, ?_⟩
      · rw [← hlen]
        exact List.length_filterMap_le _ _
      · intro hm
        rw [putsOf_keys env _ _ ws hm]
        have h2 : ∀ l : List (String × Row),
            l.map (fun w => (NewDataKey txn.request.DBName table w.1).String env.root)
              = (l.map Prod.fst).map
                (fun u => (NewDataKey txn.request.DBName table u).String env.root) := by
          intro l
          simp [List.map_map]
        rw [h2 ws, h2, hu]
    rintro (h | h)
    · obtain ⟨table, ts, ws, ht, hl, -, hw, hf, -, hr⟩ := doUpdate_spec h
      have hk := key table ts ws (Writes_uuids _ _ _ hw)
      exact ⟨table, ts, _, ht, hl, by rw [hr, Writes_length _ _ _ hw], hf.1,
        putsOf_isPut env _ _ ws, hk.1, hk.2⟩
    · obtain ⟨table, ts, ws, ht, hl, -, hw, hf, -, hr⟩ := doMutate_spec h
      have hk := key table ts ws (Writes_uuids _ _ _ hw)
      exact ⟨table, ts, _, ht, hl, by rw [hr, Writes_length _ _ _ hw], hf.1,
        putsOf_isPut env _ _ ws, hk.1, hk.2⟩

/-- With a JSON encoder that fails on the new row, on a cached table of one row that the
operation selects: `doUpdate` and `doMutate` drop the error of `etcdModifyRow`, succeed with
count 1 and have appended no `Put`, while the cache holds the new row. `doInsert` returns the
same error of the encoder. -/
theorem update_counts_row_without_put :
    (selectedRows exampleEnvNoJSON exampleTable [] none
      (exampleTxnOneRow.cache.getTable "db" "T")).length = 1 ∧
    (∃ txn1 res1, doUpdate exampleEnvNoJSON exampleTxnOneRow exampleUpdate {}
        = .ret txn1 res1 none ∧
      res1.Count = some 1 ∧ txn1.etcdTrx.Then = [] ∧
      (txn1.cache.getTable "db" "T").lookup "u1"
        = some [("name", .str "b"), ("_uuid", .uuid "u1"), ("_version", .uuid "uuid-0")]) ∧
    (∃ txn1 res1, doMutate exampleEnvNoJSON exampleTxnOneRow exampleMutate {}
        = .ret txn1 res1 none ∧
      res1.Count = some 1 ∧ txn1.etcdTrx.Then = []) ∧
    (∃ txn1 res1, doInsert exampleEnvNoJSON exampleTxnOneRow exampleInsert {}
        = .ret txn1 res1 (some "json: unsupported value")) :=
  ⟨rfl, ⟨_, _, rfl, rfl, rfl, rfl⟩, ⟨_, _, rfl, rfl, rfl⟩, ⟨_, _, rfl⟩⟩

/-! ## Claim C26 -/

theorem doSelectLoop_txn (env : Env) (ts : TableSchema) (txn txn2 : Transaction)
    (op : Operation) (hm : txn2.mapUUID = txn.mapUUID) :
    ∀ (rows : List (String × Row)) (res : OperationResult),
      doSelectLoop env ts txn2 op rows res =
        match doSelectLoop env ts txn op rows res with
        | .ret _ r e => .ret txn2 r e
        | .crash => .crash := by
  intro rows
  induction rows with
  | nil => intro res; rfl
  | cons e0 rest ih =>
    intro res
    obtain ⟨uuid, row⟩ := e0
    simp only [doSelectLoop, hm]
    cases isRowSelectedByWhere env ts txn.mapUUID row op.Where with
    | error e => rfl
    | ok b =>
      cases b with
      | false => simp only [Bool.not_false, if_true]; exact ih _
      | true => simp only [Bool.not_true, Bool.false_eq_true, if_false]; exact ih _

/-- After a successful `doDelete` the cache and the resolver are as before, so a `doSelect` on
the resulting state returns the rows that it returns on the state before the delete. -/
theorem doDelete_then_doSelect {env : Env} {txn txn1 : Transaction} {op : Operation}
    {res res1 : OperationResult} (h : doDelete env txn op res = .ret txn1 res1 none)
    (op2 : Operation) (res2 : OperationResult) :
    txn1.cache = txn.cache ∧
      doSelect env txn1 op2 res2 =
        match doSelect env txn op2 res2 with
        | .ret _ r e => .ret txn1 r e
        | .crash => .crash := by
  obtain ⟨table, ts, -, -, -, hf, hc, -⟩ := doDelete_spec h
  refine ⟨hc, ?_⟩
  unfold doSelect
  cases op2.Table with
  | none => rfl
  | some table2 =>
    simp only
    cases env.LookupTable table2 with
    | none => rfl
    | some ts2 =>
      simp only
      rw [hc, hf.2.2.2.2.1]
      exact doSelectLoop_txn env ts2 txn txn1 op2 hf.2.2.2.1 _ _

/-- Claim C26, the code at the failing input: the cached table holds one row. `doDelete` with no
where-clause succeeds with count 1 and appends the `Delete` of the row, and leaves the row in the
cache: on the resulting state `doSelect` with no where-clause returns the row, and `doUpdate`
selects it and writes it. In the transaction `[delete, update]` on a store that holds the row,
both operations report count 1 and the KV transaction that is committed holds the `Put` of the
row and no `Delete`. -/
theorem delete_then_select_returns_row :
    ∃ txn1 res1, doDelete exampleEnv exampleTxnOneRow exampleDelete {} = .ret txn1 res1 none ∧
      res1.Count = some 1 ∧ txn1.etcdTrx.Then = [.delete "ovsdb/db/T/u1"] ∧
      (∃ txn2 res2, doSelect exampleEnv txn1 exampleSelect {} = .ret txn2 res2 none ∧
        res2.Rows = some [[("name", .str "old"), ("_uuid", .uuid "u1"),
          ("_version", .uuid "v0")]]) ∧
      (∃ txn2 res2, doUpdate exampleEnv txn1 exampleUpdate {} = .ret txn2 res2 none ∧
        res2.Count = some 1) ∧
      ∃ t tr pre final, Commit exampleEnvOneRow
          (NewTransaction { DBName := "db", Operations := [exampleDelete, exampleUpdate] })
          = .ret t tr 7 none ∧
        tr.submitted = [pre, final] ∧ final.Then = [.put "ovsdb/db/T/u1" "row"] ∧
        t.response.Result.map (fun r => r.Count) = [some 1, some 1] :=
  ⟨_, _, rfl, rfl, rfl, ⟨_, _, rfl, rfl⟩, ⟨_, _, rfl, rfl⟩, _, _, _, _, rfl, rfl, rfl, rfl⟩

/-! ## Claims C27 and C28 -/

/-- The where-clause selects the row exactly when every condition is well formed and holds. -/
theorem isRowSelectedByWhereLoop_true (env : Env) (ts : TableSchema) (m : namedUUIDResolver)
    (row : Row) (w : List Value) :
    isRowSelectedByWhereLoop env ts m row w = .ok true ↔
      ∀ c ∈ w, ∃ cond, c = .list cond ∧ isRowSelectedByCond env ts m row cond = .ok true := by
  induction w with
  | nil => simp [isRowSelectedByWhereLoop]
  | cons c rest ih =>
    simp only [List.mem_cons, forall_eq_or_imp]
    rw [← ih]
    cases c with
    | list cond =>
      simp only [isRowSelectedByWhereLoop, Value.list.injEq, exists_eq_left']
      cases hc : isRowSelectedByCond env ts m row cond with
      | error e => simp
      | ok b =>
        cases b with
        | false => simp
        | true => simp
    | null => simp [isRowSelectedByWhereLoop]
    | bool b => simp [isRowSelectedByWhereLoop]
    | num i => simp [isRowSelectedByWhereLoop]
    | str s => simp [isRowSelectedByWhereLoop]
    | uuid g => simp [isRowSelectedByWhereLoop]
    | set l => simp [isRowSelectedByWhereLoop]
    | emptySet => simp [isRowSelectedByWhereLoop]
    | map l => simp [isRowSelectedByWhereLoop]
    | nilMap => simp [isRowSelectedByWhereLoop]

/-- When every condition is well formed and is evaluated without error, the where-clause is
evaluated without error. -/
theorem isRowSelectedByWhereLoop_total (env : Env) (ts : TableSchema) (m : namedUUIDResolver)
    (row : Row) (w : List Value)
    (h : ∀ c ∈ w, ∃ cond b, c = .list cond ∧ isRowSelectedByCond env ts m row cond = .ok b) :
    ∃ b, isRowSelectedByWhereLoop env ts m row w = .ok b := by
  induction w with
  | nil => exact ⟨true, rfl⟩
  | cons c rest ih =>
    obtain ⟨cond, b, rfl, hb⟩ := h c (List.mem_cons_self _ _)
    simp only [isRowSelectedByWhereLoop, hb]
    cases b with
    | false => exact ⟨false, rfl⟩
    | true =>
      simp only [Bool.not_true, Bool.false_eq_true, if_false]
      exact ih (fun c hc => h c (List.mem_cons_of_mem _ hc))

theorem rowSelected_eq_true (env : Env) (ts : TableSchema) (m : namedUUIDResolver)
    (w : Option (List Value)) (row : Row) :
    rowSelected env ts m w row = true ↔ isRowSelectedByWhere env ts m row w = .ok true := by
  unfold rowSelected
  cases isRowSelectedByWhere env ts m row w with
  | error e => simp
  | ok b => cases b <;> simp

theorem doSelectLoop_spec (env : Env) (ts : TableSchema) (txn : Transaction) (op : Operation) :
    ∀ (rows : List (String × Row)) (res : OperationResult) (txn1 : Transaction)
      (res1 : OperationResult) (l : List Row), res.Rows = some l →
      doSelectLoop env ts txn op rows res = .ret txn1 res1 none →
      txn1 = txn ∧
      (∀ e ∈ rows, ∃ b, isRowSelectedByWhere env ts txn.mapUUID e.2 op.Where = .ok b) ∧
      res1 = { res with Rows := some (l ++ (selectedRows env ts txn.mapUUID op.Where rows).map
        (fun e => reduceRowByColumns e.2 op.Columns)) } := by
  intro rows
  induction rows with
  | nil =>
    intro res txn1 res1 l hl h
    simp only [doSelectLoop, CbOut.ret.injEq, and_true] at h
    obtain ⟨rfl, rfl⟩ := h
    refine ⟨rfl, ?_, ?_⟩
    · intro e he
      cases he
    · simp [selectedRows, ← hl]
  | cons e0 rest ih =>
    intro res txn1 res1 l hl h
    obtain ⟨uuid, row⟩ := e0
    simp only [doSelectLoop] at h
    cases hsel : isRowSelectedByWhere env ts txn.mapUUID row op.Where with
    | error e => rw [hsel] at h; cases h
    | ok b =>
      rw [hsel] at h
      have hall : ∀ rest1 : List (String × Row),
          (∀ e ∈ rest1, ∃ b, isRowSelectedByWhere env ts txn.mapUUID e.2 op.Where = .ok b) →
          ∀ e ∈ (uuid, row) :: rest1,
            ∃ b, isRowSelectedByWhere env ts txn.mapUUID e.2 op.Where = .ok b := by
        intro rest1 h1 e he
        simp only [List.mem_cons] at he
        rcases he with rfl | he
        · exact ⟨_, hsel⟩
        · exact h1 e he
      cases b with
      | false =>
        simp only [Bool.not_false, if_true] at h
        obtain ⟨h1, h2, h3⟩ := ih _ _ _ l hl h
        rw [selectedRows_cons_false hsel]
        exact ⟨h1, hall rest h2, h3⟩
      | true =>
        simp only [Bool.not_true, Bool.false_eq_true, if_false] at h
        have hl2 : (res.AppendRows (reduceRowByColumns row op.Columns)).Rows
            = some (l ++ [reduceRowByColumns row op.Columns]) := by
          simp [OperationResult.AppendRows, hl]
        obtain ⟨h1, h2, h3⟩ := ih _ _ _ _ hl2 h
        rw [selectedRows_cons_true hsel]
        refine ⟨h1, hall rest h2, ?_⟩
        rw [h3]
        simp [OperationResult.AppendRows]

theorem doSelectLoop_congr (env : Env) (ts : TableSchema) (txn : Transaction)
    (op op2 : Operation) (hcols : op.Columns = op2.Columns) :
    ∀ (rows : List (String × Row)) (res : OperationResult),
      (∀ e ∈ rows, isRowSelectedByWhere env ts txn.mapUUID e.2 op.Where
        = isRowSelectedByWhere env ts txn.mapUUID e.2 op2.Where) →
      doSelectLoop env ts txn op rows res = doSelectLoop env ts txn op2 rows res := by
  intro rows
  induction rows with
  | nil => intro res _; rfl
  | cons e0 rest ih =>
    intro res h
    obtain ⟨uuid, row⟩ := e0
    have h0 := h (uuid, row) (List.mem_cons_self _ _)
    simp only at h0
    simp only [doSelectLoop, h0, hcols]
    cases isRowSelectedByWhere env ts txn.mapUUID row op2.Where with
    | error e => rfl
    | ok b =>
      cases b with
      | false =>
        simp only [Bool.not_false, if_true]
        exact ih _ (fun e he => h e (List.mem_cons_of_mem _ he))
      | true =>
        simp only [Bool.not_true, Bool.false_eq_true, if_false]
        exact ih _ (fun e he => h e (List.mem_cons_of_mem _ he))

theorem reduceRowByColumns_foldl (row : Row) (cs : List String) :
    ∀ (acc : Row) (c : String),
      (cs.foldl (fun (newRow : Row) column => newRow.set column (row.get column)) acc).lookup c
        = if c ∈ cs then some (row.get c) else acc.lookup c := by
  induction cs with
  | nil => intro acc c; simp
  | cons c0 rest ih =>
    intro acc c
    simp only [List.foldl_cons, ih, List.mem_cons]
    by_cases h1 : c ∈ rest
    · simp [h1]
    · by_cases h2 : c = c0
      · subst h2
        simp [h1, Row.lookup_set_self]
      · simp [h1, h2, Row.lookup_set_other _ _ _ _ h2]

/-- Claim C27, refuted as stated: on a row whose `name` is `a`, the where-clause
`exampleWhere` stops at its first condition, which does not hold, and the row is not selected;
with the two conditions swapped the evaluation stops at the condition that cannot be built and
returns its error. So `doSelect` succeeds with no rows for the first order and fails for the
second. -/
theorem select_depends_on_where_order :
    exampleWhereSwapped.Perm exampleWhere ∧
      isRowSelectedByWhere exampleEnvCond exampleTable [] [("name", .str "a")]
        (some exampleWhere) = .ok false ∧
      isRowSelectedByWhere exampleEnvCond exampleTable [] [("name", .str "a")]
        (some exampleWhereSwapped) = .error E_SYNTAX_ERROR ∧
      (∃ t r, doSelect exampleEnvCond exampleTxnOneRow
          { exampleSelect with Where := some exampleWhere } {} = .ret t r none ∧
        r.Rows = some []) ∧
      (∃ t r, doSelect exampleEnvCond exampleTxnOneRow
          { exampleSelect with Where := some exampleWhereSwapped } {}
          = .ret t r (some E_SYNTAX_ERROR)) :=
  ⟨List.Perm.swap _ _ _, rfl, rfl, ⟨_, _, rfl, rfl⟩, ⟨_, _, rfl⟩⟩

/-- Claim C27 (amended). For every reordering `w2` of the conditions of a where-clause `w`: a
row is selected by `w` exactly when it is selected by `w2` (every condition is well formed and
holds); when every condition of `w` is well formed and is evaluated on the row without error,
`isRowSelectedByWhere` returns the same for `w` and `w2`; whenever `doSelect` succeeds with `w`
and succeeds with `w2`, it returns the same rows; and when every condition is well formed and is
evaluated without error on every row of the cached table, `doSelect` returns the same outcome
with `w` and `w2`. A condition that is not well formed or fails to evaluate is reached, and its
error returned, only if no earlier condition has already rejected the row. -/
theorem select_where_reordering (env : Env) (w w2 : List Value) (hperm : w.Perm w2) :
    (∀ ts m row, isRowSelectedByWhere env ts m row (some w) = .ok true ↔
      isRowSelectedByWhere env ts m row (some w2) = .ok true) ∧
    (∀ ts m row,
      (∀ c ∈ w, ∃ cond b, c = .list cond ∧ isRowSelectedByCond env ts m row cond = .ok b) →
      isRowSelectedByWhere env ts m row (some w) = isRowSelectedByWhere env ts m row (some w2)) ∧
    (∀ (txn : Transaction) (op : Operation) (res : OperationResult) t1 r1 t2 r2,
      doSelect env txn { op with Where := some w } res = .ret t1 r1 none →
      doSelect env txn { op with Where := some w2 } res = .ret t2 r2 none →
      t1 = t2 ∧ r1 = r2) ∧
    (∀ (txn : Transaction) (op : Operation) (res : OperationResult) table ts,
      op.Table = some table → env.LookupTable table = some ts →
      (∀ e ∈ txn.cache.getTable txn.request.DBName table, ∀ c ∈ w, ∃ cond b,
        c = .list cond ∧ isRowSelectedByCond env ts txn.mapUUID e.2 cond = .ok b) →
      doSelect env txn { op with Where := some w } res
        = doSelect env txn { op with Where := some w2 } res) := by
  have p1 : ∀ ts m row, isRowSelectedByWhere env ts m row (some w) = .ok true ↔
      isRowSelectedByWhere env ts m row (some w2) = .ok true := by
    intro ts m row
    simp only [isRowSelectedByWhere]
    rw [isRowSelectedByWhereLoop_true, isRowSelectedByWhereLoop_true]
    exact ⟨fun h c hc => h c (hperm.mem_iff.2 hc), fun h c hc => h c (hperm.mem_iff.1 hc)⟩
  have p2 : ∀ ts m row,
      (∀ c ∈ w, ∃ cond b, c = .list cond ∧ isRowSelectedByCond env ts m row cond = .ok b) →
      isRowSelectedByWhere env ts m row (some w)
        = isRowSelectedByWhere env ts m row (some w2) := by
    intro ts m row h
    have h12 := p1 ts m row
    simp only [isRowSelectedByWhere] at h12 ⊢
    obtain ⟨b, hb⟩ := isRowSelectedByWhereLoop_total env ts m row w h
    obtain ⟨b2, hb2⟩ := isRowSelectedByWhereLoop_total env ts m row w2
      (fun c hc => h c (hperm.mem_iff.2 hc))
    rw [hb, hb2] at h12 ⊢
    cases b <;> cases b2 <;> simp_all
  refine ⟨p1, p2, ?_, ?_⟩
  · intro txn op res t1 r1 t2 r2 h1 h2
    unfold doSelect at h1 h2
    simp only at h1 h2
    cases ht : op.Table with
    | none => rw [ht] at h1; cases h1
    | some table =>
      rw [ht] at h1 h2
      simp only at h1 h2
      cases hl : env.LookupTable table with
      | none => rw [hl] at h1; cases h1
      | some ts =>
        rw [hl] at h1 h2
        simp only at h1 h2
        obtain ⟨a1, -, a3⟩ := doSelectLoop_spec env ts txn _ _ _ _ _ [] rfl h1
        obtain ⟨b1, -, b3⟩ := doSelectLoop_spec env ts txn _ _ _ _ _ [] rfl h2
        refine ⟨by rw [a1, b1], ?_⟩
        rw [a3, b3]
        have hsel : selectedRows env ts txn.mapUUID (some w)
            (txn.cache.getTable txn.request.DBName table)
            = selectedRows env ts txn.mapUUID (some w2)
              (txn.cache.getTable txn.request.DBName table) := by
          unfold selectedRows
          apply List.filter_congr
          intro e _
          rw [Bool.eq_iff_iff, rowSelected_eq_true, rowSelected_eq_true]
          exact p1 ts txn.mapUUID e.2
        simp only [hsel]
  · intro txn op res table ts ht hl hall
    unfold doSelect
    simp only [ht, hl]
    apply doSelectLoop_congr
    · rfl
    · intro e he
      exact p2 ts txn.mapUUID e.2 (hall e he)

/-- Witness of `select_where_reordering`: two conditions on `name`, in the two orders, on a
row that the first condition selects and the second does not. -/
theorem select_where_reordering_witness :
    isRowSelectedByWhere exampleEnvCond exampleTable [] [("name", .str "a")]
        (some [.list [.str "name", .str "==", .str "a"],
          .list [.str "name", .str "==", .str "b"]])
      = isRowSelectedByWhere exampleEnvCond exampleTable [] [("name", .str "a")]
        (some [.list [.str "name", .str "==", .str "b"],
          .list [.str "name", .str "==", .str "a"]]) :=
  (select_where_reordering exampleEnvCond
    [.list [.str "name", .str "==", .str "a"], .list [.str "name", .str "==", .str "b"]]
    [.list [.str "name", .str "==", .str "b"], .list [.str "name", .str "==", .str "a"]]
    (List.Perm.swap _ _ _)).2.1 exampleTable [] [("name", .str "a")]
    (by
      intro c hc
      simp only [List.mem_cons, List.mem_singleton, List.not_mem_nil, or_false] at hc
      rcases hc with rfl | rfl
      · exact ⟨_, true, rfl, rfl⟩
      · exact ⟨_, false, rfl, rfl⟩)

theorem conditionHolds_iff (env : Env) (ts : TableSchema) (m : namedUUIDResolver) (row : Row)
    (c : Value) :
    conditionHolds env ts m row c = true ↔
      ∃ cond condition, c = .list cond ∧ env.NewCondition ts m cond = .ok condition ∧
        env.Compare condition row = .ok true := by
  cases c with
  | list cond =>
    simp only [conditionHolds, Value.list.injEq, exists_and_left, exists_eq_left']
    cases hn : env.NewCondition ts m cond with
    | error e => simp
    | ok condition =>
      simp only [Except.ok.injEq, exists_eq_left']
      cases hc : env.Compare condition row with
      | error e => simp
      | ok b => cases b <;> simp
  | null => simp [conditionHolds]
  | bool b => simp [conditionHolds]
  | num i => simp [conditionHolds]
  | str s => simp [conditionHolds]
  | uuid g => simp [conditionHolds]
  | set l => simp [conditionHolds]
  | emptySet => simp [conditionHolds]
  | map l => simp [conditionHolds]
  | nilMap => simp [conditionHolds]

theorem isRowSelectedByCond_true_iff (env : Env) (ts : TableSchema) (m : namedUUIDResolver)
    (row : Row) (cond : List Value) :
    isRowSelectedByCond env ts m row cond = .ok true ↔
      ∃ condition, env.NewCondition ts m cond = .ok condition ∧
        env.Compare condition row = .ok true := by
  unfold isRowSelectedByCond
  cases hn : env.NewCondition ts m cond with
  | error e => simp
  | ok condition => simp

/-- The rows that the code selects are the rows on which every condition of the where-clause
holds. -/
theorem rowSelected_eq_whereHolds (env : Env) (ts : TableSchema) (m : namedUUIDResolver)
    (w : Option (List Value)) (row : Row) :
    rowSelected env ts m w row = whereHolds env ts m w row := by
  rw [Bool.eq_iff_iff, rowSelected_eq_true]
  cases w with
  | none => simp [isRowSelectedByWhere, whereHolds]
  | some w =>
    simp only [isRowSelectedByWhere, whereHolds, isRowSelectedByWhereLoop_true,
      List.all_eq_true, conditionHolds_iff, isRowSelectedByCond_true_iff]
    constructor
    · intro h c hc
      obtain ⟨cond, rfl, condition, h1, h2⟩ := h c hc
      exact ⟨cond, condition, rfl, h1, h2⟩
    · intro h c hc
      obtain ⟨cond, condition, rfl, h1, h2⟩ := h c hc
      exact ⟨cond, rfl, condition, h1, h2⟩

theorem selectedRows_eq_filter (env : Env) (ts : TableSchema) (m : namedUUIDResolver)
    (w : Option (List Value)) (table : List (String × Row)) :
    selectedRows env ts m w table = table.filter (fun e => whereHolds env ts m w e.2) := by
  unfold selectedRows
  congr 1
  funext e
  exact rowSelected_eq_whereHolds env ts m w e.2

/-- Claim C28. Whenever `doSelect` succeeds it leaves the transaction as it is, and the rows of
the result are the rows of the cached table on which every condition of the where-clause holds,
in the order of the table, each replaced by `reduceRowByColumns(row, columns)`. Every row
qualifies when the where-clause is absent; a condition holds on a row when it is a JSON array
from which a condition is built and whose comparison with the row answers true (`whereHolds`
says so without the functions of the executor). `reduceRowByColumns` returns the row itself
when `columns` is absent, and otherwise a row that has exactly the listed columns, the value of
a listed column `c` being `row[c]`. -/
theorem doSelect_filter_projection (env : Env) (txn txn1 : Transaction) (op : Operation)
    (res res1 : OperationResult) (h : doSelect env txn op res = .ret txn1 res1 none) :
    ∃ table ts, op.Table = some table ∧ env.LookupTable table = some ts ∧ txn1 = txn ∧
      res1.Rows = some
        (((txn.cache.getTable txn.request.DBName table).filter
            (fun e => whereHolds env ts txn.mapUUID op.Where e.2)).map
          (fun e => reduceRowByColumns e.2 op.Columns)) ∧
      (∀ row, whereHolds env ts txn.mapUUID none row = true) ∧
      (∀ w row, whereHolds env ts txn.mapUUID (some w) row = true ↔
        ∀ c ∈ w, ∃ cond condition, c = .list cond ∧
          env.NewCondition ts txn.mapUUID cond = .ok condition ∧
          env.Compare condition row = .ok true) ∧
      (∀ row, reduceRowByColumns row none = row) ∧
      (∀ row cs c, (reduceRowByColumns row (some cs)).lookup c
        = if c ∈ cs then some (row.get c) else none) := by
  unfold doSelect at h
  simp only at h
  cases ht : op.Table with
  | none => rw [ht] at h; cases h
  | some table =>
    rw [ht] at h
    simp only at h
    cases hl : env.LookupTable table with
    | none => rw [hl] at h; cases h
    | some ts =>
      rw [hl] at h
      simp only at h
      obtain ⟨a1, -, a3⟩ := doSelectLoop_spec env ts txn _ _ _ _ _ [] rfl h
      refine ⟨table, ts, rfl, hl, a1, ?_, fun _ => rfl, ?_, fun _ => rfl, ?_⟩
      · rw [a3, selectedRows_eq_filter]
        simp
      · intro w row
        simp only [whereHolds, List.all_eq_true, conditionHolds_iff]
      · intro row cs c
        simp only [reduceRowByColumns]
        rw [reduceRowByColumns_foldl]
        simp

/-- Claim C28 at a select of the column `name` of the rows named `old`, on a cache that holds a
row named `old` and a row named `new`: the result is the one row named `old`, reduced to its
name. -/
theorem doSelect_filter_projection_witness :
    ∃ txn1 res1, doSelect exampleEnvCond exampleTxnTwoRows exampleSelectOld {}
        = .ret txn1 res1 none ∧
      txn1 = exampleTxnTwoRows ∧ res1.Rows = some [[("name", .str "old")]] := by
  refine ⟨_, _, rfl, ?_⟩
  obtain ⟨table, ts, ht, hl, h1, h2, -⟩ :=
    doSelect_filter_projection exampleEnvCond exampleTxnTwoRows _ exampleSelectOld {} _ rfl
  cases ht
  cases hl
  exact ⟨h1, h2⟩

/-! ## Claim C29 -/

theorem etcdTransactionRun_ok {env : Env} {txn t : Transaction} {tr tr1 : Trace}
    {r : TxnResponse} (h : etcdTransactionRun env txn tr = (t, tr1, .ok r)) :
    Cache.Validate env t.cache = true := by
  unfold etcdTransactionRun at h
  simp only at h
  split at h
  · cases h
  · split at h
    · cases h
    · split at h
      · rename_i hv
        simp only [Prod.mk.injEq] at h
        rw [← h.1]
        exact hv
      · cases h

theorem etcdTransactionRun_invalid (env : Env) (txn : Transaction) (tr : Trace)
    (res : TxnResponse) (c : Cache)
    (hres : env.Txn tr.submitted.length txn.etcdTrx.If txn.etcdTrx.Then txn.etcdTrx.Else
      = some res)
    (hc : (txn.cache.GetFromEtcd res).Unmarshal env = .ok c)
    (hv : Cache.Validate env c = false) :
    ∃ t tr1, etcdTransactionRun env txn tr = (t, tr1, .error E_CONSTRAINT_VIOLATION) ∧
      t.cache = c := by
  unfold etcdTransactionRun
  simp only [hres, hc, hv]
  exact ⟨_, _, rfl, rfl⟩

/-- A `Commit` that has handed two KV transactions to the store returns what the final
`etcdTransaction` returns. -/
theorem commit_final_transaction {env : Env} {txn t : Transaction} {tr : Trace} {rev : Int}
    {err : Option String} (h : Commit env txn = .ret t tr rev err)
    (hs : tr.submitted.length = 2) :
    ∃ txn5 tr5 t6 r, etcdTransactionRun env txn5 tr5 = (t6, tr, r) ∧ t.cache = t6.cache ∧
      match r with
      | .ok res => err = none ∧ rev = res.Revision
      | .error e => err = some e ∧ rev = -1 := by
  rw [Commit_eq] at h
  split at h
  · cases h
    simp at hs
  · simp only [commitPhases] at h
    have spec1 := runCallbacks_spec env 0 txn.request.Operations 0
      { txn with etcdTrx := txn.etcdTrx.Clear } {}
    cases h1 : runCallbacks env 0 txn.request.Operations 0
        { txn with etcdTrx := txn.etcdTrx.Clear } {} with
    | crash tr1 => rw [h1] at h; cases h
    | failed t1 tr1 e =>
      rw [h1] at h spec1
      cases h
      obtain ⟨k, -, -, -, hsub, -⟩ := spec1
      rw [hsub] at hs
      simp at hs
    | done txn2 tr2 =>
      rw [h1] at h spec1
      simp only at h
      obtain ⟨-, -, hsub2, -⟩ := spec1
      have spec2 := etcdTransactionRun_spec env txn2 tr2
      rcases hE : etcdTransactionRun env txn2 tr2 with ⟨txn3, tr3, r3⟩
      rw [hE] at h spec2
      simp only at spec2
      obtain ⟨-, -, hsub3, -⟩ := spec2
      cases r3 with
      | error e =>
        simp only at h
        cases h
        rw [hsub3, hsub2] at hs
        simp at hs
      | ok res3 =>
        simp only at h
        have spec4 := runCallbacks_spec env 1 txn3.request.Operations 0
          { txn3 with etcdTrx := txn3.etcdTrx.Clear } tr3
        cases h4 : runCallbacks env 1 txn3.request.Operations 0
            { txn3 with etcdTrx := txn3.etcdTrx.Clear } tr3 with
        | crash tr4 => rw [h4] at h; cases h
        | failed t4 tr4 e =>
          rw [h4] at h spec4
          cases h
          obtain ⟨k, -, -, -, hsub, -⟩ := spec4
          rw [hsub, hsub3, hsub2] at hs
          simp at hs
        | done txn5 tr5 =>
          rw [h4] at h
          simp only at h
          rcases hF : etcdTransactionRun env (etcdRemoveDup txn5) tr5 with ⟨txn6, tr6, r6⟩
          rw [hF] at h
          cases r6 with
          | error e =>
            simp only at h
            cases h
            exact ⟨_, _, _, _, hF, rfl, rfl, rfl⟩
          | ok res6 =>
            simp only at h
            cases h
            exact ⟨_, _, _, _, hF, rfl, rfl, rfl⟩

/-- Claim C29. If `Commit` returns without error, schema validation succeeds on the cache as it
stands when `Commit` returns. A `Commit` that has handed its final KV transaction to the store
returns what `etcdTransaction` returns for it, and `etcdTransaction` returns "constraint
violation" when the store has answered, the cache has been unmarshalled and its validation
fails: so a validation failure after the final KV transaction makes `Commit` return revision
`-1` and "constraint violation". -/
theorem commit_cache_valid (env : Env) (txn : Transaction) :
    (∀ t tr rev, Commit env txn = .ret t tr rev none → Cache.Validate env t.cache = true) ∧
    (∀ t tr rev err, Commit env txn = .ret t tr rev err → tr.submitted.length = 2 →
      ∃ txn5 tr5 t6 r, etcdTransactionRun env txn5 tr5 = (t6, tr, r) ∧ t.cache = t6.cache ∧
        match r with
        | .ok res => err = none ∧ rev = res.Revision
        | .error e => err = some e ∧ rev = -1) ∧
    (∀ (txn5 : Transaction) (tr5 : Trace) (res : TxnResponse) (c : Cache),
      env.Txn tr5.submitted.length txn5.etcdTrx.If txn5.etcdTrx.Then txn5.etcdTrx.Else
        = some res →
      (txn5.cache.GetFromEtcd res).Unmarshal env = .ok c → Cache.Validate env c = false →
      ∃ t6 tr6, etcdTransactionRun env txn5 tr5 = (t6, tr6, .error E_CONSTRAINT_VIOLATION) ∧
        t6.cache = c) := by
  refine ⟨?_, fun t tr rev err h hs => commit_final_transaction h hs,
    fun txn5 tr5 res c h1 h2 h3 => etcdTransactionRun_invalid env txn5 tr5 res c h1 h2 h3⟩
  intro t tr rev h
  have hspec := commitPhases_spec env txn
  have hC := h
  rw [Commit_eq] at h
  split at h
  · cases h
  · rw [h] at hspec
    have hs : tr.submitted.length = 2 := by
      obtain ⟨-, hcase⟩ := hspec
      rcases hcase with ⟨k, e, -, -, -, -, -, he, -⟩ | ⟨e, pre, -, -, -, -, -, he, -⟩ |
        ⟨k, e, pre, -, -, -, -, -, -, he, -⟩ | ⟨e, pre, final, -, -, -, -, -, he, -⟩ |
        ⟨pre, final, -, -, hsub, -⟩
      · cases he
      · cases he
      · cases he
      · cases he
      · rw [hsub]; rfl
    obtain ⟨txn5, tr5, t6, r, hF, hc, hr⟩ := commit_final_transaction hC hs
    cases r with
    | error e => simp only at hr; cases hr.1
    | ok res =>
      rw [hc]
      exact etcdTransactionRun_ok hF

/-- Witness of `commit_cache_valid`: a transaction of one comment on a store that accepts it,
and on a store whose answer to the final KV transaction holds a row that fails validation. -/
theorem commit_cache_valid_witness :
    (∃ t tr, Commit exampleEnv (NewTransaction { DBName := "db", Operations := [exampleComment] })
        = .ret t tr 7 none ∧ Cache.Validate exampleEnv t.cache = true) ∧
    (∃ t tr, Commit exampleEnvInvalid
        (NewTransaction { DBName := "db", Operations := [exampleComment] })
        = .ret t tr (-1) (some E_CONSTRAINT_VIOLATION) ∧
      Cache.Validate exampleEnvInvalid t.cache = false ∧
      ∃ txn5 tr5 t6 r, etcdTransactionRun exampleEnvInvalid txn5 tr5 = (t6, tr, r) ∧
        t.cache = t6.cache ∧
        match r with
        | .ok res => some E_CONSTRAINT_VIOLATION = none ∧ (-1 : Int) = res.Revision
        | .error e => some E_CONSTRAINT_VIOLATION = some e ∧ (-1 : Int) = -1) := by
  refine ⟨⟨_, _, rfl, ?_⟩, ⟨_, _, rfl, rfl, ?_⟩⟩
  · exact (commit_cache_valid exampleEnv
      (NewTransaction { DBName := "db", Operations := [exampleComment] })).1 _ _ _ rfl
  · exact (commit_cache_valid exampleEnvInvalid
      (NewTransaction { DBName := "db", Operations := [exampleComment] })).2.1 _ _ _ _ rfl rfl

/-! ## Claim C30 -/

/-- The callback `doComment` appends the `Put` of the comment text under the comment key of the
current clock reading. -/
theorem doComment_appends {env : Env} {txn txn1 : Transaction} {op : Operation}
    {res res1 : OperationResult} {err : Option String}
    (h : doComment env txn op res = .ret txn1 res1 err) :
    ∃ comment, op.Comment = some comment ∧ err = none ∧
      txn1.etcdTrx.Then = txn.etcdTrx.Then ++
        [.put ((NewCommentKey txn.request.DBName (env.Now txn.nClock)).String env.root) comment]
      ∧ txn1.nClock = txn.nClock + 1 := by
  unfold doComment at h
  cases hc : op.Comment with
  | none => rw [hc] at h; cases h
  | some comment =>
    rw [hc] at h
    simp only [CbOut.ret.injEq] at h
    obtain ⟨h1, -, h3⟩ := h
    exact ⟨comment, rfl, h3.symm, by rw [← h1], by rw [← h1]⟩

/-- An operation whose key does not occur again later in the list survives the removal of
duplicate keys. -/
theorem etcdRemoveDupThen_mem_of_last (pre post : List KvOp) (o : KvOp)
    (h : o.KeyBytes ∉ post.map KvOp.KeyBytes) : o ∈ etcdRemoveDupThen (pre ++ o :: post) := by
  rw [etcdRemoveDupThen_eq_keepLast]
  induction pre with
  | nil =>
    simp only [List.nil_append, keepLast, h, if_false]
    exact List.mem_cons_self _ _
  | cons p rest ih =>
    simp only [List.cons_append, keepLast]
    split
    · exact ih
    · exact List.mem_cons_of_mem _ ih

/-- Claim C30, the code at the failing input: the transaction of the two comments `a` and `b`,
with a clock that reads the same second for both. Both comments get the same key, so
`etcdRemoveDupThen` removes the `Put` of the first: the transaction succeeds and the KV
transaction that is committed holds the one `Put` of the comment `b`. -/
theorem commit_two_comments_stores_one :
    ∃ t tr pre final, Commit exampleEnv
        (NewTransaction
          { DBName := "db"
            Operations := [{ Op := OP_COMMENT, Comment := some "a" },
              { Op := OP_COMMENT, Comment := some "b" }] })
        = .ret t tr 7 none ∧
      tr.submitted = [pre, final] ∧
      final.Then = [.put "ovsdb/_comments/db/2021-06-01T00:00:00Z" "b"] :=
  ⟨_, _, _, _, rfl, rfl, rfl⟩

/-! ## Claim C37 -/

theorem keepLast_of_nodup (l : List KvOp) (h : (l.map KvOp.KeyBytes).Nodup) : keepLast l = l := by
  induction l with
  | nil => rfl
  | cons op rest ih =>
    simp only [List.map_cons, List.nodup_cons] at h
    simp only [keepLast, if_neg h.1, ih h.2]

theorem keepLast_keys (l : List KvOp) (k : String) :
    k ∈ (keepLast l).map KvOp.KeyBytes ↔ k ∈ l.map KvOp.KeyBytes := by
  induction l with
  | nil => simp [keepLast]
  | cons op rest ih =>
    simp only [keepLast]
    by_cases hm : op.KeyBytes ∈ rest.map KvOp.KeyBytes
    · simp only [if_pos hm, ih, List.map_cons, List.mem_cons]
      constructor
      · exact Or.inr
      · rintro (h | h)
        · rw [h]; exact hm
        · exact h
    · simp only [if_neg hm, List.map_cons, List.mem_cons, ih]

/-- Claim C37. `etcdRemoveDupThen` applied twice gives the same list as applied once; a key
occurs in the result exactly when it occurs in the list; and a list in which no two operations
have the same key is returned as it is. -/
theorem etcdRemoveDupThen_idempotent (l : List KvOp) :
    etcdRemoveDupThen (etcdRemoveDupThen l) = etcdRemoveDupThen l ∧
      (∀ k : String, k ∈ (etcdRemoveDupThen l).map KvOp.KeyBytes ↔ k ∈ l.map KvOp.KeyBytes) ∧
      ((l.map KvOp.KeyBytes).Nodup → etcdRemoveDupThen l = l) := by
  simp only [etcdRemoveDupThen_eq_keepLast]
  exact ⟨keepLast_of_nodup _ (keepLast_keys_nodup l), keepLast_keys l, keepLast_of_nodup l⟩

/-- Claim C37 at a list of three operations on three keys, which is returned as it is. -/
theorem etcdRemoveDupThen_idempotent_witness :
    etcdRemoveDupThen [.put "a" "1", .delete "b", .get "c"]
      = [.put "a" "1", .delete "b", .get "c"] :=
  (etcdRemoveDupThen_idempotent [.put "a" "1", .delete "b", .get "c"]).2.2 (by decide)

/-! ## Claim C39 -/

theorem char_eq_of_toNat_not_lt (c d : Char) (h1 : ¬ c.toNat < d.toNat)
    (h2 : ¬ d.toNat < c.toNat) : c = d := by
  have : c.toNat = d.toNat := by omega
  apply Char.ext
  apply UInt32.ext
  exact this

theorem ltChars_irrefl (l : List Char) : ltChars l l = false := by
  induction l with
  | nil => rfl
  | cons c cs ih => simp [ltChars, ih]

theorem ltChars_total (a b : List Char) (h : a ≠ b) :
    ltChars a b = true ∨ ltChars b a = true := by
  induction a generalizing b with
  | nil =>
    cases b with
    | nil => exact absurd rfl h
    | cons d ds => left; rfl
  | cons c cs ih =>
    cases b with
    | nil => right; rfl
    | cons d ds =>
      by_cases h1 : c.toNat < d.toNat
      · left; simp [ltChars, h1]
      · by_cases h2 : d.toNat < c.toNat
        · right; simp [ltChars, h2]
        · have hcd := char_eq_of_toNat_not_lt c d h1 h2
          subst hcd
          have hne : cs ≠ ds := fun e => h (by rw [e])
          simp only [ltChars, h1, if_false]
          exact ih ds hne

theorem ltChars_asymm (a b : List Char) (h : ltChars a b = true) : ltChars b a = false := by
  induction a generalizing b with
  | nil =>
    cases b with
    | nil => rfl
    | cons d ds => rfl
  | cons c cs ih =>
    cases b with
    | nil => simp [ltChars] at h
    | cons d ds =>
      by_cases h1 : c.toNat < d.toNat
      · have h2 : ¬ d.toNat < c.toNat := by omega
        simp [ltChars, h1, h2]
      · by_cases h2 : d.toNat < c.toNat
        · simp [ltChars, h1, h2] at h
        · simp only [ltChars, h1, h2, if_false] at h ⊢
          exact ih ds h

theorem ltChars_trans (a b c : List Char) (h1 : ltChars a b = true) (h2 : ltChars b c = true) :
    ltChars a c = true := by
  induction a generalizing b c with
  | nil =>
    cases c with
    | nil => cases b <;> simp [ltChars] at h2
    | cons z zs => rfl
  | cons x xs ih =>
    cases b with
    | nil => simp [ltChars] at h1
    | cons y ys =>
      cases c with
      | nil => simp [ltChars] at h2
      | cons z zs =>
        simp only [ltChars] at h1 h2 ⊢
        by_cases hxy : x.toNat < y.toNat
        · by_cases hyz : y.toNat < z.toNat
          · have : x.toNat < z.toNat := by omega
            simp [this]
          · by_cases hzy : z.toNat < y.toNat
            · simp [hyz, hzy] at h2
            · have : x.toNat < z.toNat := by omega
              simp [this]
        · by_cases hyx : y.toNat < x.toNat
          · simp [hxy, hyx] at h1
          · simp only [hxy, hyx, if_false] at h1
            by_cases hyz : y.toNat < z.toNat
            · have : x.toNat < z.toNat := by omega
              simp [this]
            · by_cases hzy : z.toNat < y.toNat
              · simp [hyz, hzy] at h2
              · simp only [hyz, hzy, if_false] at h2
                have e1 : ¬ x.toNat < z.toNat := by omega
                have e2 : ¬ z.toNat < x.toNat := by omega
                simp only [e1, e2, if_false]
                exact ih ys zs h1 h2

theorem stringLess_irrefl (s : String) : stringLess s s = false := ltChars_irrefl _

theorem stringLess_total (s t : String) (h : s ≠ t) :
    stringLess s t = true ∨ stringLess t s = true := by
  apply ltChars_total
  intro e
  exact h (String.ext e)

theorem stringLess_asymm (s t : String) (h : stringLess s t = true) : stringLess t s = false :=
  ltChars_asymm _ _ h

theorem stringLess_trans (s t u : String) (h1 : stringLess s t = true)
    (h2 : stringLess t u = true) : stringLess s u = true :=
  ltChars_trans _ _ _ h1 h2

/-- The order of `Alphabetic.Less`: by the lower-cased strings, and by the strings themselves
when the lower-cased strings are the same. -/
theorem Less_iff (a b : String) :
    Alphabetic.Less a b = true ↔
      stringLess (toLower a) (toLower b) = true ∨
        (toLower a = toLower b ∧ stringLess a b = true) := by
  simp only [Alphabetic.Less]
  by_cases h : toLower a = toLower b
  · simp only [if_pos h, h, stringLess_irrefl, true_and]
    simp
  · simp [h]

theorem Less_irrefl (a : String) : Alphabetic.Less a a = false := by
  simp [Alphabetic.Less, stringLess_irrefl]

theorem Less_trans (a b c : String) (h1 : Alphabetic.Less a b = true)
    (h2 : Alphabetic.Less b c = true) : Alphabetic.Less a c = true := by
  rw [Less_iff] at h1 h2 ⊢
  rcases h1 with h1 | ⟨e1, h1⟩
  · rcases h2 with h2 | ⟨e2, h2⟩
    · exact Or.inl (stringLess_trans _ _ _ h1 h2)
    · rw [← e2]; exact Or.inl h1
  · rcases h2 with h2 | ⟨e2, h2⟩
    · rw [e1]; exact Or.inl h2
    · exact Or.inr ⟨e1.trans e2, stringLess_trans _ _ _ h1 h2⟩

theorem Less_asymm (a b : String) (h : Alphabetic.Less a b = true) :
    Alphabetic.Less b a = false := by
  rw [Less_iff] at h
  rw [Bool.eq_false_iff]
  intro h2
  rw [Less_iff] at h2
  rcases h with h | ⟨e, h⟩
  · rcases h2 with h2 | ⟨e2, _⟩
    · rw [stringLess_asymm _ _ h] at h2; exact Bool.noConfusion h2
    · rw [e2, stringLess_irrefl] at h; exact Bool.noConfusion h
  · rcases h2 with h2 | ⟨_, h2⟩
    · rw [e, stringLess_irrefl] at h2; exact Bool.noConfusion h2
    · rw [stringLess_asymm _ _ h] at h2; exact Bool.noConfusion h2

theorem Less_total (a b : String) (h : a ≠ b) :
    Alphabetic.Less a b = true ∨ Alphabetic.Less b a = true := by
  simp only [Less_iff]
  by_cases e : toLower a = toLower b
  · rcases stringLess_total a b h with h1 | h1
    · exact Or.inl (Or.inr ⟨e, h1⟩)
    · exact Or.inr (Or.inr ⟨e.symm, h1⟩)
  · rcases stringLess_total _ _ e with h1 | h1
    · exact Or.inl (Or.inl h1)
    · exact Or.inr (Or.inl h1)

theorem notAfter_total (a b : String) :
    Alphabetic.Less b a = false ∨ Alphabetic.Less a b = false := by
  by_cases h : a = b
  · subst h; exact Or.inl (Less_irrefl a)
  · rcases Less_total a b h with h1 | h1
    · exact Or.inl (Less_asymm _ _ h1)
    · exact Or.inr (Less_asymm _ _ h1)

theorem notAfter_trans (a b c : String) (hab : Alphabetic.Less b a = false)
    (hbc : Alphabetic.Less c b = false) : Alphabetic.Less c a = false := by
  rw [Bool.eq_false_iff]
  intro hca
  by_cases h : a = b
  · subst h; rw [hca] at hbc; exact Bool.noConfusion hbc
  · rcases Less_total a b h with h1 | h1
    · have := Less_trans _ _ _ hca h1
      rw [this] at hbc; exact Bool.noConfusion hbc
    · rw [h1] at hab; exact Bool.noConfusion hab

theorem notAfter_antisymm (a b : String) (hab : Alphabetic.Less b a = false)
    (hba : Alphabetic.Less a b = false) : a = b := by
  by_contra h
  rcases Less_total a b h with h1 | h1
  · rw [h1] at hba; exact Bool.noConfusion hba
  · rw [h1] at hab; exact Bool.noConfusion hab

theorem sortAlphabetic_perm (l : List String) : (sortAlphabetic l).Perm l :=
  List.perm_insertionSort _ l

theorem sortAlphabetic_sorted (l : List String) :
    (sortAlphabetic l).Pairwise (fun a b => Alphabetic.Less b a = false) := by
  haveI : IsTotal String (fun a b => Alphabetic.Less b a = false) := ⟨notAfter_total⟩
  haveI : IsTrans String (fun a b => Alphabetic.Less b a = false) := ⟨notAfter_trans⟩
  exact List.sorted_insertionSort _ l

theorem sortAlphabetic_of_perm (l1 l2 : List String) (h : l1.Perm l2) :
    sortAlphabetic l1 = sortAlphabetic l2 := by
  haveI : IsAntisymm String (fun a b => Alphabetic.Less b a = false) := ⟨notAfter_antisymm⟩
  exact List.eq_of_perm_of_sorted
    (((sortAlphabetic_perm l1).trans h).trans (sortAlphabetic_perm l2).symm)
    (sortAlphabetic_sorted l1) (sortAlphabetic_sorted l2)

/-- Claim C39. `Alphabetic.Less` is a strict total order: no string is less than itself, the
relation is transitive, and of two different strings exactly one is less than the other; it
orders by the lower-cased strings and, when these are the same, by the strings themselves. Hence
the sorted list depends only on which strings the list holds and how often: the result of
`sortAlphabetic` is a rearrangement of the list in which no string is less than its predecessor,
and two lists that are rearrangements of each other have the same sorted list. -/
theorem Less_strict_total_order :
    (∀ a : String, Alphabetic.Less a a = false) ∧
      (∀ a b c : String, Alphabetic.Less a b = true → Alphabetic.Less b c = true →
        Alphabetic.Less a c = true) ∧
      (∀ a b : String, a ≠ b →
        (Alphabetic.Less a b = true ∧ Alphabetic.Less b a = false) ∨
          (Alphabetic.Less a b = false ∧ Alphabetic.Less b a = true)) ∧
      (∀ a b : String, Alphabetic.Less a b = true ↔
        stringLess (toLower a) (toLower b) = true ∨
          (toLower a = toLower b ∧ stringLess a b = true)) ∧
      (∀ l : List String, (sortAlphabetic l).Perm l ∧
        (sortAlphabetic l).Pairwise (fun a b => Alphabetic.Less b a = false)) ∧
      (∀ l1 l2 : List String, l1.Perm l2 → sortAlphabetic l1 = sortAlphabetic l2) := by
  refine ⟨Less_irrefl, Less_trans, ?_, Less_iff, ?_, sortAlphabetic_of_perm⟩
  · intro a b h
    rcases Less_total a b h with h1 | h1
    · exact Or.inl ⟨h1, Less_asymm _ _ h1⟩
    · exact Or.inr ⟨Less_asymm _ _ h1, h1⟩
  · intro l
    exact ⟨sortAlphabetic_perm l, sortAlphabetic_sorted l⟩

/-- Claim C39 at the strings "b", "A" and "a": "A" is less than "a", which is less than "b",
and the three strings in two different orders have the same sorted list. -/
theorem Less_strict_total_order_witness :
    Alphabetic.Less "A" "b" = true ∧
      sortAlphabetic ["b", "A", "a"] = sortAlphabetic ["a", "b", "A"] :=
  ⟨Less_strict_total_order.2.1 "A" "a" "b" (by decide) (by decide),
    Less_strict_total_order.2.2.2.2.2 ["b", "A", "a"] ["a", "b", "A"] (by decide)⟩

/-! ## Claim C38 -/

theorem includesValue_actual_congr (e : Value) (s t : String)
    (h : splitAndSort s = splitAndSort t) :
    includesValue e (.str s) ↔ includesValue e (.str t) := by
  cases e <;> simp [includesValue, isEqualValue, deepEqual, h]

theorem includesValue_expected_congr (v : Value) (s t : String)
    (h : splitAndSort s = splitAndSort t) :
    includesValue (.str s) v ↔ includesValue (.str t) v := by
  cases v <;> simp [includesValue, isEqualValue, deepEqual, h]

theorem mapGet_replace (pre post : List (Value × Value)) (key k : Value) (v w : Value) :
    mapGet (pre ++ (key, v) :: post) k = mapGet (pre ++ (key, w) :: post) k ∨
      (mapGet (pre ++ (key, v) :: post) k = some v ∧
        mapGet (pre ++ (key, w) :: post) k = some w) := by
  induction pre with
  | nil =>
    simp only [List.nil_append, mapGet]
    by_cases hd : deepEqual key k = true
    · right; simp [hd]
    · left; simp [hd]
  | cons e rest ih =>
    obtain ⟨k2, w2⟩ := e
    simp only [List.cons_append, mapGet]
    by_cases hd : deepEqual k2 k = true
    · left; simp [hd]
    · simp only [hd, if_false]
      exact ih

theorem isIncludesMapLoop_actual_congr (expected pre post : List (Value × Value))
    (key : Value) (s t : String) (h : splitAndSort s = splitAndSort t) :
    isIncludesMapLoop (pre ++ (key, .str s) :: post) expected =
      isIncludesMapLoop (pre ++ (key, .str t) :: post) expected := by
  rw [Bool.eq_iff_iff, isIncludesMapLoop_iff, isIncludesMapLoop_iff]
  apply forall_congr'
  intro kv
  apply imp_congr_right
  intro _
  rcases mapGet_replace pre post key kv.1 (.str s) (.str t) with e | ⟨e1, e2⟩
  · rw [e]
  · rw [e1, e2]
    simp only [Option.some.injEq, exists_eq_left']
    exact includesValue_actual_congr kv.2 s t h

theorem isIncludesMapLoop_expected_congr (actual pre post : List (Value × Value))
    (key : Value) (s t : String) (h : splitAndSort s = splitAndSort t) :
    isIncludesMapLoop actual (pre ++ (key, .str s) :: post) =
      isIncludesMapLoop actual (pre ++ (key, .str t) :: post) := by
  rw [Bool.eq_iff_iff, isIncludesMapLoop_iff, isIncludesMapLoop_iff]
  simp only [List.mem_append, List.mem_cons, or_imp, forall_and, forall_eq]
  apply and_congr_right
  intro _
  apply and_congr_left
  intro _
  apply exists_congr
  intro v
  apply and_congr_right
  intro _
  exact includesValue_expected_congr v s t h

/-- Claim C38. For two strings whose lists of comma-separated tokens are rearrangements of each
other, `splitAndSort` returns the same string; hence `isIncludesMap` returns the same answer
when a string value of the actual map, or of the expected map, is replaced by such a
rearrangement. -/
theorem splitAndSort_token_reordering (s t : String)
    (h : ((splitComma s.toList).map String.mk).Perm ((splitComma t.toList).map String.mk)) :
    splitAndSort s = splitAndSort t ∧
      (∀ (expected : Value) (pre post : List (Value × Value)) (key : Value),
        isIncludesMap expected (.map (pre ++ (key, .str s) :: post)) =
          isIncludesMap expected (.map (pre ++ (key, .str t) :: post))) ∧
      (∀ (actual : Value) (pre post : List (Value × Value)) (key : Value),
        isIncludesMap (.map (pre ++ (key, .str s) :: post)) actual =
          isIncludesMap (.map (pre ++ (key, .str t) :: post)) actual) := by
  have hs : splitAndSort s = splitAndSort t :=
    splitAndSort_of_tokens s t (sortAlphabetic_of_perm _ _ h)
  refine ⟨hs, ?_, ?_⟩
  · intro expected pre post key
    cases expected <;> simp only [isIncludesMap, Value.GoMap?]
    all_goals rw [isIncludesMapLoop_actual_congr _ pre post key s t hs]
  · intro actual pre post key
    cases actual <;> simp only [isIncludesMap, Value.GoMap?]
    all_goals rw [isIncludesMapLoop_expected_congr _ pre post key s t hs]

/-- Claim C38 at the strings "b,a,C" and "C,b,a": both are turned into "abC", and a map whose
value is the one includes a map whose value is the other. -/
theorem splitAndSort_token_reordering_witness :
    splitAndSort "b,a,C" = splitAndSort "C,b,a" ∧
      isIncludesMap (.map [(.str "k", .str "a,b,C")]) (.map ([] ++ [(.str "k", .str "b,a,C")]))
        = isIncludesMap (.map [(.str "k", .str "a,b,C")])
            (.map ([] ++ [(.str "k", .str "C,b,a")])) :=
  ⟨(splitAndSort_token_reordering "b,a,C" "C,b,a" (by decide)).1,
    (splitAndSort_token_reordering "b,a,C" "C,b,a" (by decide)).2.1
      (.map [(.str "k", .str "a,b,C")]) [] [] (.str "k")⟩

/-! ## Claim C34 -/

/-- The table of callbacks has an entry for the ten operation names and for no other name. -/
theorem ovsOpCallbackMap_none_iff (name : String) :
    ovsOpCallbackMap name = none ↔
      name ∉ [OP_INSERT, OP_SELECT, OP_UPDATE, OP_MUTATE, OP_DELETE, OP_WAIT, OP_COMMIT,
        OP_ABORT, OP_COMMENT, OP_ASSERT] := by
  simp only [List.mem_cons, List.mem_singleton, List.not_mem_nil, or_false, not_or]
  unfold ovsOpCallbackMap
  by_cases h1 : name = OP_INSERT
  · rw [if_pos h1]
    simp [h1]
  by_cases h2 : name = OP_SELECT
  · rw [if_neg h1, if_pos h2]
    simp [h2]
  by_cases h3 : name = OP_UPDATE
  · rw [if_neg h1, if_neg h2, if_pos h3]
    simp [h3]
  by_cases h4 : name = OP_MUTATE
  · rw [if_neg h1, if_neg h2, if_neg h3, if_pos h4]
    simp [h4]
  by_cases h5 : name = OP_DELETE
  · rw [if_neg h1, if_neg h2, if_neg h3, if_neg h4, if_pos h5]
    simp [h5]
  by_cases h6 : name = OP_WAIT
  · rw [if_neg h1, if_neg h2, if_neg h3, if_neg h4, if_neg h5, if_pos h6]
    simp [h6]
  by_cases h7 : name = OP_COMMIT
  · rw [if_neg h1, if_neg h2, if_neg h3, if_neg h4, if_neg h5, if_neg h6, if_pos h7]
    simp [h7]
  by_cases h8 : name = OP_ABORT
  · rw [if_neg h1, if_neg h2, if_neg h3, if_neg h4, if_neg h5, if_neg h6, if_neg h7, if_pos h8]
    simp [h8]
  by_cases h9 : name = OP_COMMENT
  · rw [if_neg h1, if_neg h2, if_neg h3, if_neg h4, if_neg h5, if_neg h6, if_neg h7, if_neg h8, if_pos h9]
    simp [h9]
  by_cases h10 : name = OP_ASSERT
  · rw [if_neg h1, if_neg h2, if_neg h3, if_neg h4, if_neg h5, if_neg h6, if_neg h7, if_neg h8, if_neg h9, if_pos h10]
    simp [h10]
  rw [if_neg h1, if_neg h2, if_neg h3, if_neg h4, if_neg h5, if_neg h6, if_neg h7, if_neg h8, if_neg h9, if_neg h10]
  simp [h1, h2, h3, h4, h5, h6, h7, h8, h9, h10]

/-- A request whose first operation has a name without callbacks: `Commit` passes the
compatibility check when the list does not mix `select` with writes, looks the name up in the
table of callbacks and calls the nil function found there. -/
theorem commit_first_operation_unknown (env : Env) (db : String) (op : Operation)
    (rest : List Operation) (h : ovsOpCallbackMap op.Op = none)
    (hmix : mixesSelectWithWrite (op :: rest) = false) :
    Commit env (NewTransaction { DBName := db, Operations := op :: rest }) = .crash {} := by
  rw [Commit_eq]
  simp only [NewTransaction, hmix, Bool.false_eq_true, if_false, commitPhases, runCallbacks, h]

/-- Claim C34, the code at the failing input: the name "foo" is none of the ten operation names
and has no entry in the table of callbacks; on a request with the one operation "foo", whatever
its other members, `Commit` panics before any callback has run, and returns neither a revision
nor an error. -/
theorem commit_unknown_operation_panics (env : Env) (db : String) (op : Operation) :
    ovsOpCallbackMap "foo" = none ∧
      Commit env (NewTransaction { DBName := db, Operations := [{ op with Op := "foo" }] })
        = .crash {} := by
  have h : ovsOpCallbackMap "foo" = none := by
    rw [ovsOpCallbackMap_none_iff]
    decide
  refine ⟨h, ?_⟩
  apply commit_first_operation_unknown
  · exact h
  · simp [mixesSelectWithWrite, compatLoop, OP_SELECT, OP_DELETE, OP_MUTATE, OP_UPDATE, OP_INSERT]

/-! ## Claim C33 -/

theorem isEqualRowLoop_true_iff (ts : TableSchema) (actual : Row) (expected : Row) :
    isEqualRowLoop ts actual expected = .ok true ↔ equalOnColumns ts expected actual := by
  unfold equalOnColumns
  induction expected with
  | nil => simp [isEqualRowLoop]
  | cons cv rest ih =>
    obtain ⟨column, v⟩ := cv
    simp only [isEqualRowLoop, List.mem_cons, forall_eq_or_imp]
    cases hl : ts.LookupColumn column with
    | none => simp
    | some cs =>
      simp only [Option.some.injEq, exists_eq_left']
      by_cases hc : isEqualColumn cs v (actual.get column) = true
      · simp only [hc, Bool.not_true, Bool.false_eq_true, if_false, true_and]
        exact ih
      · simp [hc]

theorem rowsEqual_iff (ts : TableSchema) (expected actual : Row) :
    rowsEqual ts expected actual = true ↔ equalOnColumns ts expected actual := by
  rw [← isEqualRowLoop_true_iff]
  unfold rowsEqual isEqualRow
  cases isEqualRowLoop ts actual expected with
  | error e => simp
  | ok b => cases b <;> simp

theorem preparedRow_of_ok {env : Env} {ts : TableSchema} {m : namedUUIDResolver} {r r1 : Row}
    (h : RowPrepare env ts m r = .ok r1) : preparedRow env ts m r = r1 := by
  simp [preparedRow, h]

/-- The inner loop of `doWait`, when every expected row is prepared and compared without error:
it stops at the first expected row whose prepared form is equal to the actual row, and otherwise
leaves every expected row in its prepared form. -/
theorem doWaitRows_spec (env : Env) (ts : TableSchema) (m : namedUUIDResolver) (equal : Bool)
    (actual : Row) :
    ∀ (rows done : List Row),
      (∀ r ∈ rows, RowPrepare env ts m r = .ok (preparedRow env ts m r)) →
      (∀ r ∈ rows, ∃ b, isEqualRow ts (preparedRow env ts m r) actual = .ok b) →
      doWaitRows env ts m equal actual rows done =
        if rows.any (fun r => rowsEqual ts (preparedRow env ts m r) actual) then
          .stop (if equal then none else some E_TIMEOUT)
        else .next (done ++ rows.map (preparedRow env ts m)) := by
  intro rows
  induction rows with
  | nil => intro done _ _; simp [doWaitRows]
  | cons r rest ih =>
    intro done hp hc
    have hp1 := hp r (List.mem_cons_self _ _)
    obtain ⟨b, hb⟩ := hc r (List.mem_cons_self _ _)
    simp only [doWaitRows, hp1, hb, List.any_cons, rowsEqual]
    cases b with
    | true => cases equal <;> simp
    | false =>
      simp only [Bool.false_eq_true, if_false, Bool.false_or]
      rw [ih (done ++ [preparedRow env ts m r])
        (fun x hx => hp x (List.mem_cons_of_mem _ hx))
        (fun x hx => hc x (List.mem_cons_of_mem _ hx))]
      simp [rowsEqual]

theorem any_map_preparedRow (env : Env) (ts : TableSchema) (m : namedUUIDResolver)
    (f : Row → Bool) (rows : List Row)
    (h : ∀ r ∈ rows, RowPrepare env ts m (preparedRow env ts m r)
      = .ok (preparedRow env ts m r)) :
    (rows.map (preparedRow env ts m)).any (fun r => f (preparedRow env ts m r)) =
      rows.any (fun r => f (preparedRow env ts m r)) := by
  induction rows with
  | nil => rfl
  | cons r rest ih =>
    simp only [List.map_cons, List.any_cons]
    rw [ih (fun x hx => h x (List.mem_cons_of_mem _ hx)),
      preparedRow_of_ok (h r (List.mem_cons_self _ _))]

/-- The outer loop of `doWait`, when the where-clause and the comparisons raise no error and
the prepared form of an expected row is left as it is by a further preparation: the outcome is
decided by the existence of a selected row and an expected row that are equal. -/
theorem doWaitLoop_spec (env : Env) (ts : TableSchema) (m : namedUUIDResolver) (op : Operation)
    (equal : Bool) :
    ∀ (table : List (String × Row)) (rows : List Row),
      (∀ e ∈ table, ∃ b, isRowSelectedByWhere env ts m e.2 op.Where = .ok b) →
      (∀ r ∈ rows, RowPrepare env ts m r = .ok (preparedRow env ts m r) ∧
        RowPrepare env ts m (preparedRow env ts m r) = .ok (preparedRow env ts m r)) →
      (∀ e ∈ selectedRows env ts m op.Where table, ∀ r ∈ rows, ∃ b,
        isEqualRow ts (preparedRow env ts m r) (reduceRowByColumns e.2 op.Columns) = .ok b) →
      doWaitLoop env ts m op equal table rows =
        if (selectedRows env ts m op.Where table).any (fun e =>
            rows.any (fun r =>
              rowsEqual ts (preparedRow env ts m r) (reduceRowByColumns e.2 op.Columns))) then
          (if equal then none else some E_TIMEOUT)
        else (if equal then some E_TIMEOUT else none) := by
  intro table
  induction table with
  | nil => intro rows _ _ _; cases equal <;> simp [doWaitLoop, selectedRows]
  | cons e rest ih =>
    intro rows hw hp hc
    obtain ⟨u, actual0⟩ := e
    obtain ⟨b, hb⟩ := hw (u, actual0) (List.mem_cons_self _ _)
    have hw2 : ∀ e ∈ rest, ∃ b, isRowSelectedByWhere env ts m e.2 op.Where = .ok b :=
      fun x hx => hw x (List.mem_cons_of_mem _ hx)
    simp only at hb
    simp only [doWaitLoop, hb]
    cases b with
    | false =>
      rw [selectedRows_cons_false hb] at hc ⊢
      simp only [Bool.not_false, if_true]
      exact ih rows hw2 hp hc
    | true =>
      rw [selectedRows_cons_true hb] at hc ⊢
      have hact : (match op.Columns with
          | some _ => reduceRowByColumns actual0 op.Columns
          | none => actual0) = reduceRowByColumns actual0 op.Columns := by
        cases hcol : op.Columns <;> simp [reduceRowByColumns]
      simp only [Bool.not_true, Bool.false_eq_true, if_false, hact, List.any_cons]
      rw [doWaitRows_spec env ts m equal _ rows [] (fun r hr => (hp r hr).1)
        (fun r hr => hc (u, actual0) (List.mem_cons_self _ _) r hr)]
      by_cases hany : rows.any (fun r =>
          rowsEqual ts (preparedRow env ts m r) (reduceRowByColumns actual0 op.Columns)) = true
      · simp [hany]
      · simp only [hany, if_false, Bool.false_or, List.nil_append, Bool.false_eq_true]
        rw [ih (rows.map (preparedRow env ts m)) hw2]
        · have hst : ∀ r ∈ rows, RowPrepare env ts m (preparedRow env ts m r)
              = .ok (preparedRow env ts m r) := fun r hr => (hp r hr).2
          have : ∀ e : String × Row,
              (rows.map (preparedRow env ts m)).any (fun r =>
                rowsEqual ts (preparedRow env ts m r) (reduceRowByColumns e.2 op.Columns)) =
              rows.any (fun r =>
                rowsEqual ts (preparedRow env ts m r) (reduceRowByColumns e.2 op.Columns)) :=
            fun e => any_map_preparedRow env ts m
              (fun x => rowsEqual ts x (reduceRowByColumns e.2 op.Columns)) rows hst
          simp only [this]
        · intro r1 hr1
          obtain ⟨r, hr, rfl⟩ := List.mem_map.1 hr1
          have h2 := (hp r hr).2
          rw [preparedRow_of_ok h2]
          exact ⟨h2, h2⟩
        · intro e he r1 hr1
          obtain ⟨r, hr, rfl⟩ := List.mem_map.1 hr1
          rw [preparedRow_of_ok (hp r hr).2]
          exact hc e (List.mem_cons_of_mem _ he) r hr

/-- The outer loop of `doWait` on a table of which the where-clause selects no row. -/
theorem doWaitLoop_none_selected (env : Env) (ts : TableSchema) (m : namedUUIDResolver)
    (op : Operation) (equal : Bool) (rows : List Row) :
    ∀ (table : List (String × Row)),
      (∀ e ∈ table, ∃ b, isRowSelectedByWhere env ts m e.2 op.Where = .ok b) →
      selectedRows env ts m op.Where table = [] →
      doWaitLoop env ts m op equal table rows = if equal then some E_TIMEOUT else none := by
  intro table
  induction table with
  | nil => intro _ _; cases equal <;> simp [doWaitLoop]
  | cons e rest ih =>
    intro hw hs
    obtain ⟨u, actual0⟩ := e
    obtain ⟨b, hb⟩ := hw (u, actual0) (List.mem_cons_self _ _)
    simp only at hb
    cases b with
    | true => rw [selectedRows_cons_true hb] at hs; cases hs
    | false =>
      rw [selectedRows_cons_false hb] at hs
      simp only [doWaitLoop, hb, Bool.not_false, if_true]
      exact ih (fun x hx => hw x (List.mem_cons_of_mem _ hx)) hs

theorem waitPair_iff_any (env : Env) (ts : TableSchema) (m : namedUUIDResolver) (op : Operation)
    (table : List (String × Row)) (rows : List Row)
    (hp : ∀ r ∈ rows, RowPrepare env ts m r = .ok (preparedRow env ts m r)) :
    waitPair env ts m op table rows ↔
      (selectedRows env ts m op.Where table).any (fun e =>
        rows.any (fun r =>
          rowsEqual ts (preparedRow env ts m r) (reduceRowByColumns e.2 op.Columns))) = true := by
  simp only [waitPair, List.any_eq_true, rowsEqual_iff]
  constructor
  · rintro ⟨e, he, r, hr, r1, h1, h2⟩
    refine ⟨e, he, r, hr, ?_⟩
    rw [preparedRow_of_ok h1]
    exact h2
  · rintro ⟨e, he, r, hr, h2⟩
    exact ⟨e, he, r, hr, _, hp r hr, h2⟩

/-- The outcome of `doWait` in terms of the comparison `isEqualColumn` of the executor. For a
`wait` with a table of the schema, expected rows (at least one) and
`until`, when the where-clause is evaluated without error on the rows of the cached table:
if moreover every expected row is prepared without error into a row that a further preparation
leaves as it is, and the comparisons of the prepared rows with the selected rows raise no
error, then with `until` "==" `doWait` succeeds exactly when some selected row (reduced to
`columns` when given) is equal to some prepared expected row on every column of it, and fails
with "timed out" otherwise, and with `until` "!=" it succeeds exactly when there is no such pair
and fails with "timed out" otherwise; and when no row is selected, "==" fails with "timed out"
and "!=" succeeds. The transaction state and the result slot are left as they are. -/
theorem doWait_outcome (env : Env) (txn : Transaction) (op : Operation) (res : OperationResult)
    (table : String) (rows : List Row) (ts : TableSchema)
    (ht : op.Table = some table) (hr : op.Rows = some rows) (hne : rows ≠ [])
    (hl : env.LookupTable table = some ts)
    (hw : ∀ e ∈ txn.cache.getTable txn.request.DBName table,
      ∃ b, isRowSelectedByWhere env ts txn.mapUUID e.2 op.Where = .ok b) :
    ((∀ r ∈ rows, ∃ r1, RowPrepare env ts txn.mapUUID r = .ok r1 ∧
        RowPrepare env ts txn.mapUUID r1 = .ok r1) →
      (∀ e ∈ selectedRows env ts txn.mapUUID op.Where
          (txn.cache.getTable txn.request.DBName table),
        ∀ r ∈ rows, ∀ r1, RowPrepare env ts txn.mapUUID r = .ok r1 →
          ∃ b, isEqualRow ts r1 (reduceRowByColumns e.2 op.Columns) = .ok b) →
      (op.Until = some FN_EQ →
        (waitPair env ts txn.mapUUID op (txn.cache.getTable txn.request.DBName table) rows →
          doWait env txn op res = .ret txn res none) ∧
        (¬ waitPair env ts txn.mapUUID op (txn.cache.getTable txn.request.DBName table) rows →
          doWait env txn op res = .ret txn res (some E_TIMEOUT))) ∧
      (op.Until = some FN_NE →
        (¬ waitPair env ts txn.mapUUID op (txn.cache.getTable txn.request.DBName table) rows →
          doWait env txn op res = .ret txn res none) ∧
        (waitPair env ts txn.mapUUID op (txn.cache.getTable txn.request.DBName table) rows →
          doWait env txn op res = .ret txn res (some E_TIMEOUT)))) ∧
    (selectedRows env ts txn.mapUUID op.Where (txn.cache.getTable txn.request.DBName table) = [] →
      (op.Until = some FN_EQ → doWait env txn op res = .ret txn res (some E_TIMEOUT)) ∧
      (op.Until = some FN_NE → doWait env txn op res = .ret txn res none)) := by
  have hlen : ¬ rows.length = 0 := fun h => hne (List.length_eq_zero.1 h)
  have hne2 : ¬ FN_NE = FN_EQ := by decide
  have hEQ : op.Until = some FN_EQ → doWait env txn op res = .ret txn res
      (doWaitLoop env ts txn.mapUUID op true (txn.cache.getTable txn.request.DBName table)
        rows) := by
    intro hu
    simp only [doWait, ht, hr, hlen, hu, hl, if_false, if_true]
  have hNE : op.Until = some FN_NE → doWait env txn op res = .ret txn res
      (doWaitLoop env ts txn.mapUUID op false (txn.cache.getTable txn.request.DBName table)
        rows) := by
    intro hu
    simp only [doWait, ht, hr, hlen, hu, hl, if_false, if_true, hne2]
  refine ⟨?_, ?_⟩
  · intro hprep hcmp
    have hp : ∀ r ∈ rows, RowPrepare env ts txn.mapUUID r
        = .ok (preparedRow env ts txn.mapUUID r) ∧
        RowPrepare env ts txn.mapUUID (preparedRow env ts txn.mapUUID r)
          = .ok (preparedRow env ts txn.mapUUID r) := by
      intro r hr
      obtain ⟨r1, h1, h2⟩ := hprep r hr
      rw [preparedRow_of_ok h1]
      exact ⟨h1, h2⟩
    have hc : ∀ e ∈ selectedRows env ts txn.mapUUID op.Where
        (txn.cache.getTable txn.request.DBName table), ∀ r ∈ rows, ∃ b,
        isEqualRow ts (preparedRow env ts txn.mapUUID r) (reduceRowByColumns e.2 op.Columns)
          = .ok b :=
      fun e he r hr => hcmp e he r hr _ (hp r hr).1
    have hiff := waitPair_iff_any env ts txn.mapUUID op
      (txn.cache.getTable txn.request.DBName table) rows (fun r hr => (hp r hr).1)
    refine ⟨fun hu => ⟨fun hpair => ?_, fun hpair => ?_⟩,
      fun hu => ⟨fun hpair => ?_, fun hpair => ?_⟩⟩
    · rw [hEQ hu, doWaitLoop_spec env ts txn.mapUUID op true _ rows hw hp hc,
        if_pos (hiff.1 hpair)]
      rfl
    · rw [hEQ hu, doWaitLoop_spec env ts txn.mapUUID op true _ rows hw hp hc,
        if_neg (fun h => hpair (hiff.2 h))]
      rfl
    · rw [hNE hu, doWaitLoop_spec env ts txn.mapUUID op false _ rows hw hp hc,
        if_neg (fun h => hpair (hiff.2 h))]
      rfl
    · rw [hNE hu, doWaitLoop_spec env ts txn.mapUUID op false _ rows hw hp hc,
        if_pos (hiff.1 hpair)]
      rfl
  · intro hs
    refine ⟨fun hu => ?_, fun hu => ?_⟩
    · rw [hEQ hu, doWaitLoop_none_selected env ts txn.mapUUID op true rows _ hw hs]
      rfl
    · rw [hNE hu, doWaitLoop_none_selected env ts txn.mapUUID op false rows _ hw hs]
      rfl

theorem exampleWaitOld_prepare (r r1 : Row) (hr : r ∈ [[("name", Value.str "old")]])
    (h : RowPrepare exampleEnv exampleTable [] r = .ok r1) : r1 = [("name", .str "old")] := by
  rw [List.mem_singleton] at hr
  subst hr
  have h2 : RowPrepare exampleEnv exampleTable [] [("name", Value.str "old")]
      = .ok [("name", .str "old")] := rfl
  rw [h2] at h
  cases h
  rfl

theorem exampleWaitOld_equal :
    equalOnColumns exampleTable [("name", .str "old")]
      [("name", .str "old"), ("_uuid", .uuid "u1"), ("_version", .uuid "v0")] := by
  intro cv hcv
  rw [List.mem_singleton] at hcv
  subst hcv
  refine ⟨{ Typ := .string, Mutable := none }, rfl, ?_⟩
  simp [isEqualColumn, isEqualValue, deepEqual, Row.get, List.lookup]

/-- The lemma `doWait_outcome` at a `wait` until "==" for a row named `old`, on a cache that holds one row of
table `T`, named `old`: `doWait` succeeds. -/
theorem doWait_outcome_witness :
    doWait exampleEnv exampleTxnOneRow exampleWaitOld {} = .ret exampleTxnOneRow {} none :=
  (((doWait_outcome exampleEnv exampleTxnOneRow exampleWaitOld {} "T"
      [[("name", .str "old")]] exampleTable rfl rfl (List.cons_ne_nil _ _) rfl
      (fun _ _ => ⟨true, rfl⟩)).1
    (fun r hr => ⟨[("name", .str "old")], by
      rw [List.mem_singleton] at hr
      subst hr
      exact ⟨rfl, rfl⟩⟩)
    (fun e _ r hr r1 h1 => by
      rw [exampleWaitOld_prepare r r1 hr h1]
      simp only [isEqualRow, isEqualRowLoop]
      have hl : exampleTable.LookupColumn "name" = some { Typ := .string, Mutable := none } :=
        rfl
      rw [hl]
      simp only
      split
      · exact ⟨false, rfl⟩
      · exact ⟨true, rfl⟩)).1 rfl).1
    ⟨("u1", [("name", .str "old"), ("_uuid", .uuid "u1"), ("_version", .uuid "v0")]),
      List.mem_singleton.2 rfl, [("name", .str "old")], List.mem_singleton.2 rfl,
      [("name", .str "old")], rfl, exampleWaitOld_equal⟩

/-! ## Claim C35 -/

/-- The cases in which `parseCondMonitorParameters` panics: the list has two elements and the
first is a string; the element at index 2 is then read from a list that has none. -/
theorem parseCondMonitorParameters_crash_iff (env : HandlerEnv) (params : List Json) :
    parseCondMonitorParameters env params = .crash ↔
      params.length = 2 ∧ ∃ db, params[0]? = some (.str db) := by
  rcases params with _ | ⟨a, _ | ⟨b, _ | ⟨c, _ | ⟨d, _ | ⟨e, rest⟩⟩⟩⟩⟩
  · simp [parseCondMonitorParameters]
  · simp [parseCondMonitorParameters]
  · cases a <;> simp [parseCondMonitorParameters]
  · cases a <;> simp [parseCondMonitorParameters]
    repeat' split
    all_goals simp_all
  · cases a <;> simp [parseCondMonitorParameters]
    repeat' split
    all_goals simp_all
  · simp [parseCondMonitorParameters]

/-- Claim C35, the code at the failing input: on the two parameters `["db", null]`, which pass
the length check, `parseCondMonitorParameters` reads the element at index 2 and panics, and so
does `addMonitor`; in general it panics exactly on the lists of two elements whose first is a
string, and returns parsed parameters or an error on every other list. -/
theorem parseCondMonitorParameters_two_parameters (env : HandlerEnv) (ch : Handler)
    (notificationType : UpdateNotificationType) :
    ¬ ([Json.str "db", Json.null].length < 2 ∨ [Json.str "db", Json.null].length > 4) ∧
      parseCondMonitorParameters env [.str "db", .null] = .crash ∧
      addMonitor env ch [.str "db", .null] notificationType = (ch, .crash) ∧
      (∀ params : List Json, parseCondMonitorParameters env params = .crash ↔
        params.length = 2 ∧ ∃ db, params[0]? = some (.str db)) := by
  have h : parseCondMonitorParameters env [.str "db", .null] = .crash := by
    simp [parseCondMonitorParameters]
  refine ⟨by decide, h, ?_, parseCondMonitorParameters_crash_iff env⟩
  simp only [addMonitor, h]

/-! ## Claim C36 -/

/-- Claim C36, the code at the failing input: the number 1 and the string "1" are different
JSON values with the same string "1" under `jsonValueToString`; after a monitor request with
json-value 1 has been accepted, a monitor request with json-value "1" is rejected with
"duplicate monitor ID". -/
theorem jsonValueToString_collision :
    jsonValueToString (.num 1) = "1" ∧ jsonValueToString (.str "1") = "1" ∧
      Json.num 1 ≠ Json.str "1" ∧
      (addMonitor exampleHandlerEnv {} [.str "db", .num 1, .obj []] .Update).2 = .ok [] ∧
      (addMonitor exampleHandlerEnv
        (addMonitor exampleHandlerEnv {} [.str "db", .num 1, .obj []] .Update).1
        [.str "db", .str "1", .obj []] .Update).2 = .err "duplicate monitor ID" := by
  have h1 : jsonValueToString (.num 1) = "1" := by
    simp [jsonValueToString, sprintV]
    decide
  have h2 : jsonValueToString (.str "1") = "1" := by
    simp [jsonValueToString, sprintV]
  have hlen : ¬ "db".length = 0 := by decide
  refine ⟨h1, h2, fun h => Json.noConfusion h, ?_, ?_⟩
  · simp [addMonitor, parseCondMonitorParameters, exampleHandlerEnv, addMonitorLoop, hlen]
  · simp [addMonitor, parseCondMonitorParameters, exampleHandlerEnv, addMonitorLoop, h1, h2,
      tableSet, List.lookup, hlen]

/-! ## Tables with string keys -/

theorem lookup_tableDelete_self {α : Type} (m : List (String × α)) (key : String) :
    (tableDelete m key).lookup key = none := by
  induction m with
  | nil => rfl
  | cons e rest ih =>
    obtain ⟨k, v⟩ := e
    simp only [tableDelete, List.filter_cons] at ih ⊢
    by_cases hk : k = key
    · simp [hk, ih]
    · have hb : (key == k) = false := by simpa using fun h => hk h.symm
      simp [hk, List.lookup, hb, ih]

theorem lookup_tableDelete_other {α : Type} (m : List (String × α)) (key key2 : String)
    (h : key2 ≠ key) : (tableDelete m key).lookup key2 = m.lookup key2 := by
  induction m with
  | nil => rfl
  | cons e rest ih =>
    obtain ⟨k, v⟩ := e
    simp only [tableDelete, List.filter_cons] at ih ⊢
    by_cases hk : k = key
    · subst hk
      have hb : (key2 == k) = false := by simpa using h
      simp [List.lookup, hb, ih]
    · have hf : (!(k == key)) = true := by simpa using hk
      simp only [hf, if_true, List.lookup]
      cases key2 == k
      · exact ih
      · rfl

theorem lookup_tableSet_self {α : Type} (m : List (String × α)) (key : String) (v : α) :
    (tableSet m key v).lookup key = some v := by
  induction m with
  | nil => simp [tableSet, List.lookup]
  | cons e rest ih =>
    obtain ⟨k, w⟩ := e
    simp only [tableSet]
    by_cases hk : k = key
    · subst hk; simp [List.lookup]
    · have hb : (key == k) = false := by simpa using fun h => hk h.symm
      simp [hk, List.lookup, hb, ih]

theorem lookup_tableSet_other {α : Type} (m : List (String × α)) (key key2 : String) (v : α)
    (h : key2 ≠ key) : (tableSet m key v).lookup key2 = m.lookup key2 := by
  induction m with
  | nil =>
    have hb : (key2 == key) = false := by simpa using h
    simp [tableSet, List.lookup, hb]
  | cons e rest ih =>
    obtain ⟨k, w⟩ := e
    simp only [tableSet]
    by_cases hk : k = key
    · subst hk
      have hb : (key2 == k) = false := by simpa using h
      simp [List.lookup, hb]
    · simp only [hk, if_false, List.lookup]
      cases key2 == k <;> simp [ih]

theorem lookup_isSome_iff {α : Type} (m : List (String × α)) (key : String) :
    (m.lookup key).isSome = true ↔ ∃ e ∈ m, e.1 = key := by
  induction m with
  | nil => simp [List.lookup]
  | cons e rest ih =>
    obtain ⟨k, w⟩ := e
    simp only [List.lookup, List.mem_cons, exists_eq_or_imp]
    by_cases hk : key = k
    · subst hk; simp
    · have hb : (key == k) = false := by simpa using hk
      have hk2 : ¬ k = key := fun h => hk h.symm
      simp only [hb, ih, hk2, false_or]

theorem length_eq_zero_iff_empty (s : String) : s.length = 0 ↔ s = "" := by
  constructor
  · intro h
    apply String.ext
    exact List.length_eq_zero.1 h
  · rintro rfl; rfl

/-! ## Claim C32 -/

/-- Claim C32. For an id that parses, after `Unlock` the lock table has no entry for the id,
and its other entries are those it had, in their order; the other tables of the handler are
left as they are; when the id had a Locker, `cancel` is called on it, once, and on no other
Locker; when the id had none, `cancel` is not called at all; in both cases the call returns the
empty result and no error. -/
theorem Unlock_frame (env : HandlerEnv) (ch : Handler) (param : Json) (id : String)
    (h : env.ParamsToString param = .ok id) :
    (Unlock env ch param).1.databaseLocks.lookup id = none ∧
      (∀ id2, id2 ≠ id →
        (Unlock env ch param).1.databaseLocks.lookup id2 = ch.databaseLocks.lookup id2) ∧
      (Unlock env ch param).1.databaseLocks = ch.databaseLocks.filter (fun e => e.1 ≠ id) ∧
      (Unlock env ch param).1.monitors = ch.monitors ∧
      (Unlock env ch param).1.handlerMonitorData = ch.handlerMonitorData ∧
      (Unlock env ch param).1.closed = ch.closed ∧
      (∀ l, ch.databaseLocks.lookup id = some l → (Unlock env ch param).2.2.2 = [l]) ∧
      (ch.databaseLocks.lookup id = none → (Unlock env ch param).2.2.2 = []) ∧
      (Unlock env ch param).2.1 = {} ∧ (Unlock env ch param).2.2.1 = none := by
  have hu : Unlock env ch param =
      ({ ch with databaseLocks := tableDelete ch.databaseLocks id }, {}, none,
        (ch.databaseLocks.lookup id).toList) := by
    simp only [Unlock, h]
    cases ch.databaseLocks.lookup id <;> rfl
  rw [hu]
  refine ⟨lookup_tableDelete_self _ _, fun id2 h2 => lookup_tableDelete_other _ _ _ h2, ?_,
    rfl, rfl, rfl, ?_, ?_, rfl, rfl⟩
  · simp only [tableDelete]
    congr 1
    funext e
    by_cases he : e.1 = id <;> simp [he]
  · intro l hl; simp [hl]
  · intro hl; simp [hl]

/-- Claim C32 at a handler that holds the locks `a` and `b`, on the id `a`: `cancel` is called
on the Locker of `a`, and the lock of `b` is still in the table. -/
theorem Unlock_frame_witness :
    (Unlock exampleHandlerEnv exampleHandlerLocks (.str "a")).2.2.2 = [{ id := 1 }] ∧
      (Unlock exampleHandlerEnv exampleHandlerLocks (.str "a")).1.databaseLocks.lookup "b"
        = some { id := 2 } :=
  ⟨(Unlock_frame exampleHandlerEnv exampleHandlerLocks (.str "a") "a" rfl).2.2.2.2.2.2.1
      { id := 1 } rfl,
    ((Unlock_frame exampleHandlerEnv exampleHandlerLocks (.str "a") "a" rfl).2.1 "b"
      (by decide)).trans rfl⟩

/-! ## Claim C31 -/

/-- The duplicate check of `addMonitor` in terms of the keys of the monitor table. For
parameters that parse, with a database name that is not empty: `addMonitor`
rejects the request with "duplicate monitor ID" exactly when the monitor table has an entry
under the string of the json-value; the request is then rejected whenever the json-value itself
is registered in a table whose entries are under the strings of their json-values; on the
rejection the handler, its monitor table and its database monitors included, is left as it is;
otherwise the call succeeds, the monitor table has after it an entry under the string of the
json-value, with the database, the dialect and the json-value of the request, its other entries
are as before, and the database has a monitor. -/
theorem addMonitor_duplicate (env : HandlerEnv) (ch : Handler) (params : List Json)
    (notificationType : UpdateNotificationType) (cmpr : CondMonitorParameters)
    (hp : parseCondMonitorParameters env params = .ok cmpr) (hdb : cmpr.DatabaseName ≠ "") :
    ((addMonitor env ch params notificationType).2 = .err "duplicate monitor ID" ↔
        (ch.handlerMonitorData.lookup (jsonValueToString cmpr.JsonValue)).isSome = true) ∧
      ((∀ e ∈ ch.handlerMonitorData, e.1 = jsonValueToString e.2.jsonValue) →
        (∃ e ∈ ch.handlerMonitorData, e.2.jsonValue = cmpr.JsonValue) →
        (addMonitor env ch params notificationType).2 = .err "duplicate monitor ID") ∧
      ((addMonitor env ch params notificationType).2 = .err "duplicate monitor ID" →
        (addMonitor env ch params notificationType).1 = ch) ∧
      ((ch.handlerMonitorData.lookup (jsonValueToString cmpr.JsonValue)).isSome = false →
        (∃ updatersMap, (addMonitor env ch params notificationType).2 = .ok updatersMap) ∧
        (∃ d, (addMonitor env ch params notificationType).1.handlerMonitorData.lookup
              (jsonValueToString cmpr.JsonValue) = some d ∧
            d.dataBaseName = cmpr.DatabaseName ∧ d.notificationType = notificationType ∧
            d.jsonValue = cmpr.JsonValue) ∧
        (∀ key, key ≠ jsonValueToString cmpr.JsonValue →
          (addMonitor env ch params notificationType).1.handlerMonitorData.lookup key
            = ch.handlerMonitorData.lookup key) ∧
        ((addMonitor env ch params notificationType).1.monitors.lookup
          cmpr.DatabaseName).isSome = true) := by
  have hlen : ¬ cmpr.DatabaseName.length = 0 := fun h =>
    hdb ((length_eq_zero_iff_empty _).1 h)
  have hiff : (addMonitor env ch params notificationType).2 = .err "duplicate monitor ID" ↔
      (ch.handlerMonitorData.lookup (jsonValueToString cmpr.JsonValue)).isSome = true := by
    by_cases hd : (ch.handlerMonitorData.lookup (jsonValueToString cmpr.JsonValue)).isSome
        = true
    · simp [addMonitor, hp, hlen, hd]
    · simp [addMonitor, hp, hlen, hd]
  refine ⟨hiff, ?_, ?_, ?_⟩
  · intro hkeys ⟨e, he, hv⟩
    rw [hiff, lookup_isSome_iff]
    exact ⟨e, he, by rw [hkeys e he, hv]⟩
  · intro hrej
    have hd := hiff.1 hrej
    simp [addMonitor, hp, hlen, hd]
  · intro hd
    simp only [addMonitor, hp, hlen, hd, if_false, Bool.false_eq_true]
    refine ⟨⟨_, rfl⟩, ⟨_, lookup_tableSet_self _ _ _, rfl, rfl, rfl⟩, ?_, ?_⟩
    · intro key hkey
      exact lookup_tableSet_other _ _ _ _ hkey
    · rw [lookup_tableSet_self]
      rfl

/-- The lemma `addMonitor_duplicate` at two requests on the database `db`, the first with json-value "m1" on a new
handler, the second with the same json-value on the handler after the first: the first is
registered for `db` with its dialect, the second is rejected and leaves the handler as it
is. -/
theorem addMonitor_duplicate_witness :
    (addMonitor exampleHandlerEnv
        (addMonitor exampleHandlerEnv {} [.str "db", .str "m1", .obj []] .Update2).1
        [.str "db", .str "m1", .obj []] .Update).1
      = (addMonitor exampleHandlerEnv {} [.str "db", .str "m1", .obj []] .Update2).1 :=
  (addMonitor_duplicate exampleHandlerEnv
    (addMonitor exampleHandlerEnv {} [.str "db", .str "m1", .obj []] .Update2).1
    [.str "db", .str "m1", .obj []] .Update
    { DatabaseName := "db", JsonValue := .str "m1", MonitorCondRequests := [],
      LastTxnID := none }
    (by simp [parseCondMonitorParameters, exampleHandlerEnv]) (by decide)).2.2.1
    (by
      have hlen : ¬ "db".length = 0 := by decide
      simp [addMonitor, parseCondMonitorParameters, exampleHandlerEnv, addMonitorLoop,
        jsonValueToString, sprintV, tableSet, List.lookup, hlen])

/-! ## Nil and empty sets and maps -/

/-- The set whose slice is empty and not nil is resolved into the set whose slice is nil, and
the nil map into an empty map that is not nil. -/
theorem Resolv_empty (env : Env) (m : namedUUIDResolver) :
    m.Resolv env .emptySet = .ok (.set []) ∧ m.Resolv env (.set []) = .ok (.set []) ∧
      m.Resolv env .nilMap = .ok (.map []) ∧ m.Resolv env (.map []) = .ok (.map []) :=
  ⟨rfl, rfl, rfl, rfl⟩

/-- The inclusion of sets and of maps reads the elements of its two values, whether their
slice or map is nil or not. -/
theorem isIncludes_elements (expected actual expected2 actual2 : Value) :
    (expected.GoSet? = expected2.GoSet? → actual.GoSet? = actual2.GoSet? →
      isIncludesSet expected actual = isIncludesSet expected2 actual2) ∧
    (expected.GoMap? = expected2.GoMap? → actual.GoMap? = actual2.GoMap? →
      isIncludesMap expected actual = isIncludesMap expected2 actual2) := by
  refine ⟨fun h1 h2 => ?_, fun h1 h2 => ?_⟩
  · simp only [isIncludesSet, h1, h2]
  · simp only [isIncludesMap, h1, h2]

/-- The comparison `reflect.DeepEqual` tells the nil slice from the empty one and the nil map
from the empty one. -/
theorem deepEqual_nil_empty :
    deepEqual (.set []) .emptySet = false ∧ deepEqual .emptySet (.set []) = false ∧
      deepEqual .emptySet .emptySet = true ∧ deepEqual (.set []) (.set []) = true ∧
      deepEqual .nilMap (.map []) = false ∧ deepEqual (.map []) .nilMap = false ∧
      deepEqual .nilMap .nilMap = true ∧ deepEqual (.map []) (.map []) = true := by
  simp [deepEqual, deepEqualList, deepSubMap]

/-! ## Claim C23 -/

/-- Claim C23, the code at the failing input: the current row holds the zero value `OvsMap{}`
in its map column `opts`, which an update may write. On the update `{opts: {k: v}}`, which names
no column that may not be written, `RowUpdate` panics: `columnUpdateMap` writes the entry into
the nil map. On an update that names `opts` and `_uuid`, `RowUpdate` panics when `opts` is
visited first and fails with "constraint violation" when `_uuid` is visited first. On a row
whose map `opts` is empty and not nil the first update succeeds. -/
theorem RowUpdate_nil_map_panics :
    isBadColumn exampleTableMap "opts" = false ∧
      isBadColumn exampleTableMap "_uuid" = true ∧
      exampleEnv.Unmarshal exampleTableMap exampleRowNilMap = .ok exampleRowNilMap ∧
      RowUpdate exampleEnv exampleTableMap exampleRowNilMap
          [("opts", .map [(.str "k", .str "v")])] = .crash ∧
      RowUpdate exampleEnv exampleTableMap exampleRowNilMap
          [("opts", .map [(.str "k", .str "v")]), ("_uuid", .uuid "x")] = .crash ∧
      RowUpdate exampleEnv exampleTableMap exampleRowNilMap
          [("_uuid", .uuid "x"), ("opts", .map [(.str "k", .str "v")])]
        = .err E_CONSTRAINT_VIOLATION ∧
      RowUpdate exampleEnv exampleTableMap [("name", .str "a"), ("opts", .map [])]
          [("opts", .map [(.str "k", .str "v")])]
        = .ok [("name", .str "a"), ("opts", .map [(.str "k", .str "v")])] :=
  ⟨by decide, by decide, rfl, rfl, rfl, rfl, rfl⟩

/-! ## Claim C25 -/

/-- Claim C25. Whenever `doDelete` succeeds, the count of its result is the number of rows of
the cached table on which every condition of the where-clause holds (all the rows when the
where-clause is absent), and it has appended to the pending KV operations exactly one `Delete`
for the data key of each of these rows, in the order of the table, and nothing else. Whenever
`doUpdate` or `doMutate` succeeds, the count is that number too, and, the JSON encoder accepting
the rows it is given, the operation has appended exactly one `Put` for the data key of each of
these rows, in the order of the table, and nothing else. -/
theorem update_mutate_delete_counts (env : Env) (txn txn1 : Transaction) (op : Operation)
    (res res1 : OperationResult) :
    (doDelete env txn op res = .ret txn1 res1 none →
      ∃ table ts, op.Table = some table ∧ env.LookupTable table = some ts ∧
        res1.Count = some (((txn.cache.getTable txn.request.DBName table).filter
          (fun e => whereHolds env ts txn.mapUUID op.Where e.2)).length) ∧
        txn1.etcdTrx.Then = txn.etcdTrx.Then ++
          ((txn.cache.getTable txn.request.DBName table).filter
            (fun e => whereHolds env ts txn.mapUUID op.Where e.2)).map
            (fun e => .delete ((NewDataKey txn.request.DBName table e.1).String env.root))) ∧
    ((doUpdate env txn op res = .ret txn1 res1 none ∨
        doMutate env txn op res = .ret txn1 res1 none) →
      ∃ table ts ops, op.Table = some table ∧ env.LookupTable table = some ts ∧
        res1.Count = some (((txn.cache.getTable txn.request.DBName table).filter
          (fun e => whereHolds env ts txn.mapUUID op.Where e.2)).length) ∧
        txn1.etcdTrx.Then = txn.etcdTrx.Then ++ ops ∧
        (∀ o ∈ ops, ∃ key val, o = .put key val) ∧
        ((∀ row, (env.Marshal row).toBool = true) →
          ops.length = ((txn.cache.getTable txn.request.DBName table).filter
            (fun e => whereHolds env ts txn.mapUUID op.Where e.2)).length ∧
          ops.map KvOp.KeyBytes =
            ((txn.cache.getTable txn.request.DBName table).filter
              (fun e => whereHolds env ts txn.mapUUID op.Where e.2)).map
              (fun e => (NewDataKey txn.request.DBName table e.1).String env.root))) := by
  have hw := write_counts env txn txn1 op res res1
  refine ⟨?_, ?_⟩
  · intro h
    obtain ⟨table, ts, ht, hl, hc, hthen⟩ := hw.1 h
    rw [selectedRows_eq_filter] at hc hthen
    exact ⟨table, ts, ht, hl, hc, hthen⟩
  · intro h
    obtain ⟨table, ts, ops, ht, hl, hc, hthen, hput, -, hkeys⟩ := hw.2 h
    rw [selectedRows_eq_filter] at hc hkeys
    refine ⟨table, ts, ops, ht, hl, hc, hthen, hput, ?_⟩
    intro hm
    have hk := hkeys hm
    refine ⟨?_, hk⟩
    have := congrArg List.length hk
    simpa using this

/-- Claim C25 at an update of the rows named `old`, on a cache that holds a row named `old` and
a row named `new`, with an encoder that accepts every row: the count is 1 and one `Put`, for the
key of the row named `old`, has been appended. -/
theorem update_mutate_delete_counts_witness :
    ∃ txn1 res1 ops, doUpdate exampleEnvCond exampleTxnTwoRows exampleUpdateOld {}
        = .ret txn1 res1 none ∧
      res1.Count = some 1 ∧ txn1.etcdTrx.Then = [] ++ ops ∧ ops.length = 1 ∧
      ops.map KvOp.KeyBytes = ["ovsdb/db/T/u1"] := by
  obtain ⟨table, ts, ops, ht, hl, hc, hthen, -, hk⟩ :=
    (update_mutate_delete_counts exampleEnvCond exampleTxnTwoRows _ exampleUpdateOld {} _).2
      (Or.inl rfl)
  cases ht
  cases hl
  exact ⟨_, _, ops, rfl, hc, hthen, (hk (fun _ => rfl)).1, (hk (fun _ => rfl)).2⟩

/-! ## Claim C31 -/

/-- Claim C31, the code at the failing input: the boolean `true` and the string "true" are
different json-values with the same string under `jsonValueToString`. A monitor request with
json-value `true` is accepted on a new handler; no entry of the monitor table has then the
json-value "true", and yet a monitor request with json-value "true" is rejected with "duplicate
monitor ID". -/
theorem addMonitor_rejects_unregistered_json_value :
    Json.bool true ≠ Json.str "true" ∧
      jsonValueToString (.bool true) = jsonValueToString (.str "true") ∧
      (addMonitor exampleHandlerEnv {} [.str "db", .bool true, .obj []] .Update).2 = .ok [] ∧
      (∀ e ∈ (addMonitor exampleHandlerEnv {}
          [.str "db", .bool true, .obj []] .Update).1.handlerMonitorData,
        e.2.jsonValue ≠ .str "true") ∧
      (addMonitor exampleHandlerEnv
        (addMonitor exampleHandlerEnv {} [.str "db", .bool true, .obj []] .Update).1
        [.str "db", .str "true", .obj []] .Update).2 = .err "duplicate monitor ID" := by
  have hs : jsonValueToString (.bool true) = jsonValueToString (.str "true") := by
    simp [jsonValueToString, sprintV]
  have hlen : ¬ "db".length = 0 := by decide
  have h1 : addMonitor exampleHandlerEnv {} [.str "db", .bool true, .obj []] .Update
      = (({ monitors := [("db", ({ dataBaseName := "db", started := true } : dbMonitor))]
            handlerMonitorData :=
              [("true", ({ dataBaseName := "db", notificationType := .Update
                           updatersKeys := [], jsonValue := .bool true } :
                  handlerMonitorData))] } : Handler),
          .ok []) := by
    simp [addMonitor, parseCondMonitorParameters, exampleHandlerEnv, addMonitorLoop,
      jsonValueToString, sprintV, tableSet, List.lookup, hlen]
  refine ⟨fun h => Json.noConfusion h, hs, ?_, ?_, ?_⟩
  · rw [h1]
  · rw [h1]
    intro e he
    simp only [List.mem_singleton] at he
    subst he
    exact fun h => Json.noConfusion h
  · rw [h1]
    simp [addMonitor, parseCondMonitorParameters, exampleHandlerEnv, jsonValueToString,
      sprintV, List.lookup, hlen]

/-! ## Claim C33 -/

/-- Claim C33, the code at the failing input: the cached table holds one row, whose set `tags`
has no element, and the `wait` expects a row whose set `tags` has no element, on the column
`tags`. The cached row, reduced to the column, is the expected row; but `RowPrepare` resolves
the expected row, `ResolvSet` builds for it a set whose slice is nil, and `isEqualColumn`
(`reflect.DeepEqual`) finds the nil slice different from the empty slice of the cached row: with
`until` "==" `doWait` fails with "timed out", and with `until` "!=" it succeeds. -/
theorem doWait_empty_set_times_out :
    exampleTxnEmptySet.cache.getTable "db" "T"
        = [("u1", [("tags", .emptySet), ("_uuid", .uuid "u1"), ("_version", .uuid "v0")])] ∧
      reduceRowByColumns
          [("tags", .emptySet), ("_uuid", .uuid "u1"), ("_version", .uuid "v0")]
          exampleWaitEmptySet.Columns = [("tags", .emptySet)] ∧
      exampleWaitEmptySet.Rows = some [[("tags", .emptySet)]] ∧
      RowPrepare exampleEnvSet exampleTableSet [] [("tags", .emptySet)]
        = .ok [("tags", .set [])] ∧
      isEqualColumn exampleSetColumn (.set []) .emptySet = false ∧
      doWait exampleEnvSet exampleTxnEmptySet exampleWaitEmptySet {}
        = .ret exampleTxnEmptySet {} (some E_TIMEOUT) ∧
      doWait exampleEnvSet exampleTxnEmptySet { exampleWaitEmptySet with Until := some FN_NE } {}
        = .ret exampleTxnEmptySet {} none := by
  have hp : RowPrepare exampleEnvSet exampleTableSet [] [("tags", .emptySet)]
      = .ok [("tags", .set [])] := rfl
  have hc : isEqualColumn exampleSetColumn (.set []) .emptySet = false := by
    simp [isEqualColumn, exampleSetColumn, isEqualSet, deepEqual]
  have hne : ¬ FN_NE = FN_EQ := by decide
  refine ⟨rfl, rfl, rfl, hp, hc, ?_, ?_⟩
  · simp [doWait, exampleWaitEmptySet, exampleEnvSet, exampleEnv, exampleTxnEmptySet,
      NewTransaction, Cache.getTable, NewDataKey, doWaitLoop, isRowSelectedByWhere,
      reduceRowByColumns, Row.get, Row.set, List.lookup, doWaitRows, RowPrepare,
      namedUUIDResolver.ResolvRow, namedUUIDResolver.ResolvRowLoop, namedUUIDResolver.Resolv,
      namedUUIDResolver.ResolvSet, namedUUIDResolver.ResolvSetLoop, Value.GoSet?, isEqualRow,
      isEqualRowLoop, exampleTableSet, TableSchema.LookupColumn, isEqualColumn,
      exampleSetColumn, isEqualSet, deepEqual]
  · simp [doWait, exampleWaitEmptySet, exampleEnvSet, exampleEnv, exampleTxnEmptySet,
      NewTransaction, Cache.getTable, NewDataKey, doWaitLoop, isRowSelectedByWhere,
      reduceRowByColumns, Row.get, Row.set, List.lookup, doWaitRows, RowPrepare,
      namedUUIDResolver.ResolvRow, namedUUIDResolver.ResolvRowLoop, namedUUIDResolver.Resolv,
      namedUUIDResolver.ResolvSet, namedUUIDResolver.ResolvSetLoop, Value.GoSet?, isEqualRow,
      isEqualRowLoop, exampleTableSet, TableSchema.LookupColumn, isEqualColumn,
      exampleSetColumn, isEqualSet, deepEqual, hne]

end Ovsdb
